import Mathlib

/-!
# A verification development for the path tracer of `surface.cpp`

The renderer computes with `float`.  The embedding below has two layers over a
linearly ordered field `K` (take `ℚ` to evaluate an input, `ℝ` for the geometry
and the real power function).

* The exact layer (`triTest`, `checkIntersection`, `sphereRoots`, `rayTrace`,
  `pathLoop`, ...): every `float` is an element of `K`, `+ - * /` and the
  comparisons are exact, and there is no rounding and no overflow.  It carries
  the statements that relate values the code computes and do not depend on
  rounding, and the geometry behind the float layer.
* The float layer (the names ending in `Fl`: `triTestFl`, `checkIntersectionFl`,
  `sphereRootsFl`, `rayTraceFl`, `sampleImageFl`, ...): the same code with a
  rounding function `fl : K → K` applied to the result of every `float`
  operation, in the order of the source.  `fl32` is the rounding to the nearest
  binary32 value, ties to even, subnormal values included; overflow is not
  modelled.  What the code decides from rounded values (hit or miss, which root,
  which byte) is stated on this layer: for every `fl`, about the values the code
  computes; and, under the hypothesis that the operations involved do not round
  (`slabExact`, `triExact`, `sphereExact`, `sumExact`), about the geometry.

Two places keep more of the IEEE semantics because the source relies on them:

* `BVH::checkIntersection` divides by a direction component that may be zero;
  the quotients live in `FVal` (a finite value, `+inf`, `-inf` or `NaN`), and
  `std::max` / `std::min` are the comparison-and-select of the C++ library.
  A zero component of `K` stands for the float `+0`.
* library functions that leave the field (`sqrt`, `sin`, `cos`, `atan2`,
  `acos`, `pow`) are fields of a `Libm` record passed to the code; theorems
  state what they need from them at the arguments used.

Random draws (`rand()`, `random()`) are explicit inputs.
-/

namespace Surface

/-! ## Vectors -/

/-- Eigen `Vector3f`. -/
structure Vec3 (K : Type) where
  x : K
  y : K
  z : K
deriving DecidableEq, Repr

/-- Eigen `Vector2f`. -/
structure Vec2 (K : Type) where
  x : K
  y : K
deriving DecidableEq, Repr

section Field

variable {K : Type} [LinearOrderedField K]

namespace Vec3

/-- Component access `v[i]` for `i = 0, 1, 2`. -/
def get (v : Vec3 K) (i : Fin 3) : K :=
  match i with
  | 0 => v.x
  | 1 => v.y
  | 2 => v.z

/-- Sum `a + b`. -/
def add (a b : Vec3 K) : Vec3 K := ⟨a.x + b.x, a.y + b.y, a.z + b.z⟩

/-- Difference `a - b`. -/
def sub (a b : Vec3 K) : Vec3 K := ⟨a.x - b.x, a.y - b.y, a.z - b.z⟩

/-- Negation `-a`. -/
def neg (a : Vec3 K) : Vec3 K := ⟨-a.x, -a.y, -a.z⟩

/-- Scaling `a * s` (also written `s * a` in the source). -/
def smul (s : K) (a : Vec3 K) : Vec3 K := ⟨s * a.x, s * a.y, s * a.z⟩

/-- Division by a scalar `a / s`. -/
def sdiv (a : Vec3 K) (s : K) : Vec3 K := ⟨a.x / s, a.y / s, a.z / s⟩

/-- Eigen `a.dot(b)`. -/
def dot (a b : Vec3 K) : K := a.x * b.x + a.y * b.y + a.z * b.z

/-- Eigen `a.cross(b)`. -/
def cross (a b : Vec3 K) : Vec3 K :=
  ⟨a.y * b.z - a.z * b.y, a.z * b.x - a.x * b.z, a.x * b.y - a.y * b.x⟩

/-- Eigen `a.cwiseProduct(b)`. -/
def cwiseProduct (a b : Vec3 K) : Vec3 K := ⟨a.x * b.x, a.y * b.y, a.z * b.z⟩

/-- Eigen `a.cwiseMin(b)`. -/
def cwiseMin (a b : Vec3 K) : Vec3 K := ⟨min a.x b.x, min a.y b.y, min a.z b.z⟩

/-- Eigen `a.cwiseMax(b)`. -/
def cwiseMax (a b : Vec3 K) : Vec3 K := ⟨max a.x b.x, max a.y b.y, max a.z b.z⟩

/-- Eigen `a.mean()`. -/
def mean (a : Vec3 K) : K := (a.x + a.y + a.z) / 3

/-- Eigen `Vector3f::Constant(c)`. -/
def const (c : K) : Vec3 K := ⟨c, c, c⟩

end Vec3

namespace Vec2

/-- Sum `a + b`. -/
def add (a b : Vec2 K) : Vec2 K := ⟨a.x + b.x, a.y + b.y⟩

/-- Scaling `a * s`. -/
def smul (s : K) (a : Vec2 K) : Vec2 K := ⟨s * a.x, s * a.y⟩

end Vec2

/-! ## Float constants -/

/-- The constant `__FLT_EPSILON__`, `2^-23`. -/
def FLT_EPSILON : K := 1 / 2 ^ 23

/-- The constant `numeric_limits<float>::min()`, the smallest positive normal float `2^-126`. -/
def FLT_MIN : K := 1 / 2 ^ 126

/-- The constant `numeric_limits<float>::max()`, `2^128 - 2^104`. -/
def FLT_MAX : K := 2 ^ 128 - 2 ^ 104

/-- The self-intersection threshold `1e-5` of `Scene::rayTrace`. -/
def hitEps : K := 1 / 100000

/-! ## Float values with infinities, for the slab test -/

/-- A float value as `BVH::checkIntersection` can produce it: division by a zero
direction component yields an infinity or a NaN. -/
inductive FVal (K : Type) where
  | nan : FVal K
  | ninf : FVal K
  | fin (q : K) : FVal K
  | pinf : FVal K
deriving DecidableEq, Repr

namespace FVal

/-- IEEE `a < b`: false as soon as one side is a NaN. -/
def lt : FVal K → FVal K → Bool
  | fin a, fin b => decide (a < b)
  | ninf, fin _ => true
  | ninf, pinf => true
  | fin _, pinf => true
  | _, _ => false

/-- IEEE `a <= b`: false as soon as one side is a NaN. -/
def le : FVal K → FVal K → Bool
  | fin a, fin b => decide (a ≤ b)
  | ninf, fin _ => true
  | ninf, pinf => true
  | fin _, pinf => true
  | ninf, ninf => true
  | pinf, pinf => true
  | _, _ => false

/-- The float quotient `x / d` of two finite values; a zero divisor is `+0`. -/
def fdiv (x d : K) : FVal K :=
  if d = 0 then
    (if x = 0 then nan else if 0 < x then pinf else ninf)
  else fin (x / d)

/-- C++ `std::max(a, b)`, that is `(a < b) ? b : a`. -/
def fmax (a b : FVal K) : FVal K := if lt a b then b else a

/-- C++ `std::min(a, b)`, that is `(b < a) ? b : a`. -/
def fmin (a b : FVal K) : FVal K := if lt b a then b else a

end FVal

/-! ## Bounding boxes and the BVH -/

/-- Eigen `AlignedBox3f`: the two corner points. -/
structure AlignedBox3 (K : Type) where
  m_min : Vec3 K
  m_max : Vec3 K
deriving DecidableEq, Repr

namespace AlignedBox3

/-- Eigen `AlignedBox3f()`: the empty box, `min = highest`, `max = lowest`. -/
def empty : AlignedBox3 K := ⟨Vec3.const FLT_MAX, Vec3.const (-FLT_MAX)⟩

/-- Eigen `box.extend(p)`. -/
def extend (b : AlignedBox3 K) (p : Vec3 K) : AlignedBox3 K :=
  ⟨b.m_min.cwiseMin p, b.m_max.cwiseMax p⟩

/-- Eigen `box.sizes()`. -/
def sizes (b : AlignedBox3 K) : Vec3 K := b.m_max.sub b.m_min

/-- Eigen `box.center()`. -/
def center (b : AlignedBox3 K) : Vec3 K := (b.m_min.add b.m_max).sdiv 2

/-- Eigen `box.isEmpty()`: some `max` coordinate is below the `min` coordinate. -/
def isEmpty (b : AlignedBox3 K) : Prop :=
  b.m_max.x < b.m_min.x ∨ b.m_max.y < b.m_min.y ∨ b.m_max.z < b.m_min.z

/-- Eigen `box.contains(p)`. -/
def contains (b : AlignedBox3 K) (p : Vec3 K) : Prop :=
  ∀ i : Fin 3, b.m_min.get i ≤ p.get i ∧ p.get i ≤ b.m_max.get i

end AlignedBox3

/-- The class `BVH`: a leaf (`isLeaf`, null children) with its vertices and face
indices, or an internal node with its two owned children. -/
inductive BVH (K : Type) where
  | leaf (box : AlignedBox3 K) (verts : List (Vec3 K)) (indices : List Int) : BVH K
  | inner (box : AlignedBox3 K) (childL childR : BVH K) : BVH K

namespace BVH

/-- The member `box`. -/
def box : BVH K → AlignedBox3 K
  | leaf b _ _ => b
  | inner b _ _ => b

/-- The member `isLeaf`. -/
def isLeaf : BVH K → Bool
  | leaf _ _ _ => true
  | inner _ _ _ => false

/-- Number of nodes of the tree. -/
def size : BVH K → Nat
  | leaf _ _ _ => 1
  | inner _ l r => 1 + l.size + r.size

/-- One pass of the body of the axis loop of `BVH::checkIntersection`
(surface.cpp 1110-1126): `none` is the early `return false`. -/
def slabStep (o d pMin pMax : K) (t : FVal K × FVal K) : Option (FVal K × FVal K) :=
  if |d| < FLT_EPSILON ∧ (pMin > o ∨ pMax < o) then none
  else if d > 0 then
    some (FVal.fmax t.1 (FVal.fdiv (pMin - o) d), FVal.fmin t.2 (FVal.fdiv (pMax - o) d))
  else
    some (FVal.fmax t.1 (FVal.fdiv (pMax - o) d), FVal.fmin t.2 (FVal.fdiv (pMin - o) d))

/-- The axis loop `for (int i = 0; i < 3; i++)` over the remaining axes. -/
def slabLoop (b : AlignedBox3 K) (origin direction : Vec3 K) :
    List (Fin 3) → FVal K × FVal K → Option (FVal K × FVal K)
  | [], t => some t
  | i :: rest, t =>
    match slabStep (origin.get i) (direction.get i) (b.m_min.get i) (b.m_max.get i) t with
    | none => none
    | some t1 => slabLoop b origin direction rest t1

/-- The function `BVH::checkIntersection` (surface.cpp 1104-1129) on the node's box. -/
def checkIntersectionBox (b : AlignedBox3 K) (origin direction : Vec3 K) : Bool :=
  match slabLoop b origin direction [0, 1, 2] (FVal.fin FLT_MIN, FVal.fin FLT_MAX) with
  | none => false
  | some t => FVal.le t.1 t.2

/-- The method `BVH::checkIntersection`. -/
def checkIntersection (n : BVH K) (origin direction : Vec3 K) : Bool :=
  checkIntersectionBox n.box origin direction

end BVH

/-! ## Library functions that leave the field -/

/-- The functions of the C math library used by the renderer, and the constant `M_PI`. -/
structure Libm (K : Type) where
  sqrt : K → K
  sin : K → K
  cos : K → K
  tan : K → K
  atan2 : K → K → K
  acos : K → K
  pow : K → K → K
  pi : K

/-- Eigen `v.normalized()` (and the in-place `normalize()`): divide by the norm when
the squared norm is positive, else leave the vector as it is. -/
def Vec3.normalized (L : Libm K) (v : Vec3 K) : Vec3 K :=
  let z := v.dot v
  if z > 0 then v.sdiv (L.sqrt z) else v

/-- Eigen `Quaternionf`. -/
structure Quat (K : Type) where
  w : K
  x : K
  y : K
  z : K
deriving DecidableEq, Repr

/-- Eigen `q * v`, the rotation of a vector by a quaternion. -/
def Quat.rotate (q : Quat K) (v : Vec3 K) : Vec3 K :=
  let qv : Vec3 K := ⟨q.x, q.y, q.z⟩
  let uv := (qv.cross v).add (qv.cross v)
  (v.add (Vec3.smul q.w uv)).add (qv.cross uv)

/-! ## Vertex lists -/

/-- The read `v[i]` of a `vector<Vector3f>`; an out-of-range read (undefined in the
source) yields the zero vector. -/
def vget (v : List (Vec3 K)) (i : Nat) : Vec3 K := v.getD i ⟨0, 0, 0⟩

/-- The read `l[i]` with an `int` index; an out-of-range read yields `d`. -/
def getI {α : Type} (l : List α) (i : Int) (d : α) : α :=
  if i < 0 then d else l.getD i.toNat d

/-- Number of passes of a loop `for (i = 0; i < n; i += 3)`. -/
def triCount (n : Nat) : Nat := (n + 2) / 3

/-! ## BVH construction -/

namespace BVH

/-- The order of `pair<float, int>` that `std::sort` uses (as a non-strict order). -/
def pairLE (a b : K × Nat) : Prop := a.1 < b.1 ∨ (a.1 = b.1 ∧ a.2 ≤ b.2)

instance pairLE_decidable : DecidableRel (pairLE (K := K)) :=
  fun a b => inferInstanceAs (Decidable (a.1 < b.1 ∨ (a.1 = b.1 ∧ a.2 ≤ b.2)))

/-- The bounding box computed at the head of `BVH::build` (surface.cpp 1054-1057). -/
def boundOf (v : List (Vec3 K)) : AlignedBox3 K :=
  v.foldl AlignedBox3.extend AlignedBox3.empty

/-- The split axis chosen from the box sizes (surface.cpp 1068-1075). -/
def splitAxis (diffPos : Vec3 K) : Fin 3 :=
  if diffPos.x > diffPos.y then
    (if diffPos.x > diffPos.z then 0 else 2)
  else if diffPos.y > diffPos.z then 1
  else 2

/-- The value `triMidValue` of the triangle starting at vertex `i` (surface.cpp 1083). -/
def triMidValue (v : List (Vec3 K)) (axis : Fin 3) (i : Nat) : K :=
  (((vget v i).add (vget v (i + 1))).add (vget v (i + 2))).get axis / 3

/-- The sorted vector `monoIndex` (surface.cpp 1081-1086).  The pairs are pairwise
different (their second components are), so the sorted order is unique. -/
def monoIndex (v : List (Vec3 K)) (axis : Fin 3) : List (K × Nat) :=
  List.insertionSort pairLE
    ((List.range (triCount v.length)).map (fun k => (triMidValue v axis (3 * k), 3 * k)))

/-- The vertices pushed for a run of `monoIndex` entries (surface.cpp 1089-1091). -/
def gatherVerts (v : List (Vec3 K)) (es : List (K × Nat)) : List (Vec3 K) :=
  es.flatMap (fun e => [vget v e.2, vget v (e.2 + 1), vget v (e.2 + 2)])

/-- The face indices pushed for a run of `monoIndex` entries (surface.cpp 1092). -/
def gatherInd (ind : List Int) (es : List (K × Nat)) : List Int :=
  es.map (fun e => ind.getD (e.2 / 3) 0)

/-- The measure on which the recursion of `BVH::build` decreases. -/
def buildMeasure (v : List (Vec3 K)) (ind : List Int) : Nat :=
  if ind.length ≤ 3 then 0 else 1 + triCount v.length

theorem gatherVerts_length (v : List (Vec3 K)) (es : List (K × Nat)) :
    (gatherVerts v es).length = 3 * es.length := by
  induction es with
  | nil => simp [gatherVerts]
  | cons e es ih =>
    simp only [gatherVerts, List.flatMap_cons, List.length_append, List.length_cons,
      List.length_nil] at ih ⊢
    omega

theorem monoIndex_length (v : List (Vec3 K)) (axis : Fin 3) :
    (monoIndex v axis).length = triCount v.length := by
  simp [monoIndex, List.length_insertionSort]

theorem triCount_three_mul (n : Nat) : triCount (3 * n) = n := by
  unfold triCount; omega

theorem buildMeasure_left (v : List (Vec3 K)) (ind : List Int) (axis : Fin 3)
    (h : ¬ ind.length ≤ 3) :
    buildMeasure (gatherVerts v ((monoIndex v axis).take ((monoIndex v axis).length / 2)))
      (gatherInd ind ((monoIndex v axis).take ((monoIndex v axis).length / 2)))
      < buildMeasure v ind := by
  simp only [buildMeasure, gatherInd, List.length_map, gatherVerts_length, triCount_three_mul,
    List.length_take, monoIndex_length, if_neg h]
  split <;> omega

theorem buildMeasure_right (v : List (Vec3 K)) (ind : List Int) (axis : Fin 3)
    (h : ¬ ind.length ≤ 3) :
    buildMeasure (gatherVerts v ((monoIndex v axis).drop ((monoIndex v axis).length / 2)))
      (gatherInd ind ((monoIndex v axis).drop ((monoIndex v axis).length / 2)))
      < buildMeasure v ind := by
  simp only [buildMeasure, gatherInd, List.length_map, gatherVerts_length, triCount_three_mul,
    List.length_drop, monoIndex_length, if_neg h]
  split <;> omega

/-- The overload `BVH::build(v, ind)` (surface.cpp 1052-1102). -/
def buildWith (v : List (Vec3 K)) (ind : List Int) : BVH K :=
  if h : ind.length ≤ 3 then
    leaf (boundOf v) v ind
  else
    inner (boundOf v)
      (buildWith
        (gatherVerts v ((monoIndex v (splitAxis (boundOf v).sizes)).take
          ((monoIndex v (splitAxis (boundOf v).sizes)).length / 2)))
        (gatherInd ind ((monoIndex v (splitAxis (boundOf v).sizes)).take
          ((monoIndex v (splitAxis (boundOf v).sizes)).length / 2))))
      (buildWith
        (gatherVerts v ((monoIndex v (splitAxis (boundOf v).sizes)).drop
          ((monoIndex v (splitAxis (boundOf v).sizes)).length / 2)))
        (gatherInd ind ((monoIndex v (splitAxis (boundOf v).sizes)).drop
          ((monoIndex v (splitAxis (boundOf v).sizes)).length / 2))))
termination_by buildMeasure v ind
decreasing_by
  · exact buildMeasure_left v ind _ h
  · exact buildMeasure_right v ind _ h

/-- The overload `BVH::build(v)` (surface.cpp 1042-1050): face `i` for every `i * 3 < v.size()`. -/
def build (v : List (Vec3 K)) : BVH K :=
  buildWith v ((List.range (triCount v.length)).map (fun (i : Nat) => (i : Int)))

/-- The traversal loop of `Scene::rayTrace` (surface.cpp 696-716): `cur` is
`bvhCurrent`, the head of `stack` is `bvhStack.back()`. -/
def collectLoop (origin direction : Vec3 K) (cur : BVH K) (stack : List (BVH K))
    (indices : List Int) (verts : List (Vec3 K)) : List Int × List (Vec3 K) :=
  if cur.checkIntersection origin direction then
    match cur, stack with
    | leaf _ vs is, [] => (indices ++ is, verts ++ vs)
    | leaf _ vs is, top :: rest => collectLoop origin direction top rest (indices ++ is) (verts ++ vs)
    | inner _ l r, stack => collectLoop origin direction r (l :: stack) indices verts
  else
    match stack with
    | [] => (indices, verts)
    | top :: rest => collectLoop origin direction top rest indices verts
termination_by cur.size + (stack.map size).sum
decreasing_by
  · simp only [List.map_nil, List.sum_nil, List.map_cons, List.sum_cons, size]; omega
  · simp only [List.map_cons, List.sum_cons, size]; omega
  · simp only [List.map_cons, List.sum_cons, size]
    cases cur <;> simp only [size] <;> omega

end BVH

/-! ## Materials, lights and the scene -/

/-- The class `UVImage`. -/
structure UVImage (K : Type) where
  width : Int
  height : Int
  data : List (Vec3 K)

/-- The tag `Material::ILLUM_BASIC`. -/
def ILLUM_BASIC : Int := 3

/-- The tag `Material::ILLUM_REFRACTION`. -/
def ILLUM_REFRACTION : Int := 6

/-- The class `Material` (without its name).  `illumType` holds the integer read from
the material file, cast to the enumeration. -/
structure Material (K : Type) where
  Ka : Vec3 K
  Kd : Vec3 K
  Ks : Vec3 K
  Kr : Vec3 K
  Ns : K
  Ni : K
  hasImgKd : Bool
  imgKd : UVImage K
  illumType : Int

/-- The enumeration `Light::LightType`. -/
inductive LightType where
  | LIGHT_POINT : LightType
  | LIGHT_SUN : LightType
  | LIGHT_SPOT : LightType
deriving DecidableEq, Repr

/-- The class `Light`. -/
structure Light (K : Type) where
  lightType : LightType
  color : Vec3 K
  position : Vec3 K
  direction : Vec3 K
  spotSize : K
  exponent : K

/-- The class `Scene`. -/
structure Scene (K : Type) where
  bvh : BVH K
  materials : List (Material K)
  lights : List (Light K)
  backgroundLight : Vec3 K
  faceVertices : List (Vec3 K)
  faceNormals : List (Vec3 K)
  faceUVs : List (Vec2 K)
  faceMaterialIndex : List Int
  spherePosition : List (Vec3 K)
  sphereRadius : List K
  sphereUV : List (Quat K)
  sphereMaterialIndex : List Int

/-! ## Nearest hit: `Scene::rayTrace` -/

/-- The locals `nextParam`, `minU`, `minV`, `index` of the triangle loop. -/
structure TriBest (K : Type) where
  nextParam : K
  minU : K
  minV : K
  index : Int

/-- The output parameters of `Scene::rayTrace`. -/
structure Hit (K : Type) where
  nextParam : K
  nextMatIndex : Int
  nextNormal : Vec3 K
  nextUV : Vec2 K

/-- The determinant and barycentric tests of the triangle starting at vertex `i`
(surface.cpp 723-741): the values `(t, u, v)` when no `continue` is taken. -/
def triTest (verts : List (Vec3 K)) (origin direction : Vec3 K) (i : Nat) : Option (K × K × K) :=
  let base := vget verts i
  let v1 := (vget verts (i + 1)).sub base
  let v2 := (vget verts (i + 2)).sub base
  let directionV2 := direction.cross v2
  let det := v1.dot directionV2
  if |det| < FLT_EPSILON then none
  else
    let invDet := 1 / det
    let target := origin.sub base
    let u := target.dot directionV2 * invDet
    if u < 0 ∨ u > 1 then none
    else
      let targetV1 := target.cross v1
      let v := direction.dot targetV1 * invDet
      if v < 0 ∨ u + v > 1 then none
      else some (v2.dot targetV1 * invDet, u, v)

/-- One pass of the triangle loop (surface.cpp 722-748). -/
def triStep (verts : List (Vec3 K)) (origin direction : Vec3 K) (s : TriBest K) (i : Nat) :
    TriBest K :=
  match triTest verts origin direction i with
  | none => s
  | some (t, u, v) => if t < s.nextParam ∧ t > hitEps then ⟨t, u, v, (i : Int)⟩ else s

/-- The triangle loop `for (int i = 0; i < verts.size(); i += 3)` with its
initialisation (surface.cpp 718-748); `minU`, `minV` start unspecified, here `0`. -/
def triLoop (verts : List (Vec3 K)) (origin direction : Vec3 K) : TriBest K :=
  (List.range (triCount verts.length)).foldl
    (fun s k => triStep verts origin direction s (3 * k)) ⟨FLT_MAX, 0, 0, -1⟩

/-- The attribute block of the nearest triangle (surface.cpp 750-763). -/
def triAttr (L : Libm K) (sc : Scene K) (indices : List Int) (best : TriBest K) (h : Hit K) :
    Hit K :=
  if best.index ≥ 0 then
    let faceIndex := getI indices (best.index / 3) 0
    let w0 := 1 - best.minU - best.minV
    let n :=
      ((Vec3.smul w0 (getI sc.faceNormals (faceIndex * 3) ⟨0, 0, 0⟩)).add
        (Vec3.smul best.minU (getI sc.faceNormals (faceIndex * 3 + 1) ⟨0, 0, 0⟩))).add
        (Vec3.smul best.minV (getI sc.faceNormals (faceIndex * 3 + 2) ⟨0, 0, 0⟩))
    let uv :=
      ((Vec2.smul w0 (getI sc.faceUVs (faceIndex * 3) ⟨0, 0⟩)).add
        (Vec2.smul best.minU (getI sc.faceUVs (faceIndex * 3 + 1) ⟨0, 0⟩))).add
        (Vec2.smul best.minV (getI sc.faceUVs (faceIndex * 3 + 2) ⟨0, 0⟩))
    ⟨h.nextParam, getI sc.faceMaterialIndex faceIndex 0, n.normalized L, uv⟩
  else h

/-- The two roots `b - sqrt(det)`, `b + sqrt(det)` of sphere `i`, when `det >= 0`
(surface.cpp 767-777, 785). -/
def sphereRoots (L : Libm K) (sc : Scene K) (origin direction : Vec3 K) (i : Nat) :
    Option (K × K) :=
  let radius := sc.sphereRadius.getD i 0
  let delta := (vget sc.spherePosition i).sub origin
  let b := delta.dot direction
  let c := delta.dot delta - radius * radius
  let det := b * b - c
  if det < 0 then none
  else some (b - L.sqrt det, b + L.sqrt det)

/-- The acceptance of one root `t` of sphere `i` (surface.cpp 778-784 and 786-792). -/
def sphereAccept (L : Libm K) (sc : Scene K) (origin direction : Vec3 K) (i : Nat) (t : K)
    (h : Hit K) : Hit K :=
  if t > hitEps ∧ t < h.nextParam then
    let delta := (vget sc.spherePosition i).sub origin
    let n := ((Vec3.smul t direction).sub delta).normalized L
    let orientation := (sc.sphereUV.getD i ⟨0, 0, 0, 0⟩).rotate n
    ⟨t, sc.sphereMaterialIndex.getD i 0, n,
      ⟨L.atan2 orientation.y orientation.x / 2 / L.pi, L.acos orientation.z / L.pi⟩⟩
  else h

/-- One pass of the sphere loop (surface.cpp 766-793). -/
def sphereStep (L : Libm K) (sc : Scene K) (origin direction : Vec3 K) (h : Hit K) (i : Nat) :
    Hit K :=
  match sphereRoots L sc origin direction i with
  | none => h
  | some (t1, t2) =>
    sphereAccept L sc origin direction i t2 (sphereAccept L sc origin direction i t1 h)

/-- The sphere loop over all spheres. -/
def sphereLoop (L : Libm K) (sc : Scene K) (origin direction : Vec3 K) (h : Hit K) : Hit K :=
  (List.range sc.sphereRadius.length).foldl (sphereStep L sc origin direction) h

/-- The candidate lists `(indices, verts)` gathered by the traversal at the head of
`Scene::rayTrace`. -/
def candidates (sc : Scene K) (origin direction : Vec3 K) : List Int × List (Vec3 K) :=
  BVH.collectLoop origin direction sc.bvh [] [] []

/-- The output parameters of `Scene::rayTrace` at its `return` (surface.cpp 688-796);
`nextNormal`, `nextUV` are unspecified without a hit, here zero. -/
def rayTraceOut (L : Libm K) (sc : Scene K) (origin direction : Vec3 K) : Hit K :=
  let cand := candidates sc origin direction
  let best := triLoop cand.2 origin direction
  sphereLoop L sc origin direction
    (triAttr L sc cand.1 best ⟨best.nextParam, -1, ⟨0, 0, 0⟩, ⟨0, 0⟩⟩)

/-- The result `nextMatIndex >= 0` of `Scene::rayTrace`. -/
def rayTrace (L : Libm K) (sc : Scene K) (origin direction : Vec3 K) : Bool :=
  decide (0 ≤ (rayTraceOut L sc origin direction).nextMatIndex)

/-! ## Scattering: `Scene::raySurface` -/

/-- The scattering event chosen by `Scene::raySurface`. -/
inductive ScatterType where
  | diffuse : ScatterType
  | specular : ScatterType
  | refraction : ScatterType
deriving DecidableEq, Repr

/-- The outputs of `Scene::raySurface` when it returns `true`, with the branch taken. -/
structure Scatter (K : Type) where
  event : ScatterType
  outgoing : Vec3 K
  weight : Vec3 K

/-- Eigen `v.unitOrthogonal()` for 3-vectors (`dummy_precision` of `float` is `1e-5`). -/
def Vec3.unitOrthogonal (L : Libm K) (v : Vec3 K) : Vec3 K :=
  if (¬ |v.x| ≤ |v.z| * (1 / 100000)) ∨ (¬ |v.y| ≤ |v.z| * (1 / 100000)) then
    let invnm := 1 / L.sqrt (v.x * v.x + v.y * v.y)
    ⟨-v.y * invnm, v.x * invnm, 0⟩
  else
    let invnm := 1 / L.sqrt (v.y * v.y + v.z * v.z)
    ⟨0, -v.z * invnm, v.y * invnm⟩

/-- The C++ conversion `(int) x`: truncation toward zero. -/
def truncInt [FloorRing K] (x : K) : Int := if 0 ≤ x then ⌊x⌋ else ⌈x⌉

/-- The method `UVImage::getValue` (surface.cpp 1162-1167). -/
def UVImage.getValue [FloorRing K] (img : UVImage K) (uv : Vec2 K) : Vec3 K :=
  let x := Int.tmod (Int.tmod (truncInt (uv.x * (img.width : K) + 1 / 2)) img.width + img.width)
    img.width
  let y := Int.tmod (Int.tmod (truncInt (uv.y * (img.height : K) + 1 / 2)) img.height + img.height)
    img.height
  getI img.data (y * img.width + x) ⟨0, 0, 0⟩

/-- The method `Scene::raySurface` (surface.cpp 798-865) with the three random draws
`p`, `x`, `y` as inputs; `none` is `return false`. -/
def raySurface [FloorRing K] (L : Libm K) (mat : Material K) (normal incoming : Vec3 K)
    (uv : Vec2 K) (p x y : K) : Option (Scatter K) :=
  let yCos := L.cos (2 * L.pi * y)
  let ySin := L.sin (2 * L.pi * y)
  let weightDiffuse := mat.Kd.mean
  let weightSpecular := mat.Ks.mean
  if p < weightDiffuse then
    let uNormal := normal.unitOrthogonal L
    let vNormal := normal.cross uNormal
    let normalWeight := L.sqrt x
    let notNormalWeight := L.sqrt (1 - x)
    let outgoing := (Vec3.smul normalWeight normal).add
      (Vec3.smul notNormalWeight ((Vec3.smul yCos uNormal).add (Vec3.smul ySin vNormal)))
    if mat.hasImgKd then
      some ⟨ScatterType.diffuse, outgoing, (mat.imgKd.getValue uv).sdiv weightDiffuse⟩
    else
      some ⟨ScatterType.diffuse, outgoing, mat.Kd.sdiv weightDiffuse⟩
  else if p < weightDiffuse + weightSpecular then
    let ref := ((Vec3.smul (-2 * incoming.dot normal) normal).add incoming).normalized L
    let uRef := ref.unitOrthogonal L
    let vRef := ref.cross uRef
    let normalWeight := L.pow x (1 / (mat.Ns + 1))
    let notNormalWeight := L.sqrt (1 - normalWeight * normalWeight)
    let outgoing := (Vec3.smul normalWeight ref).add
      (Vec3.smul notNormalWeight ((Vec3.smul yCos uRef).add (Vec3.smul ySin vRef)))
    some ⟨ScatterType.specular, outgoing, mat.Ks.sdiv weightSpecular⟩
  else if mat.illumType = ILLUM_REFRACTION then
    let weightRefractive := mat.Kr.mean
    if p < weightDiffuse + weightSpecular + weightRefractive then
      let cos1 := normal.dot incoming.neg
      let sin1 := L.sqrt (max (1 - cos1 * cos1) 0)
      let sin2 := if cos1 > 0 then sin1 / mat.Ni else sin1 * mat.Ni
      let outgoing :=
        if sin2 > 1 then
          incoming.sub (Vec3.smul (2 * normal.dot incoming) normal)
        else if cos1 > 0 then
          (Vec3.smul (1 / mat.Ni) incoming).add
            (Vec3.smul (1 / mat.Ni * cos1 - L.sqrt (max (1 - sin2 * sin2) 0)) normal)
        else
          (Vec3.smul mat.Ni incoming).add
            (Vec3.smul (mat.Ni * cos1 + L.sqrt (max (1 - sin2 * sin2) 0)) normal)
      some ⟨ScatterType.refraction, outgoing, mat.Kr.sdiv weightRefractive⟩
    else none
  else none

/-! ## Predicates used to state and prove the properties -/

/-- A lower bound of the slab interval that is positive: a positive finite value or `+inf`. -/
def posLo : FVal K → Prop
  | FVal.fin a => 0 < a
  | FVal.pinf => True
  | _ => False

/-- An upper bound of the slab interval as the loop keeps it: finite or `-inf`. -/
def hiOK : FVal K → Prop
  | FVal.fin _ => True
  | FVal.ninf => True
  | _ => False

/-- An upper bound of the slab interval that is negative. -/
def negHi : FVal K → Prop
  | FVal.fin b => b < 0
  | FVal.ninf => True
  | _ => False

/-- The slab interval as the axis loop keeps it. -/
def slabInv (t : FVal K × FVal K) : Prop := posLo t.1 ∧ hiOK t.2

/-- A slab interval that has become empty and stays so. -/
def slabDead (t : FVal K × FVal K) : Prop := posLo t.1 ∧ negHi t.2

/-! ## Concrete inputs over `ℚ` -/

/-- The flat box `[0,0] x [0,2] x [0,2]`, the bound of a triangle in the plane `x = 0`. -/
def flatBox : AlignedBox3 ℚ := ⟨⟨0, 0, 0⟩, ⟨0, 2, 2⟩⟩

/-- The cube `[0,2]^3`. -/
def cubeBox : AlignedBox3 ℚ := ⟨⟨0, 0, 0⟩, ⟨2, 2, 2⟩⟩

/-! ## Scene assembly -/

/-- The class `Object`: a mesh with its own materials. -/
structure Object (K : Type) where
  materials : List (Material K)
  faceMaterialIndex : List Int
  faceVertices : List (Vec3 K)
  faceNormals : List (Vec3 K)
  faceUVs : List (Vec2 K)

namespace Scene

/-- A default-constructed `Scene`: empty vectors and a default `BVH()`, an empty leaf. -/
def empty : Scene K :=
  { bvh := BVH.leaf AlignedBox3.empty [] []
    materials := []
    lights := []
    backgroundLight := ⟨0, 0, 0⟩
    faceVertices := []
    faceNormals := []
    faceUVs := []
    faceMaterialIndex := []
    spherePosition := []
    sphereRadius := []
    sphereUV := []
    sphereMaterialIndex := [] }

/-- The method `Scene::loadObject` (surface.cpp 629-647). -/
def loadObject (sc : Scene K) (object : Object K) : Scene K :=
  { sc with
    faceVertices := sc.faceVertices ++ object.faceVertices
    faceUVs := sc.faceUVs ++ object.faceUVs
    faceNormals := sc.faceNormals ++ object.faceNormals
    faceMaterialIndex :=
      sc.faceMaterialIndex ++ object.faceMaterialIndex.map (fun m => (sc.materials.length : Int) + m)
    materials := sc.materials ++ object.materials }

/-- The method `Scene::loadSphere` with an orientation (surface.cpp 653-659). -/
def loadSphere (sc : Scene K) (position : Vec3 K) (radius : K) (material : Material K)
    (uvOrientation : Quat K) : Scene K :=
  { sc with
    spherePosition := sc.spherePosition ++ [position]
    sphereRadius := sc.sphereRadius ++ [radius]
    sphereUV := sc.sphereUV ++ [uvOrientation]
    sphereMaterialIndex := sc.sphereMaterialIndex ++ [(sc.materials.length : Int)]
    materials := sc.materials ++ [material] }

/-- The method `Scene::buildBVH` (surface.cpp 669-671). -/
def buildBVH (sc : Scene K) : Scene K :=
  { sc with bvh := BVH.build sc.faceVertices }

/-- A scene holding one sphere and nothing else, its BVH built. -/
def oneSphere (position : Vec3 K) (radius : K) (material : Material K)
    (uvOrientation : Quat K) : Scene K :=
  (empty.loadSphere position radius material uvOrientation).buildBVH

end Scene

/-- A math library over `ℚ` to evaluate inputs: `sqrt` is the rational square root,
exact on squares; the other functions are placeholders, for inputs whose result does
not depend on them. -/
def ratLibm : Libm ℚ :=
  { sqrt := Rat.sqrt
    sin := fun _ => 0
    cos := fun _ => 1
    tan := fun _ => 0
    atan2 := fun _ _ => 0
    acos := fun _ => 0
    pow := fun x _ => x
    pi := 355 / 113 }

/-- A grey material without texture, `Material::setDefaultMaterial`. -/
def defaultMaterial : Material K :=
  { Ka := ⟨0, 0, 0⟩
    Kd := ⟨4 / 5, 4 / 5, 4 / 5⟩
    Ks := ⟨1 / 10, 1 / 10, 1 / 10⟩
    Kr := ⟨0, 0, 0⟩
    Ns := 128
    Ni := 29 / 20
    hasImgKd := false
    imgKd := ⟨1, 1, [⟨0, 0, 0⟩]⟩
    illumType := ILLUM_BASIC }

/-- The identity orientation. -/
def quatId : Quat ℚ := ⟨1, 0, 0, 0⟩

/-- The branch of `Scene::raySurface` taken for the selector `p`: `none` when the path
is absorbed. -/
def raySurfaceEvent [FloorRing K] (L : Libm K) (mat : Material K) (normal incoming : Vec3 K)
    (uv : Vec2 K) (p x y : K) : Option ScatterType :=
  (raySurface L mat normal incoming uv p x y).map Scatter.event

/-- The contribution weight returned by `Scene::raySurface`, when it returns one. -/
def raySurfaceWeight [FloorRing K] (L : Libm K) (mat : Material K) (normal incoming : Vec3 K)
    (uv : Vec2 K) (p x y : K) : Option (Vec3 K) :=
  (raySurface L mat normal incoming uv p x y).map Scatter.weight

/-- A material with a negative specular coefficient and refraction enabled:
`mean(Kd) = 1/2`, `mean(Ks) = -3/10`, `mean(Kr) = 1/5`. -/
def negSpecMaterial : Material ℚ :=
  { Ka := ⟨0, 0, 0⟩
    Kd := ⟨1 / 2, 1 / 2, 1 / 2⟩
    Ks := ⟨-(3 / 10), -(3 / 10), -(3 / 10)⟩
    Kr := ⟨1 / 5, 1 / 5, 1 / 5⟩
    Ns := 128
    Ni := 29 / 20
    hasImgKd := false
    imgKd := ⟨1, 1, [⟨0, 0, 0⟩]⟩
    illumType := ILLUM_REFRACTION }

/-- The selector values `p` in `[0,1]` for which `Scene::raySurface` takes the branch `e`. -/
def branchSet (L : Libm ℝ) (mat : Material ℝ) (normal incoming : Vec3 ℝ) (uv : Vec2 ℝ)
    (x y : ℝ) (e : ScatterType) : Set ℝ :=
  {p | 0 ≤ p ∧ p ≤ 1 ∧ raySurfaceEvent L mat normal incoming uv p x y = some e}

/-- A math library whose functions are placeholders, for properties that do not
depend on them. -/
def Libm.stub : Libm K :=
  { sqrt := fun x => x
    sin := fun _ => 0
    cos := fun _ => 1
    tan := fun _ => 0
    atan2 := fun _ _ => 0
    acos := fun _ => 0
    pow := fun x _ => x
    pi := 3 }

/-- An untextured `ILLUM_BASIC` material with `mean(Kd) = 4/5` and `mean(Ks) = 1/2`. -/
def brightMaterial : Material K :=
  { Ka := ⟨0, 0, 0⟩
    Kd := ⟨4 / 5, 4 / 5, 4 / 5⟩
    Ks := ⟨1 / 2, 1 / 2, 1 / 2⟩
    Kr := ⟨0, 0, 0⟩
    Ns := 128
    Ni := 29 / 20
    hasImgKd := false
    imgKd := ⟨1, 1, [⟨0, 0, 0⟩]⟩
    illumType := ILLUM_BASIC }

/-- The vertices of the triangle `(0,0,0)`, `(4,0,0)`, `(0,4,0)` in the plane `z = 0`. -/
def flatTriangle : List (Vec3 ℚ) := [⟨0, 0, 0⟩, ⟨4, 0, 0⟩, ⟨0, 4, 0⟩]

/-! ## Triangles of a vertex list, and the recursive descent -/

/-- The triangles of a vertex list with their face indices: entry `k` is the face index
`ind[k]` with the vertices `v[3k]`, `v[3k+1]`, `v[3k+2]`. -/
def taggedTris (v : List (Vec3 K)) (ind : List Int) : List (Int × Vec3 K × Vec3 K × Vec3 K) :=
  (List.range (triCount v.length)).map
    (fun k => (ind.getD k 0, vget v (3 * k), vget v (3 * k + 1), vget v (3 * k + 2)))

namespace BVH

/-- The triangles stored in the leaves of a tree. -/
def leafTris : BVH K → List (Int × Vec3 K × Vec3 K × Vec3 K)
  | leaf _ vs is => taggedTris vs is
  | inner _ l r => leafTris l ++ leafTris r

/-- Every leaf stores three vertices per face index. -/
def aligned : BVH K → Prop
  | leaf _ vs is => vs.length = 3 * is.length
  | inner _ l r => aligned l ∧ aligned r

/-- Every node's box contains the vertices of the triangles stored below it. -/
def boxesBound : BVH K → Prop
  | leaf b vs is => ∀ τ ∈ taggedTris vs is,
      b.contains τ.2.1 ∧ b.contains τ.2.2.1 ∧ b.contains τ.2.2.2
  | inner b l r => (∀ τ ∈ leafTris l ++ leafTris r,
      b.contains τ.2.1 ∧ b.contains τ.2.2.1 ∧ b.contains τ.2.2.2) ∧ boxesBound l ∧ boxesBound r

/-- The recursive depth-first descent that the loop of `Scene::rayTrace` unrolls: the
right child first, then the left child. -/
def collectRec (origin direction : Vec3 K) : BVH K → List Int × List (Vec3 K)
  | leaf b vs is =>
    if checkIntersectionBox b origin direction then (is, vs) else ([], [])
  | inner b l r =>
    if checkIntersectionBox b origin direction then
      ((collectRec origin direction r).1 ++ (collectRec origin direction l).1,
        (collectRec origin direction r).2 ++ (collectRec origin direction l).2)
    else ([], [])

end BVH

/-- A scene holding one triangle and nothing else: `loadObject` of a one-face mesh
with one material on an empty scene, then `buildBVH`. -/
def Scene.oneTriangle (p0 p1 p2 n0 n1 n2 : Vec3 K) (uv0 uv1 uv2 : Vec2 K)
    (mat : Material K) : Scene K :=
  (Scene.empty.loadObject
    { materials := [mat]
      faceMaterialIndex := [0]
      faceVertices := [p0, p1, p2]
      faceNormals := [n0, n1, n2]
      faceUVs := [uv0, uv1, uv2] }).buildBVH

/-! ## Lights: the setters of `Light` -/

namespace Light

/-- The method `Light::setPointLight` (surface.cpp 17-21). -/
def setPointLight (l : Light K) (color position : Vec3 K) : Light K :=
  { l with lightType := LightType.LIGHT_POINT, color := color, position := position }

/-- The method `Light::setSunLight` (surface.cpp 23-27). -/
def setSunLight (L : Libm K) (l : Light K) (color direction : Vec3 K) : Light K :=
  { l with lightType := LightType.LIGHT_SUN, color := color, direction := direction.normalized L }

/-- The method `Light::setSpotLight` (surface.cpp 29-36). -/
def setSpotLight (L : Libm K) (l : Light K) (color position direction : Vec3 K)
    (spotSize exponent : K) : Light K :=
  { l with
    lightType := LightType.LIGHT_SPOT
    color := color
    position := position
    direction := direction.normalized L
    spotSize := min (max spotSize 0) (L.pi / 2)
    exponent := exponent }

end Light

/-! ## Direct lighting: `Scene::rayCollect` -/

/-- The visibility part of one pass of the light loop of `Scene::rayCollect`
(surface.cpp 873-905): `none` is `continue` (the light is skipped), otherwise the
direction `outgoing` toward the light and the incident `intensity`. -/
def lightIncident (L : Libm K) (sc : Scene K) (origin : Vec3 K) (light : Light K) :
    Option (Vec3 K × Vec3 K) :=
  if light.lightType = LightType.LIGHT_SUN then
    if rayTrace L sc origin light.direction.neg then none
    else some (light.direction.neg, light.color)
  else
    let vec := light.position.sub origin
    let outgoing := vec.normalized L
    let dist2 := vec.dot vec
    let param := (rayTraceOut L sc origin outgoing).nextParam
    if rayTrace L sc origin outgoing = true ∧ param * param < dist2 then none
    else if light.lightType = LightType.LIGHT_POINT then
      some (outgoing, light.color.sdiv dist2)
    else
      let cosAngle := min (light.direction.dot outgoing.neg) 1
      let cosAngleMin := L.cos light.spotSize
      if cosAngle > cosAngleMin then
        some (outgoing, (Vec3.smul (L.pow cosAngle light.exponent) light.color).sdiv dist2)
      else some (outgoing, ⟨0, 0, 0⟩)

/-- The shading part of one pass of the light loop (surface.cpp 907-917): the diffuse
and the specular term added to `totalIntensity`. -/
def lightShade [FloorRing K] (L : Libm K) (mat : Material K) (normal incoming : Vec3 K)
    (uv : Vec2 K) (totalIntensity outgoing intensity : Vec3 K) : Vec3 K :=
  let kd := if mat.hasImgKd then mat.imgKd.getValue uv else mat.Kd
  let diffuse :=
    (Vec3.smul (max (outgoing.dot normal) 0) (intensity.cwiseProduct kd)).sdiv L.pi
  let baseIncoming := (Vec3.smul (-2 * outgoing.dot normal) normal).add outgoing
  let specular :=
    Vec3.smul ((mat.Ns + 2) / 2 / L.pi
        * L.pow (max 0 (min 1 (baseIncoming.dot incoming))) mat.Ns)
      (intensity.cwiseProduct mat.Ks)
  (totalIntensity.add diffuse).add specular

/-- One pass of the light loop of `Scene::rayCollect`. -/
def rayCollectStep [FloorRing K] (L : Libm K) (sc : Scene K) (mat : Material K)
    (origin normal incoming : Vec3 K) (uv : Vec2 K) (totalIntensity : Vec3 K)
    (light : Light K) : Vec3 K :=
  match lightIncident L sc origin light with
  | none => totalIntensity
  | some (outgoing, intensity) =>
    lightShade L mat normal incoming uv totalIntensity outgoing intensity

/-- The method `Scene::rayCollect` (surface.cpp 867-920). -/
def rayCollect [FloorRing K] (L : Libm K) (sc : Scene K) (mat : Material K)
    (origin normal incoming : Vec3 K) (uv : Vec2 K) : Vec3 K :=
  sc.lights.foldl (rayCollectStep L sc mat origin normal incoming uv) ⟨0, 0, 0⟩

/-! ## The camera: `Camera::sampleImage` -/

/-- The class `Camera` (without its film buffer, which `sampleImage` returns). -/
structure Camera (K : Type) where
  width : Int
  height : Int
  sampleRate : Int
  fovy : K
  focusDist : K
  planeDist : K
  fNumber : K
  orientation : Quat K
  position : Vec3 K

/-- Column `0`, `1` or `2` of Eigen `q.toRotationMatrix()`. -/
def Quat.rotationCol (q : Quat K) (c : Fin 3) : Vec3 K :=
  let tx := 2 * q.x
  let ty := 2 * q.y
  let tz := 2 * q.z
  let twx := tx * q.w
  let twy := ty * q.w
  let twz := tz * q.w
  let txx := tx * q.x
  let txy := ty * q.x
  let txz := tz * q.x
  let tyy := ty * q.y
  let tyz := tz * q.y
  let tzz := tz * q.z
  match c with
  | 0 => ⟨1 - (tyy + tzz), txy + twz, txz - twy⟩
  | 1 => ⟨txy - twz, 1 - (txx + tzz), tyz + twx⟩
  | 2 => ⟨txz + twy, tyz - twx, 1 - (txx + tyy)⟩

namespace Camera

/-- The value `pxDist` (surface.cpp 940). -/
def pxDist (L : Libm K) (cam : Camera K) : K :=
  L.tan (cam.fovy * L.pi / 360) / (cam.height : K) * 2

/-- The vector `cBase` (surface.cpp 942). -/
def cBase (cam : Camera K) : Vec3 K := (cam.orientation.rotationCol 2).neg

/-- The vector `cXUnit` (surface.cpp 943). -/
def cXUnit (L : Libm K) (cam : Camera K) : Vec3 K :=
  Vec3.smul (cam.pxDist L) (cam.orientation.rotationCol 0)

/-- The vector `cYUnit` (surface.cpp 944). -/
def cYUnit (L : Libm K) (cam : Camera K) : Vec3 K :=
  Vec3.smul (cam.pxDist L) (cam.orientation.rotationCol 1)

/-- The primary ray `(currentPosition, currentDirection)` of one sample of pixel
`(i, j)` (surface.cpp 949-962); `r1 .. r4` are the four draws `random() / RAND_MAX` in
the order of the calls. -/
def primaryRay (L : Libm K) (cam : Camera K) (i j : Int) (r1 r2 r3 r4 : K) : Vec3 K × Vec3 K :=
  let yPixel := ((i : K) - (cam.height : K) / 2) + r1
  let xPixel := ((j : K) - (cam.width : K) / 2) + r2
  let perturbScale := (cam.planeDist / cam.pxDist L / cam.fNumber) * L.sqrt r3
  let perturbAngle := r4 * 2 * L.pi
  let xPerturb := perturbScale * L.cos perturbAngle
  let yPerturb := perturbScale * L.sin perturbAngle
  let currentDirection :=
    ((cam.cBase.add (Vec3.smul xPixel (cam.cXUnit L))).sub
      (Vec3.smul yPixel (cam.cYUnit L))).normalized L
  let focalPoint := cam.position.add (Vec3.smul cam.focusDist currentDirection)
  let currentPosition := cam.position.add
    (Vec3.smul cam.planeDist
      ((cam.cBase.add (Vec3.smul (xPixel + xPerturb) (cam.cXUnit L))).sub
        (Vec3.smul (yPixel + yPerturb) (cam.cYUnit L))))
  (currentPosition, (focalPoint.sub currentPosition).normalized L)

end Camera

/-- The update `renderedImage[idx] += x`; an out-of-range index (undefined in the
source) leaves the buffer as it is. -/
def addAt (film : List K) (idx : Nat) (x : K) : List K :=
  film.set idx (film.getD idx 0 + x)

/-- The three updates `renderedImage[imgIndex + c] += value[c] * weight[c]`
(surface.cpp 976-978 and 985-987). -/
def addPixel (film : List K) (imgIndex : Nat) (value weight : Vec3 K) : List K :=
  addAt (addAt (addAt film imgIndex (value.x * weight.x)) (imgIndex + 1) (value.y * weight.y))
    (imgIndex + 2) (value.z * weight.z)

/-- The path loop of one sample (surface.cpp 973-993), `fuel` passes left: the film
buffer and the count of random draws consumed so far.  `rnd k` is the `k`-th draw
`rand() / RAND_MAX` of the run. -/
def pathLoop [FloorRing K] (L : Libm K) (sc : Scene K) (rnd : Nat → K) (imgIndex : Nat) :
    Nat → Vec3 K → Vec3 K → Vec3 K → List K → Nat → List K × Nat
  | 0, _, _, _, film, ctr => (film, ctr)
  | fuel + 1, currentPosition, currentDirection, weight, film, ctr =>
    if rayTrace L sc currentPosition currentDirection = false then
      (addPixel film imgIndex sc.backgroundLight weight, ctr)
    else
      let hit := rayTraceOut L sc currentPosition currentDirection
      let position1 := currentPosition.add (Vec3.smul hit.nextParam currentDirection)
      let mat := getI sc.materials hit.nextMatIndex defaultMaterial
      let shadowIntensity :=
        rayCollect L sc mat position1 hit.nextNormal currentDirection hit.nextUV
      let film1 := addPixel film imgIndex shadowIntensity weight
      match raySurface L mat hit.nextNormal currentDirection hit.nextUV
          (rnd ctr) (rnd (ctr + 1)) (rnd (ctr + 2)) with
      | none => (film1, ctr + 3)
      | some s =>
        pathLoop L sc rnd imgIndex fuel position1 s.outgoing
          (weight.cwiseProduct s.weight) film1 (ctr + 3)

/-- The constant `maxCollision`. -/
def maxCollision : Nat := 12

/-- The state of the pixel loops: the film buffer `renderedImage`, the number of
random draws consumed, and `imgIndex`. -/
structure RenderState (K : Type) where
  film : List K
  ctr : Nat
  imgIndex : Nat

/-! ## The data-model invariant -/

/-- The invariant of a mesh: three vertices, normals and UVs per face, and every face
material index within the mesh's materials. -/
def Object.wellFormed (o : Object K) : Prop :=
  o.faceVertices.length = 3 * o.faceMaterialIndex.length ∧
  o.faceNormals.length = 3 * o.faceMaterialIndex.length ∧
  o.faceUVs.length = 3 * o.faceMaterialIndex.length ∧
  ∀ m ∈ o.faceMaterialIndex, 0 ≤ m ∧ m < (o.materials.length : Int)

/-- The invariant of the scene data: three vertices, normals and UVs per face, sphere
sequences of one length, and every face or sphere material index within the
scene's materials. -/
def Scene.wellFormed (sc : Scene K) : Prop :=
  sc.faceVertices.length = 3 * sc.faceMaterialIndex.length ∧
  sc.faceNormals.length = 3 * sc.faceMaterialIndex.length ∧
  sc.faceUVs.length = 3 * sc.faceMaterialIndex.length ∧
  (∀ m ∈ sc.faceMaterialIndex, 0 ≤ m ∧ m < (sc.materials.length : Int)) ∧
  sc.sphereRadius.length = sc.spherePosition.length ∧
  sc.sphereUV.length = sc.spherePosition.length ∧
  sc.sphereMaterialIndex.length = sc.spherePosition.length ∧
  ∀ m ∈ sc.sphereMaterialIndex, 0 ≤ m ∧ m < (sc.materials.length : Int)

/-- Four copies of one triangle: twelve vertices, all triangles with the same centroid. -/
def fourSameTriangles : List (Vec3 ℚ) :=
  flatTriangle ++ flatTriangle ++ flatTriangle ++ flatTriangle

/-- A mesh of one face, the triangle `(0,0,0)`, `(4,0,0)`, `(0,4,0)`, with one material. -/
def flatObject : Object ℚ :=
  { materials := [defaultMaterial]
    faceMaterialIndex := [0]
    faceVertices := flatTriangle
    faceNormals := [⟨0, 0, 1⟩, ⟨0, 0, 1⟩, ⟨0, 0, 1⟩]
    faceUVs := [⟨0, 0⟩, ⟨1, 0⟩, ⟨0, 1⟩] }

/-- The lower end of the slab interval is `+inf`, and stays so. -/
def loInf (t : FVal K × FVal K) : Prop := t.1 = FVal.pinf ∧ hiOK t.2

/-- A camera of 2 x 1 pixels with 3 samples per pixel. -/
def tinyCamera : Camera ℚ :=
  { width := 2
    height := 1
    sampleRate := 3
    fovy := 50
    focusDist := 10
    planeDist := 1
    fNumber := 9999
    orientation := ⟨1, 0, 0, 0⟩
    position := ⟨10, 0, 0⟩ }

/-! ## The nodes of a tree -/

namespace BVH

/-- The member `verts`: `build` assigns it in a leaf only; in an internal node it is
the empty vector of the fresh (or cleared) object. -/
def verts : BVH K → List (Vec3 K)
  | leaf _ vs _ => vs
  | inner _ _ _ => []

/-- The member `indices`: assigned in a leaf only, empty in an internal node. -/
def indices : BVH K → List Int
  | leaf _ _ is => is
  | inner _ _ _ => []

/-- The nodes of a tree: the node itself, then the nodes below `childL` and `childR`. -/
def nodes : BVH K → List (BVH K)
  | leaf b vs is => [leaf b vs is]
  | inner b l r => inner b l r :: (nodes l ++ nodes r)

/-- The vertices stored in the leaves of a tree. -/
def leafVerts : BVH K → List (Vec3 K)
  | leaf _ vs _ => vs
  | inner _ l r => leafVerts l ++ leafVerts r

end BVH

/-- The six vertices of two triangles in the plane `z = 0`. -/
def twoTriangles : List (Vec3 ℚ) :=
  [⟨0, 0, 0⟩, ⟨4, 0, 0⟩, ⟨0, 4, 0⟩, ⟨1, 1, 0⟩, ⟨5, 1, 0⟩, ⟨1, 5, 0⟩]

/-- The centroid coordinate of a triangle on an axis: the value `triMidValue` that
`BVH::build` sorts by (surface.cpp 1083). -/
def centroidAt (τ : Int × Vec3 K × Vec3 K × Vec3 K) (axis : Fin 3) : K :=
  ((τ.2.1.add τ.2.2.1).add τ.2.2.2).get axis / 3

/-- The one-triangle scene of the triangle `(0,0,0)`, `(4,0,0)`, `(0,4,0)` with the
normal `(0,0,1)` at its three vertices and the default material. -/
def flatScene : Scene ℚ :=
  Scene.oneTriangle ⟨0, 0, 0⟩ ⟨4, 0, 0⟩ ⟨0, 4, 0⟩ ⟨0, 0, 1⟩ ⟨0, 0, 1⟩ ⟨0, 0, 1⟩
    ⟨0, 0⟩ ⟨1, 0⟩ ⟨0, 1⟩ defaultMaterial

/-- The discriminant `det = b * b - c` of the sphere test of sphere `i`, before its
square root is taken (surface.cpp 767-771). -/
def sphereDet (sc : Scene K) (origin direction : Vec3 K) (i : Nat) : K :=
  let radius := sc.sphereRadius.getD i 0
  let delta := (vget sc.spherePosition i).sub origin
  let b := delta.dot direction
  let c := delta.dot delta - radius * radius
  b * b - c

/-- The local `cos1` of the refraction branch of `Scene::raySurface` (surface.cpp 843). -/
def refrCos1 (normal incoming : Vec3 K) : K := normal.dot incoming.neg

/-- The local `sin1` of the refraction branch (surface.cpp 844). -/
def refrSin1 (L : Libm K) (normal incoming : Vec3 K) : K :=
  L.sqrt (max (1 - refrCos1 normal incoming * refrCos1 normal incoming) 0)

/-- The local `sin2` of the refraction branch, the sine that Snell's law gives
(surface.cpp 845). -/
def refrSin2 (L : Libm K) (mat : Material K) (normal incoming : Vec3 K) : K :=
  if refrCos1 normal incoming > 0 then refrSin1 L normal incoming / mat.Ni
  else refrSin1 L normal incoming * mat.Ni

/-- A glass-like material that always refracts: `Kd = Ks = 0`, `mean(Kr) = 1`, index
`Ni = 3/5`. -/
def thinGlass : Material K :=
  { Ka := ⟨0, 0, 0⟩
    Kd := ⟨0, 0, 0⟩
    Ks := ⟨0, 0, 0⟩
    Kr := ⟨1, 1, 1⟩
    Ns := 128
    Ni := 3 / 5
    hasImgKd := false
    imgKd := ⟨1, 1, [⟨0, 0, 0⟩]⟩
    illumType := ILLUM_REFRACTION }

/-- A sun light of colour `(1, 1, 1)` shining straight down, along `(0, 0, -1)`. -/
def noonSun : Light ℚ :=
  { lightType := LightType.LIGHT_SUN
    color := ⟨1, 1, 1⟩
    position := ⟨0, 0, 0⟩
    direction := ⟨0, 0, -1⟩
    spotSize := 0
    exponent := 0 }

/-- The empty scene lit by `noonSun` alone. -/
def sunVoid : Scene ℚ :=
  { (Scene.empty : Scene ℚ) with lights := [noonSun] }

/-! ## The passes of the path loop -/

/-- What one pass of the path loop of `Camera::sampleImage` does (surface.cpp 973-993):
the query misses (the background is added, then `break`), the path is absorbed
(`raySurface` returns false, `break`), or the path scatters and the loop goes on. -/
inductive PathStep where
  | miss : PathStep
  | absorbed : PathStep
  | scattered : PathStep
deriving DecidableEq, Repr

/-- The passes of the path loop of one sample, in order, `fuel` passes left: one
entry per call `scene.rayTrace(currentPosition, currentDirection, ...)` of the loop.
The recursion is that of `pathLoop`. -/
def pathLog [FloorRing K] (L : Libm K) (sc : Scene K) (rnd : Nat → K) :
    Nat → Vec3 K → Vec3 K → Nat → List PathStep
  | 0, _, _, _ => []
  | fuel + 1, currentPosition, currentDirection, ctr =>
    if rayTrace L sc currentPosition currentDirection = false then [PathStep.miss]
    else
      let hit := rayTraceOut L sc currentPosition currentDirection
      let position1 := currentPosition.add (Vec3.smul hit.nextParam currentDirection)
      let mat := getI sc.materials hit.nextMatIndex defaultMaterial
      match raySurface L mat hit.nextNormal currentDirection hit.nextUV
          (rnd ctr) (rnd (ctr + 1)) (rnd (ctr + 2)) with
      | none => [PathStep.absorbed]
      | some s => PathStep.scattered :: pathLog L sc rnd fuel position1 s.outgoing (ctr + 3)

/-! ## The locals of the primary-ray construction -/

namespace Camera

/-- The local `yPixel` (surface.cpp 950); `r1` is the draw `random() / RAND_MAX`. -/
def yPixel (cam : Camera K) (i : Int) (r1 : K) : K := ((i : K) - (cam.height : K) / 2) + r1

/-- The local `xPixel` (surface.cpp 951). -/
def xPixel (cam : Camera K) (j : Int) (r2 : K) : K := ((j : K) - (cam.width : K) / 2) + r2

/-- The local `perturbScale` (surface.cpp 954). -/
def perturbScale (L : Libm K) (cam : Camera K) (r3 : K) : K :=
  (cam.planeDist / cam.pxDist L / cam.fNumber) * L.sqrt r3

/-- The local `xPerturb` (surface.cpp 956). -/
def xPerturb (L : Libm K) (cam : Camera K) (r3 r4 : K) : K :=
  cam.perturbScale L r3 * L.cos (r4 * 2 * L.pi)

/-- The local `yPerturb` (surface.cpp 957). -/
def yPerturb (L : Libm K) (cam : Camera K) (r3 r4 : K) : K :=
  cam.perturbScale L r3 * L.sin (r4 * 2 * L.pi)

/-- The vector `cBase + cXUnit * xPixel - cYUnit * yPixel` through the jittered pixel. -/
def pixelVec (L : Libm K) (cam : Camera K) (i j : Int) (r1 r2 : K) : Vec3 K :=
  (cam.cBase.add (Vec3.smul (cam.xPixel j r2) (cam.cXUnit L))).sub
    (Vec3.smul (cam.yPixel i r1) (cam.cYUnit L))

/-- The first value of `currentDirection` (surface.cpp 960): the pinhole direction. -/
def pinholeDir (L : Libm K) (cam : Camera K) (i j : Int) (r1 r2 : K) : Vec3 K :=
  (cam.pixelVec L i j r1 r2).normalized L

end Camera

/-- The library `ratLibm` with `tan = 1`, the tangent at the half-angle `pi / 4` of a
camera with `fovy = 90`. -/
def camLibm : Libm ℚ := { ratLibm with tan := fun _ => 1 }

/-- A camera of 2 x 2 pixels at the origin with `fovy = 90`, plane distance `1` and
focus distance `f`, looking along `(0, 0, -1)`. -/
def squareCamera (f : ℚ) : Camera ℚ :=
  { width := 2
    height := 2
    sampleRate := 1
    fovy := 90
    focusDist := f
    planeDist := 1
    fNumber := 8
    orientation := ⟨1, 0, 0, 0⟩
    position := ⟨0, 0, 0⟩ }

/-! ## The texel coordinates of `UVImage::getValue` -/

namespace UVImage

/-- The local `x` of `UVImage::getValue` (surface.cpp 1164): the texel column. -/
def texelX [FloorRing K] (img : UVImage K) (uv : Vec2 K) : Int :=
  Int.tmod (Int.tmod (truncInt (uv.x * (img.width : K) + 1 / 2)) img.width + img.width)
    img.width

/-- The local `y` of `UVImage::getValue` (surface.cpp 1165): the texel row. -/
def texelY [FloorRing K] (img : UVImage K) (uv : Vec2 K) : Int :=
  Int.tmod (Int.tmod (truncInt (uv.y * (img.height : K) + 1 / 2)) img.height + img.height)
    img.height

end UVImage

/-- A texture of 4 x 1 texels: black, red, green, blue. -/
def stripeTexture : UVImage ℚ := ⟨4, 1, [⟨0, 0, 0⟩, ⟨1, 0, 0⟩, ⟨0, 1, 0⟩, ⟨0, 0, 1⟩]⟩

/-- The face indices stored in the leaves of a tree, leaf after leaf. -/
def BVH.leafIndices : BVH K → List Int
  | BVH.leaf _ _ is => is
  | BVH.inner _ l r => BVH.leafIndices l ++ BVH.leafIndices r

/-- A glass material that always refracts: `Kd = Ks = 0`, `mean(Kr) = 1`, index
`Ni = 3/2`. -/
def crownGlass : Material K :=
  { Ka := ⟨0, 0, 0⟩
    Kd := ⟨0, 0, 0⟩
    Ks := ⟨0, 0, 0⟩
    Kr := ⟨1, 1, 1⟩
    Ns := 128
    Ni := 3 / 2
    hasImgKd := false
    imgKd := ⟨1, 1, [⟨0, 0, 0⟩]⟩
    illumType := ILLUM_REFRACTION }

/-! ## Rounding to binary32

The exact model above leaves out the rounding of `float`.  Where a decision of the
code (a hit or a miss, an accepted root, a byte) depends on that rounding, the
code is embedded a second time with the rounding explicit: a function with the
suffix `Fl` takes the rounding `fl` of a real result to a `float` and applies it
after every float operation of the source, in the source's order.  `fl32` is the
rounding of binary32; with `fl` the identity an `Fl` function is the exact one.
Overflow to an infinity is outside this model. -/

/-- Round to the nearest integer, a tie to the even one. -/
def roundHalfEven [FloorRing K] (x : K) : Int :=
  if x - (⌊x⌋ : K) < 1 / 2 then ⌊x⌋
  else if 1 / 2 < x - (⌊x⌋ : K) then ⌊x⌋ + 1
  else if ⌊x⌋ % 2 = 0 then ⌊x⌋ else ⌊x⌋ + 1

/-- Round to the nearest multiple of `2^-23`, a tie to the even multiple: the 24-bit
significand of a value in `[1, 2)`. -/
def round24 [FloorRing K] (x : K) : K := (roundHalfEven (x * 2 ^ 23) : K) / 2 ^ 23

/-- Rounding of a value `x >= 1`: halve until the value is below 2 (at most `n`
times), round the significand, scale back. -/
def roundUp [FloorRing K] : Nat → K → K
  | 0, x => round24 x
  | n + 1, x => if 2 ≤ x then 2 * roundUp n (x / 2) else round24 x

/-- Rounding of a value `0 <= x < 1`: double until the value is at least 1, at most
`n` times (after `126` doublings the value is subnormal and keeps the spacing
`2^-149`), round the significand, scale back. -/
def roundDown [FloorRing K] : Nat → K → K
  | 0, x => round24 x
  | n + 1, x => if x < 1 then roundDown n (2 * x) / 2 else round24 x

/-- The rounding of a real result to binary32: round to nearest, ties to even, 24
significant bits, exponents from `-126` to `127`, subnormals below; the magnitude is
rounded and the sign kept, and zero stays zero. -/
def fl32 [FloorRing K] (x : K) : K :=
  if 0 < x then (if 1 ≤ x then roundUp 127 x else roundDown 126 x)
  else if x < 0 then -(if 1 ≤ -x then roundUp 127 (-x) else roundDown 126 (-x))
  else 0

namespace Vec3

/-- The float difference `a - b`. -/
def subFl (fl : K → K) (a b : Vec3 K) : Vec3 K := ⟨fl (a.x - b.x), fl (a.y - b.y), fl (a.z - b.z)⟩

/-- The float sum `a + b`. -/
def addFl (fl : K → K) (a b : Vec3 K) : Vec3 K := ⟨fl (a.x + b.x), fl (a.y + b.y), fl (a.z + b.z)⟩

/-- The float scaling `a * s`. -/
def smulFl (fl : K → K) (s : K) (a : Vec3 K) : Vec3 K := ⟨fl (s * a.x), fl (s * a.y), fl (s * a.z)⟩

/-- The float division `a / s`. -/
def sdivFl (fl : K → K) (a : Vec3 K) (s : K) : Vec3 K := ⟨fl (a.x / s), fl (a.y / s), fl (a.z / s)⟩

/-- Eigen `a.dot(b)` in float: the three products, summed by Eigen's unrolled
reduction `p0 + (p1 + p2)`. -/
def dotFl (fl : K → K) (a b : Vec3 K) : K :=
  fl (fl (a.x * b.x) + fl (fl (a.y * b.y) + fl (a.z * b.z)))

/-- Eigen `a.cross(b)` in float: each component a difference of two products. -/
def crossFl (fl : K → K) (a b : Vec3 K) : Vec3 K :=
  ⟨fl (fl (a.y * b.z) - fl (a.z * b.y)), fl (fl (a.z * b.x) - fl (a.x * b.z)),
    fl (fl (a.x * b.y) - fl (a.y * b.x))⟩

/-- Eigen `v.normalized()` in float. -/
def normalizedFl (fl : K → K) (L : Libm K) (v : Vec3 K) : Vec3 K :=
  let z := v.dotFl fl v
  if z > 0 then v.sdivFl fl (L.sqrt z) else v

/-- The three differences of `a - b` are floats: no rounding error. -/
def subExact (fl : K → K) (a b : Vec3 K) : Prop :=
  fl (a.x - b.x) = a.x - b.x ∧ fl (a.y - b.y) = a.y - b.y ∧ fl (a.z - b.z) = a.z - b.z

/-- The three products of `a * s` are floats. -/
def smulExact (fl : K → K) (s : K) (a : Vec3 K) : Prop :=
  fl (s * a.x) = s * a.x ∧ fl (s * a.y) = s * a.y ∧ fl (s * a.z) = s * a.z

/-- The three quotients of `a / s` are floats. -/
def sdivExact (fl : K → K) (a : Vec3 K) (s : K) : Prop :=
  fl (a.x / s) = a.x / s ∧ fl (a.y / s) = a.y / s ∧ fl (a.z / s) = a.z / s

/-- The three products of `a.dot(b)` and their partial sums, in either order of
summation, are floats. -/
def dotExact (fl : K → K) (a b : Vec3 K) : Prop :=
  fl (a.x * b.x) = a.x * b.x ∧ fl (a.y * b.y) = a.y * b.y ∧ fl (a.z * b.z) = a.z * b.z ∧
  fl (a.y * b.y + a.z * b.z) = a.y * b.y + a.z * b.z ∧
  fl (a.x * b.x + a.y * b.y) = a.x * b.x + a.y * b.y ∧
  fl (a.x * b.x + (a.y * b.y + a.z * b.z)) = a.x * b.x + (a.y * b.y + a.z * b.z)

/-- The six products and the three differences of `a.cross(b)` are floats. -/
def crossExact (fl : K → K) (a b : Vec3 K) : Prop :=
  (fl (a.y * b.z) = a.y * b.z ∧ fl (a.z * b.y) = a.z * b.y ∧
    fl (a.y * b.z - a.z * b.y) = a.y * b.z - a.z * b.y) ∧
  (fl (a.z * b.x) = a.z * b.x ∧ fl (a.x * b.z) = a.x * b.z ∧
    fl (a.z * b.x - a.x * b.z) = a.z * b.x - a.x * b.z) ∧
  (fl (a.x * b.y) = a.x * b.y ∧ fl (a.y * b.x) = a.y * b.x ∧
    fl (a.x * b.y - a.y * b.x) = a.x * b.y - a.y * b.x)

end Vec3

namespace Vec2

/-- The float sum `a + b`. -/
def addFl (fl : K → K) (a b : Vec2 K) : Vec2 K := ⟨fl (a.x + b.x), fl (a.y + b.y)⟩

/-- The float scaling `a * s`. -/
def smulFl (fl : K → K) (s : K) (a : Vec2 K) : Vec2 K := ⟨fl (s * a.x), fl (s * a.y)⟩

end Vec2

/-- Eigen `q * v` in float. -/
def Quat.rotateFl (fl : K → K) (q : Quat K) (v : Vec3 K) : Vec3 K :=
  let qv : Vec3 K := ⟨q.x, q.y, q.z⟩
  let uv := (qv.crossFl fl v).addFl fl (qv.crossFl fl v)
  (v.addFl fl (Vec3.smulFl fl q.w uv)).addFl fl (qv.crossFl fl uv)

/-- The float quotient `x / d` of two finite values, rounded; a zero divisor is `+0`. -/
def FVal.fdivFl (fl : K → K) (x d : K) : FVal K :=
  if d = 0 then
    (if x = 0 then FVal.nan else if 0 < x then FVal.pinf else FVal.ninf)
  else FVal.fin (fl (x / d))

namespace BVH

/-- One pass of the body of the axis loop of `BVH::checkIntersection`
(surface.cpp 1110-1126) in float: the differences `pMin - o`, `pMax - o` and their
quotients by `d` are rounded. -/
def slabStepFl (fl : K → K) (o d pMin pMax : K) (t : FVal K × FVal K) :
    Option (FVal K × FVal K) :=
  if |d| < FLT_EPSILON ∧ (pMin > o ∨ pMax < o) then none
  else if d > 0 then
    some (FVal.fmax t.1 (FVal.fdivFl fl (fl (pMin - o)) d),
      FVal.fmin t.2 (FVal.fdivFl fl (fl (pMax - o)) d))
  else
    some (FVal.fmax t.1 (FVal.fdivFl fl (fl (pMax - o)) d),
      FVal.fmin t.2 (FVal.fdivFl fl (fl (pMin - o)) d))

/-- The axis loop of `BVH::checkIntersection` in float. -/
def slabLoopFl (fl : K → K) (b : AlignedBox3 K) (origin direction : Vec3 K) :
    List (Fin 3) → FVal K × FVal K → Option (FVal K × FVal K)
  | [], t => some t
  | i :: rest, t =>
    match slabStepFl fl (origin.get i) (direction.get i) (b.m_min.get i) (b.m_max.get i) t with
    | none => none
    | some t1 => slabLoopFl fl b origin direction rest t1

/-- The function `BVH::checkIntersection` (surface.cpp 1104-1129) in float, on the
node's box. -/
def checkIntersectionBoxFl (fl : K → K) (b : AlignedBox3 K) (origin direction : Vec3 K) : Bool :=
  match slabLoopFl fl b origin direction [0, 1, 2] (FVal.fin FLT_MIN, FVal.fin FLT_MAX) with
  | none => false
  | some t => FVal.le t.1 t.2

/-- The method `BVH::checkIntersection` in float. -/
def checkIntersectionFl (fl : K → K) (n : BVH K) (origin direction : Vec3 K) : Bool :=
  checkIntersectionBoxFl fl n.box origin direction

/-- The quotient that `BVH::checkIntersection` hands to `max` on axis `i`, as computed
in float: the parameter at which the ray enters the slab. -/
def slabEnter (fl : K → K) (b : AlignedBox3 K) (origin direction : Vec3 K) (i : Fin 3) : K :=
  if direction.get i > 0 then fl (fl (b.m_min.get i - origin.get i) / direction.get i)
  else fl (fl (b.m_max.get i - origin.get i) / direction.get i)

/-- The quotient that `BVH::checkIntersection` hands to `min` on axis `i`, as computed
in float: the parameter at which the ray leaves the slab. -/
def slabExit (fl : K → K) (b : AlignedBox3 K) (origin direction : Vec3 K) (i : Fin 3) : K :=
  if direction.get i > 0 then fl (fl (b.m_max.get i - origin.get i) / direction.get i)
  else fl (fl (b.m_min.get i - origin.get i) / direction.get i)

/-- The float operations of the box test have no rounding error: on every axis the
two differences and the two quotients are floats. -/
def slabExact (fl : K → K) (b : AlignedBox3 K) (origin direction : Vec3 K) : Prop :=
  ∀ i : Fin 3,
    fl (b.m_min.get i - origin.get i) = b.m_min.get i - origin.get i ∧
    fl (b.m_max.get i - origin.get i) = b.m_max.get i - origin.get i ∧
    fl ((b.m_min.get i - origin.get i) / direction.get i)
      = (b.m_min.get i - origin.get i) / direction.get i ∧
    fl ((b.m_max.get i - origin.get i) / direction.get i)
      = (b.m_max.get i - origin.get i) / direction.get i

/-- The traversal loop of `Scene::rayTrace` (surface.cpp 696-716) with the box test in
float. -/
def collectLoopFl (fl : K → K) (origin direction : Vec3 K) (cur : BVH K) (stack : List (BVH K))
    (indices : List Int) (verts : List (Vec3 K)) : List Int × List (Vec3 K) :=
  if cur.checkIntersectionFl fl origin direction then
    match cur, stack with
    | leaf _ vs is, [] => (indices ++ is, verts ++ vs)
    | leaf _ vs is, top :: rest =>
      collectLoopFl fl origin direction top rest (indices ++ is) (verts ++ vs)
    | inner _ l r, stack => collectLoopFl fl origin direction r (l :: stack) indices verts
  else
    match stack with
    | [] => (indices, verts)
    | top :: rest => collectLoopFl fl origin direction top rest indices verts
termination_by cur.size + (stack.map size).sum
decreasing_by
  · simp only [List.map_nil, List.sum_nil, List.map_cons, List.sum_cons, size]; omega
  · simp only [List.map_cons, List.sum_cons, size]; omega
  · simp only [List.map_cons, List.sum_cons, size]
    cases cur <;> simp only [size] <;> omega

/-- The recursive descent that the loop unrolls, with the box test in float. -/
def collectRecFl (fl : K → K) (origin direction : Vec3 K) : BVH K → List Int × List (Vec3 K)
  | leaf b vs is =>
    if checkIntersectionBoxFl fl b origin direction then (is, vs) else ([], [])
  | inner b l r =>
    if checkIntersectionBoxFl fl b origin direction then
      ((collectRecFl fl origin direction r).1 ++ (collectRecFl fl origin direction l).1,
        (collectRecFl fl origin direction r).2 ++ (collectRecFl fl origin direction l).2)
    else ([], [])

end BVH

/-- The determinant and barycentric tests of the triangle starting at vertex `i`
(surface.cpp 723-741) in float: every difference, product, sum and quotient is
rounded. -/
def triTestFl (fl : K → K) (verts : List (Vec3 K)) (origin direction : Vec3 K) (i : Nat) :
    Option (K × K × K) :=
  let base := vget verts i
  let v1 := (vget verts (i + 1)).subFl fl base
  let v2 := (vget verts (i + 2)).subFl fl base
  let directionV2 := direction.crossFl fl v2
  let det := v1.dotFl fl directionV2
  if |det| < FLT_EPSILON then none
  else
    let invDet := fl (1 / det)
    let target := origin.subFl fl base
    let u := fl (target.dotFl fl directionV2 * invDet)
    if u < 0 ∨ u > 1 then none
    else
      let targetV1 := target.crossFl fl v1
      let v := fl (direction.dotFl fl targetV1 * invDet)
      if v < 0 ∨ fl (u + v) > 1 then none
      else some (fl (v2.dotFl fl targetV1 * invDet), u, v)

/-- The float operations of the triangle test on `(p0, p1, p2)` have no rounding
error: every difference, product, sum and quotient it forms is a float. -/
def triExact (fl : K → K) (p0 p1 p2 origin direction : Vec3 K) : Prop :=
  let v1 := p1.sub p0
  let v2 := p2.sub p0
  let directionV2 := direction.cross v2
  let det := v1.dot directionV2
  let target := origin.sub p0
  let targetV1 := target.cross v1
  Vec3.subExact fl p1 p0 ∧ Vec3.subExact fl p2 p0 ∧ Vec3.crossExact fl direction v2 ∧
  Vec3.dotExact fl v1 directionV2 ∧ fl (1 / det) = 1 / det ∧ Vec3.subExact fl origin p0 ∧
  Vec3.dotExact fl target directionV2 ∧
  fl (target.dot directionV2 * (1 / det)) = target.dot directionV2 * (1 / det) ∧
  Vec3.crossExact fl target v1 ∧ Vec3.dotExact fl direction targetV1 ∧
  fl (direction.dot targetV1 * (1 / det)) = direction.dot targetV1 * (1 / det) ∧
  fl (target.dot directionV2 * (1 / det) + direction.dot targetV1 * (1 / det))
    = target.dot directionV2 * (1 / det) + direction.dot targetV1 * (1 / det) ∧
  Vec3.dotExact fl v2 targetV1 ∧
  fl (v2.dot targetV1 * (1 / det)) = v2.dot targetV1 * (1 / det)

/-- One pass of the triangle loop (surface.cpp 722-748) in float. -/
def triStepFl (fl : K → K) (verts : List (Vec3 K)) (origin direction : Vec3 K) (s : TriBest K)
    (i : Nat) : TriBest K :=
  match triTestFl fl verts origin direction i with
  | none => s
  | some (t, u, v) => if t < s.nextParam ∧ t > hitEps then ⟨t, u, v, (i : Int)⟩ else s

/-- The triangle loop (surface.cpp 718-748) in float. -/
def triLoopFl (fl : K → K) (verts : List (Vec3 K)) (origin direction : Vec3 K) : TriBest K :=
  (List.range (triCount verts.length)).foldl
    (fun s k => triStepFl fl verts origin direction s (3 * k)) ⟨FLT_MAX, 0, 0, -1⟩

/-- The attribute block of the nearest triangle (surface.cpp 750-763) in float. -/
def triAttrFl (fl : K → K) (L : Libm K) (sc : Scene K) (indices : List Int) (best : TriBest K)
    (h : Hit K) : Hit K :=
  if best.index ≥ 0 then
    let faceIndex := getI indices (best.index / 3) 0
    let w0 := fl (fl (1 - best.minU) - best.minV)
    let n :=
      ((Vec3.smulFl fl w0 (getI sc.faceNormals (faceIndex * 3) ⟨0, 0, 0⟩)).addFl fl
        (Vec3.smulFl fl best.minU (getI sc.faceNormals (faceIndex * 3 + 1) ⟨0, 0, 0⟩))).addFl fl
        (Vec3.smulFl fl best.minV (getI sc.faceNormals (faceIndex * 3 + 2) ⟨0, 0, 0⟩))
    let uv :=
      ((Vec2.smulFl fl w0 (getI sc.faceUVs (faceIndex * 3) ⟨0, 0⟩)).addFl fl
        (Vec2.smulFl fl best.minU (getI sc.faceUVs (faceIndex * 3 + 1) ⟨0, 0⟩))).addFl fl
        (Vec2.smulFl fl best.minV (getI sc.faceUVs (faceIndex * 3 + 2) ⟨0, 0⟩))
    ⟨h.nextParam, getI sc.faceMaterialIndex faceIndex 0, n.normalizedFl fl L, uv⟩
  else h

/-- The discriminant `det = b * b - c` of sphere `i` (surface.cpp 767-771) in float. -/
def sphereDetFl (fl : K → K) (sc : Scene K) (origin direction : Vec3 K) (i : Nat) : K :=
  let radius := sc.sphereRadius.getD i 0
  let delta := (vget sc.spherePosition i).subFl fl origin
  let b := delta.dotFl fl direction
  let c := fl (delta.dotFl fl delta - fl (radius * radius))
  fl (fl (b * b) - c)

/-- The two roots `b - sqrt(det)`, `b + sqrt(det)` of sphere `i`, when `det >= 0`
(surface.cpp 767-777, 785), in float; `L.sqrt` is the float square root. -/
def sphereRootsFl (fl : K → K) (L : Libm K) (sc : Scene K) (origin direction : Vec3 K)
    (i : Nat) : Option (K × K) :=
  let delta := (vget sc.spherePosition i).subFl fl origin
  let b := delta.dotFl fl direction
  let det := sphereDetFl fl sc origin direction i
  if det < 0 then none
  else some (fl (b - L.sqrt det), fl (b + L.sqrt det))

/-- The float operations of the sphere test have no rounding error, for the sphere of
centre `c` and the given radius. -/
def sphereExact (fl : K → K) (L : Libm K) (c : Vec3 K) (radius : K) (origin direction : Vec3 K) :
    Prop :=
  let delta := c.sub origin
  let b := delta.dot direction
  let cc := delta.dot delta - radius * radius
  let det := b * b - cc
  Vec3.subExact fl c origin ∧ Vec3.dotExact fl delta direction ∧
  Vec3.dotExact fl delta delta ∧ fl (radius * radius) = radius * radius ∧ fl cc = cc ∧
  fl (b * b) = b * b ∧ fl det = det ∧
  fl (b - L.sqrt det) = b - L.sqrt det ∧ fl (b + L.sqrt det) = b + L.sqrt det

/-- The normal `(t * direction - delta).normalized()` of a sphere hit (surface.cpp 781,
789) in float. -/
def sphereNormalFl (fl : K → K) (L : Libm K) (sc : Scene K) (origin direction : Vec3 K)
    (i : Nat) (t : K) : Vec3 K :=
  ((Vec3.smulFl fl t direction).subFl fl
    ((vget sc.spherePosition i).subFl fl origin)).normalizedFl fl L

/-- The float operations of the normal of a hit at the root `t` on the sphere of centre
`c` have no rounding error. -/
def sphereNormalExact (fl : K → K) (L : Libm K) (c origin direction : Vec3 K) (t : K) : Prop :=
  let delta := c.sub origin
  let n := (Vec3.smul t direction).sub delta
  Vec3.subExact fl c origin ∧ Vec3.smulExact fl t direction ∧
  Vec3.subExact fl (Vec3.smul t direction) delta ∧ Vec3.dotExact fl n n ∧
  Vec3.sdivExact fl n (L.sqrt (n.dot n))

/-- The acceptance of one root `t` of sphere `i` (surface.cpp 778-784 and 786-792) in
float; the texture coordinate is rounded where it is stored. -/
def sphereAcceptFl (fl : K → K) (L : Libm K) (sc : Scene K) (origin direction : Vec3 K)
    (i : Nat) (t : K) (h : Hit K) : Hit K :=
  if t > hitEps ∧ t < h.nextParam then
    let n := sphereNormalFl fl L sc origin direction i t
    let orientation := (sc.sphereUV.getD i ⟨0, 0, 0, 0⟩).rotateFl fl n
    ⟨t, sc.sphereMaterialIndex.getD i 0, n,
      ⟨fl (L.atan2 orientation.y orientation.x / 2 / L.pi), fl (L.acos orientation.z / L.pi)⟩⟩
  else h

/-- One pass of the sphere loop (surface.cpp 766-793) in float. -/
def sphereStepFl (fl : K → K) (L : Libm K) (sc : Scene K) (origin direction : Vec3 K)
    (h : Hit K) (i : Nat) : Hit K :=
  match sphereRootsFl fl L sc origin direction i with
  | none => h
  | some (t1, t2) =>
    sphereAcceptFl fl L sc origin direction i t2 (sphereAcceptFl fl L sc origin direction i t1 h)

/-- The sphere loop over all spheres, in float. -/
def sphereLoopFl (fl : K → K) (L : Libm K) (sc : Scene K) (origin direction : Vec3 K)
    (h : Hit K) : Hit K :=
  (List.range sc.sphereRadius.length).foldl (sphereStepFl fl L sc origin direction) h

/-- The candidate lists gathered by the traversal at the head of `Scene::rayTrace`,
with the box test in float. -/
def candidatesFl (fl : K → K) (sc : Scene K) (origin direction : Vec3 K) :
    List Int × List (Vec3 K) :=
  BVH.collectLoopFl fl origin direction sc.bvh [] [] []

/-- The output parameters of `Scene::rayTrace` at its `return` (surface.cpp 688-796)
in float. -/
def rayTraceOutFl (fl : K → K) (L : Libm K) (sc : Scene K) (origin direction : Vec3 K) :
    Hit K :=
  let cand := candidatesFl fl sc origin direction
  let best := triLoopFl fl cand.2 origin direction
  sphereLoopFl fl L sc origin direction
    (triAttrFl fl L sc cand.1 best ⟨best.nextParam, -1, ⟨0, 0, 0⟩, ⟨0, 0⟩⟩)

/-- The result `nextMatIndex >= 0` of `Scene::rayTrace` in float. -/
def rayTraceFl (fl : K → K) (L : Libm K) (sc : Scene K) (origin direction : Vec3 K) : Bool :=
  decide (0 ≤ (rayTraceOutFl fl L sc origin direction).nextMatIndex)

/-- The update `renderedImage[idx] += x` in float; an out-of-range index (undefined
in the source) leaves the buffer as it is. -/
def addAtFl (fl : K → K) (film : List K) (idx : Nat) (x : K) : List K :=
  film.set idx (fl (film.getD idx 0 + x))

/-- The three updates `renderedImage[imgIndex + c] += value[c] * weight[c]`
(surface.cpp 976-978 and 985-987) in float: the product is rounded, then the sum. -/
def addPixelFl (fl : K → K) (film : List K) (imgIndex : Nat) (value weight : Vec3 K) : List K :=
  addAtFl fl
    (addAtFl fl (addAtFl fl film imgIndex (fl (value.x * weight.x))) (imgIndex + 1)
      (fl (value.y * weight.y)))
    (imgIndex + 2) (fl (value.z * weight.z))

/-- The path loop of one sample (surface.cpp 973-993) with the film accumulation in
float.  The nearest-hit query, the shading and the scattering are those of the exact
model. -/
def pathLoopFl [FloorRing K] (fl : K → K) (L : Libm K) (sc : Scene K) (rnd : Nat → K)
    (imgIndex : Nat) : Nat → Vec3 K → Vec3 K → Vec3 K → List K → Nat → List K × Nat
  | 0, _, _, _, film, ctr => (film, ctr)
  | fuel + 1, currentPosition, currentDirection, weight, film, ctr =>
    if rayTrace L sc currentPosition currentDirection = false then
      (addPixelFl fl film imgIndex sc.backgroundLight weight, ctr)
    else
      let hit := rayTraceOut L sc currentPosition currentDirection
      let position1 := currentPosition.add (Vec3.smul hit.nextParam currentDirection)
      let mat := getI sc.materials hit.nextMatIndex defaultMaterial
      let shadowIntensity :=
        rayCollect L sc mat position1 hit.nextNormal currentDirection hit.nextUV
      let film1 := addPixelFl fl film imgIndex shadowIntensity weight
      match raySurface L mat hit.nextNormal currentDirection hit.nextUV
          (rnd ctr) (rnd (ctr + 1)) (rnd (ctr + 2)) with
      | none => (film1, ctr + 3)
      | some s =>
        pathLoopFl fl L sc rnd imgIndex fuel position1 s.outgoing
          (weight.cwiseProduct s.weight) film1 (ctr + 3)

/-- One sample of pixel `(i, j)` (surface.cpp 949-993). -/
def sampleOnceFl [FloorRing K] (fl : K → K) (L : Libm K) (sc : Scene K) (cam : Camera K)
    (rnd : Nat → K) (i j : Int) (st : RenderState K) : RenderState K :=
  let ray := cam.primaryRay L i j (rnd st.ctr) (rnd (st.ctr + 1)) (rnd (st.ctr + 2))
    (rnd (st.ctr + 3))
  let r := pathLoopFl fl L sc rnd st.imgIndex maxCollision ray.1 ray.2 ⟨1, 1, 1⟩ st.film
    (st.ctr + 4)
  { st with film := r.1, ctr := r.2 }

/-- The body of the loop over `j`: all samples of pixel `(i, j)`, then `imgIndex += 3`
(surface.cpp 948-995). -/
def samplePixelFl [FloorRing K] (fl : K → K) (L : Libm K) (sc : Scene K) (cam : Camera K)
    (rnd : Nat → K) (i j : Int) (st : RenderState K) : RenderState K :=
  let st1 := (List.range cam.sampleRate.toNat).foldl
    (fun s _ => sampleOnceFl fl L sc cam rnd i j s) st
  { st1 with imgIndex := st1.imgIndex + 3 }

/-- The body of the loop over `i`: one row of pixels (surface.cpp 947-996). -/
def sampleRowFl [FloorRing K] (fl : K → K) (L : Libm K) (sc : Scene K) (cam : Camera K)
    (rnd : Nat → K) (i : Int) (st : RenderState K) : RenderState K :=
  (List.range cam.width.toNat).foldl
    (fun s (j : Nat) => samplePixelFl fl L sc cam rnd i (j : Int) s) st

/-- The film buffer `renderedImage` after the sampling loops of `Camera::sampleImage`
(surface.cpp 935-997). -/
def sampleImageFilmFl [FloorRing K] (fl : K → K) (L : Libm K) (sc : Scene K) (cam : Camera K)
    (rnd : Nat → K) : List K :=
  ((List.range cam.height.toNat).foldl
    (fun s (i : Nat) => sampleRowFl fl L sc cam rnd (i : Int) s)
    ⟨List.replicate (cam.width * cam.height * 3).toNat 0, 0, 0⟩).film

/-- The local `value = (*it) / this->sampleRate` of the tone-mapping loop
(surface.cpp 1001): the sample count is converted to `float` and the quotient is
rounded. -/
def toneValueFl (fl : K → K) (sampleRate : Int) (acc : K) : K :=
  fl (acc / fl (sampleRate : K))

/-- The expression pushed to `finalImage` for the local `value` (surface.cpp 1002):
`pow` and the product with `0xFF` are computed in `double`, here without rounding; the
cast to `unsigned char` truncates, and is defined for values in `[0, 256)`. -/
def toneByte [FloorRing K] (L : Libm K) (value : K) : Int :=
  if value > 1 then 255 else truncInt (L.pow value (1 / (11 / 5)) * 255)

/-- The channel value pushed to `finalImage` for the accumulator `acc`
(surface.cpp 1001-1002). -/
def toneMapFl [FloorRing K] (fl : K → K) (L : Libm K) (sampleRate : Int) (acc : K) : Int :=
  toneByte L (toneValueFl fl sampleRate acc)

/-- The vector `finalImage` written by `Camera::sampleImage` (surface.cpp 999-1003). -/
def sampleImageFl [FloorRing K] (fl : K → K) (L : Libm K) (sc : Scene K) (cam : Camera K)
    (rnd : Nat → K) : List Int :=
  (sampleImageFilmFl fl L sc cam rnd).map (toneMapFl fl L cam.sampleRate)

/-- The float running sum of `n` additions of the product `x * 1` to an accumulator
that starts at `0`: what one film channel holds after `n` samples that all add the
radiance `x` with the weight `1`. -/
def filmSum (fl : K → K) (x : K) : Nat → K
  | 0 => 0
  | n + 1 => fl (filmSum fl x n + fl (x * 1))

/-- The multiples `k * x` for `k ≤ n` are floats: the running sum of `n` additions of `x`
has no rounding error. -/
def sumExact (fl : K → K) (x : K) (n : Nat) : Prop :=
  ∀ k, k ≤ n → fl ((k : K) * x) = (k : K) * x

/-- The film buffer when the three channels of the first `p` pixels hold the float
running sum of `n` additions of the radiance `bg` and the later entries are still
zero. -/
def filmDone (fl : K → K) (n : Nat) (bg : Vec3 K) (p : Nat) (film : List K) : Prop :=
  (∀ q, q < p → film.getD (3 * q) 0 = filmSum fl bg.x n ∧
    film.getD (3 * q + 1) 0 = filmSum fl bg.y n ∧
    film.getD (3 * q + 2) 0 = filmSum fl bg.z n) ∧
  ∀ idx, 3 * p ≤ idx → film.getD idx 0 = 0

/-! ## Concrete inputs for the float tests -/

/-- The triangle `(0,0,0)`, `(-1,-1,0)`, `(-1,1,0)` in the plane `z = 0`. -/
def slantTriangle : List (Vec3 ℚ) := [⟨0, 0, 0⟩, ⟨-1, -1, 0⟩, ⟨-1, 1, 0⟩]

/-- The bounding box `[-1, 0] x [-1, 1] x [0, 0]` of `slantTriangle`. -/
def slantBox : AlignedBox3 ℚ := ⟨⟨-1, -1, 0⟩, ⟨0, 1, 0⟩⟩

/-- The box that holds the single point `(2, 3, 6)`, at distance `7` from the origin. -/
def pointBox : AlignedBox3 ℚ := ⟨⟨2, 3, 6⟩, ⟨2, 3, 6⟩⟩

/-- The triangle `(0,0,0)`, `(1,0,0)`, `(0,1,0)` in the plane `z = 0`. -/
def unitTriangle : List (Vec3 ℚ) := [⟨0, 0, 0⟩, ⟨1, 0, 0⟩, ⟨0, 1, 0⟩]

/-- The one-triangle scene of `unitTriangle` with the normal `(0,0,1)` at its three
vertices and the default material. -/
def unitScene : Scene ℚ :=
  Scene.oneTriangle ⟨0, 0, 0⟩ ⟨1, 0, 0⟩ ⟨0, 1, 0⟩ ⟨0, 0, 1⟩ ⟨0, 0, 1⟩ ⟨0, 0, 1⟩
    ⟨0, 0⟩ ⟨1, 0⟩ ⟨0, 1⟩ defaultMaterial

/-- The one-triangle scene of `slantTriangle` with the normal `(0,0,1)` at its three
vertices and the default material. -/
def slantScene : Scene ℚ :=
  Scene.oneTriangle ⟨0, 0, 0⟩ ⟨-1, -1, 0⟩ ⟨-1, 1, 0⟩ ⟨0, 0, 1⟩ ⟨0, 0, 1⟩ ⟨0, 0, 1⟩
    ⟨0, 0⟩ ⟨1, 0⟩ ⟨0, 1⟩ defaultMaterial

/-- The scene without geometry and lights whose background radiance is `bg`. -/
def voidScene (bg : Vec3 K) : Scene K :=
  { (Scene.empty : Scene K) with backgroundLight := bg }

/-- The empty scene with the background radiance `(1/2, 1/4, 1/8)`. -/
def halfVoid : Scene ℚ := voidScene ⟨1 / 2, 1 / 4, 1 / 8⟩

/-- The empty scene with the background radiance `0.4f` in its three channels, the
binary32 value `13421773 / 2^25`. -/
def paleVoid : Scene ℚ :=
  voidScene ⟨13421773 / 2 ^ 25, 13421773 / 2 ^ 25, 13421773 / 2 ^ 25⟩

/-! # Properties -/

/-! ## The slab test `BVH::checkIntersection` -/

open FVal BVH

theorem posLo_fmax {a : FVal K} (x : FVal K) (h : posLo a) : posLo (fmax a x) := by
  unfold fmax
  split_ifs with h1
  · cases a <;> cases x <;> simp_all [posLo, FVal.lt]
    exact lt_trans h h1
  · exact h

theorem hiOK_fmin {b : FVal K} (x : FVal K) (h : hiOK b) : hiOK (fmin b x) := by
  unfold fmin
  split_ifs with h1
  · cases b <;> cases x <;> simp_all [hiOK, FVal.lt]
  · exact h

theorem negHi_fmin {b : FVal K} (x : FVal K) (h : negHi b) : negHi (fmin b x) := by
  unfold fmin
  split_ifs with h1
  · cases b <;> cases x <;> simp_all [negHi, FVal.lt]
    exact lt_trans h1 h
  · exact h

theorem negHi_fmin_fin {b : FVal K} {c : K} (h : hiOK b) (hc : c < 0) :
    negHi (fmin b (FVal.fin c)) := by
  unfold fmin
  split_ifs with h1
  · exact hc
  · cases b <;> simp_all [hiOK, negHi, FVal.lt]
    exact lt_of_le_of_lt h1 hc

theorem le_false_of_posLo_negHi {a b : FVal K} (ha : posLo a) (hb : negHi b) :
    FVal.le a b = false := by
  cases a <;> cases b <;> simp_all [posLo, negHi, FVal.le]
  exact lt_trans hb ha

theorem FLT_EPSILON_pos : (0 : K) < FLT_EPSILON := by unfold FLT_EPSILON; positivity
theorem FLT_MIN_pos : (0 : K) < FLT_MIN := by unfold FLT_MIN; positivity
theorem hitEps_pos : (0 : K) < hitEps := by unfold hitEps; positivity
theorem FLT_MIN_lt_hitEps : (FLT_MIN : K) < hitEps := by
  unfold FLT_MIN hitEps
  rw [div_lt_div_iff₀ (by positivity) (by positivity)]
  norm_num
theorem FLT_MIN_le_one : (FLT_MIN : K) ≤ 1 := by
  unfold FLT_MIN
  rw [div_le_one (by positivity)]
  exact one_le_pow₀ (by norm_num)
theorem one_le_FLT_MAX : (1 : K) ≤ FLT_MAX := by
  unfold FLT_MAX; norm_num

theorem slabStep_inv {o d pMin pMax : K} {t t1 : FVal K × FVal K} (h : slabInv t)
    (hs : slabStep o d pMin pMax t = some t1) : slabInv t1 := by
  unfold slabStep at hs
  split_ifs at hs <;> cases hs <;> exact ⟨posLo_fmax _ h.1, hiOK_fmin _ h.2⟩

theorem slabStep_dead {o d pMin pMax : K} {t t1 : FVal K × FVal K} (h : slabDead t)
    (hs : slabStep o d pMin pMax t = some t1) : slabDead t1 := by
  unfold slabStep at hs
  split_ifs at hs <;> cases hs <;> exact ⟨posLo_fmax _ h.1, negHi_fmin _ h.2⟩

theorem slabStep_away {o d pMin pMax : K} {t t1 : FVal K × FVal K} (h : slabInv t)
    (haway : (o < pMin ∧ d ≤ 0) ∨ (pMax < o ∧ 0 ≤ d))
    (hs : slabStep o d pMin pMax t = some t1) : slabDead t1 := by
  unfold slabStep at hs
  have heps : (0 : K) < FLT_EPSILON := FLT_EPSILON_pos
  split_ifs at hs with hg hd
  · -- d > 0: the origin is above the slab
    cases hs
    refine ⟨posLo_fmax _ h.1, ?_⟩
    rcases haway with ⟨_, hd0⟩ | ⟨ho, _⟩
    · exact absurd hd (not_lt.mpr hd0)
    · have : FVal.fdiv (pMax - o) d = FVal.fin ((pMax - o) / d) := by
        simp [FVal.fdiv, ne_of_gt hd]
      rw [this]
      exact negHi_fmin_fin h.2 (div_neg_of_neg_of_pos (by linarith) hd)
  · -- d <= 0
    cases hs
    refine ⟨posLo_fmax _ h.1, ?_⟩
    have hd0 : d ≤ 0 := not_lt.mp hd
    have hguard : ¬ |d| < FLT_EPSILON := by
      intro habs
      apply hg
      refine ⟨habs, ?_⟩
      rcases haway with ⟨ho, _⟩ | ⟨ho, _⟩
      · exact Or.inl ho
      · exact Or.inr ho
    have hdneg : d < 0 := by
      rcases lt_or_eq_of_le hd0 with h1 | h1
      · exact h1
      · exact absurd (by simp [h1, heps]) hguard
    rcases haway with ⟨ho, _⟩ | ⟨ho, hd1⟩
    · have : FVal.fdiv (pMin - o) d = FVal.fin ((pMin - o) / d) := by
        simp [FVal.fdiv, ne_of_lt hdneg]
      rw [this]
      exact negHi_fmin_fin h.2 (div_neg_of_pos_of_neg (by linarith) hdneg)
    · exact absurd hdneg (not_lt.mpr hd1)

theorem slabLoop_dead (b : AlignedBox3 K) (origin direction : Vec3 K) (axes : List (Fin 3))
    (t : FVal K × FVal K) (h : slabDead t) :
    slabLoop b origin direction axes t = none ∨
      ∃ t1, slabLoop b origin direction axes t = some t1 ∧ slabDead t1 := by
  induction axes generalizing t with
  | nil => exact Or.inr ⟨t, rfl, h⟩
  | cons i rest ih =>
    simp only [slabLoop]
    cases hs : slabStep (origin.get i) (direction.get i) (b.m_min.get i) (b.m_max.get i) t with
    | none => exact Or.inl rfl
    | some t1 => exact ih t1 (slabStep_dead h hs)

theorem slabLoop_away (b : AlignedBox3 K) (origin direction : Vec3 K) (axes : List (Fin 3))
    (t : FVal K × FVal K) (h : slabInv t) (i : Fin 3) (hi : i ∈ axes)
    (haway : (origin.get i < b.m_min.get i ∧ direction.get i ≤ 0) ∨
      (b.m_max.get i < origin.get i ∧ 0 ≤ direction.get i)) :
    slabLoop b origin direction axes t = none ∨
      ∃ t1, slabLoop b origin direction axes t = some t1 ∧ slabDead t1 := by
  induction axes generalizing t with
  | nil => cases hi
  | cons j rest ih =>
    simp only [slabLoop]
    cases hs : slabStep (origin.get j) (direction.get j) (b.m_min.get j) (b.m_max.get j) t with
    | none => exact Or.inl rfl
    | some t1 =>
      by_cases hji : i = j
      · subst hji
        exact slabLoop_dead b origin direction rest t1 (slabStep_away h haway hs)
      · have hmem : i ∈ rest := by
          rcases List.mem_cons.mp hi with h1 | h1
          · exact absurd h1 hji
          · exact h1
        exact ih t1 (slabStep_inv h hs) hmem

theorem fdiv_of_ne {x d : K} (hd : d ≠ 0) : FVal.fdiv x d = FVal.fin (x / d) := by
  simp [FVal.fdiv, hd]

theorem fmax_fin (a q : K) : fmax (FVal.fin a) (FVal.fin q) = FVal.fin (max a q) := by
  unfold fmax
  by_cases h : a < q
  · simp [FVal.lt, h, max_eq_right (le_of_lt h)]
  · simp [FVal.lt, h, max_eq_left (not_lt.mp h)]

theorem fmin_fin (b q : K) : fmin (FVal.fin b) (FVal.fin q) = FVal.fin (min b q) := by
  unfold fmin
  by_cases h : q < b
  · simp [FVal.lt, h, min_eq_right (le_of_lt h)]
  · simp [FVal.lt, h, min_eq_left (not_lt.mp h)]

/-- One axis keeps a parameter `T` inside the running interval when the ray point at
`T` lies in the slab, the component is not zero, and a near-parallel ray starts
inside the slab. -/
theorem slabStep_hit {o d pMin pMax T a b : K} (hd : d ≠ 0)
    (hpar : |d| < FLT_EPSILON → pMin ≤ o ∧ o ≤ pMax)
    (hlo : pMin ≤ o + T * d) (hhi : o + T * d ≤ pMax) (ha : a ≤ T) (hb : T ≤ b) :
    ∃ a1 b1, slabStep o d pMin pMax (FVal.fin a, FVal.fin b) = some (FVal.fin a1, FVal.fin b1) ∧
      a1 ≤ T ∧ T ≤ b1 := by
  have hg : ¬ (|d| < FLT_EPSILON ∧ (pMin > o ∨ pMax < o)) := by
    rintro ⟨h1, h2⟩
    obtain ⟨h3, h4⟩ := hpar h1
    rcases h2 with h2 | h2
    · exact absurd h3 (not_le.mpr h2)
    · exact absurd h4 (not_le.mpr h2)
  unfold slabStep
  rw [if_neg hg]
  by_cases hpos : d > 0
  · rw [if_pos hpos, fdiv_of_ne hd, fdiv_of_ne hd, fmax_fin, fmin_fin]
    refine ⟨_, _, rfl, max_le ha ?_, le_min hb ?_⟩
    · rw [div_le_iff₀ hpos]; linarith
    · rw [le_div_iff₀ hpos]; linarith
  · have hneg : d < 0 := lt_of_le_of_ne (not_lt.mp hpos) hd
    rw [if_neg hpos, fdiv_of_ne hd, fdiv_of_ne hd, fmax_fin, fmin_fin]
    refine ⟨_, _, rfl, max_le ha ?_, le_min hb ?_⟩
    · rw [div_le_iff_of_neg hneg]; linarith
    · rw [le_div_iff_of_neg hneg]; linarith

theorem slabLoop_hit (bx : AlignedBox3 K) (origin direction : Vec3 K) (T : K)
    (hd : ∀ i : Fin 3, direction.get i ≠ 0)
    (hpar : ∀ i : Fin 3, |direction.get i| < FLT_EPSILON →
      bx.m_min.get i ≤ origin.get i ∧ origin.get i ≤ bx.m_max.get i)
    (hin : ∀ i : Fin 3, bx.m_min.get i ≤ origin.get i + T * direction.get i ∧
      origin.get i + T * direction.get i ≤ bx.m_max.get i)
    (axes : List (Fin 3)) (a b : K) (ha : a ≤ T) (hb : T ≤ b) :
    ∃ a1 b1, slabLoop bx origin direction axes (FVal.fin a, FVal.fin b)
      = some (FVal.fin a1, FVal.fin b1) ∧ a1 ≤ T ∧ T ≤ b1 := by
  induction axes generalizing a b with
  | nil => exact ⟨a, b, rfl, ha, hb⟩
  | cons i rest ih =>
    obtain ⟨a1, b1, hs, ha1, hb1⟩ :=
      slabStep_hit (hd i) (hpar i) (hin i).1 (hin i).2 ha hb
    simp only [slabLoop, hs]
    exact ih a1 b1 ha1 hb1

/-- The box test accepts a ray that reaches a point of the box at a parameter `T` in
`[FLT_MIN, FLT_MAX]`, when no direction component is zero and the origin lies in the
slab of every axis whose component is below `FLT_EPSILON` in absolute value. -/
theorem checkIntersectionBox_hit (bx : AlignedBox3 K) (origin direction : Vec3 K) (T : K)
    (hd : ∀ i : Fin 3, direction.get i ≠ 0)
    (hpar : ∀ i : Fin 3, |direction.get i| < FLT_EPSILON →
      bx.m_min.get i ≤ origin.get i ∧ origin.get i ≤ bx.m_max.get i)
    (hin : ∀ i : Fin 3, bx.m_min.get i ≤ origin.get i + T * direction.get i ∧
      origin.get i + T * direction.get i ≤ bx.m_max.get i)
    (hT1 : FLT_MIN ≤ T) (hT2 : T ≤ FLT_MAX) :
    checkIntersectionBox bx origin direction = true := by
  obtain ⟨a1, b1, hs, ha1, hb1⟩ :=
    slabLoop_hit bx origin direction T hd hpar hin [0, 1, 2] FLT_MIN FLT_MAX hT1 hT2
  simp only [checkIntersectionBox, hs, FVal.le, decide_eq_true_eq]
  exact le_trans ha1 hb1

theorem center_get (bx : AlignedBox3 K) (i : Fin 3) :
    bx.center.get i = (bx.m_min.get i + bx.m_max.get i) / 2 := by
  fin_cases i <;> rfl

theorem sub_get (a b : Vec3 K) (i : Fin 3) : (a.sub b).get i = a.get i - b.get i := by
  fin_cases i <;> rfl

theorem add_get (a b : Vec3 K) (i : Fin 3) : (a.add b).get i = a.get i + b.get i := by
  fin_cases i <;> rfl

theorem smul_get (s : K) (a : Vec3 K) (i : Fin 3) : (Vec3.smul s a).get i = s * a.get i := by
  fin_cases i <;> rfl

theorem not_isEmpty_get {bx : AlignedBox3 K} (h : ¬ bx.isEmpty) (i : Fin 3) :
    bx.m_min.get i ≤ bx.m_max.get i := by
  unfold AlignedBox3.isEmpty at h
  push_neg at h
  fin_cases i
  · exact h.1
  · exact h.2.1
  · exact h.2.2

/-- C8. A ray whose origin lies outside the slab of some axis and whose direction on
that axis points away from the slab (or is zero) is rejected by `checkIntersection`. -/
theorem checkIntersection_away (n : BVH K) (origin direction : Vec3 K) (i : Fin 3)
    (haway : (origin.get i < n.box.m_min.get i ∧ direction.get i ≤ 0) ∨
      (n.box.m_max.get i < origin.get i ∧ 0 ≤ direction.get i)) :
    n.checkIntersection origin direction = false := by
  unfold checkIntersection checkIntersectionBox
  have hinv : slabInv ((FVal.fin FLT_MIN, FVal.fin FLT_MAX) : FVal K × FVal K) :=
    ⟨FLT_MIN_pos, trivial⟩
  have hi : i ∈ ([0, 1, 2] : List (Fin 3)) := by fin_cases i <;> simp
  rcases slabLoop_away n.box origin direction [0, 1, 2] _ hinv i hi haway with h | ⟨t1, h, hd⟩
  · rw [h]
  · rw [h]; exact le_false_of_posLo_negHi hd.1 hd.2

/-- C8 (witness): from `(-1, 1, 1)`, left of the cube `[0,2]^3`, moving in `-x`. -/
theorem checkIntersection_away_witness :
    (BVH.leaf cubeBox [] []).checkIntersection ⟨-1, 1, 1⟩ ⟨-1, 0, 0⟩ = false :=
  checkIntersection_away (BVH.leaf cubeBox [] []) ⟨-1, 1, 1⟩ ⟨-1, 0, 0⟩ 0
    (Or.inl ⟨by norm_num [Vec3.get, BVH.box, cubeBox], by norm_num [Vec3.get]⟩)

/-! ## The sphere test of `Scene::rayTrace` -/

theorem build_nil : (BVH.build ([] : List (Vec3 K))) = BVH.leaf AlignedBox3.empty [] [] := by
  unfold BVH.build
  rw [BVH.buildWith]
  simp [triCount, boundOf]

theorem collectLoop_leaf_nil (origin direction : Vec3 K) (bx : AlignedBox3 K)
    (vs : List (Vec3 K)) (is : List Int) :
    BVH.collectLoop origin direction (BVH.leaf bx vs is) [] [] [] =
      if (BVH.leaf bx vs is).checkIntersection origin direction then (is, vs) else ([], []) := by
  rw [BVH.collectLoop]
  split_ifs <;> simp

theorem triLoop_nil (origin direction : Vec3 K) :
    triLoop ([] : List (Vec3 K)) origin direction = ⟨FLT_MAX, 0, 0, -1⟩ := by
  simp [triLoop, triCount]

/-- What `Scene::rayTrace` computes on a scene holding one sphere: the sphere loop runs
once from the state without a triangle hit. -/
theorem rayTraceOut_oneSphere (L : Libm K) (c : Vec3 K) (r : K) (mat : Material K)
    (q : Quat K) (origin direction : Vec3 K) :
    rayTraceOut L (Scene.oneSphere c r mat q) origin direction =
      sphereStep L (Scene.oneSphere c r mat q) origin direction
        ⟨FLT_MAX, -1, ⟨0, 0, 0⟩, ⟨0, 0⟩⟩ 0 := by
  have hc : candidates (Scene.oneSphere c r mat q) origin direction = ([], []) := by
    simp only [candidates, Scene.oneSphere, Scene.buildBVH, Scene.loadSphere, Scene.empty,
      build_nil, collectLoop_leaf_nil]
    split_ifs <;> rfl
  simp only [rayTraceOut, hc, triLoop_nil, triAttr, sphereLoop]
  simp [Scene.oneSphere, Scene.buildBVH, Scene.loadSphere, Scene.empty, List.range_succ]

theorem ratLibm_sqrt_sq (x : ℚ) (hx : 0 ≤ x) : ratLibm.sqrt (x * x) = x := by
  show Rat.sqrt (x * x) = x
  rw [Rat.sqrt_eq, abs_of_nonneg hx]

theorem sphereRoots_center (L : Libm K) (sc : Scene K) (i : Nat) (c o : Vec3 K) (r n : K)
    (hc : vget sc.spherePosition i = c) (hrad : sc.sphereRadius.getD i 0 = r)
    (hn0 : 0 < n) (hn : n * n = (c.sub o).dot (c.sub o)) (hsqrt : L.sqrt (r * r) = r) :
    sphereRoots L sc o ((c.sub o).sdiv n) i = some (n - r, n + r) := by
  have hb : (c.sub o).dot ((c.sub o).sdiv n) = n := by
    have h1 : (c.sub o).dot ((c.sub o).sdiv n) = (c.sub o).dot (c.sub o) / n := by
      simp only [Vec3.dot, Vec3.sdiv]
      field_simp
    rw [h1, ← hn]
    field_simp
  have hdet : n * n - ((c.sub o).dot (c.sub o) - r * r) = r * r := by
    rw [← hn]; ring
  simp only [sphereRoots, hc, hrad, hb, hdet, hsqrt]
  rw [if_neg (not_lt.mpr (mul_self_nonneg r))]

theorem sphereAccept_pos (L : Libm K) (sc : Scene K) (origin direction : Vec3 K) (i : Nat)
    (t : K) (h : Hit K) (hacc : t > hitEps ∧ t < h.nextParam) :
    (sphereAccept L sc origin direction i t h).nextParam = t ∧
    (sphereAccept L sc origin direction i t h).nextMatIndex = sc.sphereMaterialIndex.getD i 0 := by
  simp only [sphereAccept, if_pos hacc, and_self]

theorem sphereAccept_neg (L : Libm K) (sc : Scene K) (origin direction : Vec3 K) (i : Nat)
    (t : K) (h : Hit K) (hrej : ¬ (t > hitEps ∧ t < h.nextParam)) :
    sphereAccept L sc origin direction i t h = h := by
  simp only [sphereAccept, if_neg hrej]

/-- The hit reported on a one-sphere scene for a ray through the centre, when the
near root `n - r` is accepted. -/
theorem oneSphere_center_hit (L : Libm K) (c o : Vec3 K) (r n : K) (mat : Material K)
    (q : Quat K) (hr : 0 < r) (hn : n * n = (c.sub o).dot (c.sub o)) (hout : r < n)
    (hsqrt : L.sqrt (r * r) = r) (h1 : hitEps < n - r) (h2 : n - r < FLT_MAX) :
    sphereRoots L (Scene.oneSphere c r mat q) o ((c.sub o).sdiv n) 0 = some (n - r, n + r) ∧
    rayTrace L (Scene.oneSphere c r mat q) o ((c.sub o).sdiv n) = true ∧
    (rayTraceOut L (Scene.oneSphere c r mat q) o ((c.sub o).sdiv n)).nextParam = n - r := by
  have hn0 : 0 < n := lt_trans hr hout
  have hroots : sphereRoots L (Scene.oneSphere c r mat q) o ((c.sub o).sdiv n) 0
      = some (n - r, n + r) :=
    sphereRoots_center L _ 0 c o r n (by simp [Scene.oneSphere, Scene.buildBVH,
      Scene.loadSphere, Scene.empty, vget]) (by simp [Scene.oneSphere, Scene.buildBVH,
      Scene.loadSphere, Scene.empty]) hn0 hn hsqrt
  have hmat : (Scene.oneSphere c r mat q).sphereMaterialIndex.getD 0 0 = 0 := by
    simp [Scene.oneSphere, Scene.buildBVH, Scene.loadSphere, Scene.empty]
  have hfirst := sphereAccept_pos L (Scene.oneSphere c r mat q) o ((c.sub o).sdiv n) 0 (n - r)
    ⟨FLT_MAX, -1, ⟨0, 0, 0⟩, ⟨0, 0⟩⟩ ⟨h1, h2⟩
  have hsecond := sphereAccept_neg L (Scene.oneSphere c r mat q) o ((c.sub o).sdiv n) 0 (n + r)
    (sphereAccept L (Scene.oneSphere c r mat q) o ((c.sub o).sdiv n) 0 (n - r)
      ⟨FLT_MAX, -1, ⟨0, 0, 0⟩, ⟨0, 0⟩⟩)
    (by rw [hfirst.1]; rintro ⟨_, h4⟩; linarith)
  refine ⟨hroots, ?_⟩
  simp only [rayTrace, rayTraceOut_oneSphere, sphereStep, hroots, hsecond, hfirst.1, hfirst.2,
    hmat]
  simp

/-! ## The triangle test of `Scene::rayTrace` -/

omit [LinearOrderedField K] in
theorem Vec3.ext_iff3 (a b : Vec3 K) : a = b ↔ a.x = b.x ∧ a.y = b.y ∧ a.z = b.z := by
  cases a; cases b; simp

theorem FLT_EPSILON_le_abs_ne_zero {x : K} (h : ¬ |x| < FLT_EPSILON) : x ≠ 0 := by
  intro hx
  apply h
  rw [hx, abs_zero]
  exact FLT_EPSILON_pos

/-- The values a successful `triTest` returns, and the guards it has passed. -/
theorem triTest_some {verts : List (Vec3 K)} {origin direction : Vec3 K} {i : Nat} {t u v : K}
    (h : triTest verts origin direction i = some (t, u, v)) :
    ¬ |((vget verts (i + 1)).sub (vget verts i)).dot
        (direction.cross ((vget verts (i + 2)).sub (vget verts i)))| < FLT_EPSILON ∧
    u = (origin.sub (vget verts i)).dot
        (direction.cross ((vget verts (i + 2)).sub (vget verts i))) *
        (1 / ((vget verts (i + 1)).sub (vget verts i)).dot
          (direction.cross ((vget verts (i + 2)).sub (vget verts i)))) ∧
    v = direction.dot ((origin.sub (vget verts i)).cross
          ((vget verts (i + 1)).sub (vget verts i))) *
        (1 / ((vget verts (i + 1)).sub (vget verts i)).dot
          (direction.cross ((vget verts (i + 2)).sub (vget verts i)))) ∧
    t = ((vget verts (i + 2)).sub (vget verts i)).dot ((origin.sub (vget verts i)).cross
          ((vget verts (i + 1)).sub (vget verts i))) *
        (1 / ((vget verts (i + 1)).sub (vget verts i)).dot
          (direction.cross ((vget verts (i + 2)).sub (vget verts i)))) ∧
    0 ≤ u ∧ u ≤ 1 ∧ 0 ≤ v ∧ u + v ≤ 1 := by
  simp only [triTest] at h
  split_ifs at h with h1 h2 h3
  simp only [Option.some.injEq, Prod.mk.injEq] at h
  obtain ⟨ht, hu, hv⟩ := h
  push_neg at h2 h3
  subst ht hu hv
  exact ⟨h1, rfl, rfl, rfl, h2.1, h2.2, h3.1, h3.2⟩

/-- The values a successful `triTest` returns solve the ray-triangle equation. -/
theorem triTest_point {verts : List (Vec3 K)} {origin direction : Vec3 K} {i : Nat} {t u v : K}
    (h : triTest verts origin direction i = some (t, u, v)) :
    origin.add (Vec3.smul t direction) =
      ((vget verts i).add (Vec3.smul u ((vget verts (i + 1)).sub (vget verts i)))).add
        (Vec3.smul v ((vget verts (i + 2)).sub (vget verts i))) := by
  obtain ⟨hdet, hu, hv, ht, _, _, _, _⟩ := triTest_some h
  have hdet0 := FLT_EPSILON_le_abs_ne_zero hdet
  rw [hu, hv, ht]
  generalize vget verts i = p0 at hdet0 ⊢
  generalize vget verts (i + 1) = p1 at hdet0 ⊢
  generalize vget verts (i + 2) = p2 at hdet0 ⊢
  rw [Vec3.ext_iff3]
  simp only [Vec3.dot, Vec3.cross, Vec3.sub, Vec3.add, Vec3.smul] at hdet0 ⊢
  refine ⟨?_, ?_, ?_⟩ <;> field_simp <;> ring

/-! ## Scattering: the branch and the weight of `Scene::raySurface` -/

/-- The branch of `raySurface` as a function of the selector alone. -/
theorem raySurfaceEvent_eq [FloorRing K] (L : Libm K) (mat : Material K)
    (normal incoming : Vec3 K) (uv : Vec2 K) (p x y : K) :
    raySurfaceEvent L mat normal incoming uv p x y =
      if p < mat.Kd.mean then some ScatterType.diffuse
      else if p < mat.Kd.mean + mat.Ks.mean then some ScatterType.specular
      else if mat.illumType = ILLUM_REFRACTION ∧ p < mat.Kd.mean + mat.Ks.mean + mat.Kr.mean
        then some ScatterType.refraction
      else none := by
  unfold raySurfaceEvent raySurface
  by_cases h1 : p < mat.Kd.mean
  · simp only [if_pos h1]
    cases mat.hasImgKd <;> simp
  · simp only [if_neg h1]
    by_cases h2 : p < mat.Kd.mean + mat.Ks.mean
    · simp [if_pos h2]
    · simp only [if_neg h2]
      by_cases h3 : mat.illumType = ILLUM_REFRACTION
      · by_cases h4 : p < mat.Kd.mean + mat.Ks.mean + mat.Kr.mean
        · simp [h3, h4]
        · simp [h3, h4]
      · simp [h3]

/-- C10 (amended). For a material whose mean specular coefficient is not negative,
with `wD`, `wS`, `wR` the means of `Kd`, `Ks`, `Kr`: `raySurface` takes the diffuse
branch iff `p < wD`, the specular branch iff `wD <= p < wD + wS`, the refraction branch
iff the material is `ILLUM_REFRACTION` and `wD + wS <= p < wD + wS + wR`, and returns
false in every other case; an `ILLUM_BASIC` material never refracts. -/
theorem raySurface_branch [FloorRing K] (L : Libm K) (mat : Material K)
    (normal incoming : Vec3 K) (uv : Vec2 K) (p x y : K) (hS : 0 ≤ mat.Ks.mean) :
    (raySurfaceEvent L mat normal incoming uv p x y = some ScatterType.diffuse
      ↔ p < mat.Kd.mean) ∧
    (raySurfaceEvent L mat normal incoming uv p x y = some ScatterType.specular
      ↔ mat.Kd.mean ≤ p ∧ p < mat.Kd.mean + mat.Ks.mean) ∧
    (raySurfaceEvent L mat normal incoming uv p x y = some ScatterType.refraction
      ↔ mat.illumType = ILLUM_REFRACTION ∧ mat.Kd.mean + mat.Ks.mean ≤ p ∧
        p < mat.Kd.mean + mat.Ks.mean + mat.Kr.mean) ∧
    (raySurface L mat normal incoming uv p x y = none
      ↔ ¬ p < mat.Kd.mean ∧ ¬ (mat.Kd.mean ≤ p ∧ p < mat.Kd.mean + mat.Ks.mean) ∧
        ¬ (mat.illumType = ILLUM_REFRACTION ∧ mat.Kd.mean + mat.Ks.mean ≤ p ∧
          p < mat.Kd.mean + mat.Ks.mean + mat.Kr.mean)) ∧
    (mat.illumType = ILLUM_BASIC →
      raySurfaceEvent L mat normal incoming uv p x y ≠ some ScatterType.refraction) := by
  have hnone : raySurface L mat normal incoming uv p x y = none ↔
      raySurfaceEvent L mat normal incoming uv p x y = none := by
    simp [raySurfaceEvent]
  rw [hnone, raySurfaceEvent_eq]
  have hbasic : mat.illumType = ILLUM_BASIC → mat.illumType ≠ ILLUM_REFRACTION := by
    intro h; rw [h]; decide
  by_cases h1 : p < mat.Kd.mean
  · have h1' : ¬ mat.Kd.mean ≤ p := not_le.mpr h1
    have h5 : ¬ mat.Kd.mean + mat.Ks.mean ≤ p := by
      intro h; apply h1'; linarith
    simp [h1, h1', h5]
  · have h1' : mat.Kd.mean ≤ p := not_lt.mp h1
    by_cases h2 : p < mat.Kd.mean + mat.Ks.mean
    · have h5 : ¬ mat.Kd.mean + mat.Ks.mean ≤ p := not_le.mpr h2
      simp [h1, h1', h2, h5]
    · have h5 : mat.Kd.mean + mat.Ks.mean ≤ p := not_lt.mp h2
      by_cases h3 : mat.illumType = ILLUM_REFRACTION ∧
          p < mat.Kd.mean + mat.Ks.mean + mat.Kr.mean
      · have h6 : mat.illumType ≠ ILLUM_BASIC := fun h => hbasic h h3.1
        have h8 : ¬ ILLUM_REFRACTION = ILLUM_BASIC := by decide
        simp [h1, h1', h2, h5, h3, h3.1, h3.2, h6, h8]
      · simp only [if_neg h1, if_neg h2, if_neg h3]
        have h7 : ¬ (mat.illumType = ILLUM_REFRACTION ∧ mat.Kd.mean + mat.Ks.mean ≤ p ∧
            p < mat.Kd.mean + mat.Ks.mean + mat.Kr.mean) := fun h => h3 ⟨h.1, h.2.2⟩
        simp [h1, h2, h7]

/-- C10 (witness): the default material (`wD = 4/5`, `wS = 1/10`) and `p = 17/20`. -/
theorem raySurface_branch_witness :
    raySurfaceEvent ratLibm defaultMaterial ⟨0, 0, 1⟩ ⟨0, 0, -1⟩ ⟨0, 0⟩ (17 / 20) 0 0
      = some ScatterType.specular
      ↔ (defaultMaterial : Material ℚ).Kd.mean ≤ 17 / 20 ∧
        17 / 20 < (defaultMaterial : Material ℚ).Kd.mean + (defaultMaterial : Material ℚ).Ks.mean :=
  (raySurface_branch ratLibm defaultMaterial ⟨0, 0, 1⟩ ⟨0, 0, -1⟩ ⟨0, 0⟩ (17 / 20) 0 0
    (by norm_num [defaultMaterial, Vec3.mean])).2.1

/-- C10 (counterexample): a material with `wD = 1/2`, `wS = -3/10`, `wR = 1/5` and
refraction enabled, and the selector `p = 3/10`.  The claimed refraction condition
`wD + wS <= p < wD + wS + wR` holds, yet `raySurface` takes the diffuse branch,
because `p < wD`. -/
theorem raySurface_branch_counterexample :
    negSpecMaterial.illumType = ILLUM_REFRACTION ∧
    negSpecMaterial.Kd.mean + negSpecMaterial.Ks.mean ≤ 3 / 10 ∧
    3 / 10 < negSpecMaterial.Kd.mean + negSpecMaterial.Ks.mean + negSpecMaterial.Kr.mean ∧
    raySurfaceEvent ratLibm negSpecMaterial ⟨0, 0, 1⟩ ⟨0, 0, -1⟩ ⟨0, 0⟩ (3 / 10) 0 0
      = some ScatterType.diffuse ∧
    raySurfaceEvent ratLibm negSpecMaterial ⟨0, 0, 1⟩ ⟨0, 0, -1⟩ ⟨0, 0⟩ (3 / 10) 0 0
      ≠ some ScatterType.refraction := by
  rw [raySurfaceEvent_eq]
  have h8 : ¬ ScatterType.diffuse = ScatterType.refraction := by decide
  norm_num [negSpecMaterial, Vec3.mean, h8]

/-- The weight of `raySurface` for an untextured material, as a function of the selector. -/
theorem raySurfaceWeight_eq [FloorRing K] (L : Libm K) (mat : Material K)
    (normal incoming : Vec3 K) (uv : Vec2 K) (p x y : K) (htex : mat.hasImgKd = false) :
    raySurfaceWeight L mat normal incoming uv p x y =
      if p < mat.Kd.mean then some (mat.Kd.sdiv mat.Kd.mean)
      else if p < mat.Kd.mean + mat.Ks.mean then some (mat.Ks.sdiv mat.Ks.mean)
      else if mat.illumType = ILLUM_REFRACTION ∧ p < mat.Kd.mean + mat.Ks.mean + mat.Kr.mean
        then some (mat.Kr.sdiv mat.Kr.mean)
      else none := by
  unfold raySurfaceWeight raySurface
  by_cases h1 : p < mat.Kd.mean
  · simp [if_pos h1, htex]
  · simp only [if_neg h1]
    by_cases h2 : p < mat.Kd.mean + mat.Ks.mean
    · simp [if_pos h2]
    · simp only [if_neg h2]
      by_cases h3 : mat.illumType = ILLUM_REFRACTION
      · by_cases h4 : p < mat.Kd.mean + mat.Ks.mean + mat.Kr.mean
        · simp [h3, h4]
        · simp [h3, h4]
      · simp [h3]

theorem smul_sdiv_self (a : Vec3 K) (w : K) (hw : w ≠ 0) : Vec3.smul w (a.sdiv w) = a := by
  rw [Vec3.ext_iff3]
  simp only [Vec3.smul, Vec3.sdiv]
  refine ⟨?_, ?_, ?_⟩ <;> field_simp

theorem branchSet_diffuse (L : Libm ℝ) (mat : Material ℝ) (normal incoming : Vec3 ℝ)
    (uv : Vec2 ℝ) (x y : ℝ) (hD1 : mat.Kd.mean ≤ 1) :
    branchSet L mat normal incoming uv x y ScatterType.diffuse = Set.Ico 0 mat.Kd.mean := by
  ext p
  simp only [branchSet, Set.mem_setOf_eq, Set.mem_Ico, raySurfaceEvent_eq]
  constructor
  · rintro ⟨h0, _, h⟩
    refine ⟨h0, ?_⟩
    by_contra h1
    rw [if_neg h1] at h
    split_ifs at h <;> cases h
  · rintro ⟨h0, h1⟩
    exact ⟨h0, by linarith, by rw [if_pos h1]⟩

theorem branchSet_specular (L : Libm ℝ) (mat : Material ℝ) (normal incoming : Vec3 ℝ)
    (uv : Vec2 ℝ) (x y : ℝ) (hD : 0 < mat.Kd.mean) (hDS : mat.Kd.mean + mat.Ks.mean ≤ 1) :
    branchSet L mat normal incoming uv x y ScatterType.specular
      = Set.Ico mat.Kd.mean (mat.Kd.mean + mat.Ks.mean) := by
  ext p
  simp only [branchSet, Set.mem_setOf_eq, Set.mem_Ico, raySurfaceEvent_eq]
  constructor
  · rintro ⟨_, _, h⟩
    by_cases h1 : p < mat.Kd.mean
    · rw [if_pos h1] at h; cases h
    · rw [if_neg h1] at h
      refine ⟨not_lt.mp h1, ?_⟩
      by_contra h2
      rw [if_neg h2] at h
      split_ifs at h
      cases h
  · rintro ⟨h0, h1⟩
    exact ⟨by linarith, by linarith, by rw [if_neg (not_lt.mpr h0), if_pos h1]⟩

theorem branchSet_refraction (L : Libm ℝ) (mat : Material ℝ) (normal incoming : Vec3 ℝ)
    (uv : Vec2 ℝ) (x y : ℝ) (hD : 0 < mat.Kd.mean) (hS : 0 < mat.Ks.mean)
    (hill : mat.illumType = ILLUM_REFRACTION)
    (hDSR : mat.Kd.mean + mat.Ks.mean + mat.Kr.mean ≤ 1) :
    branchSet L mat normal incoming uv x y ScatterType.refraction
      = Set.Ico (mat.Kd.mean + mat.Ks.mean) (mat.Kd.mean + mat.Ks.mean + mat.Kr.mean) := by
  ext p
  simp only [branchSet, Set.mem_setOf_eq, Set.mem_Ico, raySurfaceEvent_eq]
  constructor
  · rintro ⟨_, _, h⟩
    by_cases h1 : p < mat.Kd.mean
    · rw [if_pos h1] at h; cases h
    · rw [if_neg h1] at h
      by_cases h2 : p < mat.Kd.mean + mat.Ks.mean
      · rw [if_pos h2] at h; cases h
      · rw [if_neg h2] at h
        refine ⟨not_lt.mp h2, ?_⟩
        by_contra h3
        rw [if_neg (fun hh => h3 hh.2)] at h
        cases h
  · rintro ⟨h0, h1⟩
    refine ⟨by linarith, by linarith, ?_⟩
    rw [if_neg (by linarith), if_neg (not_lt.mpr h0), if_pos ⟨hill, h1⟩]

/-- C9 (amended). For an untextured material with positive mean diffuse, specular and
(for `ILLUM_REFRACTION`) refractive coefficients whose sum is at most 1, and a
selector `p` uniform on `[0,1]`: on each branch the returned weight is the constant
`Kd/wD` (`Ks/wS`, `Kr/wR`), and the probability of the branch (the Lebesgue measure of
the selectors in `[0,1]` that take it) times that weight is `Kd` (`Ks`, `Kr`). -/
theorem raySurface_unbiased (L : Libm ℝ) (mat : Material ℝ) (normal incoming : Vec3 ℝ)
    (uv : Vec2 ℝ) (x y : ℝ) (htex : mat.hasImgKd = false)
    (hD : 0 < mat.Kd.mean) (hS : 0 < mat.Ks.mean)
    (hR : mat.illumType = ILLUM_REFRACTION → 0 < mat.Kr.mean)
    (hsum : mat.Kd.mean + mat.Ks.mean
      + (if mat.illumType = ILLUM_REFRACTION then mat.Kr.mean else 0) ≤ 1) :
    ((∀ p, raySurfaceEvent L mat normal incoming uv p x y = some ScatterType.diffuse →
        raySurfaceWeight L mat normal incoming uv p x y = some (mat.Kd.sdiv mat.Kd.mean)) ∧
      Vec3.smul (MeasureTheory.volume
          (branchSet L mat normal incoming uv x y ScatterType.diffuse)).toReal
        (mat.Kd.sdiv mat.Kd.mean) = mat.Kd) ∧
    ((∀ p, raySurfaceEvent L mat normal incoming uv p x y = some ScatterType.specular →
        raySurfaceWeight L mat normal incoming uv p x y = some (mat.Ks.sdiv mat.Ks.mean)) ∧
      Vec3.smul (MeasureTheory.volume
          (branchSet L mat normal incoming uv x y ScatterType.specular)).toReal
        (mat.Ks.sdiv mat.Ks.mean) = mat.Ks) ∧
    (mat.illumType = ILLUM_REFRACTION →
      (∀ p, raySurfaceEvent L mat normal incoming uv p x y = some ScatterType.refraction →
        raySurfaceWeight L mat normal incoming uv p x y = some (mat.Kr.sdiv mat.Kr.mean)) ∧
      Vec3.smul (MeasureTheory.volume
          (branchSet L mat normal incoming uv x y ScatterType.refraction)).toReal
        (mat.Kr.sdiv mat.Kr.mean) = mat.Kr) := by
  have hextra : 0 ≤ (if mat.illumType = ILLUM_REFRACTION then mat.Kr.mean else 0) := by
    split_ifs with h
    · exact le_of_lt (hR h)
    · exact le_refl 0
  have hDS : mat.Kd.mean + mat.Ks.mean ≤ 1 := by linarith
  have hD1 : mat.Kd.mean ≤ 1 := by linarith
  refine ⟨⟨?_, ?_⟩, ⟨?_, ?_⟩, ?_⟩
  · intro p hp
    rw [raySurfaceEvent_eq] at hp
    rw [raySurfaceWeight_eq L mat normal incoming uv p x y htex]
    by_cases h1 : p < mat.Kd.mean
    · rw [if_pos h1]
    · rw [if_neg h1] at hp
      split_ifs at hp <;> cases hp
  · rw [branchSet_diffuse L mat normal incoming uv x y hD1, Real.volume_Ico,
      ENNReal.toReal_ofReal (by linarith), sub_zero]
    exact smul_sdiv_self _ _ (ne_of_gt hD)
  · intro p hp
    rw [raySurfaceEvent_eq] at hp
    rw [raySurfaceWeight_eq L mat normal incoming uv p x y htex]
    by_cases h1 : p < mat.Kd.mean
    · rw [if_pos h1] at hp; cases hp
    · rw [if_neg h1] at hp ⊢
      by_cases h2 : p < mat.Kd.mean + mat.Ks.mean
      · rw [if_pos h2]
      · rw [if_neg h2] at hp
        split_ifs at hp
        cases hp
  · rw [branchSet_specular L mat normal incoming uv x y hD hDS, Real.volume_Ico,
      ENNReal.toReal_ofReal (by linarith), add_sub_cancel_left]
    exact smul_sdiv_self _ _ (ne_of_gt hS)
  · intro hill
    have hDSR : mat.Kd.mean + mat.Ks.mean + mat.Kr.mean ≤ 1 := by
      rw [if_pos hill] at hsum; exact hsum
    refine ⟨?_, ?_⟩
    · intro p hp
      rw [raySurfaceEvent_eq] at hp
      rw [raySurfaceWeight_eq L mat normal incoming uv p x y htex]
      by_cases h1 : p < mat.Kd.mean
      · rw [if_pos h1] at hp; cases hp
      · rw [if_neg h1] at hp ⊢
        by_cases h2 : p < mat.Kd.mean + mat.Ks.mean
        · rw [if_pos h2] at hp; cases hp
        · rw [if_neg h2] at hp ⊢
          by_cases h3 : mat.illumType = ILLUM_REFRACTION ∧
              p < mat.Kd.mean + mat.Ks.mean + mat.Kr.mean
          · rw [if_pos h3]
          · rw [if_neg h3] at hp; cases hp
    · rw [branchSet_refraction L mat normal incoming uv x y hD hS hill hDSR, Real.volume_Ico,
        ENNReal.toReal_ofReal (by linarith [hR hill]), add_sub_cancel_left]
      exact smul_sdiv_self _ _ (ne_of_gt (hR hill))

/-- C9 (witness): the default material (`wD = 4/5`, `wS = 1/10`, no refraction): the
probability of the diffuse branch times the diffuse weight is `Kd`. -/
theorem raySurface_unbiased_witness :
    Vec3.smul (MeasureTheory.volume
        (branchSet Libm.stub defaultMaterial ⟨0, 0, 1⟩ ⟨0, 0, -1⟩ ⟨0, 0⟩ 0 0
          ScatterType.diffuse)).toReal
      ((defaultMaterial : Material ℝ).Kd.sdiv (defaultMaterial : Material ℝ).Kd.mean)
      = (defaultMaterial : Material ℝ).Kd :=
  (raySurface_unbiased Libm.stub defaultMaterial ⟨0, 0, 1⟩ ⟨0, 0, -1⟩ ⟨0, 0⟩ 0 0 rfl
    (by norm_num [defaultMaterial, Vec3.mean])
    (by norm_num [defaultMaterial, Vec3.mean])
    (by simp [defaultMaterial, ILLUM_BASIC, ILLUM_REFRACTION])
    (by norm_num [defaultMaterial, Vec3.mean, ILLUM_BASIC, ILLUM_REFRACTION])).1.2

/-- C9 (counterexample): an untextured `ILLUM_BASIC` material with `Kd = (4/5, 4/5, 4/5)`
and `Ks = (1/2, 1/2, 1/2)`, both means positive.  The specular branch is taken for the
selectors in `[4/5, 1]`, a probability of `1/5`, and its weight is `Ks / wS = (1, 1, 1)`:
probability times weight is `(1/5, 1/5, 1/5)`, not `Ks`. -/
theorem raySurface_unbiased_counterexample :
    (brightMaterial : Material ℝ).hasImgKd = false ∧
    0 < (brightMaterial : Material ℝ).Kd.mean ∧ 0 < (brightMaterial : Material ℝ).Ks.mean ∧
    (∀ p, raySurfaceEvent Libm.stub (brightMaterial : Material ℝ) ⟨0, 0, 1⟩ ⟨0, 0, -1⟩ ⟨0, 0⟩
        p 0 0 = some ScatterType.specular →
      raySurfaceWeight Libm.stub (brightMaterial : Material ℝ) ⟨0, 0, 1⟩ ⟨0, 0, -1⟩ ⟨0, 0⟩
        p 0 0 = some ⟨1, 1, 1⟩) ∧
    Vec3.smul (MeasureTheory.volume
        (branchSet Libm.stub brightMaterial ⟨0, 0, 1⟩ ⟨0, 0, -1⟩ ⟨0, 0⟩ 0 0
          ScatterType.specular)).toReal (⟨1, 1, 1⟩ : Vec3 ℝ) = ⟨1 / 5, 1 / 5, 1 / 5⟩ ∧
    (⟨1 / 5, 1 / 5, 1 / 5⟩ : Vec3 ℝ) ≠ (brightMaterial : Material ℝ).Ks := by
  have hwD : (brightMaterial : Material ℝ).Kd.mean = 4 / 5 := by
    norm_num [brightMaterial, Vec3.mean]
  have hwS : (brightMaterial : Material ℝ).Ks.mean = 1 / 2 := by
    norm_num [brightMaterial, Vec3.mean]
  have hill : ¬ (brightMaterial : Material ℝ).illumType = ILLUM_REFRACTION := by
    simp [brightMaterial, ILLUM_BASIC, ILLUM_REFRACTION]
  have hset : branchSet Libm.stub (brightMaterial : Material ℝ) ⟨0, 0, 1⟩ ⟨0, 0, -1⟩ ⟨0, 0⟩ 0 0
      ScatterType.specular = Set.Icc (4 / 5) 1 := by
    ext p
    simp only [branchSet, Set.mem_setOf_eq, Set.mem_Icc, raySurfaceEvent_eq, hwD, hwS]
    constructor
    · rintro ⟨_, h1, h⟩
      refine ⟨?_, h1⟩
      by_contra h2
      rw [if_pos (not_le.mp h2)] at h
      cases h
    · rintro ⟨h0, h1⟩
      refine ⟨by linarith, h1, ?_⟩
      rw [if_neg (not_lt.mpr h0), if_pos (by linarith)]
  refine ⟨rfl, by rw [hwD]; norm_num, by rw [hwS]; norm_num, ?_, ?_, ?_⟩
  · intro p hp
    rw [raySurfaceEvent_eq] at hp
    rw [raySurfaceWeight_eq _ _ _ _ _ _ _ _ rfl]
    by_cases h1 : p < (brightMaterial : Material ℝ).Kd.mean
    · rw [if_pos h1] at hp; cases hp
    · rw [if_neg h1] at hp ⊢
      by_cases h2 : p < (brightMaterial : Material ℝ).Kd.mean
          + (brightMaterial : Material ℝ).Ks.mean
      · rw [if_pos h2, hwS]
        norm_num [brightMaterial, Vec3.sdiv]
      · rw [if_neg h2, if_neg (fun h => hill h.1)] at hp
        cases hp
  · rw [hset, Real.volume_Icc, ENNReal.toReal_ofReal (by norm_num)]
    norm_num [Vec3.smul]
  · norm_num [brightMaterial]

/-! ## Nearest-hit resolution -/

theorem hitEps_lt_FLT_MAX : (hitEps : K) < FLT_MAX := by
  have h1 : (hitEps : K) < 1 := by
    unfold hitEps
    rw [div_lt_one (by norm_num)]
    norm_num
  exact lt_of_lt_of_le h1 one_le_FLT_MAX

/-- The state of the triangle loop after the first `n` triangles. -/
theorem triLoop_fold_succ (verts : List (Vec3 K)) (origin direction : Vec3 K) (n : Nat)
    (s0 : TriBest K) :
    (List.range (n + 1)).foldl (fun s k => triStep verts origin direction s (3 * k)) s0 =
      triStep verts origin direction
        ((List.range n).foldl (fun s k => triStep verts origin direction s (3 * k)) s0)
        (3 * n) := by
  rw [List.range_succ, List.foldl_append]
  rfl

/-- What one pass of the triangle loop does to the best distance. -/
theorem triStep_cases (verts : List (Vec3 K)) (origin direction : Vec3 K) (s : TriBest K)
    (i : Nat) :
    (triStep verts origin direction s i = s ∧
      ∀ t u v, triTest verts origin direction i = some (t, u, v) → hitEps < t →
        s.nextParam ≤ t) ∨
    (∃ t u v, triTest verts origin direction i = some (t, u, v) ∧ hitEps < t ∧
      t < s.nextParam ∧ triStep verts origin direction s i = ⟨t, u, v, (i : Int)⟩) := by
  unfold triStep
  cases h : triTest verts origin direction i with
  | none =>
    left
    exact ⟨rfl, fun t u v h1 => by cases h1⟩
  | some r =>
    obtain ⟨t, u, v⟩ := r
    by_cases hacc : t < s.nextParam ∧ t > hitEps
    · right
      exact ⟨t, u, v, rfl, hacc.2, hacc.1, by simp only [if_pos hacc]⟩
    · left
      refine ⟨by simp only [if_neg hacc], ?_⟩
      intro t1 u1 v1 h1 h2
      simp only [Option.some.injEq, Prod.mk.injEq] at h1
      obtain ⟨rfl, _, _⟩ := h1
      by_contra h3
      exact hacc ⟨not_le.mp h3, h2⟩

/-- The invariant of the triangle loop: the best distance is at most every accepted
parameter seen so far, and it is `FLT_MAX` with no triangle chosen, or the accepted
parameter of the chosen triangle. -/
theorem triLoop_fold_spec (verts : List (Vec3 K)) (origin direction : Vec3 K) (n : Nat) :
    ((∀ k, k < n → ∀ t u v, triTest verts origin direction (3 * k) = some (t, u, v) →
        hitEps < t →
        ((List.range n).foldl (fun s k => triStep verts origin direction s (3 * k))
          ⟨FLT_MAX, 0, 0, -1⟩).nextParam ≤ t) ∧
      (((List.range n).foldl (fun s k => triStep verts origin direction s (3 * k))
          ⟨FLT_MAX, 0, 0, -1⟩) = ⟨FLT_MAX, 0, 0, -1⟩ ∨
        ∃ k, k < n ∧
          ((List.range n).foldl (fun s k => triStep verts origin direction s (3 * k))
            ⟨FLT_MAX, 0, 0, -1⟩).index = ((3 * k : Nat) : Int) ∧
          triTest verts origin direction (3 * k) = some
            (((List.range n).foldl (fun s k => triStep verts origin direction s (3 * k))
              ⟨FLT_MAX, 0, 0, -1⟩).nextParam,
             ((List.range n).foldl (fun s k => triStep verts origin direction s (3 * k))
              ⟨FLT_MAX, 0, 0, -1⟩).minU,
             ((List.range n).foldl (fun s k => triStep verts origin direction s (3 * k))
              ⟨FLT_MAX, 0, 0, -1⟩).minV) ∧
          hitEps < ((List.range n).foldl (fun s k => triStep verts origin direction s (3 * k))
            ⟨FLT_MAX, 0, 0, -1⟩).nextParam ∧
          ((List.range n).foldl (fun s k => triStep verts origin direction s (3 * k))
            ⟨FLT_MAX, 0, 0, -1⟩).nextParam < FLT_MAX)) := by
  induction n with
  | zero =>
    refine ⟨fun k hk => absurd hk (Nat.not_lt_zero k), Or.inl ?_⟩
    simp
  | succ n ih =>
    rw [triLoop_fold_succ]
    generalize (List.range n).foldl (fun s k => triStep verts origin direction s (3 * k))
      ⟨FLT_MAX, 0, 0, -1⟩ = s at ih ⊢
    obtain ⟨ihle, ihat⟩ := ih
    have hsmax : s.nextParam ≤ FLT_MAX := by
      rcases ihat with h | ⟨k, _, _, _, _, h⟩
      · rw [h]
      · exact le_of_lt h
    rcases triStep_cases verts origin direction s (3 * n) with ⟨hsame, hle⟩ | ⟨t, u, v, ht, h1, h2, hnew⟩
    · rw [hsame]
      refine ⟨?_, ?_⟩
      · intro k hk t u v htest hpos
        rcases Nat.lt_succ_iff_lt_or_eq.mp hk with hk1 | hk1
        · exact ihle k hk1 t u v htest hpos
        · subst hk1; exact hle t u v htest hpos
      · rcases ihat with h | ⟨k, hk, h⟩
        · exact Or.inl h
        · exact Or.inr ⟨k, Nat.lt_succ_of_lt hk, h⟩
    · rw [hnew]
      refine ⟨?_, Or.inr ⟨n, Nat.lt_succ_self n, rfl, ht, h1, lt_of_lt_of_le h2 hsmax⟩⟩
      intro k hk t1 u1 v1 htest hpos
      rcases Nat.lt_succ_iff_lt_or_eq.mp hk with hk1 | hk1
      · exact le_trans (le_of_lt h2) (ihle k hk1 t1 u1 v1 htest hpos)
      · subst hk1
        rw [ht] at htest
        simp only [Option.some.injEq, Prod.mk.injEq] at htest
        exact le_of_eq htest.1

/-- The triangle loop returns the least accepted parameter of the list, when there is
one below `FLT_MAX`. -/
theorem triLoop_spec (verts : List (Vec3 K)) (origin direction : Vec3 K) :
    (∀ k, k < triCount verts.length → ∀ t u v,
        triTest verts origin direction (3 * k) = some (t, u, v) → hitEps < t →
        (triLoop verts origin direction).nextParam ≤ t) ∧
    (triLoop verts origin direction = ⟨FLT_MAX, 0, 0, -1⟩ ∨
      ∃ k, k < triCount verts.length ∧
        (triLoop verts origin direction).index = ((3 * k : Nat) : Int) ∧
        triTest verts origin direction (3 * k) = some
          ((triLoop verts origin direction).nextParam, (triLoop verts origin direction).minU,
            (triLoop verts origin direction).minV) ∧
        hitEps < (triLoop verts origin direction).nextParam ∧
        (triLoop verts origin direction).nextParam < FLT_MAX) :=
  triLoop_fold_spec verts origin direction (triCount verts.length)

theorem sphereAccept_cases (L : Libm K) (sc : Scene K) (origin direction : Vec3 K) (i : Nat)
    (t : K) (h : Hit K) :
    (sphereAccept L sc origin direction i t h = h ∧ (hitEps < t → h.nextParam ≤ t)) ∨
    ((sphereAccept L sc origin direction i t h).nextParam = t ∧
      (sphereAccept L sc origin direction i t h).nextMatIndex = sc.sphereMaterialIndex.getD i 0 ∧
      hitEps < t ∧ t < h.nextParam) := by
  by_cases hacc : t > hitEps ∧ t < h.nextParam
  · right
    obtain ⟨h1, h2⟩ := sphereAccept_pos L sc origin direction i t h hacc
    exact ⟨h1, h2, hacc.1, hacc.2⟩
  · left
    refine ⟨sphereAccept_neg L sc origin direction i t h hacc, ?_⟩
    intro h1
    by_contra h2
    exact hacc ⟨h1, not_le.mp h2⟩

/-- What one pass of the sphere loop does to the hit state. -/
theorem sphereStep_cases (L : Libm K) (sc : Scene K) (origin direction : Vec3 K) (i : Nat)
    (h : Hit K) :
    (sphereStep L sc origin direction h i).nextParam ≤ h.nextParam ∧
    (∀ t1 t2, sphereRoots L sc origin direction i = some (t1, t2) →
      (hitEps < t1 → (sphereStep L sc origin direction h i).nextParam ≤ t1) ∧
      (hitEps < t2 → (sphereStep L sc origin direction h i).nextParam ≤ t2)) ∧
    (sphereStep L sc origin direction h i = h ∨
      ∃ t1 t2, sphereRoots L sc origin direction i = some (t1, t2) ∧
        ((hitEps < t1 ∧ (sphereStep L sc origin direction h i).nextParam = t1) ∨
          (hitEps < t2 ∧ (sphereStep L sc origin direction h i).nextParam = t2)) ∧
        (sphereStep L sc origin direction h i).nextMatIndex
          = sc.sphereMaterialIndex.getD i 0) := by
  unfold sphereStep
  cases hr : sphereRoots L sc origin direction i with
  | none =>
    exact ⟨le_refl _, fun t1 t2 h1 => (by cases h1), Or.inl rfl⟩
  | some r =>
    obtain ⟨r1, r2⟩ := r
    simp only []
    rcases sphereAccept_cases L sc origin direction i r1 h with ⟨ha, hb⟩ | ⟨ha, hm, hb, hc⟩
    · rw [ha]
      rcases sphereAccept_cases L sc origin direction i r2 h with ⟨ha2, hb2⟩ | ⟨ha2, hm2, hb2, hc2⟩
      · rw [ha2]
        refine ⟨le_refl _, ?_, Or.inl rfl⟩
        intro t1 t2 heq
        simp only [Option.some.injEq, Prod.mk.injEq] at heq
        obtain ⟨rfl, rfl⟩ := heq
        exact ⟨hb, hb2⟩
      · refine ⟨by rw [ha2]; exact le_of_lt hc2, ?_, Or.inr ⟨r1, r2, rfl, Or.inr ⟨hb2, ha2⟩, hm2⟩⟩
        intro t1 t2 heq
        simp only [Option.some.injEq, Prod.mk.injEq] at heq
        obtain ⟨rfl, rfl⟩ := heq
        rw [ha2]
        exact ⟨fun h1 => le_trans (le_of_lt hc2) (hb h1), fun _ => le_refl _⟩
    · rcases sphereAccept_cases L sc origin direction i r2
        (sphereAccept L sc origin direction i r1 h) with ⟨ha2, hb2⟩ | ⟨ha2, hm2, hb2, hc2⟩
      · rw [ha2]
        refine ⟨by rw [ha]; exact le_of_lt hc, ?_, Or.inr ⟨r1, r2, rfl, Or.inl ⟨hb, ha⟩, hm⟩⟩
        intro t1 t2 heq
        simp only [Option.some.injEq, Prod.mk.injEq] at heq
        obtain ⟨rfl, rfl⟩ := heq
        exact ⟨fun _ => by rw [ha], hb2⟩
      · rw [ha] at hc2
        refine ⟨by rw [ha2]; exact le_of_lt (lt_trans hc2 hc), ?_,
          Or.inr ⟨r1, r2, rfl, Or.inr ⟨hb2, ha2⟩, hm2⟩⟩
        intro t1 t2 heq
        simp only [Option.some.injEq, Prod.mk.injEq] at heq
        obtain ⟨rfl, rfl⟩ := heq
        rw [ha2]
        exact ⟨fun _ => le_of_lt hc2, fun _ => le_refl _⟩

/-- The invariant of the sphere loop after the first `n` spheres, from the state `h0`. -/
theorem sphereLoop_fold_spec (L : Libm K) (sc : Scene K) (origin direction : Vec3 K)
    (h0 : Hit K) (n : Nat) :
    ((List.range n).foldl (sphereStep L sc origin direction) h0).nextParam ≤ h0.nextParam ∧
    (∀ i, i < n → ∀ t1 t2, sphereRoots L sc origin direction i = some (t1, t2) →
      (hitEps < t1 →
        ((List.range n).foldl (sphereStep L sc origin direction) h0).nextParam ≤ t1) ∧
      (hitEps < t2 →
        ((List.range n).foldl (sphereStep L sc origin direction) h0).nextParam ≤ t2)) ∧
    ((List.range n).foldl (sphereStep L sc origin direction) h0 = h0 ∨
      ∃ i, i < n ∧ ∃ t1 t2, sphereRoots L sc origin direction i = some (t1, t2) ∧
        ((hitEps < t1 ∧
            ((List.range n).foldl (sphereStep L sc origin direction) h0).nextParam = t1) ∨
          (hitEps < t2 ∧
            ((List.range n).foldl (sphereStep L sc origin direction) h0).nextParam = t2)) ∧
        ((List.range n).foldl (sphereStep L sc origin direction) h0).nextMatIndex
          = sc.sphereMaterialIndex.getD i 0) := by
  induction n with
  | zero =>
    refine ⟨by simp, fun i hi => absurd hi (Nat.not_lt_zero i), Or.inl (by simp)⟩
  | succ n ih =>
    rw [List.range_succ, List.foldl_append]
    simp only [List.foldl_cons, List.foldl_nil]
    generalize (List.range n).foldl (sphereStep L sc origin direction) h0 = h at ih ⊢
    obtain ⟨ih1, ih2, ih3⟩ := ih
    obtain ⟨s1, s2, s3⟩ := sphereStep_cases L sc origin direction n h
    refine ⟨le_trans s1 ih1, ?_, ?_⟩
    · intro i hi t1 t2 hr
      rcases Nat.lt_succ_iff_lt_or_eq.mp hi with hi1 | hi1
      · obtain ⟨a, b⟩ := ih2 i hi1 t1 t2 hr
        exact ⟨fun h1 => le_trans s1 (a h1), fun h1 => le_trans s1 (b h1)⟩
      · subst hi1
        exact s2 t1 t2 hr
    · rcases s3 with hs | ⟨t1, t2, hr, hat, hm⟩
      · rw [hs]
        rcases ih3 with h1 | ⟨i, hi, h1⟩
        · exact Or.inl h1
        · exact Or.inr ⟨i, Nat.lt_succ_of_lt hi, h1⟩
      · exact Or.inr ⟨n, Nat.lt_succ_self n, t1, t2, hr, hat, hm⟩

theorem triAttr_nextParam (L : Libm K) (sc : Scene K) (indices : List Int) (best : TriBest K)
    (h : Hit K) : (triAttr L sc indices best h).nextParam = h.nextParam := by
  unfold triAttr
  split_ifs <;> rfl

theorem triAttr_neg (L : Libm K) (sc : Scene K) (indices : List Int) (best : TriBest K)
    (h : Hit K) (hneg : best.index = -1) : triAttr L sc indices best h = h := by
  unfold triAttr
  rw [if_neg (by rw [hneg]; decide)]

theorem triAttr_matIndex (L : Libm K) (sc : Scene K) (indices : List Int) (best : TriBest K)
    (h : Hit K) (k : Nat) (hk : best.index = ((3 * k : Nat) : Int)) :
    (triAttr L sc indices best h).nextMatIndex
      = getI sc.faceMaterialIndex (getI indices (k : Int) 0) 0 := by
  unfold triAttr
  have h0 : best.index ≥ 0 := by rw [hk]; exact Int.natCast_nonneg _
  have hdiv : best.index / 3 = (k : Int) := by
    rw [hk]
    push_cast
    exact Int.mul_ediv_cancel_left _ (by norm_num)
  rw [if_pos h0, hdiv]

/-- C2. Whenever `rayTrace` returns true, the returned `nextParam` is at most the
parameter `t > 1e-5` of every BVH-candidate triangle that passes the triangle test and
at most every root `> 1e-5` of every sphere, and it is attained: by a candidate
triangle, whose face's material index is the one returned, or by a root of a sphere,
whose material index is the one returned. -/
theorem rayTrace_nearest (L : Libm K) (sc : Scene K) (origin direction : Vec3 K)
    (hret : rayTrace L sc origin direction = true) :
    (∀ k, k < triCount (candidates sc origin direction).2.length → ∀ t u v,
      triTest (candidates sc origin direction).2 origin direction (3 * k) = some (t, u, v) →
      hitEps < t → (rayTraceOut L sc origin direction).nextParam ≤ t) ∧
    (∀ i, i < sc.sphereRadius.length → ∀ t1 t2,
      sphereRoots L sc origin direction i = some (t1, t2) →
      (hitEps < t1 → (rayTraceOut L sc origin direction).nextParam ≤ t1) ∧
      (hitEps < t2 → (rayTraceOut L sc origin direction).nextParam ≤ t2)) ∧
    ((∃ k, k < triCount (candidates sc origin direction).2.length ∧ ∃ t u v,
        triTest (candidates sc origin direction).2 origin direction (3 * k) = some (t, u, v) ∧
        hitEps < t ∧ (rayTraceOut L sc origin direction).nextParam = t ∧
        (rayTraceOut L sc origin direction).nextMatIndex
          = getI sc.faceMaterialIndex (getI (candidates sc origin direction).1 (k : Int) 0) 0) ∨
      (∃ i, i < sc.sphereRadius.length ∧ ∃ t1 t2,
        sphereRoots L sc origin direction i = some (t1, t2) ∧
        ((hitEps < t1 ∧ (rayTraceOut L sc origin direction).nextParam = t1) ∨
          (hitEps < t2 ∧ (rayTraceOut L sc origin direction).nextParam = t2)) ∧
        (rayTraceOut L sc origin direction).nextMatIndex
          = sc.sphereMaterialIndex.getD i 0)) := by
  unfold rayTrace at hret
  rw [decide_eq_true_eq] at hret
  unfold rayTraceOut sphereLoop at hret ⊢
  simp only [] at hret ⊢
  obtain ⟨tb, tat⟩ := triLoop_spec (candidates sc origin direction).2 origin direction
  generalize hbest : triLoop (candidates sc origin direction).2 origin direction = best
    at hret tb tat ⊢
  generalize hh0 : triAttr L sc (candidates sc origin direction).1 best
    ⟨best.nextParam, -1, ⟨0, 0, 0⟩, ⟨0, 0⟩⟩ = h0 at hret ⊢
  have hp0 : h0.nextParam = best.nextParam := by
    rw [← hh0, triAttr_nextParam]
  obtain ⟨s1, s2, s3⟩ :=
    sphereLoop_fold_spec L sc origin direction h0 sc.sphereRadius.length
  generalize (List.range sc.sphereRadius.length).foldl
    (sphereStep L sc origin direction) h0 = H at hret s1 s2 s3 ⊢
  refine ⟨?_, s2, ?_⟩
  · intro k hk t u v ht hpos
    exact le_trans s1 (by rw [hp0]; exact tb k hk t u v ht hpos)
  · rcases s3 with hs | hs
    · left
      subst hs
      rcases tat with hnone | ⟨k, hk, hidx, htest, hpos, _⟩
      · exfalso
        have hidx : best.index = -1 := by rw [hnone]
        rw [← hh0, triAttr_neg L sc _ best _ hidx] at hret
        exact absurd hret (by show ¬ (0 : Int) ≤ -1; decide)
      · refine ⟨k, hk, best.nextParam, best.minU, best.minV, htest, hpos, hp0, ?_⟩
        rw [← hh0]
        exact triAttr_matIndex L sc _ best _ k hidx
    · right
      exact hs

/-- C2 (witness): the unit sphere at the origin seen from `(-5, 0, 0)` toward its
centre; `rayTrace` returns true and the minimum is attained by a root of the sphere. -/
theorem rayTrace_nearest_witness :
    (∃ k, k < triCount (candidates (Scene.oneSphere (⟨0, 0, 0⟩ : Vec3 ℚ) 1 defaultMaterial
        quatId) ⟨-5, 0, 0⟩ (((⟨0, 0, 0⟩ : Vec3 ℚ).sub ⟨-5, 0, 0⟩).sdiv 5)).2.length ∧ ∃ t u v,
        triTest (candidates (Scene.oneSphere (⟨0, 0, 0⟩ : Vec3 ℚ) 1 defaultMaterial quatId)
          ⟨-5, 0, 0⟩ (((⟨0, 0, 0⟩ : Vec3 ℚ).sub ⟨-5, 0, 0⟩).sdiv 5)).2 ⟨-5, 0, 0⟩
          (((⟨0, 0, 0⟩ : Vec3 ℚ).sub ⟨-5, 0, 0⟩).sdiv 5) (3 * k) = some (t, u, v) ∧
        hitEps < t ∧
        (rayTraceOut ratLibm (Scene.oneSphere ⟨0, 0, 0⟩ 1 defaultMaterial quatId) ⟨-5, 0, 0⟩
          (((⟨0, 0, 0⟩ : Vec3 ℚ).sub ⟨-5, 0, 0⟩).sdiv 5)).nextParam = t ∧
        (rayTraceOut ratLibm (Scene.oneSphere ⟨0, 0, 0⟩ 1 defaultMaterial quatId) ⟨-5, 0, 0⟩
          (((⟨0, 0, 0⟩ : Vec3 ℚ).sub ⟨-5, 0, 0⟩).sdiv 5)).nextMatIndex
          = getI (Scene.oneSphere (⟨0, 0, 0⟩ : Vec3 ℚ) 1 defaultMaterial
              quatId).faceMaterialIndex
            (getI (candidates (Scene.oneSphere (⟨0, 0, 0⟩ : Vec3 ℚ) 1 defaultMaterial quatId)
              ⟨-5, 0, 0⟩ (((⟨0, 0, 0⟩ : Vec3 ℚ).sub ⟨-5, 0, 0⟩).sdiv 5)).1 (k : Int) 0) 0) ∨
      (∃ i, i < (Scene.oneSphere (⟨0, 0, 0⟩ : Vec3 ℚ) 1 defaultMaterial
          quatId).sphereRadius.length ∧ ∃ t1 t2,
        sphereRoots ratLibm (Scene.oneSphere ⟨0, 0, 0⟩ 1 defaultMaterial quatId) ⟨-5, 0, 0⟩
          (((⟨0, 0, 0⟩ : Vec3 ℚ).sub ⟨-5, 0, 0⟩).sdiv 5) i = some (t1, t2) ∧
        ((hitEps < t1 ∧
            (rayTraceOut ratLibm (Scene.oneSphere ⟨0, 0, 0⟩ 1 defaultMaterial quatId)
              ⟨-5, 0, 0⟩ (((⟨0, 0, 0⟩ : Vec3 ℚ).sub ⟨-5, 0, 0⟩).sdiv 5)).nextParam = t1) ∨
          (hitEps < t2 ∧
            (rayTraceOut ratLibm (Scene.oneSphere ⟨0, 0, 0⟩ 1 defaultMaterial quatId)
              ⟨-5, 0, 0⟩ (((⟨0, 0, 0⟩ : Vec3 ℚ).sub ⟨-5, 0, 0⟩).sdiv 5)).nextParam = t2)) ∧
        (rayTraceOut ratLibm (Scene.oneSphere ⟨0, 0, 0⟩ 1 defaultMaterial quatId) ⟨-5, 0, 0⟩
          (((⟨0, 0, 0⟩ : Vec3 ℚ).sub ⟨-5, 0, 0⟩).sdiv 5)).nextMatIndex
          = (Scene.oneSphere (⟨0, 0, 0⟩ : Vec3 ℚ) 1 defaultMaterial
              quatId).sphereMaterialIndex.getD i 0) :=
  (rayTrace_nearest ratLibm (Scene.oneSphere ⟨0, 0, 0⟩ 1 defaultMaterial quatId) ⟨-5, 0, 0⟩
    (((⟨0, 0, 0⟩ : Vec3 ℚ).sub ⟨-5, 0, 0⟩).sdiv 5)
    (oneSphere_center_hit ratLibm ⟨0, 0, 0⟩ ⟨-5, 0, 0⟩ 1 5 defaultMaterial quatId
      (by norm_num) (by norm_num [Vec3.dot, Vec3.sub]) (by norm_num)
      (ratLibm_sqrt_sq 1 (by norm_num)) (by norm_num [hitEps])
      (by norm_num [FLT_MAX])).2.1).2.2

/-! ## The traversal loop and the recursive descent -/

/-- The traversal loop with a stack appends, to what it has gathered, the descent of
the current node and then of the stacked nodes, the top of the stack first. -/
theorem collectLoop_eq (origin direction : Vec3 K) (n : Nat) :
    ∀ (cur : BVH K) (stack : List (BVH K)) (indices : List Int) (verts : List (Vec3 K)),
      cur.size + (stack.map BVH.size).sum ≤ n →
      BVH.collectLoop origin direction cur stack indices verts =
        (indices ++ (BVH.collectRec origin direction cur).1 ++
            (stack.map (fun m => (BVH.collectRec origin direction m).1)).flatten,
          verts ++ (BVH.collectRec origin direction cur).2 ++
            (stack.map (fun m => (BVH.collectRec origin direction m).2)).flatten) := by
  induction n with
  | zero =>
    intro cur stack indices verts h
    cases cur <;> simp only [BVH.size] at h <;> omega
  | succ n ih =>
    intro cur stack indices verts h
    cases cur with
    | leaf b vs is =>
      cases stack with
      | nil =>
        rw [BVH.collectLoop]
        simp only [BVH.checkIntersection, BVH.box, BVH.collectRec]
        by_cases hc : checkIntersectionBox b origin direction = true
        · simp [if_pos hc]
        · simp [if_neg hc]
      | cons top rest =>
        rw [BVH.collectLoop]
        simp only [BVH.checkIntersection, BVH.box, BVH.collectRec]
        simp only [BVH.size, List.map_cons, List.sum_cons] at h
        have hsz : top.size + (rest.map BVH.size).sum ≤ n := by omega
        by_cases hc : ¬ checkIntersectionBox b origin direction = true
        · simp only [if_neg hc]
          rw [ih top rest _ _ hsz]
          simp [List.append_assoc]
        · simp only [if_pos (not_not.mp hc)]
          rw [ih top rest _ _ hsz]
          simp [List.append_assoc]
    | inner b l r =>
      simp only [BVH.size] at h
      cases stack with
      | nil =>
        rw [BVH.collectLoop]
        simp only [BVH.checkIntersection, BVH.box, BVH.collectRec]
        simp only [List.map_nil, List.sum_nil] at h
        have hsz : r.size + ([l].map BVH.size).sum ≤ n := by
          simp only [List.map_cons, List.sum_cons, List.map_nil, List.sum_nil]
          omega
        by_cases hc : ¬ checkIntersectionBox b origin direction = true
        · simp [if_neg hc]
        · simp only [if_pos (not_not.mp hc)]
          rw [ih r [l] _ _ hsz]
          simp [List.append_assoc]
      | cons top rest =>
        rw [BVH.collectLoop]
        simp only [BVH.checkIntersection, BVH.box, BVH.collectRec]
        simp only [List.map_cons, List.sum_cons] at h
        have hsz1 : top.size + (rest.map BVH.size).sum ≤ n := by omega
        have hsz2 : r.size + ((l :: top :: rest).map BVH.size).sum ≤ n := by
          simp only [List.map_cons, List.sum_cons]
          omega
        by_cases hc : ¬ checkIntersectionBox b origin direction = true
        · simp only [if_neg hc]
          rw [ih top rest _ _ hsz1]
          simp [List.append_assoc]
        · simp only [if_pos (not_not.mp hc)]
          rw [ih r (l :: top :: rest) _ _ hsz2]
          simp [List.append_assoc]

/-- The candidates of `Scene::rayTrace` are the result of the recursive descent. -/
theorem candidates_eq (sc : Scene K) (origin direction : Vec3 K) :
    candidates sc origin direction = BVH.collectRec origin direction sc.bvh := by
  unfold candidates
  rw [collectLoop_eq origin direction _ sc.bvh [] [] [] (le_refl _)]
  simp

/-! ## Triangles of vertex lists -/

theorem triCount_add_three (n : Nat) : triCount (n + 3) = triCount n + 1 := by
  unfold triCount; omega

theorem mem_taggedTris {v : List (Vec3 K)} {ind : List Int}
    {τ : Int × Vec3 K × Vec3 K × Vec3 K} :
    τ ∈ taggedTris v ind ↔ ∃ k, k < triCount v.length ∧
      τ = (ind.getD k 0, vget v (3 * k), vget v (3 * k + 1), vget v (3 * k + 2)) := by
  simp only [taggedTris, List.mem_map, List.mem_range]
  constructor
  · rintro ⟨k, hk, h⟩
    exact ⟨k, hk, h.symm⟩
  · rintro ⟨k, hk, h⟩
    exact ⟨k, hk, h.symm⟩

theorem taggedTris_nil (ind : List Int) : taggedTris ([] : List (Vec3 K)) ind = [] := by
  simp [taggedTris, triCount]

/-- The first triangle of a vertex list and the rest. -/
theorem taggedTris_cons (a b c : Vec3 K) (v : List (Vec3 K)) (i : Int) (ind : List Int) :
    taggedTris (a :: b :: c :: v) (i :: ind) = (i, a, b, c) :: taggedTris v ind := by
  unfold taggedTris
  have hlen : (a :: b :: c :: v).length = v.length + 3 := by simp
  rw [hlen, triCount_add_three, List.range_succ_eq_map, List.map_cons, List.map_map]
  congr 1

/-- The triangles of two lists put end to end, when the first holds whole triangles. -/
theorem taggedTris_append (ind jnd : List Int) :
    ∀ (v w : List (Vec3 K)), v.length = 3 * ind.length →
      taggedTris (v ++ w) (ind ++ jnd) = taggedTris v ind ++ taggedTris w jnd := by
  induction ind with
  | nil =>
    intro v w h
    have hv : v = [] := List.length_eq_zero.mp (by simpa using h)
    subst hv
    simp [taggedTris_nil]
  | cons i ind ih =>
    intro v w h
    match v, h with
    | a :: b :: c :: v1, h =>
      have h1 : v1.length = 3 * ind.length := by
        simp only [List.length_cons] at h; omega
      simp only [List.cons_append]
      rw [taggedTris_cons, taggedTris_cons, ih v1 w h1]
      rfl
    | [], h => simp at h
    | [_], h => simp only [List.length_cons, List.length_nil] at h; omega
    | [_, _], h => simp only [List.length_cons, List.length_nil] at h; omega

/-- The triangles gathered for a run of `monoIndex` entries. -/
theorem taggedTris_gather (v : List (Vec3 K)) (ind : List Int) (es : List (K × Nat)) :
    taggedTris (gatherVerts v es) (gatherInd ind es) =
      es.map (fun e => (ind.getD (e.2 / 3) 0, vget v e.2, vget v (e.2 + 1), vget v (e.2 + 2))) := by
  induction es with
  | nil => simp [gatherVerts, gatherInd, taggedTris_nil]
  | cons e es ih =>
    have hv : gatherVerts v (e :: es) =
        vget v e.2 :: vget v (e.2 + 1) :: vget v (e.2 + 2) :: gatherVerts v es := by
      simp [gatherVerts]
    have hi : gatherInd ind (e :: es) = ind.getD (e.2 / 3) 0 :: gatherInd ind es := by
      simp [gatherInd]
    rw [hv, hi, taggedTris_cons, ih]
    rfl

/-- The entries of `monoIndex` are the triangle start indices `3k`. -/
theorem mem_monoIndex {v : List (Vec3 K)} {axis : Fin 3} {e : K × Nat} :
    e ∈ monoIndex v axis ↔ ∃ k, k < triCount v.length ∧ e = (triMidValue v axis (3 * k), 3 * k) := by
  unfold monoIndex
  rw [(List.perm_insertionSort _ _).mem_iff]
  simp only [List.mem_map, List.mem_range]
  constructor
  · rintro ⟨k, hk, h⟩
    exact ⟨k, hk, h.symm⟩
  · rintro ⟨k, hk, h⟩
    exact ⟨k, hk, h.symm⟩

/-- The two children of an internal node hold, together, the triangles of the node. -/
theorem mem_gather_split (v : List (Vec3 K)) (ind : List Int) (axis : Fin 3) (half : Nat)
    (τ : Int × Vec3 K × Vec3 K × Vec3 K) :
    (τ ∈ taggedTris (gatherVerts v ((monoIndex v axis).take half))
          (gatherInd ind ((monoIndex v axis).take half)) ∨
      τ ∈ taggedTris (gatherVerts v ((monoIndex v axis).drop half))
          (gatherInd ind ((monoIndex v axis).drop half)))
      ↔ τ ∈ taggedTris v ind := by
  rw [taggedTris_gather, taggedTris_gather, ← List.mem_append, ← List.map_append,
    List.take_append_drop, mem_taggedTris]
  simp only [List.mem_map]
  constructor
  · rintro ⟨e, he, h⟩
    obtain ⟨k, hk, rfl⟩ := mem_monoIndex.mp he
    refine ⟨k, hk, ?_⟩
    rw [← h]
    simp
  · rintro ⟨k, hk, h⟩
    refine ⟨(triMidValue v axis (3 * k), 3 * k), mem_monoIndex.mpr ⟨k, hk, rfl⟩, ?_⟩
    rw [h]
    simp

/-! ## Bounding boxes of the tree -/

theorem cwiseMin_get (a b : Vec3 K) (i : Fin 3) : (a.cwiseMin b).get i = min (a.get i) (b.get i) := by
  fin_cases i <;> rfl

theorem cwiseMax_get (a b : Vec3 K) (i : Fin 3) : (a.cwiseMax b).get i = max (a.get i) (b.get i) := by
  fin_cases i <;> rfl

/-- Extending a box by a list of points only widens it, and it then holds the points. -/
theorem foldl_extend_bounds (v : List (Vec3 K)) :
    ∀ (b : AlignedBox3 K) (i : Fin 3),
      (v.foldl AlignedBox3.extend b).m_min.get i ≤ b.m_min.get i ∧
      b.m_max.get i ≤ (v.foldl AlignedBox3.extend b).m_max.get i ∧
      ∀ p ∈ v, (v.foldl AlignedBox3.extend b).m_min.get i ≤ p.get i ∧
        p.get i ≤ (v.foldl AlignedBox3.extend b).m_max.get i := by
  induction v with
  | nil =>
    intro b i
    exact ⟨le_refl _, le_refl _, fun p hp => absurd hp (List.not_mem_nil p)⟩
  | cons q v ih =>
    intro b i
    simp only [List.foldl_cons]
    obtain ⟨h1, h2, h3⟩ := ih (b.extend q) i
    have hmin : (b.extend q).m_min.get i = min (b.m_min.get i) (q.get i) := cwiseMin_get _ _ i
    have hmax : (b.extend q).m_max.get i = max (b.m_max.get i) (q.get i) := cwiseMax_get _ _ i
    rw [hmin] at h1
    rw [hmax] at h2
    refine ⟨le_trans h1 (min_le_left _ _), le_trans (le_max_left _ _) h2, ?_⟩
    intro p hp
    rcases List.mem_cons.mp hp with rfl | hp1
    · exact ⟨le_trans h1 (min_le_right _ _), le_trans (le_max_right _ _) h2⟩
    · exact h3 p hp1

theorem boundOf_contains (v : List (Vec3 K)) (p : Vec3 K) (hp : p ∈ v) :
    (boundOf v).contains p := by
  intro i
  exact (foldl_extend_bounds v AlignedBox3.empty i).2.2 p hp

theorem vget_mem (v : List (Vec3 K)) (j : Nat) (hj : j < v.length) : vget v j ∈ v := by
  unfold vget
  rw [List.getD_eq_getElem v _ hj]
  exact List.getElem_mem hj

/-- The box of a vertex list holds the vertices of each of its whole triangles. -/
theorem boundOf_contains_tris (v : List (Vec3 K)) (ind : List Int) (h3 : v.length % 3 = 0)
    (τ : Int × Vec3 K × Vec3 K × Vec3 K) (hτ : τ ∈ taggedTris v ind) :
    (boundOf v).contains τ.2.1 ∧ (boundOf v).contains τ.2.2.1 ∧
      (boundOf v).contains τ.2.2.2 := by
  obtain ⟨k, hk, rfl⟩ := mem_taggedTris.mp hτ
  have hk2 : 3 * k + 2 < v.length := by
    unfold triCount at hk; omega
  exact ⟨boundOf_contains v _ (vget_mem v _ (by omega)),
    boundOf_contains v _ (vget_mem v _ (by omega)),
    boundOf_contains v _ (vget_mem v _ hk2)⟩

/-- A box that holds the three vertices of a triangle holds its points. -/
theorem contains_convex (bx : AlignedBox3 K) (p0 p1 p2 : Vec3 K) (u v : K)
    (h0 : bx.contains p0) (h1 : bx.contains p1) (h2 : bx.contains p2)
    (hu : 0 ≤ u) (hv : 0 ≤ v) (huv : u + v ≤ 1) :
    bx.contains ((p0.add (Vec3.smul u (p1.sub p0))).add (Vec3.smul v (p2.sub p0))) := by
  intro i
  rw [add_get, add_get, smul_get, smul_get, sub_get, sub_get]
  obtain ⟨a0, b0⟩ := h0 i
  obtain ⟨a1, b1⟩ := h1 i
  obtain ⟨a2, b2⟩ := h2 i
  have hw : 0 ≤ 1 - u - v := by linarith
  constructor
  · have e : p0.get i + u * (p1.get i - p0.get i) + v * (p2.get i - p0.get i) - bx.m_min.get i
        = (1 - u - v) * (p0.get i - bx.m_min.get i) + u * (p1.get i - bx.m_min.get i)
          + v * (p2.get i - bx.m_min.get i) := by ring
    have : 0 ≤ (1 - u - v) * (p0.get i - bx.m_min.get i) + u * (p1.get i - bx.m_min.get i)
          + v * (p2.get i - bx.m_min.get i) := by
      have t0 := mul_nonneg hw (sub_nonneg.mpr a0)
      have t1 := mul_nonneg hu (sub_nonneg.mpr a1)
      have t2 := mul_nonneg hv (sub_nonneg.mpr a2)
      linarith
    linarith
  · have e : bx.m_max.get i - (p0.get i + u * (p1.get i - p0.get i) + v * (p2.get i - p0.get i))
        = (1 - u - v) * (bx.m_max.get i - p0.get i) + u * (bx.m_max.get i - p1.get i)
          + v * (bx.m_max.get i - p2.get i) := by ring
    have : 0 ≤ (1 - u - v) * (bx.m_max.get i - p0.get i) + u * (bx.m_max.get i - p1.get i)
          + v * (bx.m_max.get i - p2.get i) := by
      have t0 := mul_nonneg hw (sub_nonneg.mpr b0)
      have t1 := mul_nonneg hu (sub_nonneg.mpr b1)
      have t2 := mul_nonneg hv (sub_nonneg.mpr b2)
      linarith
    linarith

/-- A ray that the triangle test accepts passes the box test of every box that holds
the triangle, when every direction component is at least `FLT_EPSILON` in absolute
value, or is not zero with the origin inside the slab of the box. -/
theorem checkIntersectionBox_of_triTest (bx : AlignedBox3 K) (verts : List (Vec3 K))
    (origin direction : Vec3 K) (i : Nat) (t u v : K)
    (h : triTest verts origin direction i = some (t, u, v))
    (ht1 : hitEps < t) (ht2 : t < FLT_MAX)
    (hd : ∀ j : Fin 3, direction.get j ≠ 0)
    (hpar : ∀ j : Fin 3, |direction.get j| < FLT_EPSILON →
      bx.m_min.get j ≤ origin.get j ∧ origin.get j ≤ bx.m_max.get j)
    (h0 : bx.contains (vget verts i)) (h1 : bx.contains (vget verts (i + 1)))
    (h2 : bx.contains (vget verts (i + 2))) :
    checkIntersectionBox bx origin direction = true := by
  obtain ⟨_, _, _, _, hu0, _, hv0, huv⟩ := triTest_some h
  have hpt := triTest_point h
  have hin := contains_convex bx _ _ _ u v h0 h1 h2 hu0 hv0 huv
  rw [← hpt] at hin
  refine checkIntersectionBox_hit bx origin direction t hd hpar ?_
    (le_of_lt (lt_trans FLT_MIN_lt_hitEps ht1)) (le_of_lt ht2)
  intro j
  have := hin j
  rw [add_get, smul_get] at this
  exact this

/-! ## The tree built by `BVH::build` -/

omit [LinearOrderedField K] in
theorem gatherInd_length (ind : List Int) (es : List (K × Nat)) :
    (gatherInd ind es).length = es.length := by
  simp [gatherInd]

/-- The tree built from whole triangles: every leaf stores three vertices per face
index, the leaves hold exactly the triangles of the input, and every node's box holds
the triangles below it. -/
theorem buildWith_inv (n : Nat) :
    ∀ (v : List (Vec3 K)) (ind : List Int), ind.length ≤ n → v.length = 3 * ind.length →
      (buildWith v ind).aligned ∧
      (∀ τ, τ ∈ (buildWith v ind).leafTris ↔ τ ∈ taggedTris v ind) ∧
      (buildWith v ind).boxesBound := by
  induction n with
  | zero =>
    intro v ind hn hlen
    have h3 : ind.length ≤ 3 := by omega
    rw [buildWith, dif_pos h3]
    refine ⟨hlen, fun τ => Iff.rfl, ?_⟩
    intro τ hτ
    exact boundOf_contains_tris v ind (by omega) τ hτ
  | succ n ih =>
    intro v ind hn hlen
    by_cases h3 : ind.length ≤ 3
    · rw [buildWith, dif_pos h3]
      refine ⟨hlen, fun τ => Iff.rfl, ?_⟩
      intro τ hτ
      exact boundOf_contains_tris v ind (by omega) τ hτ
    · rw [buildWith, dif_neg h3]
      have hm : (monoIndex v (splitAxis (boundOf v).sizes)).length = ind.length := by
        rw [monoIndex_length, hlen, triCount_three_mul]
      generalize hes : monoIndex v (splitAxis (boundOf v).sizes) = es at hm
      have hL : (gatherInd ind (es.take (es.length / 2))).length ≤ n := by
        rw [gatherInd_length, List.length_take]; omega
      have hR : (gatherInd ind (es.drop (es.length / 2))).length ≤ n := by
        rw [gatherInd_length, List.length_drop]; omega
      have hLlen : (gatherVerts v (es.take (es.length / 2))).length
          = 3 * (gatherInd ind (es.take (es.length / 2))).length := by
        rw [gatherVerts_length, gatherInd_length]
      have hRlen : (gatherVerts v (es.drop (es.length / 2))).length
          = 3 * (gatherInd ind (es.drop (es.length / 2))).length := by
        rw [gatherVerts_length, gatherInd_length]
      obtain ⟨aL, mL, bL⟩ := ih _ _ hL hLlen
      obtain ⟨aR, mR, bR⟩ := ih _ _ hR hRlen
      have hmem : ∀ τ, τ ∈ (BVH.inner (boundOf v)
          (buildWith (gatherVerts v (es.take (es.length / 2)))
            (gatherInd ind (es.take (es.length / 2))))
          (buildWith (gatherVerts v (es.drop (es.length / 2)))
            (gatherInd ind (es.drop (es.length / 2))))).leafTris ↔ τ ∈ taggedTris v ind := by
        intro τ
        simp only [BVH.leafTris, List.mem_append, mL, mR]
        rw [← hes]
        exact mem_gather_split v ind _ _ τ
      refine ⟨⟨aL, aR⟩, hmem, ⟨?_, bL, bR⟩⟩
      intro τ hτ
      exact boundOf_contains_tris v ind (by omega) τ ((hmem τ).mp hτ)

/-- The tree built by `BVH::build` from a vertex list of whole triangles. -/
theorem build_inv (v : List (Vec3 K)) (h3 : v.length % 3 = 0) :
    (build v).aligned ∧
    (∀ τ, τ ∈ (build v).leafTris ↔
      τ ∈ taggedTris v ((List.range (triCount v.length)).map (fun (i : Nat) => (i : Int)))) ∧
    (build v).boxesBound := by
  unfold build
  refine buildWith_inv _ v _ (le_refl _) ?_
  simp only [List.length_map, List.length_range, triCount]
  omega

/-! ## What the descent gathers -/

theorem collectRec_aligned (origin direction : Vec3 K) (n : BVH K) (ha : n.aligned) :
    (BVH.collectRec origin direction n).2.length
      = 3 * (BVH.collectRec origin direction n).1.length := by
  induction n with
  | leaf b vs is =>
    simp only [BVH.collectRec]
    split_ifs
    · exact ha
    · rfl
  | inner b l r ihl ihr =>
    simp only [BVH.collectRec]
    split_ifs
    · simp only [List.length_append, ihl ha.1, ihr ha.2]
      ring
    · rfl

/-- Every gathered triangle is a triangle stored in a leaf of the tree. -/
theorem collectRec_sound (origin direction : Vec3 K) (n : BVH K) (ha : n.aligned)
    (τ : Int × Vec3 K × Vec3 K × Vec3 K)
    (hτ : τ ∈ taggedTris (BVH.collectRec origin direction n).2
      (BVH.collectRec origin direction n).1) : τ ∈ n.leafTris := by
  induction n with
  | leaf b vs is =>
    simp only [BVH.collectRec] at hτ
    split_ifs at hτ
    · exact hτ
    · simp [taggedTris_nil] at hτ
  | inner b l r ihl ihr =>
    simp only [BVH.collectRec] at hτ
    split_ifs at hτ
    · simp only [] at hτ
      rw [taggedTris_append _ _ _ _ (collectRec_aligned origin direction r ha.2)] at hτ
      simp only [BVH.leafTris, List.mem_append]
      rcases List.mem_append.mp hτ with h | h
      · exact Or.inr (ihr ha.2 h)
      · exact Or.inl (ihl ha.1 h)
    · simp [taggedTris_nil] at hτ

/-! ## The BVH-accelerated nearest triangle against the brute-force pass -/

theorem abs_ge_eps_ne_zero {x : K} (h : FLT_EPSILON ≤ |x|) : x ≠ 0 := by
  intro hx
  rw [hx, abs_zero] at h
  exact absurd FLT_EPSILON_pos (not_lt.mpr h)

/-- The triangle loop over a single triangle is one pass from the initial state. -/
theorem triLoop_single (verts : List (Vec3 K)) (origin direction : Vec3 K)
    (h : verts.length = 3) :
    triLoop verts origin direction = triStep verts origin direction ⟨FLT_MAX, 0, 0, -1⟩ 0 := by
  simp [triLoop, triCount, h, List.range_succ]

/-! ## A ray through an interior point of a triangle -/

/-- The triangle test returns the parameter and the barycentric weights of a ray
point given by its weights, when the determinant passes the `FLT_EPSILON` guard. -/
theorem triTest_of_point (p0 p1 p2 origin direction : Vec3 K) (w0 w1 w2 t : K)
    (hw0 : 0 ≤ w0) (hw1 : 0 ≤ w1) (hw2 : 0 ≤ w2) (hsum : w0 + w1 + w2 = 1)
    (hq : origin.add (Vec3.smul t direction)
      = ((Vec3.smul w0 p0).add (Vec3.smul w1 p1)).add (Vec3.smul w2 p2))
    (hdet : FLT_EPSILON ≤ |(p1.sub p0).dot (direction.cross (p2.sub p0))|) :
    triTest [p0, p1, p2] origin direction 0 = some (t, w1, w2) := by
  have hdet0 : (p1.sub p0).dot (direction.cross (p2.sub p0)) ≠ 0 := abs_ge_eps_ne_zero hdet
  have hw : w0 = 1 - w1 - w2 := by linarith
  subst hw
  rw [Vec3.ext_iff3] at hq
  simp only [Vec3.add, Vec3.smul] at hq
  obtain ⟨hx, hy, hz⟩ := hq
  have ox : origin.x = (1 - w1 - w2) * p0.x + w1 * p1.x + w2 * p2.x - t * direction.x := by
    linarith
  have oy : origin.y = (1 - w1 - w2) * p0.y + w1 * p1.y + w2 * p2.y - t * direction.y := by
    linarith
  have oz : origin.z = (1 - w1 - w2) * p0.z + w1 * p1.z + w2 * p2.z - t * direction.z := by
    linarith
  have hu : (origin.sub p0).dot (direction.cross (p2.sub p0))
      * (1 / (p1.sub p0).dot (direction.cross (p2.sub p0))) = w1 := by
    rw [mul_one_div, div_eq_iff hdet0]
    simp only [Vec3.dot, Vec3.cross, Vec3.sub, ox, oy, oz]
    ring
  have hv : direction.dot ((origin.sub p0).cross (p1.sub p0))
      * (1 / (p1.sub p0).dot (direction.cross (p2.sub p0))) = w2 := by
    rw [mul_one_div, div_eq_iff hdet0]
    simp only [Vec3.dot, Vec3.cross, Vec3.sub, ox, oy, oz]
    ring
  have ht : (p2.sub p0).dot ((origin.sub p0).cross (p1.sub p0))
      * (1 / (p1.sub p0).dot (direction.cross (p2.sub p0))) = t := by
    rw [mul_one_div, div_eq_iff hdet0]
    simp only [Vec3.dot, Vec3.cross, Vec3.sub, ox, oy, oz]
    ring
  have hv0 : vget [p0, p1, p2] 0 = p0 := rfl
  have hv1 : vget [p0, p1, p2] (0 + 1) = p1 := rfl
  have hv2 : vget [p0, p1, p2] (0 + 2) = p2 := rfl
  simp only [triTest, hv0, hv1, hv2, hu, hv, ht]
  rw [if_neg (not_lt.mpr hdet), if_neg (by push_neg; exact ⟨hw1, by linarith⟩),
    if_neg (by push_neg; exact ⟨hw2, by linarith⟩)]

theorem build_three (p0 p1 p2 : Vec3 K) :
    build [p0, p1, p2] = BVH.leaf (boundOf [p0, p1, p2]) [p0, p1, p2] [0] := by
  unfold build
  rw [buildWith]
  simp [triCount, List.range_succ]

/-- The candidates on a one-triangle scene: the triangle, or nothing. -/
theorem candidates_oneTriangle (p0 p1 p2 n0 n1 n2 : Vec3 K) (uv0 uv1 uv2 : Vec2 K)
    (mat : Material K) (origin direction : Vec3 K) :
    candidates (Scene.oneTriangle p0 p1 p2 n0 n1 n2 uv0 uv1 uv2 mat) origin direction =
      if checkIntersectionBox (boundOf [p0, p1, p2]) origin direction then
        ([0], [p0, p1, p2]) else ([], []) := by
  simp only [candidates, Scene.oneTriangle, Scene.buildBVH, Scene.loadObject, Scene.empty,
    List.nil_append, build_three, collectLoop_leaf_nil, BVH.checkIntersection, BVH.box]

/-- On a one-triangle scene the outputs are those of the attribute block. -/
theorem rayTraceOut_oneTriangle (L : Libm K) (p0 p1 p2 n0 n1 n2 : Vec3 K) (uv0 uv1 uv2 : Vec2 K)
    (mat : Material K) (origin direction : Vec3 K) :
    rayTraceOut L (Scene.oneTriangle p0 p1 p2 n0 n1 n2 uv0 uv1 uv2 mat) origin direction =
      triAttr L (Scene.oneTriangle p0 p1 p2 n0 n1 n2 uv0 uv1 uv2 mat)
        (candidates (Scene.oneTriangle p0 p1 p2 n0 n1 n2 uv0 uv1 uv2 mat) origin direction).1
        (triLoop (candidates (Scene.oneTriangle p0 p1 p2 n0 n1 n2 uv0 uv1 uv2 mat)
          origin direction).2 origin direction)
        ⟨(triLoop (candidates (Scene.oneTriangle p0 p1 p2 n0 n1 n2 uv0 uv1 uv2 mat)
          origin direction).2 origin direction).nextParam, -1, ⟨0, 0, 0⟩, ⟨0, 0⟩⟩ := by
  have hs : (Scene.oneTriangle p0 p1 p2 n0 n1 n2 uv0 uv1 uv2 mat).sphereRadius = [] := rfl
  simp only [rayTraceOut, sphereLoop, hs, List.length_nil, List.range_zero, List.foldl_nil]

/-- The slab of the bounding box of a triangle holds what lies between the least and
the greatest vertex coordinate. -/
theorem boundOf_three_slab (p0 p1 p2 : Vec3 K) (j : Fin 3) (x : K)
    (h : min (min (p0.get j) (p1.get j)) (p2.get j) ≤ x ∧
      x ≤ max (max (p0.get j) (p1.get j)) (p2.get j)) :
    (boundOf [p0, p1, p2]).m_min.get j ≤ x ∧ x ≤ (boundOf [p0, p1, p2]).m_max.get j := by
  have b0 := boundOf_contains [p0, p1, p2] p0 (by simp) j
  have b1 := boundOf_contains [p0, p1, p2] p1 (by simp) j
  have b2 := boundOf_contains [p0, p1, p2] p2 (by simp) j
  exact ⟨le_trans (le_min (le_min b0.1 b1.1) b2.1) h.1,
    le_trans h.2 (max_le (max_le b0.2 b1.2) b2.2)⟩

/-! ## Building on an empty vertex list -/

theorem empty_isEmpty : (AlignedBox3.empty : AlignedBox3 K).isEmpty := by
  unfold AlignedBox3.isEmpty AlignedBox3.empty Vec3.const
  left
  have h : (0 : K) < FLT_MAX := lt_of_lt_of_le one_pos one_le_FLT_MAX
  simp only
  linarith

/-- C14. `BVH::build` on an empty vertex list yields a leaf with the empty bounding
box, no vertices and no face indices; for every ray the traversal of `Scene::rayTrace`
over that tree gathers no candidate, and, when the scene has no spheres, `rayTrace`
returns false. -/
theorem build_empty (L : Libm K) (sc : Scene K) (origin direction : Vec3 K) :
    build ([] : List (Vec3 K)) = BVH.leaf AlignedBox3.empty [] [] ∧
    (build ([] : List (Vec3 K))).isLeaf = true ∧
    (build ([] : List (Vec3 K))).box.isEmpty ∧
    (sc.bvh = build [] →
      candidates sc origin direction = ([], []) ∧
      (sc.sphereRadius = [] → rayTrace L sc origin direction = false)) := by
  refine ⟨build_nil, by rw [build_nil]; rfl, by rw [build_nil]; exact empty_isEmpty, ?_⟩
  intro hb
  have hc : candidates sc origin direction = ([], []) := by
    unfold candidates
    rw [hb, build_nil, collectLoop_leaf_nil]
    split_ifs <;> rfl
  refine ⟨hc, ?_⟩
  intro hs
  simp only [rayTrace, rayTraceOut, hc, triLoop_nil, sphereLoop, hs, List.length_nil,
    List.range_zero, List.foldl_nil]
  rw [triAttr_neg _ _ _ _ _ rfl]
  show decide ((0 : Int) ≤ -1) = false
  decide

/-! ## The explicit-stack loop against the recursive descent -/

/-- C20. For every tree and every ray, the explicit-stack loop of `Scene::rayTrace` (a
total function: each pass lowers the number of nodes still to visit) gathers exactly
what the recursive depth-first descent gathers: the stored face indices and vertices
of the leaves for which `checkIntersection` holds on the leaf and on all its
ancestors, each leaf once, the right child before the left. -/
theorem collectLoop_refines_descent (sc : Scene K) (origin direction : Vec3 K)
    (cur : BVH K) (stack : List (BVH K)) (indices : List Int) (verts : List (Vec3 K)) :
    candidates sc origin direction = BVH.collectRec origin direction sc.bvh ∧
    BVH.collectLoop origin direction cur stack indices verts =
      (indices ++ (BVH.collectRec origin direction cur).1 ++
          (stack.map (fun m => (BVH.collectRec origin direction m).1)).flatten,
        verts ++ (BVH.collectRec origin direction cur).2 ++
          (stack.map (fun m => (BVH.collectRec origin direction m).2)).flatten) := by
  refine ⟨?_, collectLoop_eq origin direction _ cur stack indices verts (le_refl _)⟩
  unfold candidates
  rw [collectLoop_eq origin direction _ sc.bvh [] [] [] (le_refl _)]
  simp

/-! ## Termination of `BVH::build` -/

/-- The number of triangles stored in the leaves of the tree built from `n` whole
triangles is `n`. -/
theorem buildWith_leafTris_length (n : Nat) :
    ∀ (v : List (Vec3 K)) (ind : List Int), ind.length ≤ n → v.length = 3 * ind.length →
      (buildWith v ind).leafTris.length = ind.length := by
  induction n with
  | zero =>
    intro v ind hn hlen
    have h3 : ind.length ≤ 3 := by omega
    rw [buildWith, dif_pos h3]
    simp [BVH.leafTris, taggedTris, hlen, triCount_three_mul]
  | succ n ih =>
    intro v ind hn hlen
    by_cases h3 : ind.length ≤ 3
    · rw [buildWith, dif_pos h3]
      simp [BVH.leafTris, taggedTris, hlen, triCount_three_mul]
    · rw [buildWith, dif_neg h3]
      have hm : (monoIndex v (splitAxis (boundOf v).sizes)).length = ind.length := by
        rw [monoIndex_length, hlen, triCount_three_mul]
      generalize monoIndex v (splitAxis (boundOf v).sizes) = es at hm
      have hL : (gatherInd ind (es.take (es.length / 2))).length ≤ n := by
        rw [gatherInd_length, List.length_take]; omega
      have hR : (gatherInd ind (es.drop (es.length / 2))).length ≤ n := by
        rw [gatherInd_length, List.length_drop]; omega
      have hLlen : (gatherVerts v (es.take (es.length / 2))).length
          = 3 * (gatherInd ind (es.take (es.length / 2))).length := by
        rw [gatherVerts_length, gatherInd_length]
      have hRlen : (gatherVerts v (es.drop (es.length / 2))).length
          = 3 * (gatherInd ind (es.drop (es.length / 2))).length := by
        rw [gatherVerts_length, gatherInd_length]
      simp only [BVH.leafTris, List.length_append, ih _ _ hL hLlen, ih _ _ hR hRlen,
        gatherInd_length, List.length_take, List.length_drop]
      omega

/-- The shape of the node built from more than three whole triangles. -/
theorem buildWith_inner (v : List (Vec3 K)) (ind : List Int) (hlen : v.length = 3 * ind.length)
    (hn : 3 < ind.length) :
    ∃ l r : BVH K, buildWith v ind = BVH.inner (boundOf v) l r ∧
      l.leafTris.length = ind.length / 2 ∧
      r.leafTris.length = ind.length - ind.length / 2 := by
  have h3 : ¬ ind.length ≤ 3 := by omega
  have hm : (monoIndex v (splitAxis (boundOf v).sizes)).length = ind.length := by
    rw [monoIndex_length, hlen, triCount_three_mul]
  rw [buildWith, dif_neg h3]
  refine ⟨_, _, rfl, ?_, ?_⟩
  · rw [buildWith_leafTris_length _ _ _ (le_refl _)
      (by rw [gatherVerts_length, gatherInd_length])]
    rw [gatherInd_length, List.length_take, hm]
    omega
  · rw [buildWith_leafTris_length _ _ _ (le_refl _)
      (by rw [gatherVerts_length, gatherInd_length])]
    rw [gatherInd_length, List.length_drop, hm]

/-- C15. `BVH::build` is a total function (its recursion is well-founded on the
triangle count), whatever the centroids.  For a vertex list of `n > 3` whole
triangles the node built is internal, it holds `n` triangles, its left child holds
`n / 2` and its right child `n - n / 2`, both strictly fewer than `n`. -/
theorem build_children_smaller (v : List (Vec3 K)) (ind : List Int)
    (hlen : v.length = 3 * ind.length) (hn : 3 < ind.length) :
    (buildWith v ind).leafTris.length = ind.length ∧
    ∃ l r : BVH K, buildWith v ind = BVH.inner (boundOf v) l r ∧
      l.leafTris.length = ind.length / 2 ∧
      r.leafTris.length = ind.length - ind.length / 2 ∧
      l.leafTris.length < ind.length ∧ r.leafTris.length < ind.length := by
  obtain ⟨l, r, hb, hl, hr⟩ := buildWith_inner v ind hlen hn
  refine ⟨buildWith_leafTris_length _ v ind (le_refl _) hlen, l, r, hb, hl, hr, ?_, ?_⟩
  · rw [hl]; omega
  · rw [hr]; omega

/-- C15 (witness): four copies of one triangle, so that all centroids are equal. -/
theorem build_children_smaller_witness :
    (buildWith fourSameTriangles [0, 1, 2, 3]).leafTris.length = [(0 : Int), 1, 2, 3].length ∧
    ∃ l r : BVH ℚ, buildWith fourSameTriangles [0, 1, 2, 3]
        = BVH.inner (boundOf fourSameTriangles) l r ∧
      l.leafTris.length = [(0 : Int), 1, 2, 3].length / 2 ∧
      r.leafTris.length = [(0 : Int), 1, 2, 3].length - [(0 : Int), 1, 2, 3].length / 2 ∧
      l.leafTris.length < [(0 : Int), 1, 2, 3].length ∧
      r.leafTris.length < [(0 : Int), 1, 2, 3].length :=
  build_children_smaller fourSameTriangles [0, 1, 2, 3] rfl (by decide)

/-! ## The data-model invariant under `loadObject` and `loadSphere` -/

omit [LinearOrderedField K] in
theorem getI_natCast {α : Type} (l : List α) (k : Nat) (d : α) :
    getI l (k : Int) d = l.getD k d := by
  unfold getI
  rw [if_neg (by omega), Int.toNat_natCast]

/-- C16. When the scene and the mesh satisfy the data-model invariant, the scene after
`loadObject` satisfies it again and the material index of every appended face refers
to the material the mesh gave that face; the scene after `loadSphere` satisfies it
again, with sphere sequences of one length, and the material index of the appended
sphere refers to the material passed. -/
theorem load_preserves_wellFormed (sc : Scene K) (obj : Object K) (position : Vec3 K)
    (radius : K) (material : Material K) (uvOrientation : Quat K)
    (hs : sc.wellFormed) (ho : obj.wellFormed) :
    (sc.loadObject obj).wellFormed ∧
    (∀ k, k < obj.faceMaterialIndex.length →
      getI (sc.loadObject obj).materials
          ((sc.loadObject obj).faceMaterialIndex.getD (sc.faceMaterialIndex.length + k) 0)
          defaultMaterial
        = getI obj.materials (obj.faceMaterialIndex.getD k 0) defaultMaterial) ∧
    (sc.loadSphere position radius material uvOrientation).wellFormed ∧
    getI (sc.loadSphere position radius material uvOrientation).materials
        ((sc.loadSphere position radius material uvOrientation).sphereMaterialIndex.getD
          sc.sphereMaterialIndex.length 0) defaultMaterial = material := by
  obtain ⟨s1, s2, s3, s4, s5, s6, s7, s8⟩ := hs
  obtain ⟨o1, o2, o3, o4⟩ := ho
  refine ⟨?_, ?_, ?_, ?_⟩
  · refine ⟨?_, ?_, ?_, ?_, s5, s6, s7, ?_⟩
    · simp only [Scene.loadObject, List.length_append, List.length_map]; omega
    · simp only [Scene.loadObject, List.length_append, List.length_map]; omega
    · simp only [Scene.loadObject, List.length_append, List.length_map]; omega
    · intro m hm
      simp only [Scene.loadObject, List.mem_append, List.mem_map, List.length_append] at hm ⊢
      rcases hm with hm | ⟨m0, hm0, rfl⟩
      · obtain ⟨a, b⟩ := s4 m hm
        exact ⟨a, by push_cast; omega⟩
      · obtain ⟨a, b⟩ := o4 m0 hm0
        exact ⟨by omega, by push_cast; omega⟩
    · intro m hm
      simp only [Scene.loadObject, List.length_append] at hm ⊢
      obtain ⟨a, b⟩ := s8 m hm
      exact ⟨a, by push_cast; omega⟩
  · intro k hk
    have hmem : obj.faceMaterialIndex.getD k 0 ∈ obj.faceMaterialIndex := by
      rw [List.getD_eq_getElem _ _ hk]
      exact List.getElem_mem hk
    obtain ⟨a, b⟩ := o4 _ hmem
    obtain ⟨j, hj⟩ := Int.eq_ofNat_of_zero_le a
    have hjlt : j < obj.materials.length := by
      rw [hj] at b; exact_mod_cast b
    have hidx : (sc.loadObject obj).faceMaterialIndex.getD (sc.faceMaterialIndex.length + k) 0
        = ((sc.materials.length + j : Nat) : Int) := by
      simp only [Scene.loadObject]
      rw [List.getD_append_right _ _ _ _ (by omega)]
      rw [Nat.add_sub_cancel_left, List.getD_eq_getElem _ _ (by simpa using hk)]
      simp only [List.getElem_map]
      rw [← List.getD_eq_getElem _ 0 hk, hj]
      push_cast
      rfl
    rw [hidx, hj, getI_natCast, getI_natCast]
    simp only [Scene.loadObject]
    rw [List.getD_append_right _ _ _ _ (by omega), Nat.add_sub_cancel_left]
  · refine ⟨s1, s2, s3, ?_, ?_, ?_, ?_, ?_⟩
    · intro m hm
      simp only [Scene.loadSphere, List.length_append, List.length_cons, List.length_nil] at hm ⊢
      obtain ⟨a, b⟩ := s4 m hm
      exact ⟨a, by push_cast; omega⟩
    · simp only [Scene.loadSphere, List.length_append, List.length_cons, List.length_nil]; omega
    · simp only [Scene.loadSphere, List.length_append, List.length_cons, List.length_nil]; omega
    · simp only [Scene.loadSphere, List.length_append, List.length_cons, List.length_nil]; omega
    · intro m hm
      simp only [Scene.loadSphere, List.mem_append, List.mem_singleton, List.length_append,
        List.length_cons, List.length_nil] at hm ⊢
      rcases hm with hm | rfl
      · obtain ⟨a, b⟩ := s8 m hm
        exact ⟨a, by push_cast; omega⟩
      · exact ⟨by omega, by push_cast; omega⟩
  · have hidx : (sc.loadSphere position radius material uvOrientation).sphereMaterialIndex.getD
        sc.sphereMaterialIndex.length 0 = (sc.materials.length : Int) := by
      simp only [Scene.loadSphere]
      rw [List.getD_append_right _ _ _ _ (le_refl _)]
      simp
    rw [hidx, getI_natCast]
    simp only [Scene.loadSphere]
    rw [List.getD_append_right _ _ _ _ (le_refl _)]
    simp

/-- C16 (witness): a one-face mesh loaded into the empty scene, and a unit sphere
loaded into the empty scene. -/
theorem load_preserves_wellFormed_witness :
    ((Scene.empty : Scene ℚ).loadObject flatObject).wellFormed ∧
    (∀ k, k < flatObject.faceMaterialIndex.length →
      getI ((Scene.empty : Scene ℚ).loadObject flatObject).materials
          (((Scene.empty : Scene ℚ).loadObject flatObject).faceMaterialIndex.getD
            ((Scene.empty : Scene ℚ).faceMaterialIndex.length + k) 0)
          defaultMaterial
        = getI flatObject.materials (flatObject.faceMaterialIndex.getD k 0) defaultMaterial) ∧
    ((Scene.empty : Scene ℚ).loadSphere ⟨0, 0, 0⟩ 1 brightMaterial quatId).wellFormed ∧
    getI ((Scene.empty : Scene ℚ).loadSphere ⟨0, 0, 0⟩ 1 brightMaterial quatId).materials
        (((Scene.empty : Scene ℚ).loadSphere ⟨0, 0, 0⟩ 1 brightMaterial
          quatId).sphereMaterialIndex.getD
          (Scene.empty : Scene ℚ).sphereMaterialIndex.length 0) defaultMaterial
      = brightMaterial :=
  load_preserves_wellFormed (Scene.empty : Scene ℚ) flatObject ⟨0, 0, 0⟩ 1 brightMaterial quatId
    (by simp [Scene.wellFormed, Scene.empty])
    (by simp [Object.wellFormed, flatObject, flatTriangle])

/-! ## The setters of `Light` -/

/-- The vector `v.normalized()` of a vector of norm `n > 0`, when `sqrt` is exact at
its squared norm. -/
theorem normalized_of_norm (L : Libm K) (v : Vec3 K) (n : K) (hn0 : 0 < n)
    (hn : n * n = v.dot v) (hsqrt : L.sqrt (v.dot v) = n) :
    v.normalized L = Vec3.smul (1 / n) v ∧ (v.normalized L).dot (v.normalized L) = 1 := by
  have hz : v.dot v > 0 := by rw [← hn]; exact mul_pos hn0 hn0
  have hnz : n ≠ 0 := ne_of_gt hn0
  have h1 : v.normalized L = Vec3.smul (1 / n) v := by
    unfold Vec3.normalized
    simp only [if_pos hz, hsqrt, Vec3.sdiv, Vec3.smul]
    rw [Vec3.ext_iff3]
    refine ⟨?_, ?_, ?_⟩ <;> field_simp
  refine ⟨h1, ?_⟩
  rw [h1]
  have h2 : (Vec3.smul (1 / n) v).dot (Vec3.smul (1 / n) v) = v.dot v / (n * n) := by
    simp only [Vec3.dot, Vec3.smul]
    field_simp
  rw [h2, ← hn]
  field_simp

/-- C17. For a direction vector of norm `n > 0` (with `sqrt` exact at its squared
norm, and `M_PI >= 0`), `setSunLight` and `setSpotLight` store the direction
`(1/n) * direction`, a positive multiple of the argument of unit length; `setSpotLight`
stores a cone half-angle in `[0, pi/2]`, the argument itself when it lies there. -/
theorem light_direction_unit (L : Libm K) (l : Light K) (color position direction : Vec3 K)
    (spotSize exponent n : K) (hn0 : 0 < n) (hn : n * n = direction.dot direction)
    (hsqrt : L.sqrt (direction.dot direction) = n) (hpi : 0 ≤ L.pi) :
    (l.setSunLight L color direction).direction = Vec3.smul (1 / n) direction ∧
    (l.setSunLight L color direction).direction.dot
      (l.setSunLight L color direction).direction = 1 ∧
    (l.setSpotLight L color position direction spotSize exponent).direction
      = Vec3.smul (1 / n) direction ∧
    (l.setSpotLight L color position direction spotSize exponent).direction.dot
      (l.setSpotLight L color position direction spotSize exponent).direction = 1 ∧
    0 < 1 / n ∧
    0 ≤ (l.setSpotLight L color position direction spotSize exponent).spotSize ∧
    (l.setSpotLight L color position direction spotSize exponent).spotSize ≤ L.pi / 2 ∧
    (0 ≤ spotSize → spotSize ≤ L.pi / 2 →
      (l.setSpotLight L color position direction spotSize exponent).spotSize = spotSize) := by
  obtain ⟨h1, h2⟩ := normalized_of_norm L direction n hn0 hn hsqrt
  have hpi2 : 0 ≤ L.pi / 2 := by linarith
  refine ⟨h1, h2, h1, h2, by positivity, ?_, ?_, ?_⟩
  · exact le_min (le_max_right _ _) hpi2
  · exact min_le_right _ _
  · intro a b
    show min (max spotSize 0) (L.pi / 2) = spotSize
    rw [max_eq_left a, min_eq_left b]

/-- C17 (witness): the direction `(3, 4, 0)` of norm `5`, and a half-angle `1/2`. -/
theorem light_direction_unit_witness :
    ((⟨LightType.LIGHT_POINT, ⟨1, 1, 1⟩, ⟨0, 0, 0⟩, ⟨0, 0, 0⟩, 0, 0⟩ : Light ℚ).setSunLight
        ratLibm ⟨1, 1, 1⟩ ⟨3, 4, 0⟩).direction = Vec3.smul (1 / 5) ⟨3, 4, 0⟩ ∧
    ((⟨LightType.LIGHT_POINT, ⟨1, 1, 1⟩, ⟨0, 0, 0⟩, ⟨0, 0, 0⟩, 0, 0⟩ : Light ℚ).setSpotLight
        ratLibm ⟨1, 1, 1⟩ ⟨0, 0, 5⟩ ⟨3, 4, 0⟩ (1 / 2) 1).spotSize ≤ ratLibm.pi / 2 :=
  ⟨(light_direction_unit ratLibm ⟨LightType.LIGHT_POINT, ⟨1, 1, 1⟩, ⟨0, 0, 0⟩, ⟨0, 0, 0⟩, 0, 0⟩
      ⟨1, 1, 1⟩ ⟨0, 0, 5⟩ ⟨3, 4, 0⟩ (1 / 2) 1 5 (by norm_num) (by norm_num [Vec3.dot])
      (by
        have h : (⟨3, 4, 0⟩ : Vec3 ℚ).dot ⟨3, 4, 0⟩ = 5 * 5 := by norm_num [Vec3.dot]
        rw [h]
        exact ratLibm_sqrt_sq 5 (by norm_num))
      (by norm_num [ratLibm])).1,
    (light_direction_unit ratLibm ⟨LightType.LIGHT_POINT, ⟨1, 1, 1⟩, ⟨0, 0, 0⟩, ⟨0, 0, 0⟩, 0, 0⟩
      ⟨1, 1, 1⟩ ⟨0, 0, 5⟩ ⟨3, 4, 0⟩ (1 / 2) 1 5 (by norm_num) (by norm_num [Vec3.dot])
      (by
        have h : (⟨3, 4, 0⟩ : Vec3 ℚ).dot ⟨3, 4, 0⟩ = 5 * 5 := by norm_num [Vec3.dot]
        rw [h]
        exact ratLibm_sqrt_sq 5 (by norm_num))
      (by norm_num [ratLibm])).2.2.2.2.2.2.1⟩

/-! ## The slab test as an interval intersection -/

/-- One axis with a component of absolute value at least `FLT_EPSILON` cuts the
running interval down to the parameters whose ray point lies in the slab. -/
theorem slabStep_iff {o d pMin pMax a b : K} (heps : FLT_EPSILON ≤ |d|) :
    ∃ a1 b1, slabStep o d pMin pMax (FVal.fin a, FVal.fin b) = some (FVal.fin a1, FVal.fin b1) ∧
      ∀ t, (a1 ≤ t ∧ t ≤ b1) ↔ (a ≤ t ∧ t ≤ b ∧ pMin ≤ o + t * d ∧ o + t * d ≤ pMax) := by
  have hd : d ≠ 0 := abs_ge_eps_ne_zero heps
  have hg : ¬ (|d| < FLT_EPSILON ∧ (pMin > o ∨ pMax < o)) := fun h => absurd h.1 (not_lt.mpr heps)
  unfold slabStep
  rw [if_neg hg]
  by_cases hpos : d > 0
  · rw [if_pos hpos, fdiv_of_ne hd, fdiv_of_ne hd, fmax_fin, fmin_fin]
    refine ⟨_, _, rfl, ?_⟩
    intro t
    rw [max_le_iff, le_min_iff, div_le_iff₀ hpos, le_div_iff₀ hpos]
    constructor
    · rintro ⟨⟨h1, h2⟩, h3, h4⟩
      exact ⟨h1, h3, by linarith, by linarith⟩
    · rintro ⟨h1, h3, h2, h4⟩
      exact ⟨⟨h1, by linarith⟩, h3, by linarith⟩
  · have hneg : d < 0 := lt_of_le_of_ne (not_lt.mp hpos) hd
    rw [if_neg hpos, fdiv_of_ne hd, fdiv_of_ne hd, fmax_fin, fmin_fin]
    refine ⟨_, _, rfl, ?_⟩
    intro t
    rw [max_le_iff, le_min_iff, div_le_iff_of_neg hneg, le_div_iff_of_neg hneg]
    constructor
    · rintro ⟨⟨h1, h2⟩, h3, h4⟩
      exact ⟨h1, h3, by linarith, by linarith⟩
    · rintro ⟨h1, h3, h2, h4⟩
      exact ⟨⟨h1, by linarith⟩, h3, by linarith⟩

theorem slabLoop_iff (bx : AlignedBox3 K) (origin direction : Vec3 K)
    (heps : ∀ i : Fin 3, FLT_EPSILON ≤ |direction.get i|) (axes : List (Fin 3)) :
    ∀ a b : K, ∃ a1 b1, slabLoop bx origin direction axes (FVal.fin a, FVal.fin b)
        = some (FVal.fin a1, FVal.fin b1) ∧
      ∀ t, (a1 ≤ t ∧ t ≤ b1) ↔ (a ≤ t ∧ t ≤ b ∧ ∀ i ∈ axes,
        bx.m_min.get i ≤ origin.get i + t * direction.get i ∧
        origin.get i + t * direction.get i ≤ bx.m_max.get i) := by
  induction axes with
  | nil =>
    intro a b
    refine ⟨a, b, rfl, ?_⟩
    intro t
    simp
  | cons i rest ih =>
    intro a b
    obtain ⟨a1, b1, hs, h1⟩ := @slabStep_iff K _ (origin.get i) (direction.get i)
      (bx.m_min.get i) (bx.m_max.get i) a b (heps i)
    obtain ⟨a2, b2, hl, h2⟩ := ih a1 b1
    refine ⟨a2, b2, by simp only [slabLoop, hs, hl], ?_⟩
    intro t
    rw [h2 t]
    constructor
    · rintro ⟨p, q, r⟩
      obtain ⟨x1, x2, x3, x4⟩ := (h1 t).mp ⟨p, q⟩
      refine ⟨x1, x2, ?_⟩
      intro j hj
      rcases List.mem_cons.mp hj with rfl | hj1
      · exact ⟨x3, x4⟩
      · exact r j hj1
    · rintro ⟨p, q, r⟩
      obtain ⟨y1, y2⟩ := (h1 t).mpr ⟨p, q, (r i (List.mem_cons_self _ _)).1,
        (r i (List.mem_cons_self _ _)).2⟩
      exact ⟨y1, y2, fun j hj => r j (List.mem_cons_of_mem _ hj)⟩

/-- In exact arithmetic, for a ray whose direction components all have absolute value
at least `FLT_EPSILON`, the box test is true iff some parameter `t` with
`FLT_MIN <= t <= FLT_MAX` puts `origin + t * direction` in the closed box. -/
theorem checkIntersection_iff_point (n : BVH K) (origin direction : Vec3 K)
    (heps : ∀ i : Fin 3, FLT_EPSILON ≤ |direction.get i|) :
    n.checkIntersection origin direction = true ↔
      ∃ t, FLT_MIN ≤ t ∧ t ≤ FLT_MAX ∧
        n.box.contains (origin.add (Vec3.smul t direction)) := by
  obtain ⟨a1, b1, hs, h⟩ := slabLoop_iff n.box origin direction heps [0, 1, 2] FLT_MIN FLT_MAX
  have hall : ∀ t : K, (∀ i ∈ ([0, 1, 2] : List (Fin 3)),
      n.box.m_min.get i ≤ origin.get i + t * direction.get i ∧
      origin.get i + t * direction.get i ≤ n.box.m_max.get i) ↔
      n.box.contains (origin.add (Vec3.smul t direction)) := by
    intro t
    unfold AlignedBox3.contains
    constructor
    · intro hh i
      rw [add_get, smul_get]
      exact hh i (by fin_cases i <;> simp)
    · intro hh i _
      have := hh i
      rw [add_get, smul_get] at this
      exact this
  simp only [checkIntersection, checkIntersectionBox, hs, FVal.le, decide_eq_true_eq]
  constructor
  · intro hle
    obtain ⟨x1, x2, x3⟩ := (h a1).mp ⟨le_refl _, hle⟩
    exact ⟨a1, x1, x2, (hall a1).mp x3⟩
  · rintro ⟨t, x1, x2, x3⟩
    obtain ⟨y1, y2⟩ := (h t).mpr ⟨x1, x2, (hall t).mpr x3⟩
    exact le_trans y1 y2

/-! ## A direction component that is exactly zero -/

theorem fmax_pinf_right {a : FVal K} (h : posLo a) : FVal.fmax a FVal.pinf = FVal.pinf := by
  cases a <;> simp_all [posLo, FVal.fmax, FVal.lt]

theorem posLo_pinf_fmax (x : FVal K) : FVal.fmax (FVal.pinf : FVal K) x = FVal.pinf := by
  cases x <;> simp [FVal.fmax, FVal.lt]

theorem slabStep_loInf {o d pMin pMax : K} {t t1 : FVal K × FVal K} (h : loInf t)
    (hs : slabStep o d pMin pMax t = some t1) : loInf t1 := by
  unfold slabStep at hs
  obtain ⟨h1, h2⟩ := h
  split_ifs at hs <;> cases hs <;> exact ⟨by simp only [h1, posLo_pinf_fmax], hiOK_fmin _ h2⟩

theorem slabLoop_loInf (b : AlignedBox3 K) (origin direction : Vec3 K) (axes : List (Fin 3))
    (t : FVal K × FVal K) (h : loInf t) :
    slabLoop b origin direction axes t = none ∨
      ∃ t1, slabLoop b origin direction axes t = some t1 ∧ loInf t1 := by
  induction axes generalizing t with
  | nil => exact Or.inr ⟨t, rfl, h⟩
  | cons i rest ih =>
    simp only [slabLoop]
    cases hs : slabStep (origin.get i) (direction.get i) (b.m_min.get i) (b.m_max.get i) t with
    | none => exact Or.inl rfl
    | some t1 => exact ih t1 (slabStep_loInf h hs)

/-- On an axis whose direction component is zero and whose origin is below the upper
face of the slab, the quotient `(pMax - o) / d` is `+inf` and becomes the lower end. -/
theorem slabStep_zero {o d pMin pMax : K} {t t1 : FVal K × FVal K} (h : slabInv t)
    (hd : d = 0) (ho : o < pMax) (hs : slabStep o d pMin pMax t = some t1) : loInf t1 := by
  unfold slabStep at hs
  subst hd
  have hx : pMax - o ≠ 0 := ne_of_gt (sub_pos.mpr ho)
  have hq : FVal.fdiv (pMax - o) (0 : K) = FVal.pinf := by
    simp [FVal.fdiv, hx, sub_pos.mpr ho]
  split_ifs at hs with hg hpos
  · exact absurd hpos (lt_irrefl 0)
  · cases hs
    exact ⟨by rw [hq]; exact fmax_pinf_right h.1, hiOK_fmin _ h.2⟩

theorem slabLoop_zero (b : AlignedBox3 K) (origin direction : Vec3 K) (axes : List (Fin 3))
    (t : FVal K × FVal K) (h : slabInv t) (i : Fin 3) (hi : i ∈ axes)
    (hd : direction.get i = 0) (ho : origin.get i < b.m_max.get i) :
    slabLoop b origin direction axes t = none ∨
      ∃ t1, slabLoop b origin direction axes t = some t1 ∧ loInf t1 := by
  induction axes generalizing t with
  | nil => cases hi
  | cons j rest ih =>
    simp only [slabLoop]
    cases hs : slabStep (origin.get j) (direction.get j) (b.m_min.get j) (b.m_max.get j) t with
    | none => exact Or.inl rfl
    | some t1 =>
      by_cases hji : i = j
      · subst hji
        exact slabLoop_loInf b origin direction rest t1 (slabStep_zero h hd ho hs)
      · have hmem : i ∈ rest := by
          rcases List.mem_cons.mp hi with h1 | h1
          · exact absurd h1 hji
          · exact h1
        exact ih t1 (slabStep_inv h hs) hmem

/-- A ray with a direction component that is exactly zero (the float `+0`) is
rejected as soon as its origin lies below the upper face of the slab on that axis:
inside the slab included. -/
theorem checkIntersection_zero_rejects (n : BVH K) (origin direction : Vec3 K) (i : Fin 3)
    (hd : direction.get i = 0) (ho : origin.get i < n.box.m_max.get i) :
    n.checkIntersection origin direction = false := by
  unfold checkIntersection checkIntersectionBox
  have hinv : slabInv ((FVal.fin FLT_MIN, FVal.fin FLT_MAX) : FVal K × FVal K) :=
    ⟨FLT_MIN_pos, trivial⟩
  have hi : i ∈ ([0, 1, 2] : List (Fin 3)) := by fin_cases i <;> simp
  rcases slabLoop_zero n.box origin direction [0, 1, 2] _ hinv i hi hd ho with h | ⟨t1, h, hl⟩
  · rw [h]
  · rw [h]
    obtain ⟨h1, h2⟩ := hl
    simp only [h1]
    cases ht : t1.2 <;> simp_all [hiOK, FVal.le]

/-- C19 (the code at the failing input). The cube `[0,2]^3` is not empty; the ray from
`(1, 1, -5)` along `(0, 0, 6)` has a zero component on the first axis, its origin is
strictly inside the slab `[0, 2]` of that axis, and on the remaining axes it reaches
the box (at `t = 1` it is at the centre `(1, 1, 1)`); `checkIntersection` rejects it. -/
theorem checkIntersection_zero_component_rejected :
    ¬ cubeBox.isEmpty ∧
    (⟨0, 0, 6⟩ : Vec3 ℚ).get 0 = 0 ∧
    cubeBox.m_min.get 0 < (⟨1, 1, -5⟩ : Vec3 ℚ).get 0 ∧
    (⟨1, 1, -5⟩ : Vec3 ℚ).get 0 < cubeBox.m_max.get 0 ∧
    (FLT_MIN : ℚ) ≤ 1 ∧ (1 : ℚ) ≤ FLT_MAX ∧
    cubeBox.contains ((⟨1, 1, -5⟩ : Vec3 ℚ).add (Vec3.smul 1 ⟨0, 0, 6⟩)) ∧
    (BVH.leaf cubeBox [] []).checkIntersection ⟨1, 1, -5⟩ ⟨0, 0, 6⟩ = false := by
  refine ⟨by norm_num [AlignedBox3.isEmpty, cubeBox], rfl, by norm_num [Vec3.get, cubeBox],
    by norm_num [Vec3.get, cubeBox], FLT_MIN_le_one, one_le_FLT_MAX, ?_, ?_⟩
  · intro i
    fin_cases i <;> norm_num [Vec3.get, Vec3.add, Vec3.smul, cubeBox]
  · exact checkIntersection_zero_rejects _ _ _ 0 rfl (by norm_num [Vec3.get, BVH.box, cubeBox])

/-! ## Occlusion in `Scene::rayCollect` -/

/-- C11. In one pass of the light loop of `Scene::rayCollect`: a SUN light is skipped iff
the shadow ray along the negated light direction hits anything; a POINT or SPOT light
is skipped iff the shadow ray toward the light hits something at a distance `param`
with `param * param < dist2`, so a hit at or beyond the light does not occlude it; a
skipped light leaves `totalIntensity` unchanged. -/
theorem rayCollect_light_skipped [FloorRing K] (L : Libm K) (sc : Scene K) (mat : Material K)
    (origin normal incoming : Vec3 K) (uv : Vec2 K) (totalIntensity : Vec3 K)
    (light : Light K) :
    (light.lightType = LightType.LIGHT_SUN →
      (lightIncident L sc origin light = none ↔
        rayTrace L sc origin light.direction.neg = true)) ∧
    (light.lightType ≠ LightType.LIGHT_SUN →
      (lightIncident L sc origin light = none ↔
        (rayTrace L sc origin ((light.position.sub origin).normalized L) = true ∧
          (rayTraceOut L sc origin ((light.position.sub origin).normalized L)).nextParam
            * (rayTraceOut L sc origin ((light.position.sub origin).normalized L)).nextParam
            < (light.position.sub origin).dot (light.position.sub origin)))) ∧
    (light.lightType ≠ LightType.LIGHT_SUN →
      (light.position.sub origin).dot (light.position.sub origin)
        ≤ (rayTraceOut L sc origin ((light.position.sub origin).normalized L)).nextParam
          * (rayTraceOut L sc origin ((light.position.sub origin).normalized L)).nextParam →
      lightIncident L sc origin light ≠ none) ∧
    (lightIncident L sc origin light = none →
      rayCollectStep L sc mat origin normal incoming uv totalIntensity light
        = totalIntensity) := by
  refine ⟨?_, ?_, ?_, ?_⟩
  · intro hsun
    unfold lightIncident
    rw [if_pos hsun]
    by_cases hc : rayTrace L sc origin light.direction.neg = true
    · simp [hc]
    · simp [hc]
  · intro hns
    unfold lightIncident
    rw [if_neg hns]
    simp only []
    constructor
    · intro h
      by_contra hcond
      rw [if_neg hcond] at h
      split_ifs at h
    · intro hcond
      rw [if_pos hcond]
  · intro hns hfar h
    unfold lightIncident at h
    rw [if_neg hns] at h
    simp only [] at h
    rw [if_neg (fun hh => absurd hh.2 (not_lt.mpr hfar))] at h
    split_ifs at h
  · intro h
    simp only [rayCollectStep, h]

/-! ## Rendering a scene without geometry -/

theorem rayTrace_no_geometry (L : Libm K) (sc : Scene K) (origin direction : Vec3 K)
    (hb : sc.bvh = build []) (hs : sc.sphereRadius = []) :
    rayTrace L sc origin direction = false := by
  have hc : candidates sc origin direction = ([], []) := by
    unfold candidates
    rw [hb, build_nil, collectLoop_leaf_nil]
    split_ifs <;> rfl
  simp only [rayTrace, rayTraceOut, hc, triLoop_nil, sphereLoop, hs, List.length_nil,
    List.range_zero, List.foldl_nil]
  rw [triAttr_neg _ _ _ _ _ rfl]
  show decide ((0 : Int) ≤ -1) = false
  decide

omit [LinearOrderedField K] in
/-- A loop `for k in 0 .. n-1` keeps an invariant indexed by the pass count. -/
theorem foldl_range_inv {σ : Type} (f : σ → Nat → σ) (P : Nat → σ → Prop) (n : Nat) (s0 : σ)
    (h0 : P 0 s0) (hstep : ∀ k s, k < n → P k s → P (k + 1) (f s k)) :
    P n ((List.range n).foldl f s0) := by
  induction n with
  | zero => simpa using h0
  | succ n ih =>
    rw [List.range_succ, List.foldl_append]
    simp only [List.foldl_cons, List.foldl_nil]
    exact hstep n _ (Nat.lt_succ_self n)
      (ih (fun k s hk hp => hstep k s (Nat.lt_succ_of_lt hk) hp))

/-! ## The nodes of the tree built by `BVH::build` -/

omit [LinearOrderedField K] in
theorem self_mem_nodes (n : BVH K) : n ∈ n.nodes := by
  cases n <;> simp [BVH.nodes]

/-- The vertices gathered for entries of `monoIndex` are vertices of the list. -/
theorem mem_gatherVerts_sub (v : List (Vec3 K)) (h3 : v.length % 3 = 0) (axis : Fin 3)
    (es : List (K × Nat)) (hes : ∀ e ∈ es, e ∈ monoIndex v axis) (p : Vec3 K)
    (hp : p ∈ gatherVerts v es) : p ∈ v := by
  simp only [gatherVerts, List.mem_flatMap] at hp
  obtain ⟨e, he, hpe⟩ := hp
  obtain ⟨k, hk, rfl⟩ := mem_monoIndex.mp (hes e he)
  have hk2 : 3 * k + 2 < v.length := by
    unfold triCount at hk; omega
  simp only [List.mem_cons, List.mem_singleton, List.not_mem_nil, or_false] at hpe
  rcases hpe with rfl | rfl | rfl
  · exact vget_mem v _ (by omega)
  · exact vget_mem v _ (by omega)
  · exact vget_mem v _ hk2

/-- Every node of the tree built from whole triangles is itself the tree built from a
list of whole triangles, whose vertices are vertices of the input; it is not empty
when the input is not. -/
theorem buildWith_nodes (n : Nat) :
    ∀ (v : List (Vec3 K)) (ind : List Int), ind.length ≤ n → v.length = 3 * ind.length →
      ∀ m ∈ (buildWith v ind).nodes, ∃ (v1 : List (Vec3 K)) (ind1 : List Int),
        m = buildWith v1 ind1 ∧ v1.length = 3 * ind1.length ∧
        (1 ≤ ind.length → 1 ≤ ind1.length) ∧ ∀ p ∈ v1, p ∈ v := by
  induction n with
  | zero =>
    intro v ind hn hlen m hm
    have h3 : ind.length ≤ 3 := by omega
    rw [buildWith, dif_pos h3] at hm
    simp only [BVH.nodes, List.mem_singleton] at hm
    refine ⟨v, ind, ?_, hlen, fun h => h, fun p hp => hp⟩
    rw [hm, buildWith, dif_pos h3]
  | succ n ih =>
    intro v ind hn hlen m hm
    by_cases h3 : ind.length ≤ 3
    · rw [buildWith, dif_pos h3] at hm
      simp only [BVH.nodes, List.mem_singleton] at hm
      refine ⟨v, ind, ?_, hlen, fun h => h, fun p hp => hp⟩
      rw [hm, buildWith, dif_pos h3]
    · have hmlen : (monoIndex v (splitAxis (boundOf v).sizes)).length = ind.length := by
        rw [monoIndex_length, hlen, triCount_three_mul]
      rcases List.mem_cons.mp (by rw [buildWith, dif_neg h3] at hm; exact hm) with hroot | hsub
      · refine ⟨v, ind, ?_, hlen, fun h => h, fun p hp => hp⟩
        rw [hroot]
        conv_rhs => rw [buildWith, dif_neg h3]
      · generalize hes : monoIndex v (splitAxis (boundOf v).sizes) = es at hmlen hsub
        have hv3 : v.length % 3 = 0 := by omega
        rcases List.mem_append.mp hsub with hl | hr
        · obtain ⟨v1, ind1, e1, e2, e3, e4⟩ := ih _ _
            (by rw [gatherInd_length, List.length_take]; omega)
            (by rw [gatherVerts_length, gatherInd_length]) m hl
          refine ⟨v1, ind1, e1, e2, fun _ => e3 ?_, fun p hp => ?_⟩
          · rw [gatherInd_length, List.length_take]; omega
          · refine mem_gatherVerts_sub v hv3 (splitAxis (boundOf v).sizes) _ ?_ p (e4 p hp)
            intro e he
            rw [hes]
            exact List.mem_of_mem_take he
        · obtain ⟨v1, ind1, e1, e2, e3, e4⟩ := ih _ _
            (by rw [gatherInd_length, List.length_drop]; omega)
            (by rw [gatherVerts_length, gatherInd_length]) m hr
          refine ⟨v1, ind1, e1, e2, fun _ => e3 ?_, fun p hp => ?_⟩
          · rw [gatherInd_length, List.length_drop]; omega
          · refine mem_gatherVerts_sub v hv3 (splitAxis (boundOf v).sizes) _ ?_ p (e4 p hp)
            intro e he
            rw [hes]
            exact List.mem_of_mem_drop he

omit [LinearOrderedField K] in
/-- The index list that `BVH::build(v)` passes on holds one index per whole triangle. -/
theorem build_index_length (v : List (Vec3 K)) (h3 : v.length % 3 = 0) :
    v.length = 3 * ((List.range (triCount v.length)).map (fun (i : Nat) => (i : Int))).length := by
  simp only [List.length_map, List.length_range, triCount]
  omega

omit [LinearOrderedField K] in
/-- The children of a node of a tree are nodes of the tree. -/
theorem nodes_children (n : BVH K) :
    ∀ (b : AlignedBox3 K) (l r : BVH K), BVH.inner b l r ∈ n.nodes →
      l ∈ n.nodes ∧ r ∈ n.nodes := by
  induction n with
  | leaf b0 vs is =>
    intro b l r h
    simp [BVH.nodes] at h
  | inner b0 l0 r0 ihl ihr =>
    intro b l r h
    simp only [BVH.nodes, List.mem_cons, List.mem_append] at h ⊢
    rcases h with h | h | h
    · injection h with _ h2 h3
      subst h2 h3
      exact ⟨Or.inr (Or.inl (self_mem_nodes l)), Or.inr (Or.inr (self_mem_nodes r))⟩
    · obtain ⟨a1, a2⟩ := ihl b l r h
      exact ⟨Or.inr (Or.inl a1), Or.inr (Or.inl a2)⟩
    · obtain ⟨a1, a2⟩ := ihr b l r h
      exact ⟨Or.inr (Or.inr a1), Or.inr (Or.inr a2)⟩

/-- C21. In the tree built by `BVH::build` from a vertex list of whole triangles, a
node is a leaf iff it holds at most 3 triangles; a leaf stores 3 vertices per stored
face index (one index per triangle it holds); an internal node stores no vertices and
no face indices and has its two children. -/
theorem build_leaf_iff (v : List (Vec3 K)) (h3 : v.length % 3 = 0) (m : BVH K)
    (hm : m ∈ (build v).nodes) :
    (m.isLeaf = true ↔ m.leafTris.length ≤ 3) ∧
    (m.isLeaf = true →
      m.verts.length = 3 * m.indices.length ∧ m.leafTris.length = m.indices.length) ∧
    (m.isLeaf = false →
      m.verts = [] ∧ m.indices = [] ∧ ∃ b l r, m = BVH.inner b l r ∧
        l ∈ (build v).nodes ∧ r ∈ (build v).nodes) := by
  obtain ⟨v1, ind1, e1, e2, -, -⟩ :=
    buildWith_nodes _ v _ (le_refl _) (build_index_length v h3) m hm
  have hcount := buildWith_leafTris_length _ v1 ind1 (le_refl _) e2
  rw [← e1] at hcount
  by_cases hle : ind1.length ≤ 3
  · have hleaf : m = BVH.leaf (boundOf v1) v1 ind1 := by
      rw [e1, buildWith, dif_pos hle]
    subst hleaf
    refine ⟨⟨fun _ => by rw [hcount]; exact hle, fun _ => rfl⟩, fun _ => ⟨e2, hcount⟩, ?_⟩
    intro h
    simp [BVH.isLeaf] at h
  · obtain ⟨l, r, hb, -, -⟩ := buildWith_inner v1 ind1 e2 (by omega)
    rw [← e1] at hb
    subst hb
    refine ⟨⟨fun h => by simp [BVH.isLeaf] at h, fun h => by omega⟩,
      fun h => by simp [BVH.isLeaf] at h, fun _ => ⟨rfl, rfl, _, l, r, rfl, ?_⟩⟩
    exact nodes_children (build v) _ l r hm

/-- C21 (witness): the two-triangle list builds one leaf. -/
theorem build_leaf_iff_witness :
    ((build twoTriangles).isLeaf = true ↔ (build twoTriangles).leafTris.length ≤ 3) ∧
    ((build twoTriangles).isLeaf = true →
      (build twoTriangles).verts.length = 3 * (build twoTriangles).indices.length ∧
        (build twoTriangles).leafTris.length = (build twoTriangles).indices.length) ∧
    ((build twoTriangles).isLeaf = false →
      (build twoTriangles).verts = [] ∧ (build twoTriangles).indices = [] ∧
        ∃ b l r, build twoTriangles = BVH.inner b l r ∧
          l ∈ (build twoTriangles).nodes ∧ r ∈ (build twoTriangles).nodes) :=
  build_leaf_iff twoTriangles (by decide) (build twoTriangles) (self_mem_nodes _)

/-! ## The median split of `BVH::build` -/

theorem pairLE_total : IsTotal (K × Nat) pairLE where
  total a b := by
    unfold pairLE
    rcases lt_trichotomy a.1 b.1 with h | h | h
    · exact Or.inl (Or.inl h)
    · rcases Nat.le_total a.2 b.2 with h2 | h2
      · exact Or.inl (Or.inr ⟨h, h2⟩)
      · exact Or.inr (Or.inr ⟨h.symm, h2⟩)
    · exact Or.inr (Or.inl h)

theorem pairLE_trans : IsTrans (K × Nat) pairLE where
  trans a b c hab hbc := by
    unfold pairLE at *
    rcases hab with h1 | ⟨h1, h2⟩
    · rcases hbc with g1 | ⟨g1, _⟩
      · exact Or.inl (lt_trans h1 g1)
      · exact Or.inl (g1 ▸ h1)
    · rcases hbc with g1 | ⟨g1, g2⟩
      · exact Or.inl (h1 ▸ g1)
      · exact Or.inr ⟨h1.trans g1, le_trans h2 g2⟩

/-- After `std::sort`, every entry of the first part of `monoIndex` has a centroid
value at most that of every entry of the rest. -/
theorem monoIndex_split_le (v : List (Vec3 K)) (axis : Fin 3) (half : Nat)
    (a b : K × Nat) (ha : a ∈ (monoIndex v axis).take half)
    (hb : b ∈ (monoIndex v axis).drop half) : a.1 ≤ b.1 := by
  have hs : List.Sorted pairLE (monoIndex v axis) :=
    @List.sorted_insertionSort _ pairLE _ pairLE_total pairLE_trans _
  rw [← List.take_append_drop half (monoIndex v axis)] at hs
  have h := (List.pairwise_append.mp hs).2.2 a ha b hb
  rcases h with h | ⟨h, _⟩
  · exact le_of_lt h
  · exact le_of_eq h

/-- The triangles gathered for entries of `monoIndex` have the entries' centroid values. -/
theorem gathered_centroid (v : List (Vec3 K)) (ind : List Int) (axis : Fin 3)
    (es : List (K × Nat)) (hes : ∀ e ∈ es, e ∈ monoIndex v axis)
    (τ : Int × Vec3 K × Vec3 K × Vec3 K)
    (hτ : τ ∈ taggedTris (gatherVerts v es) (gatherInd ind es)) :
    ∃ e ∈ es, centroidAt τ axis = e.1 := by
  rw [taggedTris_gather, List.mem_map] at hτ
  obtain ⟨e, he, rfl⟩ := hτ
  refine ⟨e, he, ?_⟩
  obtain ⟨k, _, rfl⟩ := mem_monoIndex.mp (hes e he)
  rfl

/-- The node built from more than three whole triangles: the counts of its children
and the order of their centroids on the split axis. -/
theorem buildWith_split (v : List (Vec3 K)) (ind : List Int) (hlen : v.length = 3 * ind.length)
    (hn : 3 < ind.length) (b : AlignedBox3 K) (l r : BVH K)
    (hb : buildWith v ind = BVH.inner b l r) :
    l.leafTris.length = ind.length / 2 ∧
    r.leafTris.length = ind.length - ind.length / 2 ∧
    ∀ τL ∈ l.leafTris, ∀ τR ∈ r.leafTris,
      centroidAt τL (splitAxis b.sizes) ≤ centroidAt τR (splitAxis b.sizes) := by
  have h3 : ¬ ind.length ≤ 3 := by omega
  have hm : (monoIndex v (splitAxis (boundOf v).sizes)).length = ind.length := by
    rw [monoIndex_length, hlen, triCount_three_mul]
  rw [buildWith, dif_neg h3] at hb
  injection hb with hb1 hb2 hb3
  subst hb1 hb2 hb3
  have hL := buildWith_inv _ (gatherVerts v ((monoIndex v (splitAxis (boundOf v).sizes)).take
      ((monoIndex v (splitAxis (boundOf v).sizes)).length / 2)))
    (gatherInd ind ((monoIndex v (splitAxis (boundOf v).sizes)).take
      ((monoIndex v (splitAxis (boundOf v).sizes)).length / 2))) (le_refl _)
    (by rw [gatherVerts_length, gatherInd_length])
  have hR := buildWith_inv _ (gatherVerts v ((monoIndex v (splitAxis (boundOf v).sizes)).drop
      ((monoIndex v (splitAxis (boundOf v).sizes)).length / 2)))
    (gatherInd ind ((monoIndex v (splitAxis (boundOf v).sizes)).drop
      ((monoIndex v (splitAxis (boundOf v).sizes)).length / 2))) (le_refl _)
    (by rw [gatherVerts_length, gatherInd_length])
  refine ⟨?_, ?_, ?_⟩
  · rw [buildWith_leafTris_length _ _ _ (le_refl _)
      (by rw [gatherVerts_length, gatherInd_length])]
    rw [gatherInd_length, List.length_take, hm]
    omega
  · rw [buildWith_leafTris_length _ _ _ (le_refl _)
      (by rw [gatherVerts_length, gatherInd_length])]
    rw [gatherInd_length, List.length_drop, hm]
  · intro τL hτL τR hτR
    obtain ⟨a, ha, ea⟩ := gathered_centroid v ind (splitAxis (boundOf v).sizes) _
      (fun e he => List.mem_of_mem_take he) τL ((hL.2.1 τL).mp hτL)
    obtain ⟨c, hc, ec⟩ := gathered_centroid v ind (splitAxis (boundOf v).sizes) _
      (fun e he => List.mem_of_mem_drop he) τR ((hR.2.1 τR).mp hτR)
    rw [ea, ec]
    exact monoIndex_split_le v _ _ a c ha hc

/-- C22. For every internal node of the tree built by `BVH::build` from whole
triangles, holding `n` triangles: the left child holds `n / 2` triangles, the right
child the remaining `n - n / 2`, and on the split axis chosen from the node's box the
centroid coordinate of every triangle of the left child is at most that of every
triangle of the right child. -/
theorem build_median_split (v : List (Vec3 K)) (h3 : v.length % 3 = 0) (b : AlignedBox3 K)
    (l r : BVH K) (hm : BVH.inner b l r ∈ (build v).nodes) :
    l.leafTris.length = (BVH.inner b l r).leafTris.length / 2 ∧
    r.leafTris.length
      = (BVH.inner b l r).leafTris.length - (BVH.inner b l r).leafTris.length / 2 ∧
    ∀ τL ∈ l.leafTris, ∀ τR ∈ r.leafTris,
      centroidAt τL (splitAxis b.sizes) ≤ centroidAt τR (splitAxis b.sizes) := by
  obtain ⟨v1, ind1, e1, e2, -, -⟩ :=
    buildWith_nodes _ v _ (le_refl _) (build_index_length v h3) _ hm
  have hcount := buildWith_leafTris_length _ v1 ind1 (le_refl _) e2
  rw [← e1] at hcount
  have hn : 3 < ind1.length := by
    by_contra hle
    rw [buildWith, dif_pos (not_lt.mp hle)] at e1
    exact BVH.noConfusion e1
  rw [hcount]
  exact buildWith_split v1 ind1 e2 hn b l r e1.symm

/-- C22 (witness): the root of the tree built from four triangles. -/
theorem build_median_split_witness :
    ∃ (b : AlignedBox3 ℚ) (l r : BVH ℚ), BVH.inner b l r ∈ (build fourSameTriangles).nodes ∧
      l.leafTris.length = (BVH.inner b l r).leafTris.length / 2 ∧
      r.leafTris.length
        = (BVH.inner b l r).leafTris.length - (BVH.inner b l r).leafTris.length / 2 ∧
      ∀ τL ∈ l.leafTris, ∀ τR ∈ r.leafTris,
        centroidAt τL (splitAxis b.sizes) ≤ centroidAt τR (splitAxis b.sizes) := by
  obtain ⟨l, r, hb, -, -⟩ := buildWith_inner fourSameTriangles [0, 1, 2, 3] rfl (by decide)
  have hroot : BVH.inner (boundOf fourSameTriangles) l r ∈ (build fourSameTriangles).nodes := by
    have : build fourSameTriangles = BVH.inner (boundOf fourSameTriangles) l r := hb
    rw [this]
    exact self_mem_nodes _
  exact ⟨_, l, r, hroot, build_median_split fourSameTriangles (by decide) _ l r hroot⟩

/-! ## The boxes of the tree are tight -/

/-- Every vertex of a list of whole triangles is gathered for some entry of `monoIndex`. -/
theorem mem_gatherVerts_monoIndex (v : List (Vec3 K)) (h3 : v.length % 3 = 0) (axis : Fin 3)
    (p : Vec3 K) : p ∈ gatherVerts v (monoIndex v axis) ↔ p ∈ v := by
  constructor
  · exact mem_gatherVerts_sub v h3 axis _ (fun e he => he) p
  · intro hp
    obtain ⟨j, hj, rfl⟩ := List.getElem_of_mem hp
    have hk : j / 3 < triCount v.length := by
      unfold triCount; omega
    have he : (triMidValue v axis (3 * (j / 3)), 3 * (j / 3)) ∈ monoIndex v axis :=
      mem_monoIndex.mpr ⟨j / 3, hk, rfl⟩
    simp only [gatherVerts, List.mem_flatMap]
    refine ⟨_, he, ?_⟩
    have hv : v[j] = vget v j := by
      unfold vget
      rw [List.getD_eq_getElem v _ hj]
    rw [hv]
    have hcases : j = 3 * (j / 3) ∨ j = 3 * (j / 3) + 1 ∨ j = 3 * (j / 3) + 2 := by omega
    simp only [List.mem_cons, List.mem_singleton, List.not_mem_nil, or_false]
    rcases hcases with h | h | h
    · exact Or.inl (congrArg (vget v) h)
    · exact Or.inr (Or.inl (congrArg (vget v) h))
    · exact Or.inr (Or.inr (congrArg (vget v) h))

theorem gatherVerts_append (v : List (Vec3 K)) (es fs : List (K × Nat)) :
    gatherVerts v (es ++ fs) = gatherVerts v es ++ gatherVerts v fs := by
  simp [gatherVerts]

/-- The leaves of the tree built from whole triangles store exactly the vertices of
the input. -/
theorem buildWith_leafVerts (n : Nat) :
    ∀ (v : List (Vec3 K)) (ind : List Int), ind.length ≤ n → v.length = 3 * ind.length →
      ∀ p, p ∈ (buildWith v ind).leafVerts ↔ p ∈ v := by
  induction n with
  | zero =>
    intro v ind hn hlen p
    have h3 : ind.length ≤ 3 := by omega
    rw [buildWith, dif_pos h3]
    rfl
  | succ n ih =>
    intro v ind hn hlen p
    by_cases h3 : ind.length ≤ 3
    · rw [buildWith, dif_pos h3]
      rfl
    · rw [buildWith, dif_neg h3]
      have hm : (monoIndex v (splitAxis (boundOf v).sizes)).length = ind.length := by
        rw [monoIndex_length, hlen, triCount_three_mul]
      have hv3 : v.length % 3 = 0 := by omega
      rw [← mem_gatherVerts_monoIndex v hv3 (splitAxis (boundOf v).sizes) p]
      generalize monoIndex v (splitAxis (boundOf v).sizes) = es at hm
      simp only [BVH.leafVerts, List.mem_append]
      rw [ih _ _ (by rw [gatherInd_length, List.length_take]; omega)
          (by rw [gatherVerts_length, gatherInd_length]) p,
        ih _ _ (by rw [gatherInd_length, List.length_drop]; omega)
          (by rw [gatherVerts_length, gatherInd_length]) p,
        ← List.mem_append, ← gatherVerts_append, List.take_append_drop]

/-- Extending a box by points: each face of the result is a face of the box extended
or passes through one of the points. -/
theorem foldl_extend_touch (v : List (Vec3 K)) :
    ∀ (b : AlignedBox3 K) (i : Fin 3),
      ((v.foldl AlignedBox3.extend b).m_min.get i = b.m_min.get i ∨
        ∃ p ∈ v, p.get i = (v.foldl AlignedBox3.extend b).m_min.get i) ∧
      ((v.foldl AlignedBox3.extend b).m_max.get i = b.m_max.get i ∨
        ∃ p ∈ v, p.get i = (v.foldl AlignedBox3.extend b).m_max.get i) := by
  induction v with
  | nil =>
    intro b i
    exact ⟨Or.inl rfl, Or.inl rfl⟩
  | cons q v ih =>
    intro b i
    simp only [List.foldl_cons]
    obtain ⟨h1, h2⟩ := ih (b.extend q) i
    have hmin : (b.extend q).m_min.get i = min (b.m_min.get i) (q.get i) := cwiseMin_get _ _ i
    have hmax : (b.extend q).m_max.get i = max (b.m_max.get i) (q.get i) := cwiseMax_get _ _ i
    constructor
    · rcases h1 with h | ⟨p, hp, h⟩
      · rw [h, hmin]
        rcases min_choice (b.m_min.get i) (q.get i) with e | e
        · exact Or.inl e
        · exact Or.inr ⟨q, List.mem_cons_self _ _, e.symm⟩
      · exact Or.inr ⟨p, List.mem_cons_of_mem _ hp, h⟩
    · rcases h2 with h | ⟨p, hp, h⟩
      · rw [h, hmax]
        rcases max_choice (b.m_max.get i) (q.get i) with e | e
        · exact Or.inl e
        · exact Or.inr ⟨q, List.mem_cons_self _ _, e.symm⟩
      · exact Or.inr ⟨p, List.mem_cons_of_mem _ hp, h⟩

omit [LinearOrderedField K] in
theorem const_get (c : K) (i : Fin 3) : (Vec3.const c).get i = c := by
  fin_cases i <;> rfl

/-- The box of a non-empty list of finite float values: each of its faces passes
through a vertex of the list. -/
theorem boundOf_touch (v : List (Vec3 K)) (hne : v ≠ [])
    (hfin : ∀ p ∈ v, ∀ i : Fin 3, -FLT_MAX ≤ p.get i ∧ p.get i ≤ FLT_MAX) (i : Fin 3) :
    (∃ p ∈ v, p.get i = (boundOf v).m_min.get i) ∧
    (∃ p ∈ v, p.get i = (boundOf v).m_max.get i) := by
  obtain ⟨q, hq⟩ := List.exists_mem_of_ne_nil v hne
  obtain ⟨h1, h2⟩ := foldl_extend_touch v AlignedBox3.empty i
  obtain ⟨-, -, hb⟩ := foldl_extend_bounds v AlignedBox3.empty i
  have e1 : (AlignedBox3.empty : AlignedBox3 K).m_min.get i = FLT_MAX := const_get _ i
  have e2 : (AlignedBox3.empty : AlignedBox3 K).m_max.get i = -FLT_MAX := const_get _ i
  constructor
  · rcases h1 with h | h
    · refine ⟨q, hq, le_antisymm ?_ (hb q hq).1⟩
      unfold boundOf
      rw [h, e1]
      exact (hfin q hq i).2
    · exact h
  · rcases h2 with h | h
    · refine ⟨q, hq, le_antisymm (hb q hq).2 ?_⟩
      unfold boundOf
      rw [h, e2]
      exact (hfin q hq i).1
    · exact h

/-- The box of the tree built from a vertex list is the box of the list. -/
theorem buildWith_box (v : List (Vec3 K)) (ind : List Int) :
    (buildWith v ind).box = boundOf v := by
  rw [buildWith]
  split <;> rfl

/-- C23 (amended). For every node of the tree built by `BVH::build` from a non-empty
list of whole triangles with finite coordinates, the node's box is the tightest
axis-aligned bound of the vertices stored in the leaves below it: every such vertex
lies in the box, and on every axis the lower and the upper face of the box pass
through one of these vertices. -/
theorem build_box_tight (v : List (Vec3 K)) (h3 : v.length % 3 = 0) (hne : v ≠ [])
    (hfin : ∀ p ∈ v, ∀ i : Fin 3, -FLT_MAX ≤ p.get i ∧ p.get i ≤ FLT_MAX)
    (m : BVH K) (hm : m ∈ (build v).nodes) :
    (∀ p ∈ m.leafVerts, m.box.contains p) ∧
    ∀ i : Fin 3, (∃ p ∈ m.leafVerts, p.get i = m.box.m_min.get i) ∧
      (∃ p ∈ m.leafVerts, p.get i = m.box.m_max.get i) := by
  have hidx := build_index_length v h3
  have hpos : 1 ≤ ((List.range (triCount v.length)).map (fun (i : Nat) => (i : Int))).length := by
    have : 0 < v.length := List.length_pos.mpr hne
    omega
  obtain ⟨v1, ind1, e1, e2, e3, e4⟩ := buildWith_nodes _ v _ (le_refl _) hidx m hm
  have hmem := buildWith_leafVerts _ v1 ind1 (le_refl _) e2
  have hne1 : v1 ≠ [] := by
    intro h
    have := e3 hpos
    rw [h] at e2
    simp only [List.length_nil] at e2
    omega
  subst e1
  rw [buildWith_box]
  refine ⟨fun p hp => boundOf_contains v1 p ((hmem p).mp hp), fun i => ?_⟩
  obtain ⟨⟨p, hp, h1⟩, ⟨q, hq, h2⟩⟩ :=
    boundOf_touch v1 hne1 (fun p hp => hfin p (e4 p hp)) i
  exact ⟨⟨p, (hmem p).mpr hp, h1⟩, ⟨q, (hmem q).mpr hq, h2⟩⟩

/-- C23 (witness): the root of the tree built from one triangle. -/
theorem build_box_tight_witness :
    (∀ p ∈ (build flatTriangle).leafVerts, (build flatTriangle).box.contains p) ∧
    ∀ i : Fin 3,
      (∃ p ∈ (build flatTriangle).leafVerts, p.get i = (build flatTriangle).box.m_min.get i) ∧
      (∃ p ∈ (build flatTriangle).leafVerts, p.get i = (build flatTriangle).box.m_max.get i) :=
  build_box_tight flatTriangle (by decide) (by decide)
    (by
      intro p hp i
      simp only [flatTriangle, List.mem_cons, List.mem_singleton, List.not_mem_nil,
        or_false] at hp
      rcases hp with rfl | rfl | rfl <;> fin_cases i <;>
        norm_num [Vec3.get, FLT_MAX])
    (build flatTriangle) (self_mem_nodes _)

/-- C23 (the claim as stated fails): the tree built from the empty vertex list has one
node, the empty leaf; it stores no vertex, so no vertex lies on a face of its box. -/
theorem build_box_tight_counterexample :
    build ([] : List (Vec3 ℚ)) ∈ (build ([] : List (Vec3 ℚ))).nodes ∧
    (build ([] : List (Vec3 ℚ))).leafVerts = [] ∧
    ¬ ∃ p ∈ (build ([] : List (Vec3 ℚ))).leafVerts,
        p.get 0 = (build ([] : List (Vec3 ℚ))).box.m_min.get 0 := by
  rw [build_nil]
  refine ⟨self_mem_nodes _, rfl, ?_⟩
  rintro ⟨p, hp, -⟩
  simp [BVH.leafVerts] at hp

/-! ## The attributes of the nearest triangle -/

/-- Accepting a sphere root leaves the hit state as it is or lowers `nextParam`. -/
theorem sphereAccept_strict (L : Libm K) (sc : Scene K) (origin direction : Vec3 K) (i : Nat)
    (t : K) (h : Hit K) :
    sphereAccept L sc origin direction i t h = h ∨
      (sphereAccept L sc origin direction i t h).nextParam < h.nextParam := by
  rcases sphereAccept_cases L sc origin direction i t h with ⟨ha, _⟩ | ⟨ha, _, _, hc⟩
  · exact Or.inl ha
  · exact Or.inr (by rw [ha]; exact hc)

/-- One pass of the sphere loop leaves the hit state as it is or lowers `nextParam`. -/
theorem sphereStep_strict (L : Libm K) (sc : Scene K) (origin direction : Vec3 K) (i : Nat)
    (h : Hit K) :
    sphereStep L sc origin direction h i = h ∨
      (sphereStep L sc origin direction h i).nextParam < h.nextParam := by
  unfold sphereStep
  cases hr : sphereRoots L sc origin direction i with
  | none => exact Or.inl rfl
  | some r =>
    obtain ⟨r1, r2⟩ := r
    simp only []
    rcases sphereAccept_strict L sc origin direction i r1 h with h1 | h1
    · rw [h1]
      exact sphereAccept_strict L sc origin direction i r2 h
    · rcases sphereAccept_strict L sc origin direction i r2
        (sphereAccept L sc origin direction i r1 h) with h2 | h2
      · rw [h2]
        exact Or.inr h1
      · exact Or.inr (lt_trans h2 h1)

/-- The sphere loop leaves the hit state as it is or lowers `nextParam`. -/
theorem sphereLoop_strict (L : Libm K) (sc : Scene K) (origin direction : Vec3 K) (h0 : Hit K) :
    sphereLoop L sc origin direction h0 = h0 ∨
      (sphereLoop L sc origin direction h0).nextParam < h0.nextParam := by
  unfold sphereLoop
  induction sc.sphereRadius.length with
  | zero => exact Or.inl (by simp)
  | succ n ih =>
    rw [List.range_succ, List.foldl_append]
    simp only [List.foldl_cons, List.foldl_nil]
    generalize (List.range n).foldl (sphereStep L sc origin direction) h0 = h at ih ⊢
    rcases sphereStep_strict L sc origin direction n h with hs | hs
    · rw [hs]
      exact ih
    · rcases ih with ih | ih
      · exact Or.inr (lt_of_lt_of_eq hs (congrArg Hit.nextParam ih))
      · exact Or.inr (lt_trans hs ih)

omit [LinearOrderedField K] in
/-- Entry `f` of the index list `0, 1, 2, ...` that `BVH::build(v)` starts from. -/
theorem getD_range_cast (n f : Nat) (hf : f < n) :
    ((List.range n).map (fun (i : Nat) => (i : Int))).getD f 0 = (f : Int) := by
  rw [List.getD_eq_getElem _ _ (by simpa using hf)]
  simp

/-- The attribute block at a triangle of face `f` hit with barycentric values
`(minU, minV)`. -/
theorem triAttr_face (L : Libm K) (sc : Scene K) (indices : List Int) (best : TriBest K)
    (h : Hit K) (k f : Nat) (hk : best.index = ((3 * k : Nat) : Int))
    (hf : indices.getD k 0 = (f : Int)) :
    triAttr L sc indices best h =
      ⟨h.nextParam, sc.faceMaterialIndex.getD f 0,
        (((Vec3.smul (1 - best.minU - best.minV) (sc.faceNormals.getD (3 * f) ⟨0, 0, 0⟩)).add
            (Vec3.smul best.minU (sc.faceNormals.getD (3 * f + 1) ⟨0, 0, 0⟩))).add
          (Vec3.smul best.minV (sc.faceNormals.getD (3 * f + 2) ⟨0, 0, 0⟩))).normalized L,
        ((Vec2.smul (1 - best.minU - best.minV) (sc.faceUVs.getD (3 * f) ⟨0, 0⟩)).add
            (Vec2.smul best.minU (sc.faceUVs.getD (3 * f + 1) ⟨0, 0⟩))).add
          (Vec2.smul best.minV (sc.faceUVs.getD (3 * f + 2) ⟨0, 0⟩))⟩ := by
  unfold triAttr
  have h0 : best.index ≥ 0 := by rw [hk]; exact Int.natCast_nonneg _
  have hdiv : best.index / 3 = (k : Int) := by
    rw [hk]
    push_cast
    exact Int.mul_ediv_cancel_left _ (by norm_num)
  have e0 : (f : Int) * 3 = ((3 * f : Nat) : Int) := by push_cast; ring
  have e1 : ((3 * f : Nat) : Int) + 1 = ((3 * f + 1 : Nat) : Int) := by push_cast; ring
  have e2 : ((3 * f : Nat) : Int) + 2 = ((3 * f + 2 : Nat) : Int) := by push_cast; ring
  rw [if_pos h0, hdiv]
  simp only [getI_natCast, hf, e0, e1, e2]

/-- C24. When the triangle loop of `Scene::rayTrace` has found a triangle and no sphere
root lowers the distance (the nearest accepted hit is a triangle), the tested triangle
is triangle `k` of the candidate list, accepted with the returned distance and
barycentric values `(u, v)`; its three vertices are those of a face `f` of the scene,
whatever the order in which the tree stores the faces; and the returned material index,
normal and UV are `faceMaterialIndex[f]`, the normalised combination of the normals
`3f`, `3f+1`, `3f+2` with weights `1-u-v`, `u`, `v`, and the same combination of the
UVs. -/
theorem triangle_hit_attributes (L : Libm K) (sc : Scene K) (origin direction : Vec3 K)
    (h3 : sc.faceVertices.length % 3 = 0) (hb : sc.bvh = build sc.faceVertices)
    (hidx : 0 ≤ (triLoop (candidates sc origin direction).2 origin direction).index)
    (hnear : (rayTraceOut L sc origin direction).nextParam
      = (triLoop (candidates sc origin direction).2 origin direction).nextParam) :
    ∃ (k f : Nat) (u v : K),
      (triLoop (candidates sc origin direction).2 origin direction).index
        = ((3 * k : Nat) : Int) ∧
      triTest (candidates sc origin direction).2 origin direction (3 * k)
        = some ((rayTraceOut L sc origin direction).nextParam, u, v) ∧
      3 * f + 2 < sc.faceVertices.length ∧
      vget (candidates sc origin direction).2 (3 * k) = vget sc.faceVertices (3 * f) ∧
      vget (candidates sc origin direction).2 (3 * k + 1) = vget sc.faceVertices (3 * f + 1) ∧
      vget (candidates sc origin direction).2 (3 * k + 2) = vget sc.faceVertices (3 * f + 2) ∧
      (rayTraceOut L sc origin direction).nextMatIndex = sc.faceMaterialIndex.getD f 0 ∧
      (rayTraceOut L sc origin direction).nextNormal =
        (((Vec3.smul (1 - u - v) (sc.faceNormals.getD (3 * f) ⟨0, 0, 0⟩)).add
            (Vec3.smul u (sc.faceNormals.getD (3 * f + 1) ⟨0, 0, 0⟩))).add
          (Vec3.smul v (sc.faceNormals.getD (3 * f + 2) ⟨0, 0, 0⟩))).normalized L ∧
      (rayTraceOut L sc origin direction).nextUV =
        ((Vec2.smul (1 - u - v) (sc.faceUVs.getD (3 * f) ⟨0, 0⟩)).add
            (Vec2.smul u (sc.faceUVs.getD (3 * f + 1) ⟨0, 0⟩))).add
          (Vec2.smul v (sc.faceUVs.getD (3 * f + 2) ⟨0, 0⟩)) := by
  obtain ⟨hal, hmem, -⟩ := build_inv sc.faceVertices h3
  rcases (triLoop_spec (candidates sc origin direction).2 origin direction).2 with
    hnone | ⟨k, hk, hik, htest, -, -⟩
  · rw [hnone] at hidx
    have hneg : ¬ (0 : Int) ≤ -1 := by decide
    exact absurd hidx hneg
  -- the tested triangle is a triangle of the scene
  have hτ : ((candidates sc origin direction).1.getD k 0,
      vget (candidates sc origin direction).2 (3 * k),
      vget (candidates sc origin direction).2 (3 * k + 1),
      vget (candidates sc origin direction).2 (3 * k + 2))
        ∈ taggedTris (candidates sc origin direction).2 (candidates sc origin direction).1 :=
    mem_taggedTris.mpr ⟨k, hk, rfl⟩
  rw [candidates_eq, hb] at hτ
  have hleaf := (hmem _).mp (collectRec_sound origin direction _ hal _ hτ)
  obtain ⟨f, hf, hfeq⟩ := mem_taggedTris.mp hleaf
  rw [getD_range_cast _ f hf] at hfeq
  simp only [Prod.mk.injEq] at hfeq
  obtain ⟨q0, q1, q2, q3⟩ := hfeq
  rw [← hb, ← candidates_eq] at q0 q1 q2 q3
  have hf2 : 3 * f + 2 < sc.faceVertices.length := by
    unfold triCount at hf; omega
  -- the sphere loop leaves the attributes of the triangle
  have hout : rayTraceOut L sc origin direction =
      triAttr L sc (candidates sc origin direction).1
        (triLoop (candidates sc origin direction).2 origin direction)
        ⟨(triLoop (candidates sc origin direction).2 origin direction).nextParam, -1,
          ⟨0, 0, 0⟩, ⟨0, 0⟩⟩ := by
    rcases sphereLoop_strict L sc origin direction
      (triAttr L sc (candidates sc origin direction).1
        (triLoop (candidates sc origin direction).2 origin direction)
        ⟨(triLoop (candidates sc origin direction).2 origin direction).nextParam, -1,
          ⟨0, 0, 0⟩, ⟨0, 0⟩⟩) with h | h
    · exact h
    · rw [triAttr_nextParam] at h
      exact absurd hnear (ne_of_lt h)
  have hattr := triAttr_face L sc (candidates sc origin direction).1
    (triLoop (candidates sc origin direction).2 origin direction)
    ⟨(triLoop (candidates sc origin direction).2 origin direction).nextParam, -1,
      ⟨0, 0, 0⟩, ⟨0, 0⟩⟩ k f hik q0
  rw [hattr] at hout
  refine ⟨k, f, (triLoop (candidates sc origin direction).2 origin direction).minU,
    (triLoop (candidates sc origin direction).2 origin direction).minV, hik, ?_, hf2,
    q1, q2, q3, ?_, ?_, ?_⟩
  · rw [hnear]
    exact htest
  · rw [hout]
  · rw [hout]
  · rw [hout]

/-- On a one-triangle scene, a ray through a point of the triangle that passes the
gates of the triangle test and of the box test: the candidate list is the triangle, and
the triangle loop keeps it with the weights of the point. -/
theorem oneTriangle_loop (p0 p1 p2 n0 n1 n2 : Vec3 K) (uv0 uv1 uv2 : Vec2 K)
    (mat : Material K) (origin direction : Vec3 K) (w0 w1 w2 t : K)
    (hw0 : 0 ≤ w0) (hw1 : 0 ≤ w1) (hw2 : 0 ≤ w2) (hsum : w0 + w1 + w2 = 1)
    (hq : origin.add (Vec3.smul t direction)
      = ((Vec3.smul w0 p0).add (Vec3.smul w1 p1)).add (Vec3.smul w2 p2))
    (hdet : FLT_EPSILON ≤ |(p1.sub p0).dot (direction.cross (p2.sub p0))|)
    (ht1 : hitEps < t) (ht2 : t < FLT_MAX)
    (hd : ∀ j : Fin 3, direction.get j ≠ 0)
    (hpar : ∀ j : Fin 3, |direction.get j| < FLT_EPSILON →
      min (min (p0.get j) (p1.get j)) (p2.get j) ≤ origin.get j ∧
      origin.get j ≤ max (max (p0.get j) (p1.get j)) (p2.get j)) :
    candidates (Scene.oneTriangle p0 p1 p2 n0 n1 n2 uv0 uv1 uv2 mat) origin direction
      = ([0], [p0, p1, p2]) ∧
    triLoop [p0, p1, p2] origin direction = ⟨t, w1, w2, 0⟩ := by
  have htest := triTest_of_point p0 p1 p2 origin direction w0 w1 w2 t hw0 hw1 hw2 hsum hq hdet
  have hbox : checkIntersectionBox (boundOf [p0, p1, p2]) origin direction = true :=
    checkIntersectionBox_of_triTest _ [p0, p1, p2] origin direction 0 t w1 w2 htest ht1 ht2 hd
      (fun j hj => boundOf_three_slab p0 p1 p2 j _ (hpar j hj))
      (boundOf_contains _ _ (by simp [vget])) (boundOf_contains _ _ (by simp [vget]))
      (boundOf_contains _ _ (by simp [vget]))
  refine ⟨by rw [candidates_oneTriangle, if_pos hbox], ?_⟩
  rw [triLoop_single [p0, p1, p2] _ _ rfl]
  simp only [triStep, htest, if_pos (And.intro ht2 ht1)]
  rfl

/-- The scene `flatScene` and the ray from `(1/2, 1/2, 2)` along `(1/4, 1/4, -1)`: the
candidates and the result of the triangle loop. -/
theorem flatScene_loop :
    candidates flatScene ⟨1 / 2, 1 / 2, 2⟩ ⟨1 / 4, 1 / 4, -1⟩
      = ([0], [⟨0, 0, 0⟩, ⟨4, 0, 0⟩, ⟨0, 4, 0⟩]) ∧
    triLoop [(⟨0, 0, 0⟩ : Vec3 ℚ), ⟨4, 0, 0⟩, ⟨0, 4, 0⟩] ⟨1 / 2, 1 / 2, 2⟩ ⟨1 / 4, 1 / 4, -1⟩
      = ⟨2, 1 / 4, 1 / 4, 0⟩ :=
  oneTriangle_loop ⟨0, 0, 0⟩ ⟨4, 0, 0⟩ ⟨0, 4, 0⟩ ⟨0, 0, 1⟩ ⟨0, 0, 1⟩ ⟨0, 0, 1⟩
    ⟨0, 0⟩ ⟨1, 0⟩ ⟨0, 1⟩ defaultMaterial ⟨1 / 2, 1 / 2, 2⟩ ⟨1 / 4, 1 / 4, -1⟩
    (1 / 2) (1 / 4) (1 / 4) 2
    (by norm_num) (by norm_num) (by norm_num) (by norm_num)
    (by norm_num [Vec3.add, Vec3.smul])
    (by norm_num [Vec3.sub, Vec3.cross, Vec3.dot, FLT_EPSILON, le_abs])
    (by norm_num [hitEps]) (by norm_num [FLT_MAX])
    (by intro j; fin_cases j <;> norm_num [Vec3.get])
    (by intro j; fin_cases j <;> norm_num [Vec3.get, FLT_EPSILON, abs_lt])

/-- C24 (witness): the triangle of `flatScene` hit at `(1, 1, 0)` by the ray from
`(1/2, 1/2, 2)` along `(1/4, 1/4, -1)`. -/
theorem triangle_hit_attributes_witness :
    ∃ (k f : Nat) (u v : ℚ),
      (triLoop (candidates flatScene ⟨1 / 2, 1 / 2, 2⟩ ⟨1 / 4, 1 / 4, -1⟩).2
          ⟨1 / 2, 1 / 2, 2⟩ ⟨1 / 4, 1 / 4, -1⟩).index = ((3 * k : Nat) : Int) ∧
      triTest (candidates flatScene ⟨1 / 2, 1 / 2, 2⟩ ⟨1 / 4, 1 / 4, -1⟩).2
          ⟨1 / 2, 1 / 2, 2⟩ ⟨1 / 4, 1 / 4, -1⟩ (3 * k)
        = some ((rayTraceOut ratLibm flatScene ⟨1 / 2, 1 / 2, 2⟩
            ⟨1 / 4, 1 / 4, -1⟩).nextParam, u, v) ∧
      3 * f + 2 < flatScene.faceVertices.length ∧
      vget (candidates flatScene ⟨1 / 2, 1 / 2, 2⟩ ⟨1 / 4, 1 / 4, -1⟩).2 (3 * k)
        = vget flatScene.faceVertices (3 * f) ∧
      vget (candidates flatScene ⟨1 / 2, 1 / 2, 2⟩ ⟨1 / 4, 1 / 4, -1⟩).2 (3 * k + 1)
        = vget flatScene.faceVertices (3 * f + 1) ∧
      vget (candidates flatScene ⟨1 / 2, 1 / 2, 2⟩ ⟨1 / 4, 1 / 4, -1⟩).2 (3 * k + 2)
        = vget flatScene.faceVertices (3 * f + 2) ∧
      (rayTraceOut ratLibm flatScene ⟨1 / 2, 1 / 2, 2⟩ ⟨1 / 4, 1 / 4, -1⟩).nextMatIndex
        = flatScene.faceMaterialIndex.getD f 0 ∧
      (rayTraceOut ratLibm flatScene ⟨1 / 2, 1 / 2, 2⟩ ⟨1 / 4, 1 / 4, -1⟩).nextNormal =
        (((Vec3.smul (1 - u - v) (flatScene.faceNormals.getD (3 * f) ⟨0, 0, 0⟩)).add
            (Vec3.smul u (flatScene.faceNormals.getD (3 * f + 1) ⟨0, 0, 0⟩))).add
          (Vec3.smul v (flatScene.faceNormals.getD (3 * f + 2) ⟨0, 0, 0⟩))).normalized
          ratLibm ∧
      (rayTraceOut ratLibm flatScene ⟨1 / 2, 1 / 2, 2⟩ ⟨1 / 4, 1 / 4, -1⟩).nextUV =
        ((Vec2.smul (1 - u - v) (flatScene.faceUVs.getD (3 * f) ⟨0, 0⟩)).add
            (Vec2.smul u (flatScene.faceUVs.getD (3 * f + 1) ⟨0, 0⟩))).add
          (Vec2.smul v (flatScene.faceUVs.getD (3 * f + 2) ⟨0, 0⟩)) :=
  triangle_hit_attributes ratLibm flatScene ⟨1 / 2, 1 / 2, 2⟩ ⟨1 / 4, 1 / 4, -1⟩
    (by decide) rfl
    (by rw [flatScene_loop.1, flatScene_loop.2])
    (by
      unfold flatScene
      rw [rayTraceOut_oneTriangle, triAttr_nextParam])

/-! ## The normal of a sphere hit -/

/-- The sphere test in terms of its discriminant. -/
theorem sphereRoots_eq (L : Libm K) (sc : Scene K) (origin direction : Vec3 K) (i : Nat) :
    sphereRoots L sc origin direction i =
      if sphereDet sc origin direction i < 0 then none
      else some
        (((vget sc.spherePosition i).sub origin).dot direction
            - L.sqrt (sphereDet sc origin direction i),
          ((vget sc.spherePosition i).sub origin).dot direction
            + L.sqrt (sphereDet sc origin direction i)) := rfl

/-- A root of the sphere test, for a unit direction and an exact square root of the
discriminant, is the parameter of a point at distance `radius` from the centre. -/
theorem sphere_root_on_sphere (L : Libm K) (sc : Scene K) (origin direction : Vec3 K) (i : Nat)
    (t1 t2 t : K) (hunit : direction.dot direction = 1)
    (hdet : L.sqrt (sphereDet sc origin direction i) * L.sqrt (sphereDet sc origin direction i)
      = sphereDet sc origin direction i)
    (hroots : sphereRoots L sc origin direction i = some (t1, t2))
    (ht : t = t1 ∨ t = t2) :
    ((Vec3.smul t direction).sub ((vget sc.spherePosition i).sub origin)).dot
        ((Vec3.smul t direction).sub ((vget sc.spherePosition i).sub origin))
      = sc.sphereRadius.getD i 0 * sc.sphereRadius.getD i 0 := by
  rw [sphereRoots_eq] at hroots
  split_ifs at hroots with hneg
  simp only [Option.some.injEq, Prod.mk.injEq] at hroots
  obtain ⟨e1, e2⟩ := hroots
  have hsq : (t - ((vget sc.spherePosition i).sub origin).dot direction)
        * (t - ((vget sc.spherePosition i).sub origin).dot direction)
      = sphereDet sc origin direction i := by
    rcases ht with h | h
    · rw [h, ← e1]
      linear_combination hdet
    · rw [h, ← e2]
      linear_combination hdet
  have hexp : ((Vec3.smul t direction).sub ((vget sc.spherePosition i).sub origin)).dot
        ((Vec3.smul t direction).sub ((vget sc.spherePosition i).sub origin))
      = t * t * direction.dot direction
        - 2 * t * ((vget sc.spherePosition i).sub origin).dot direction
        + ((vget sc.spherePosition i).sub origin).dot ((vget sc.spherePosition i).sub origin) := by
    simp only [Vec3.dot, Vec3.sub, Vec3.smul]
    ring
  have hd : sphereDet sc origin direction i
      = ((vget sc.spherePosition i).sub origin).dot direction
          * ((vget sc.spherePosition i).sub origin).dot direction
        - (((vget sc.spherePosition i).sub origin).dot ((vget sc.spherePosition i).sub origin)
          - sc.sphereRadius.getD i 0 * sc.sphereRadius.getD i 0) := rfl
  rw [hexp, hunit]
  rw [hd] at hsq
  linarith

/-- In exact arithmetic, for a sphere of radius `r > 0` and a ray of unit direction
(with `sqrt` exact at the discriminant and at `r^2`): when the sphere test accepts a
root `t`, the hit point `origin + t * direction` is at distance `r` from the centre
`c`, and the normal returned is `(origin + t * direction - c) / r`, of unit length. -/
theorem sphereAccept_radial (L : Libm K) (sc : Scene K) (origin direction : Vec3 K) (i : Nat)
    (t1 t2 t : K) (h : Hit K)
    (hr : 0 < sc.sphereRadius.getD i 0) (hunit : direction.dot direction = 1)
    (hdet : L.sqrt (sphereDet sc origin direction i) * L.sqrt (sphereDet sc origin direction i)
      = sphereDet sc origin direction i)
    (hsq : L.sqrt (sc.sphereRadius.getD i 0 * sc.sphereRadius.getD i 0)
      = sc.sphereRadius.getD i 0)
    (hroots : sphereRoots L sc origin direction i = some (t1, t2))
    (ht : t = t1 ∨ t = t2) (hacc : t > hitEps ∧ t < h.nextParam) :
    (sphereAccept L sc origin direction i t h).nextParam = t ∧
    ((origin.add (Vec3.smul t direction)).sub (vget sc.spherePosition i)).dot
        ((origin.add (Vec3.smul t direction)).sub (vget sc.spherePosition i))
      = sc.sphereRadius.getD i 0 * sc.sphereRadius.getD i 0 ∧
    (sphereAccept L sc origin direction i t h).nextNormal
      = ((origin.add (Vec3.smul t direction)).sub (vget sc.spherePosition i)).sdiv
          (sc.sphereRadius.getD i 0) ∧
    (sphereAccept L sc origin direction i t h).nextNormal.dot
      (sphereAccept L sc origin direction i t h).nextNormal = 1 := by
  have hon := sphere_root_on_sphere L sc origin direction i t1 t2 t hunit hdet hroots ht
  have hvec : (Vec3.smul t direction).sub ((vget sc.spherePosition i).sub origin)
      = (origin.add (Vec3.smul t direction)).sub (vget sc.spherePosition i) := by
    rw [Vec3.ext_iff3]
    simp only [Vec3.sub, Vec3.smul, Vec3.add]
    refine ⟨by ring, by ring, by ring⟩
  have hnorm := normalized_of_norm L
    ((Vec3.smul t direction).sub ((vget sc.spherePosition i).sub origin))
    (sc.sphereRadius.getD i 0) hr hon.symm (by rw [hon]; exact hsq)
  have hN : (sphereAccept L sc origin direction i t h).nextNormal
      = ((Vec3.smul t direction).sub ((vget sc.spherePosition i).sub origin)).normalized L := by
    simp only [sphereAccept, if_pos hacc]
  refine ⟨(sphereAccept_pos L sc origin direction i t h hacc).1, ?_, ?_, ?_⟩
  · rw [← hvec]
    exact hon
  · rw [hN, hnorm.1, hvec, Vec3.ext_iff3]
    simp only [Vec3.smul, Vec3.sdiv]
    refine ⟨by ring, by ring, by ring⟩
  · rw [hN]
    exact hnorm.2

/-! ## The directions sampled by `Scene::raySurface` -/

theorem dot_comb_self (a b : K) (p q : Vec3 K) :
    ((Vec3.smul a p).add (Vec3.smul b q)).dot ((Vec3.smul a p).add (Vec3.smul b q))
      = a * a * p.dot p + 2 * a * b * p.dot q + b * b * q.dot q := by
  simp only [Vec3.dot, Vec3.add, Vec3.smul]
  ring

theorem dot_comb_left (a b : K) (p q r : Vec3 K) :
    ((Vec3.smul a p).add (Vec3.smul b q)).dot r = a * p.dot r + b * q.dot r := by
  simp only [Vec3.dot, Vec3.add, Vec3.smul]
  ring

theorem dot_comb_right (a b : K) (p q r : Vec3 K) :
    r.dot ((Vec3.smul a p).add (Vec3.smul b q)) = a * r.dot p + b * r.dot q := by
  simp only [Vec3.dot, Vec3.add, Vec3.smul]
  ring

theorem dot_comm (p q : Vec3 K) : p.dot q = q.dot p := by
  simp only [Vec3.dot]
  ring

/-- The cross product `n x u` is orthogonal to both factors, and of squared length
`|n|^2 |u|^2 - (n.u)^2`. -/
theorem cross_facts (n u : Vec3 K) :
    (n.cross u).dot n = 0 ∧ (n.cross u).dot u = 0 ∧
    (n.cross u).dot (n.cross u) = n.dot n * u.dot u - n.dot u * n.dot u := by
  simp only [Vec3.dot, Vec3.cross]
  refine ⟨by ring, by ring, by ring⟩

/-- Eigen `unitOrthogonal` of a unit vector, with an exact square root: a unit vector
orthogonal to it. -/
theorem unitOrthogonal_spec (L : Libm K) (n : Vec3 K) (hn : n.dot n = 1)
    (hsqrt : ∀ a : K, 0 ≤ a → 0 ≤ L.sqrt a ∧ L.sqrt a * L.sqrt a = a) :
    (n.unitOrthogonal L).dot (n.unitOrthogonal L) = 1 ∧ (n.unitOrthogonal L).dot n = 0 := by
  unfold Vec3.unitOrthogonal
  simp only [Vec3.dot] at hn
  split_ifs with hc
  · have hpos : 0 < n.x * n.x + n.y * n.y := by
      rcases hc with h | h
      · have hx : n.x ≠ 0 := by
          intro h0
          apply h
          rw [h0, abs_zero]
          exact mul_nonneg (abs_nonneg _) (by norm_num)
        have := mul_self_pos.mpr hx
        nlinarith [mul_self_nonneg n.y]
      · have hy : n.y ≠ 0 := by
          intro h0
          apply h
          rw [h0, abs_zero]
          exact mul_nonneg (abs_nonneg _) (by norm_num)
        have := mul_self_pos.mpr hy
        nlinarith [mul_self_nonneg n.x]
    obtain ⟨_, hm⟩ := hsqrt _ (le_of_lt hpos)
    have hm0 : L.sqrt (n.x * n.x + n.y * n.y) ≠ 0 := by
      intro h0
      rw [h0] at hm
      linarith
    simp only [Vec3.dot]
    constructor
    · field_simp
      linear_combination -hm
    · field_simp
      ring
  · push_neg at hc
    obtain ⟨hx, hy⟩ := hc
    have hz : n.z ≠ 0 := by
      intro h0
      rw [h0, abs_zero, zero_mul] at hx hy
      have hx0 : n.x = 0 := abs_nonpos_iff.mp hx
      have hy0 : n.y = 0 := abs_nonpos_iff.mp hy
      rw [hx0, hy0, h0] at hn
      norm_num at hn
    have hpos : 0 < n.y * n.y + n.z * n.z := by
      have := mul_self_pos.mpr hz
      nlinarith [mul_self_nonneg n.y]
    obtain ⟨_, hm⟩ := hsqrt _ (le_of_lt hpos)
    have hm0 : L.sqrt (n.y * n.y + n.z * n.z) ≠ 0 := by
      intro h0
      rw [h0] at hm
      linarith
    simp only [Vec3.dot]
    constructor
    · field_simp
      linear_combination -hm
    · field_simp
      ring

/-- The outgoing direction of the diffuse branch. -/
theorem raySurface_diffuse_outgoing [FloorRing K] (L : Libm K) (mat : Material K)
    (normal incoming : Vec3 K) (uv : Vec2 K) (p x y : K) (s : Scatter K)
    (hs : raySurface L mat normal incoming uv p x y = some s)
    (he : s.event = ScatterType.diffuse) :
    s.outgoing = (Vec3.smul (L.sqrt x) normal).add
      (Vec3.smul (L.sqrt (1 - x))
        ((Vec3.smul (L.cos (2 * L.pi * y)) (normal.unitOrthogonal L)).add
          (Vec3.smul (L.sin (2 * L.pi * y)) (normal.cross (normal.unitOrthogonal L))))) := by
  unfold raySurface at hs
  simp only [] at hs
  split_ifs at hs <;> simp only [Option.some.injEq] at hs <;> subst hs <;>
    first | rfl | cases he

/-- C27. In the diffuse branch of `Scene::raySurface`, for a unit normal `n` and a draw
`x` in `[0, 1]` (any draw `y`), with `sqrt` exact and `cos^2 + sin^2 = 1` at the angle
`2 pi y`: the outgoing direction has unit length and `outgoing . n = sqrt(x) >= 0`, so
it lies in the hemisphere around the normal. -/
theorem diffuse_direction [FloorRing K] (L : Libm K) (mat : Material K)
    (normal incoming : Vec3 K) (uv : Vec2 K) (p x y : K) (s : Scatter K)
    (hn : normal.dot normal = 1) (hx0 : 0 ≤ x) (hx1 : x ≤ 1)
    (hsqrt : ∀ a : K, 0 ≤ a → 0 ≤ L.sqrt a ∧ L.sqrt a * L.sqrt a = a)
    (htrig : L.cos (2 * L.pi * y) * L.cos (2 * L.pi * y)
      + L.sin (2 * L.pi * y) * L.sin (2 * L.pi * y) = 1)
    (hs : raySurface L mat normal incoming uv p x y = some s)
    (he : s.event = ScatterType.diffuse) :
    s.outgoing.dot s.outgoing = 1 ∧ s.outgoing.dot normal = L.sqrt x ∧ 0 ≤ L.sqrt x := by
  obtain ⟨huu, hun⟩ := unitOrthogonal_spec L normal hn hsqrt
  obtain ⟨hvn, hvu, hvv⟩ := cross_facts normal (normal.unitOrthogonal L)
  have hnu : normal.dot (normal.unitOrthogonal L) = 0 := by rw [dot_comm]; exact hun
  rw [hn, huu, hnu] at hvv
  obtain ⟨ha0, ha⟩ := hsqrt x hx0
  obtain ⟨_, hb⟩ := hsqrt (1 - x) (by linarith)
  rw [raySurface_diffuse_outgoing L mat normal incoming uv p x y s hs he]
  have hwn : ((Vec3.smul (L.cos (2 * L.pi * y)) (normal.unitOrthogonal L)).add
      (Vec3.smul (L.sin (2 * L.pi * y)) (normal.cross (normal.unitOrthogonal L)))).dot normal
        = 0 := by
    rw [dot_comb_left, hun, hvn]
    ring
  have hww : ((Vec3.smul (L.cos (2 * L.pi * y)) (normal.unitOrthogonal L)).add
      (Vec3.smul (L.sin (2 * L.pi * y)) (normal.cross (normal.unitOrthogonal L)))).dot
      ((Vec3.smul (L.cos (2 * L.pi * y)) (normal.unitOrthogonal L)).add
        (Vec3.smul (L.sin (2 * L.pi * y)) (normal.cross (normal.unitOrthogonal L)))) = 1 := by
    rw [dot_comb_self, huu, hvv, dot_comm (normal.unitOrthogonal L), hvu]
    linear_combination htrig
  refine ⟨?_, ?_, ha0⟩
  · rw [dot_comb_self, hn, hww, dot_comm normal, hwn]
    linear_combination ha + hb
  · rw [dot_comb_left, hn, hwn]
    ring

/-- C27 (witness): the normal `(0, 0, 1)`, the draws `x = 1/4`, `y = 1/3`, the real
square root, cosine and sine, and a selector `p = 0` below `mean(Kd) = 4/5`. -/
theorem diffuse_direction_witness :
    ∃ s : Scatter ℝ,
      raySurface (⟨Real.sqrt, Real.sin, Real.cos, Real.tan, fun _ _ => 0, Real.arccos,
        fun x y => x ^ y, Real.pi⟩ : Libm ℝ) defaultMaterial ⟨0, 0, 1⟩ ⟨0, 0, -1⟩ ⟨0, 0⟩
        0 (1 / 4) (1 / 3) = some s ∧
      s.outgoing.dot s.outgoing = 1 ∧ s.outgoing.dot ⟨0, 0, 1⟩ = Real.sqrt (1 / 4) ∧
      0 ≤ Real.sqrt (1 / 4) := by
  have hp : (0 : ℝ) < (defaultMaterial : Material ℝ).Kd.mean := by
    norm_num [defaultMaterial, Vec3.mean]
  have h := raySurfaceEvent_eq (⟨Real.sqrt, Real.sin, Real.cos, Real.tan, fun _ _ => 0,
    Real.arccos, fun x y => x ^ y, Real.pi⟩ : Libm ℝ) defaultMaterial ⟨0, 0, 1⟩ ⟨0, 0, -1⟩
    ⟨0, 0⟩ 0 (1 / 4) (1 / 3)
  rw [if_pos hp, raySurfaceEvent, Option.map_eq_some'] at h
  obtain ⟨s, hs, he⟩ := h
  exact ⟨s, hs, diffuse_direction _ defaultMaterial ⟨0, 0, 1⟩ ⟨0, 0, -1⟩ ⟨0, 0⟩ 0 (1 / 4)
    (1 / 3) s (by norm_num [Vec3.dot]) (by norm_num) (by norm_num)
    (fun a ha => ⟨Real.sqrt_nonneg a, Real.mul_self_sqrt ha⟩)
    (by
      show Real.cos _ * Real.cos _ + Real.sin _ * Real.sin _ = 1
      have := Real.cos_sq_add_sin_sq (2 * Real.pi * (1 / 3))
      nlinarith [this])
    hs he⟩

/-! ## The refraction branch of `Scene::raySurface` -/

/-- The outgoing direction of the refraction branch, in terms of the locals `cos1`
and `sin2`. -/
theorem raySurface_refraction_outgoing [FloorRing K] (L : Libm K) (mat : Material K)
    (normal incoming : Vec3 K) (uv : Vec2 K) (p x y : K) (s : Scatter K)
    (hs : raySurface L mat normal incoming uv p x y = some s)
    (he : s.event = ScatterType.refraction) :
    s.outgoing =
      if refrSin2 L mat normal incoming > 1 then
        incoming.sub (Vec3.smul (2 * normal.dot incoming) normal)
      else if refrCos1 normal incoming > 0 then
        (Vec3.smul (1 / mat.Ni) incoming).add
          (Vec3.smul (1 / mat.Ni * refrCos1 normal incoming
            - L.sqrt (max (1 - refrSin2 L mat normal incoming * refrSin2 L mat normal incoming) 0))
            normal)
      else
        (Vec3.smul mat.Ni incoming).add
          (Vec3.smul (mat.Ni * refrCos1 normal incoming
            + L.sqrt (max (1 - refrSin2 L mat normal incoming * refrSin2 L mat normal incoming) 0))
            normal) := by
  unfold raySurface at hs
  simp only [refrSin2, refrSin1, refrCos1]
  simp only [] at hs
  split_ifs at hs ⊢ <;> simp only [Option.some.injEq] at hs <;> subst hs <;>
    first | rfl | cases he

theorem dot_neg_right (a b : Vec3 K) : a.dot b.neg = -(a.dot b) := by
  simp only [Vec3.dot, Vec3.neg]
  ring

/-- Cauchy-Schwarz for unit vectors. -/
theorem unit_dot_sq_le (n i : Vec3 K) (hn : n.dot n = 1) (hi : i.dot i = 1) :
    n.dot i * n.dot i ≤ 1 := by
  obtain ⟨-, -, h⟩ := cross_facts n i
  have h0 : 0 ≤ (n.cross i).dot (n.cross i) := by
    simp only [Vec3.dot]
    nlinarith [mul_self_nonneg (n.cross i).x, mul_self_nonneg (n.cross i).y,
      mul_self_nonneg (n.cross i).z]
  rw [h, hn, hi] at h0
  linarith

/-- C26 (amended). In the refraction branch of `Scene::raySurface`, for a unit normal
`n`, a unit incoming direction `i` and an index `Ni > 0` (with `sqrt` exact), `sin2`
being the Snell sine: if `sin2 > 1` the outgoing direction is the mirror reflection
`i - 2 (n.i) n`; otherwise it has unit length, the sine of its angle to the normal is
`sin2`, and it is not on the side opposite to the one the ray was heading to:
`n.outgoing <= 0` when `n.i < 0` and `n.outgoing >= 0` when `n.i >= 0`, strictly of
the sign of `n.i` when `n.i` is not zero and `sin2 < 1`. -/
theorem refraction_direction [FloorRing K] (L : Libm K) (mat : Material K)
    (normal incoming : Vec3 K) (uv : Vec2 K) (p x y : K) (s : Scatter K)
    (hn : normal.dot normal = 1) (hi : incoming.dot incoming = 1) (hNi : 0 < mat.Ni)
    (hsqrt : ∀ a : K, 0 ≤ a → 0 ≤ L.sqrt a ∧ L.sqrt a * L.sqrt a = a)
    (hs : raySurface L mat normal incoming uv p x y = some s)
    (he : s.event = ScatterType.refraction) :
    (refrSin2 L mat normal incoming > 1 →
      s.outgoing = incoming.sub (Vec3.smul (2 * normal.dot incoming) normal)) ∧
    (¬ refrSin2 L mat normal incoming > 1 →
      s.outgoing.dot s.outgoing = 1 ∧
      0 ≤ refrSin2 L mat normal incoming ∧
      1 - normal.dot s.outgoing * normal.dot s.outgoing
        = refrSin2 L mat normal incoming * refrSin2 L mat normal incoming ∧
      (normal.dot incoming < 0 → normal.dot s.outgoing ≤ 0) ∧
      (0 ≤ normal.dot incoming → 0 ≤ normal.dot s.outgoing) ∧
      (refrSin2 L mat normal incoming < 1 → normal.dot incoming < 0 →
        normal.dot s.outgoing < 0) ∧
      (refrSin2 L mat normal incoming < 1 → 0 < normal.dot incoming →
        0 < normal.dot s.outgoing)) := by
  have hout := raySurface_refraction_outgoing L mat normal incoming uv p x y s hs he
  have hc1 : refrCos1 normal incoming = -(normal.dot incoming) := dot_neg_right _ _
  have hin : incoming.dot normal = normal.dot incoming := dot_comm _ _
  have hcs := unit_dot_sq_le normal incoming hn hi
  have hmax1 : max (1 - refrCos1 normal incoming * refrCos1 normal incoming) 0
      = 1 - normal.dot incoming * normal.dot incoming := by
    rw [hc1, max_eq_left (by nlinarith)]
    ring
  obtain ⟨hs1, hs1sq⟩ := hsqrt (1 - normal.dot incoming * normal.dot incoming) (by linarith)
  have hsin1 : refrSin1 L normal incoming
      = L.sqrt (1 - normal.dot incoming * normal.dot incoming) := by
    unfold refrSin1
    rw [hmax1]
  have hNi0 : mat.Ni ≠ 0 := ne_of_gt hNi
  constructor
  · intro hgt
    rw [hout, if_pos hgt]
  · intro hle
    rw [if_neg hle] at hout
    have hle1 : refrSin2 L mat normal incoming ≤ 1 := not_lt.mp hle
    have h2nn : 0 ≤ refrSin2 L mat normal incoming := by
      unfold refrSin2
      split_ifs
      · rw [hsin1]; exact div_nonneg hs1 (le_of_lt hNi)
      · rw [hsin1]; exact mul_nonneg hs1 (le_of_lt hNi)
    have hsq1 : refrSin2 L mat normal incoming * refrSin2 L mat normal incoming ≤ 1 := by
      nlinarith
    obtain ⟨hc2, hc2sq⟩ := hsqrt
      (1 - refrSin2 L mat normal incoming * refrSin2 L mat normal incoming) (by linarith)
    rw [max_eq_left (by linarith : (0 : K)
      ≤ 1 - refrSin2 L mat normal incoming * refrSin2 L mat normal incoming)] at hout
    have hstrict : refrSin2 L mat normal incoming < 1 →
        0 < L.sqrt (1 - refrSin2 L mat normal incoming * refrSin2 L mat normal incoming) := by
      intro hlt
      rcases eq_or_lt_of_le hc2 with h0 | h0
      · rw [← h0] at hc2sq
        nlinarith
      · exact h0
    by_cases hpos : refrCos1 normal incoming > 0
    · rw [if_pos hpos] at hout
      have hsin2 : refrSin2 L mat normal incoming
          = L.sqrt (1 - normal.dot incoming * normal.dot incoming) / mat.Ni := by
        unfold refrSin2
        rw [if_pos hpos, hsin1]
      have hnout : normal.dot s.outgoing
          = -L.sqrt (1 - refrSin2 L mat normal incoming * refrSin2 L mat normal incoming) := by
        rw [hout, dot_comb_right, hn, hc1]
        ring
      have hneg : normal.dot incoming < 0 := by rw [hc1] at hpos; linarith
      refine ⟨?_, h2nn, ?_, ?_, ?_, ?_, ?_⟩
      · rw [hout, dot_comb_self, hi, hn, hin, hc1]
        have e : refrSin2 L mat normal incoming * refrSin2 L mat normal incoming
            = (1 - normal.dot incoming * normal.dot incoming) / (mat.Ni * mat.Ni) := by
          rw [hsin2, div_mul_div_comm, hs1sq]
        have e2 : 1 / mat.Ni * (1 / mat.Ni) * (1 - normal.dot incoming * normal.dot incoming)
            = (1 - normal.dot incoming * normal.dot incoming) / (mat.Ni * mat.Ni) := by
          field_simp
        linear_combination hc2sq - e + e2
      · rw [hnout]
        linear_combination -hc2sq
      · intro _
        rw [hnout]
        linarith
      · intro h0
        linarith
      · intro hlt _
        rw [hnout]
        linarith [hstrict hlt]
      · intro _ h0
        linarith
    · rw [if_neg hpos] at hout
      have hsin2 : refrSin2 L mat normal incoming
          = L.sqrt (1 - normal.dot incoming * normal.dot incoming) * mat.Ni := by
        unfold refrSin2
        rw [if_neg hpos, hsin1]
      have hnout : normal.dot s.outgoing
          = L.sqrt (1 - refrSin2 L mat normal incoming * refrSin2 L mat normal incoming) := by
        rw [hout, dot_comb_right, hn, hc1]
        ring
      have hnn : 0 ≤ normal.dot incoming := by rw [hc1] at hpos; linarith
      refine ⟨?_, h2nn, ?_, ?_, ?_, ?_, ?_⟩
      · rw [hout, dot_comb_self, hi, hn, hin, hc1]
        have e : refrSin2 L mat normal incoming * refrSin2 L mat normal incoming
            = (1 - normal.dot incoming * normal.dot incoming) * (mat.Ni * mat.Ni) := by
          rw [hsin2]
          linear_combination (mat.Ni * mat.Ni) * hs1sq
        linear_combination hc2sq - e
      · rw [hnout]
        linear_combination -hc2sq
      · intro h0
        linarith
      · intro _
        rw [hnout]
        exact hc2
      · intro _ h0
        linarith
      · intro hlt _
        rw [hnout]
        exact hstrict hlt

theorem ratLibm_sqrt_zero : ratLibm.sqrt 0 = 0 := by
  have h := ratLibm_sqrt_sq 0 (le_refl _)
  norm_num at h
  exact h

theorem ratLibm_sqrt_one : ratLibm.sqrt 1 = 1 := by
  have h := ratLibm_sqrt_sq 1 (by norm_num)
  norm_num at h
  exact h

theorem ratLibm_sqrt_9_25 : ratLibm.sqrt (9 / 25) = 3 / 5 := by
  have h := ratLibm_sqrt_sq (3 / 5) (by norm_num)
  norm_num at h
  exact h

theorem ratLibm_sqrt_16_25 : ratLibm.sqrt (16 / 25) = 4 / 5 := by
  have h := ratLibm_sqrt_sq (4 / 5) (by norm_num)
  norm_num at h
  exact h

/-- C26 (the claim as stated fails), on a material of index `3/5` and the normal
`(0, 0, 1)`.  Grazing incidence: the unit incoming direction `(1, 0, 0)` has `n.i = 0`,
`sin2 = 3/5` is not above 1, and the branch returns the unit vector `(3/5, 0, 4/5)`, for
which `n.outgoing = 4/5 > 0` does not have the sign of `n.i`.  Critical angle: the unit
incoming direction `(3/5, 0, -4/5)` has `n.i < 0`, `sin2 = 1` is not above 1, and the
branch returns `(1, 0, 0)`, tangent to the surface, for which `n.outgoing = 0`. -/
theorem refraction_direction_counterexample :
    (⟨0, 0, 1⟩ : Vec3 ℚ).dot ⟨0, 0, 1⟩ = 1 ∧ 0 < (thinGlass : Material ℚ).Ni ∧
    ((⟨1, 0, 0⟩ : Vec3 ℚ).dot ⟨1, 0, 0⟩ = 1 ∧
      refrSin2 ratLibm thinGlass ⟨0, 0, 1⟩ ⟨1, 0, 0⟩ = 3 / 5 ∧
      raySurface ratLibm thinGlass ⟨0, 0, 1⟩ ⟨1, 0, 0⟩ ⟨0, 0⟩ 0 0 0
        = some ⟨ScatterType.refraction, ⟨3 / 5, 0, 4 / 5⟩, ⟨1, 1, 1⟩⟩ ∧
      (⟨0, 0, 1⟩ : Vec3 ℚ).dot ⟨1, 0, 0⟩ = 0 ∧
      0 < (⟨0, 0, 1⟩ : Vec3 ℚ).dot ⟨3 / 5, 0, 4 / 5⟩) ∧
    ((⟨3 / 5, 0, -(4 / 5)⟩ : Vec3 ℚ).dot ⟨3 / 5, 0, -(4 / 5)⟩ = 1 ∧
      refrSin2 ratLibm thinGlass ⟨0, 0, 1⟩ ⟨3 / 5, 0, -(4 / 5)⟩ = 1 ∧
      raySurface ratLibm thinGlass ⟨0, 0, 1⟩ ⟨3 / 5, 0, -(4 / 5)⟩ ⟨0, 0⟩ 0 0 0
        = some ⟨ScatterType.refraction, ⟨1, 0, 0⟩, ⟨1, 1, 1⟩⟩ ∧
      (⟨0, 0, 1⟩ : Vec3 ℚ).dot ⟨3 / 5, 0, -(4 / 5)⟩ < 0 ∧
      (⟨0, 0, 1⟩ : Vec3 ℚ).dot ⟨1, 0, 0⟩ = 0) := by
  refine ⟨by norm_num [Vec3.dot], by norm_num [thinGlass],
    ⟨by norm_num [Vec3.dot], ?_, ?_, by norm_num [Vec3.dot], by norm_num [Vec3.dot]⟩,
    ⟨by norm_num [Vec3.dot], ?_, ?_, by norm_num [Vec3.dot], by norm_num [Vec3.dot]⟩⟩
  · norm_num [refrSin2, refrSin1, refrCos1, Vec3.dot, Vec3.neg, thinGlass, ratLibm_sqrt_one]
  · norm_num [raySurface, thinGlass, Vec3.mean, Vec3.dot, Vec3.neg, ILLUM_REFRACTION,
      Vec3.sdiv, Vec3.smul, Vec3.add, Vec3.sub, ratLibm_sqrt_one, ratLibm_sqrt_16_25]
  · norm_num [refrSin2, refrSin1, refrCos1, Vec3.dot, Vec3.neg, thinGlass, ratLibm_sqrt_9_25]
  · norm_num [raySurface, thinGlass, Vec3.mean, Vec3.dot, Vec3.neg, ILLUM_REFRACTION,
      Vec3.sdiv, Vec3.smul, Vec3.add, Vec3.sub, ratLibm_sqrt_9_25, ratLibm_sqrt_zero]

/-- C26 (witness): head-on incidence `i = (0, 0, -1)` on the normal `(0, 0, 1)` with the
material `thinGlass`, the real square root, and the selector `p = 0`. -/
theorem refraction_direction_witness :
    ∃ s : Scatter ℝ,
      raySurface (⟨Real.sqrt, Real.sin, Real.cos, Real.tan, fun _ _ => 0, Real.arccos,
        fun x y => x ^ y, Real.pi⟩ : Libm ℝ) thinGlass ⟨0, 0, 1⟩ ⟨0, 0, -1⟩ ⟨0, 0⟩ 0 0 0
        = some s ∧
      (refrSin2 (⟨Real.sqrt, Real.sin, Real.cos, Real.tan, fun _ _ => 0, Real.arccos,
          fun x y => x ^ y, Real.pi⟩ : Libm ℝ) thinGlass ⟨0, 0, 1⟩ ⟨0, 0, -1⟩ > 1 →
        s.outgoing = (⟨0, 0, -1⟩ : Vec3 ℝ).sub
          (Vec3.smul (2 * (⟨0, 0, 1⟩ : Vec3 ℝ).dot ⟨0, 0, -1⟩) ⟨0, 0, 1⟩)) ∧
      (¬ refrSin2 (⟨Real.sqrt, Real.sin, Real.cos, Real.tan, fun _ _ => 0, Real.arccos,
          fun x y => x ^ y, Real.pi⟩ : Libm ℝ) thinGlass ⟨0, 0, 1⟩ ⟨0, 0, -1⟩ > 1 →
        s.outgoing.dot s.outgoing = 1 ∧
        0 ≤ refrSin2 (⟨Real.sqrt, Real.sin, Real.cos, Real.tan, fun _ _ => 0, Real.arccos,
          fun x y => x ^ y, Real.pi⟩ : Libm ℝ) thinGlass ⟨0, 0, 1⟩ ⟨0, 0, -1⟩ ∧
        1 - (⟨0, 0, 1⟩ : Vec3 ℝ).dot s.outgoing * (⟨0, 0, 1⟩ : Vec3 ℝ).dot s.outgoing
          = refrSin2 (⟨Real.sqrt, Real.sin, Real.cos, Real.tan, fun _ _ => 0, Real.arccos,
              fun x y => x ^ y, Real.pi⟩ : Libm ℝ) thinGlass ⟨0, 0, 1⟩ ⟨0, 0, -1⟩
            * refrSin2 (⟨Real.sqrt, Real.sin, Real.cos, Real.tan, fun _ _ => 0, Real.arccos,
              fun x y => x ^ y, Real.pi⟩ : Libm ℝ) thinGlass ⟨0, 0, 1⟩ ⟨0, 0, -1⟩ ∧
        ((⟨0, 0, 1⟩ : Vec3 ℝ).dot ⟨0, 0, -1⟩ < 0 → (⟨0, 0, 1⟩ : Vec3 ℝ).dot s.outgoing ≤ 0) ∧
        (0 ≤ (⟨0, 0, 1⟩ : Vec3 ℝ).dot ⟨0, 0, -1⟩ → 0 ≤ (⟨0, 0, 1⟩ : Vec3 ℝ).dot s.outgoing) ∧
        (refrSin2 (⟨Real.sqrt, Real.sin, Real.cos, Real.tan, fun _ _ => 0, Real.arccos,
            fun x y => x ^ y, Real.pi⟩ : Libm ℝ) thinGlass ⟨0, 0, 1⟩ ⟨0, 0, -1⟩ < 1 →
          (⟨0, 0, 1⟩ : Vec3 ℝ).dot ⟨0, 0, -1⟩ < 0 →
          (⟨0, 0, 1⟩ : Vec3 ℝ).dot s.outgoing < 0) ∧
        (refrSin2 (⟨Real.sqrt, Real.sin, Real.cos, Real.tan, fun _ _ => 0, Real.arccos,
            fun x y => x ^ y, Real.pi⟩ : Libm ℝ) thinGlass ⟨0, 0, 1⟩ ⟨0, 0, -1⟩ < 1 →
          0 < (⟨0, 0, 1⟩ : Vec3 ℝ).dot ⟨0, 0, -1⟩ →
          0 < (⟨0, 0, 1⟩ : Vec3 ℝ).dot s.outgoing)) := by
  have h := raySurfaceEvent_eq (⟨Real.sqrt, Real.sin, Real.cos, Real.tan, fun _ _ => 0,
    Real.arccos, fun x y => x ^ y, Real.pi⟩ : Libm ℝ) thinGlass ⟨0, 0, 1⟩ ⟨0, 0, -1⟩
    ⟨0, 0⟩ 0 0 0
  have hd : (thinGlass : Material ℝ).Kd.mean = 0 := by norm_num [thinGlass, Vec3.mean]
  have hk : (thinGlass : Material ℝ).Ks.mean = 0 := by norm_num [thinGlass, Vec3.mean]
  have hr : (thinGlass : Material ℝ).Kr.mean = 1 := by norm_num [thinGlass, Vec3.mean]
  rw [hd, hk, hr, if_neg (lt_irrefl _), if_neg (by norm_num), if_pos ⟨rfl, by norm_num⟩,
    raySurfaceEvent, Option.map_eq_some'] at h
  obtain ⟨s, hs, he⟩ := h
  exact ⟨s, hs, refraction_direction _ thinGlass ⟨0, 0, 1⟩ ⟨0, 0, -1⟩ ⟨0, 0⟩ 0 0 0 s
    (by norm_num [Vec3.dot]) (by norm_num [Vec3.dot]) (by norm_num [thinGlass])
    (fun a ha => ⟨Real.sqrt_nonneg a, Real.mul_self_sqrt ha⟩) hs he⟩

/-! ## Direct lighting: the sum over the lights -/

theorem add_zero_vec (a : Vec3 K) : a.add ⟨0, 0, 0⟩ = a := by
  rw [Vec3.ext_iff3]
  simp [Vec3.add]

theorem zero_add_vec (a : Vec3 K) : (⟨0, 0, 0⟩ : Vec3 K).add a = a := by
  rw [Vec3.ext_iff3]
  simp [Vec3.add]

theorem add_assoc_vec (a b c : Vec3 K) : (a.add b).add c = a.add (b.add c) := by
  rw [Vec3.ext_iff3]
  simp only [Vec3.add]
  exact ⟨add_assoc _ _ _, add_assoc _ _ _, add_assoc _ _ _⟩

/-- One pass of the light loop adds to `totalIntensity` a term that does not depend
on it. -/
theorem rayCollectStep_add [FloorRing K] (L : Libm K) (sc : Scene K) (mat : Material K)
    (origin normal incoming : Vec3 K) (uv : Vec2 K) (totalIntensity : Vec3 K)
    (light : Light K) :
    rayCollectStep L sc mat origin normal incoming uv totalIntensity light =
      totalIntensity.add
        (rayCollectStep L sc mat origin normal incoming uv ⟨0, 0, 0⟩ light) := by
  unfold rayCollectStep
  cases lightIncident L sc origin light with
  | none => exact (add_zero_vec _).symm
  | some r =>
    obtain ⟨outgoing, intensity⟩ := r
    simp only [lightShade]
    rw [zero_add_vec, add_assoc_vec]

/-- The light loop from a running total: the total plus the terms of the lights. -/
theorem rayCollect_foldl [FloorRing K] (L : Libm K) (sc : Scene K) (mat : Material K)
    (origin normal incoming : Vec3 K) (uv : Vec2 K) (ls : List (Light K)) :
    ∀ acc : Vec3 K,
      ls.foldl (rayCollectStep L sc mat origin normal incoming uv) acc =
        (ls.map (fun l => rayCollectStep L sc mat origin normal incoming uv ⟨0, 0, 0⟩ l)).foldl
          Vec3.add acc := by
  induction ls with
  | nil => intro acc; rfl
  | cons l ls ih =>
    intro acc
    simp only [List.foldl_cons, List.map_cons]
    rw [ih, rayCollectStep_add]

/-- The term of an unoccluded SUN light for an untextured material. -/
theorem rayCollectStep_sun [FloorRing K] (L : Libm K) (sc : Scene K) (mat : Material K)
    (origin normal incoming : Vec3 K) (uv : Vec2 K) (light : Light K)
    (htex : mat.hasImgKd = false) (hsun : light.lightType = LightType.LIGHT_SUN)
    (hun : rayTrace L sc origin light.direction.neg = false) :
    rayCollectStep L sc mat origin normal incoming uv ⟨0, 0, 0⟩ light =
      ((Vec3.smul (max (light.direction.neg.dot normal) 0)
          (light.color.cwiseProduct mat.Kd)).sdiv L.pi).add
        (Vec3.smul ((mat.Ns + 2) / (2 * L.pi)
            * L.pow (max 0 (min 1 ((light.direction.neg.sub
                (Vec3.smul (2 * light.direction.neg.dot normal) normal)).dot incoming))) mat.Ns)
          (light.color.cwiseProduct mat.Ks)) := by
  have hinc : lightIncident L sc origin light = some (light.direction.neg, light.color) := by
    unfold lightIncident
    rw [if_pos hsun, hun]
    rfl
  have hr : (Vec3.smul (-2 * light.direction.neg.dot normal) normal).add light.direction.neg
      = light.direction.neg.sub (Vec3.smul (2 * light.direction.neg.dot normal) normal) := by
    rw [Vec3.ext_iff3]
    simp only [Vec3.add, Vec3.sub, Vec3.smul]
    refine ⟨by ring, by ring, by ring⟩
  unfold rayCollectStep
  rw [hinc]
  simp only [lightShade, htex, Bool.false_eq_true, if_false]
  rw [zero_add_vec, hr, div_div]

/-- C28. For an untextured material: when the only light of the scene is an unoccluded
SUN light of direction `D` and colour `C`, `Scene::rayCollect` returns
`max((-D).n, 0) * (C * Kd) / pi + (Ns + 2) / (2 pi) * clamp(r.incoming, 0, 1)^Ns * (C * Ks)`
with `r = (-D) - 2 ((-D).n) n` and `*` on colours componentwise; for any list of lights
the result is the sum, from zero, of the terms that each light alone adds; and with no
light it is zero. -/
theorem rayCollect_sun_sum [FloorRing K] (L : Libm K) (sc : Scene K) (mat : Material K)
    (origin normal incoming : Vec3 K) (uv : Vec2 K) (htex : mat.hasImgKd = false) :
    (∀ light : Light K, sc.lights = [light] → light.lightType = LightType.LIGHT_SUN →
      rayTrace L sc origin light.direction.neg = false →
      rayCollect L sc mat origin normal incoming uv =
        ((Vec3.smul (max (light.direction.neg.dot normal) 0)
            (light.color.cwiseProduct mat.Kd)).sdiv L.pi).add
          (Vec3.smul ((mat.Ns + 2) / (2 * L.pi)
              * L.pow (max 0 (min 1 ((light.direction.neg.sub
                  (Vec3.smul (2 * light.direction.neg.dot normal) normal)).dot incoming))) mat.Ns)
            (light.color.cwiseProduct mat.Ks))) ∧
    rayCollect L sc mat origin normal incoming uv =
      (sc.lights.map
        (fun l => rayCollectStep L sc mat origin normal incoming uv ⟨0, 0, 0⟩ l)).foldl
        Vec3.add ⟨0, 0, 0⟩ ∧
    (sc.lights = [] → rayCollect L sc mat origin normal incoming uv = ⟨0, 0, 0⟩) := by
  refine ⟨?_, rayCollect_foldl L sc mat origin normal incoming uv sc.lights _, ?_⟩
  · intro light hl hsun hun
    unfold rayCollect
    rw [hl]
    simp only [List.foldl_cons, List.foldl_nil]
    exact rayCollectStep_sun L sc mat origin normal incoming uv light htex hsun hun
  · intro hl
    unfold rayCollect
    rw [hl]
    rfl

/-- C28 (witness): the empty scene lit by `noonSun`, a horizontal surface with normal
`(0, 0, 1)` seen from straight above, and the default material. -/
theorem rayCollect_sun_sum_witness :
    rayCollect ratLibm sunVoid defaultMaterial ⟨0, 0, 0⟩ ⟨0, 0, 1⟩ ⟨0, 0, -1⟩ ⟨0, 0⟩ =
      ((Vec3.smul (max (noonSun.direction.neg.dot ⟨0, 0, 1⟩) 0)
          (noonSun.color.cwiseProduct defaultMaterial.Kd)).sdiv ratLibm.pi).add
        (Vec3.smul (((defaultMaterial : Material ℚ).Ns + 2) / (2 * ratLibm.pi)
            * ratLibm.pow (max 0 (min 1 ((noonSun.direction.neg.sub
                (Vec3.smul (2 * noonSun.direction.neg.dot ⟨0, 0, 1⟩) ⟨0, 0, 1⟩)).dot
                  ⟨0, 0, -1⟩))) (defaultMaterial : Material ℚ).Ns)
          (noonSun.color.cwiseProduct defaultMaterial.Ks)) :=
  (rayCollect_sun_sum ratLibm sunVoid defaultMaterial ⟨0, 0, 0⟩ ⟨0, 0, 1⟩ ⟨0, 0, -1⟩ ⟨0, 0⟩
    rfl).1 noonSun rfl rfl
    (rayTrace_no_geometry ratLibm sunVoid _ _ build_nil.symm rfl)

/-! ## The path loop is bounded -/

theorem pathLog_length [FloorRing K] (L : Libm K) (sc : Scene K) (rnd : Nat → K) (fuel : Nat) :
    ∀ (pos dir : Vec3 K) (ctr : Nat), (pathLog L sc rnd fuel pos dir ctr).length ≤ fuel := by
  induction fuel with
  | zero => intro pos dir ctr; simp [pathLog]
  | succ fuel ih =>
    intro pos dir ctr
    unfold pathLog
    split_ifs
    · simp
    · simp only []
      split
      · simp
      · simp only [List.length_cons]
        exact Nat.succ_le_succ (ih _ _ _)

/-- A pass that misses is the last pass of the loop. -/
theorem pathLog_miss_last [FloorRing K] (L : Libm K) (sc : Scene K) (rnd : Nat → K)
    (fuel : Nat) :
    ∀ (pos dir : Vec3 K) (ctr k : Nat),
      (pathLog L sc rnd fuel pos dir ctr)[k]? = some PathStep.miss →
      k + 1 = (pathLog L sc rnd fuel pos dir ctr).length := by
  induction fuel with
  | zero => intro pos dir ctr k h; simp [pathLog] at h
  | succ fuel ih =>
    intro pos dir ctr k
    unfold pathLog
    split_ifs
    · intro h
      cases k with
      | zero => rfl
      | succ k => simp at h
    · simp only []
      split
      · intro h
        cases k with
        | zero => simp at h
        | succ k => simp at h
      · intro h
        cases k with
        | zero => simp at h
        | succ k =>
          simp only [List.getElem?_cons_succ] at h
          simp only [List.length_cons]
          rw [ih _ _ _ k h]

/-- The random draws consumed by the path loop: three per pass that hits. -/
theorem pathLoop_draws [FloorRing K] (L : Libm K) (sc : Scene K) (rnd : Nat → K)
    (imgIndex fuel : Nat) :
    ∀ (pos dir weight : Vec3 K) (film : List K) (ctr : Nat),
      (pathLoop L sc rnd imgIndex fuel pos dir weight film ctr).2 =
        ctr + 3 * ((pathLog L sc rnd fuel pos dir ctr).filter
          (fun e => decide (e ≠ PathStep.miss))).length := by
  induction fuel with
  | zero => intro pos dir weight film ctr; simp [pathLoop, pathLog]
  | succ fuel ih =>
    intro pos dir weight film ctr
    unfold pathLoop pathLog
    split_ifs
    · simp
    · simp only []
      generalize raySurface L _ _ _ _ _ _ _ = r
      cases r with
      | none => simp
      | some s =>
        simp only []
        rw [ih]
        simp only [List.filter_cons, ne_eq, reduceCtorEq, not_false_eq_true, decide_True,
          if_true, List.length_cons]
        ring

/-- A path without a pass that misses gets nothing from the background radiance: the
loop gives the same result whatever `backgroundLight` is. -/
theorem pathLoop_background [FloorRing K] (L : Libm K) (sc : Scene K) (rnd : Nat → K)
    (imgIndex fuel : Nat) (bg : Vec3 K) :
    ∀ (pos dir weight : Vec3 K) (film : List K) (ctr : Nat),
      PathStep.miss ∉ pathLog L sc rnd fuel pos dir ctr →
      pathLoop L { sc with backgroundLight := bg } rnd imgIndex fuel pos dir weight film ctr
        = pathLoop L sc rnd imgIndex fuel pos dir weight film ctr := by
  induction fuel with
  | zero => intro pos dir weight film ctr _; rfl
  | succ fuel ih =>
    intro pos dir weight film ctr hlog
    have hq : rayTrace L { sc with backgroundLight := bg } pos dir = rayTrace L sc pos dir := rfl
    have ho : rayTraceOut L { sc with backgroundLight := bg } pos dir
        = rayTraceOut L sc pos dir := rfl
    have hc : ∀ (m : Material K) (o n i : Vec3 K) (uv : Vec2 K),
        rayCollect L { sc with backgroundLight := bg } m o n i uv
          = rayCollect L sc m o n i uv := fun _ _ _ _ _ => rfl
    unfold pathLog at hlog
    unfold pathLoop
    rw [hq, ho]
    by_cases hmiss : rayTrace L sc pos dir = false
    · rw [if_pos hmiss] at hlog
      simp at hlog
    · rw [if_neg hmiss] at hlog
      rw [if_neg hmiss, if_neg hmiss]
      simp only [] at hlog ⊢
      rw [hc]
      revert hlog
      generalize raySurface L _ _ _ _ _ _ _ = r
      intro hlog
      cases r with
      | none => rfl
      | some s =>
        simp only [] at hlog ⊢
        exact ih _ _ _ _ _ (fun h => hlog (List.mem_cons_of_mem _ h))

/-- C29. The path loop of one sample is a total function that makes at most 12 passes,
each with one nearest-hit query of the path: the list of its passes has at most
`maxCollision = 12` entries, and the loop consumes three random draws per pass that
hits.  A pass that misses is the last one, and the background radiance enters on such
a pass only: for a path without a miss (in particular one that hits and scatters on
all 12 passes) the result of the loop is the same whatever the background radiance. -/
theorem pathLoop_bounded [FloorRing K] (L : Libm K) (sc : Scene K) (rnd : Nat → K)
    (imgIndex : Nat) (pos dir weight : Vec3 K) (film : List K) (ctr : Nat) (bg : Vec3 K) :
    maxCollision = 12 ∧
    (pathLog L sc rnd maxCollision pos dir ctr).length ≤ 12 ∧
    (pathLoop L sc rnd imgIndex maxCollision pos dir weight film ctr).2 =
      ctr + 3 * ((pathLog L sc rnd maxCollision pos dir ctr).filter
        (fun e => decide (e ≠ PathStep.miss))).length ∧
    (∀ k, (pathLog L sc rnd maxCollision pos dir ctr)[k]? = some PathStep.miss →
      k + 1 = (pathLog L sc rnd maxCollision pos dir ctr).length) ∧
    (PathStep.miss ∉ pathLog L sc rnd maxCollision pos dir ctr →
      pathLoop L { sc with backgroundLight := bg } rnd imgIndex maxCollision pos dir weight
          film ctr
        = pathLoop L sc rnd imgIndex maxCollision pos dir weight film ctr) ∧
    (pathLog L sc rnd maxCollision pos dir ctr = List.replicate 12 PathStep.scattered →
      pathLoop L { sc with backgroundLight := bg } rnd imgIndex maxCollision pos dir weight
          film ctr
        = pathLoop L sc rnd imgIndex maxCollision pos dir weight film ctr) := by
  refine ⟨rfl, pathLog_length L sc rnd maxCollision pos dir ctr,
    pathLoop_draws L sc rnd imgIndex maxCollision pos dir weight film ctr,
    pathLog_miss_last L sc rnd maxCollision pos dir ctr,
    pathLoop_background L sc rnd imgIndex maxCollision bg pos dir weight film ctr, ?_⟩
  intro hlog
  refine pathLoop_background L sc rnd imgIndex maxCollision bg pos dir weight film ctr ?_
  rw [hlog]
  intro h
  have := List.eq_of_mem_replicate h
  cases this

/-! ## The primary ray without lens offset -/

/-- The final direction of the primary ray in terms of the locals, when the lens
offset is zero. -/
theorem primaryRay_no_offset (L : Libm K) (cam : Camera K) (i j : Int) (r1 r2 r3 r4 : K)
    (hx : cam.xPerturb L r3 r4 = 0) (hy : cam.yPerturb L r3 r4 = 0) :
    (cam.primaryRay L i j r1 r2 r3 r4).2 =
      ((cam.position.add (Vec3.smul cam.focusDist (cam.pinholeDir L i j r1 r2))).sub
        (cam.position.add (Vec3.smul cam.planeDist (cam.pixelVec L i j r1 r2)))).normalized
        L := by
  have hx1 : cam.planeDist / cam.pxDist L / cam.fNumber * L.sqrt r3 * L.cos (r4 * 2 * L.pi)
      = 0 := hx
  have hy1 : cam.planeDist / cam.pxDist L / cam.fNumber * L.sqrt r3 * L.sin (r4 * 2 * L.pi)
      = 0 := hy
  simp only [Camera.primaryRay, hx1, hy1, add_zero]
  rfl

theorem smul_smul_vec (a b : K) (v : Vec3 K) : Vec3.smul a (Vec3.smul b v) = Vec3.smul (a * b) v := by
  rw [Vec3.ext_iff3]
  simp only [Vec3.smul]
  exact ⟨(mul_assoc _ _ _).symm, (mul_assoc _ _ _).symm, (mul_assoc _ _ _).symm⟩

/-- Normalising a positive multiple `c v` of a vector of norm `m > 0`, for a square
root exact on squares. -/
theorem normalized_smul_pos (L : Libm K) (v : Vec3 K) (c m : K) (hc : 0 < c) (hm0 : 0 < m)
    (hm : m * m = v.dot v) (hsq : ∀ a : K, 0 ≤ a → L.sqrt (a * a) = a) :
    (Vec3.smul c v).normalized L = Vec3.smul (1 / m) v := by
  have hcm : 0 < c * m := mul_pos hc hm0
  have hd : (c * m) * (c * m) = (Vec3.smul c v).dot (Vec3.smul c v) := by
    simp only [Vec3.dot, Vec3.smul] at hm ⊢
    linear_combination (c * c) * hm
  have h := (normalized_of_norm L (Vec3.smul c v) (c * m) hcm hd
    (by rw [← hd]; exact hsq _ (le_of_lt hcm))).1
  rw [h, smul_smul_vec]
  congr 1
  field_simp

/-- Normalising a negative multiple `c v` of a vector of norm `m > 0`. -/
theorem normalized_smul_neg (L : Libm K) (v : Vec3 K) (c m : K) (hc : c < 0) (hm0 : 0 < m)
    (hm : m * m = v.dot v) (hsq : ∀ a : K, 0 ≤ a → L.sqrt (a * a) = a) :
    (Vec3.smul c v).normalized L = (Vec3.smul (1 / m) v).neg := by
  have hcm : 0 < (-c) * m := mul_pos (neg_pos.mpr hc) hm0
  have hd : ((-c) * m) * ((-c) * m) = (Vec3.smul c v).dot (Vec3.smul c v) := by
    simp only [Vec3.dot, Vec3.smul] at hm ⊢
    linear_combination (c * c) * hm
  have h := (normalized_of_norm L (Vec3.smul c v) ((-c) * m) hcm hd
    (by rw [← hd]; exact hsq _ (le_of_lt hcm))).1
  rw [h, smul_smul_vec, Vec3.ext_iff3]
  simp only [Vec3.smul, Vec3.neg]
  have hc0 : c ≠ 0 := ne_of_lt hc
  have hm1 : m ≠ 0 := ne_of_gt hm0
  refine ⟨?_, ?_, ?_⟩ <;> field_simp <;> ring

/-- C30 (amended). In the primary-ray construction, when the lens offset is zero
(`xPerturb = yPerturb = 0`), with `m > 0` the length of the vector
`cBase + cXUnit * xPixel - cYUnit * yPixel` through the jittered pixel and a square
root exact on squares: if `planeDist * m < focusDist` (the focal point lies beyond the
point of the image plane the ray starts from) the final ray direction is the pinhole
direction `normalize(cBase + cXUnit * xPixel - cYUnit * yPixel)`; if
`focusDist < planeDist * m` it is the opposite of the pinhole direction. -/
theorem primaryRay_pinhole (L : Libm K) (cam : Camera K) (i j : Int) (r1 r2 r3 r4 m : K)
    (hx : cam.xPerturb L r3 r4 = 0) (hy : cam.yPerturb L r3 r4 = 0)
    (hm0 : 0 < m) (hm : m * m = (cam.pixelVec L i j r1 r2).dot (cam.pixelVec L i j r1 r2))
    (hsq : ∀ a : K, 0 ≤ a → L.sqrt (a * a) = a) :
    (cam.planeDist * m < cam.focusDist →
      (cam.primaryRay L i j r1 r2 r3 r4).2 = cam.pinholeDir L i j r1 r2) ∧
    (cam.focusDist < cam.planeDist * m →
      (cam.primaryRay L i j r1 r2 r3 r4).2 = (cam.pinholeDir L i j r1 r2).neg) := by
  have hpin : cam.pinholeDir L i j r1 r2 = Vec3.smul (1 / m) (cam.pixelVec L i j r1 r2) :=
    (normalized_of_norm L _ m hm0 hm (by rw [← hm]; exact hsq m (le_of_lt hm0))).1
  have hdiff : (cam.position.add (Vec3.smul cam.focusDist (cam.pinholeDir L i j r1 r2))).sub
      (cam.position.add (Vec3.smul cam.planeDist (cam.pixelVec L i j r1 r2)))
      = Vec3.smul (cam.focusDist / m - cam.planeDist) (cam.pixelVec L i j r1 r2) := by
    rw [hpin, Vec3.ext_iff3]
    simp only [Vec3.sub, Vec3.add, Vec3.smul]
    refine ⟨?_, ?_, ?_⟩ <;> ring
  rw [primaryRay_no_offset L cam i j r1 r2 r3 r4 hx hy, hdiff, hpin]
  constructor
  · intro hf
    have hc : 0 < cam.focusDist / m - cam.planeDist := by
      rw [sub_pos, lt_div_iff₀ hm0]
      exact hf
    exact normalized_smul_pos L _ _ m hc hm0 hm hsq
  · intro hf
    have hc : cam.focusDist / m - cam.planeDist < 0 := by
      rw [sub_neg, div_lt_iff₀ hm0]
      exact hf
    exact normalized_smul_neg L _ _ m hc hm0 hm hsq

theorem ratLibm_sqrt_quarter : ratLibm.sqrt (1 / 4) = 1 / 2 := by
  have h := ratLibm_sqrt_sq (1 / 2) (by norm_num)
  norm_num at h
  norm_num
  exact h

/-- C30 (witness): the camera `squareCamera 10` (plane distance 1, focus distance 10)
and the ray through the image centre (pixel `(1, 1)`, no jitter), with the draw `0` for
the lens radius. -/
theorem primaryRay_pinhole_witness :
    ((squareCamera 10).primaryRay camLibm 1 1 0 0 0 0).2
      = (squareCamera 10).pinholeDir camLibm 1 1 0 0 :=
  (primaryRay_pinhole camLibm (squareCamera 10) 1 1 0 0 0 0 1
    (by
      have h0 : camLibm.sqrt 0 = 0 := ratLibm_sqrt_zero
      simp [Camera.xPerturb, Camera.perturbScale, h0])
    (by
      have h0 : camLibm.sqrt 0 = 0 := ratLibm_sqrt_zero
      simp [Camera.yPerturb, Camera.perturbScale, h0])
    (by norm_num)
    (by norm_num [Camera.pixelVec, Camera.cBase, Camera.xPixel, Camera.yPixel, Camera.cXUnit,
      Camera.cYUnit, Quat.rotationCol, squareCamera, Vec3.dot, Vec3.add, Vec3.sub, Vec3.smul,
      Vec3.neg])
    (fun a ha => ratLibm_sqrt_sq a ha)).1 (by norm_num [squareCamera])

/-- C30 (the claim as stated fails): the camera `squareCamera (1/2)` has positive plane
and focus distances, `1` and `1/2`; for the ray through the image centre (pixel
`(1, 1)`, no jitter) with zero lens offset, the pinhole direction is `(0, 0, -1)` but
the final direction is `(0, 0, 1)`: the focal point lies behind the point of the image
plane the ray starts from. -/
theorem primaryRay_pinhole_counterexample :
    0 < (squareCamera (1 / 2)).planeDist ∧ 0 < (squareCamera (1 / 2)).focusDist ∧
    (squareCamera (1 / 2)).xPerturb camLibm 0 0 = 0 ∧
    (squareCamera (1 / 2)).yPerturb camLibm 0 0 = 0 ∧
    (squareCamera (1 / 2)).pinholeDir camLibm 1 1 0 0 = ⟨0, 0, -1⟩ ∧
    ((squareCamera (1 / 2)).primaryRay camLibm 1 1 0 0 0 0).2 = ⟨0, 0, 1⟩ := by
  have h0 : camLibm.sqrt 0 = 0 := ratLibm_sqrt_zero
  have h1 : camLibm.sqrt 1 = 1 := ratLibm_sqrt_one
  have h4 : camLibm.sqrt (1 / 4) = 1 / 2 := ratLibm_sqrt_quarter
  have hx : (squareCamera (1 / 2)).xPerturb camLibm 0 0 = 0 := by
    simp [Camera.xPerturb, Camera.perturbScale, h0]
  have hy : (squareCamera (1 / 2)).yPerturb camLibm 0 0 = 0 := by
    simp [Camera.yPerturb, Camera.perturbScale, h0]
  have hv : (squareCamera (1 / 2)).pixelVec camLibm 1 1 0 0 = ⟨0, 0, -1⟩ := by
    norm_num [Camera.pixelVec, Camera.cBase, Camera.xPixel, Camera.yPixel, Camera.cXUnit,
      Camera.cYUnit, Quat.rotationCol, squareCamera, Vec3.add, Vec3.sub, Vec3.smul,
      Vec3.neg]
  have hp : (squareCamera (1 / 2)).pinholeDir camLibm 1 1 0 0 = ⟨0, 0, -1⟩ := by
    rw [Camera.pinholeDir, hv]
    norm_num [Vec3.normalized, Vec3.dot, Vec3.sdiv, h1]
  refine ⟨by norm_num [squareCamera], by norm_num [squareCamera], hx, hy, hp, ?_⟩
  rw [primaryRay_no_offset camLibm (squareCamera (1 / 2)) 1 1 0 0 0 0 hx hy, hp, hv]
  norm_num [squareCamera, Vec3.normalized, Vec3.dot, Vec3.sdiv, Vec3.sub, Vec3.add,
    Vec3.smul, h4]

/-! ## The texture lookup `UVImage::getValue` -/

/-- The C++ remainder `a % w` for `w > 0` lies strictly between `-w` and `w`. -/
theorem tmod_bounds (a w : Int) (hw : 0 < w) : -w < Int.tmod a w ∧ Int.tmod a w < w := by
  refine ⟨?_, Int.tmod_lt_of_pos a hw⟩
  rcases le_or_lt 0 a with ha | ha
  · have := Int.tmod_nonneg w ha
    omega
  · have h1 : Int.tmod (-a) w < w := Int.tmod_lt_of_pos (-a) hw
    have h2 : Int.tmod a w = -Int.tmod (-a) w := by
      have e := Int.tmod_def a w
      have e2 := Int.tmod_def (-a) w
      have e3 : (-a).tdiv w = -(a.tdiv w) := Int.neg_tdiv a w
      rw [e3] at e2
      rw [e, e2]
      ring
    omega

/-- The wrapped remainder `(a % w + w) % w` of the C++ source, for `w > 0`, lies in
`[0, w)`. -/
theorem wrap_bounds (a w : Int) (hw : 0 < w) :
    0 ≤ Int.tmod (Int.tmod a w + w) w ∧ Int.tmod (Int.tmod a w + w) w < w := by
  obtain ⟨h1, _⟩ := tmod_bounds a w hw
  exact ⟨Int.tmod_nonneg w (by omega), Int.tmod_lt_of_pos _ hw⟩

/-- The value returned by `UVImage::getValue` is the texel at `(texelX, texelY)`. -/
theorem getValue_eq [FloorRing K] (img : UVImage K) (uv : Vec2 K) :
    img.getValue uv = getI img.data (img.texelY uv * img.width + img.texelX uv) ⟨0, 0, 0⟩ :=
  rfl

/-- C31. For a texture with `width >= 1`, `height >= 1` and `width * height` texels, and
every UV, negative values included (integer arithmetic exact, that is, the scaled
coordinates fit in an `int`): the texel coordinates computed by `UVImage::getValue`
satisfy `0 <= x < width` and `0 <= y < height`, the index `y * width + x` lies in
`[0, data.size())`, and the value returned is the element of `data` at that index. -/
theorem getValue_in_bounds [FloorRing K] (img : UVImage K) (uv : Vec2 K)
    (hw : 1 ≤ img.width) (hh : 1 ≤ img.height)
    (hlen : (img.data.length : Int) = img.width * img.height) :
    0 ≤ img.texelX uv ∧ img.texelX uv < img.width ∧
    0 ≤ img.texelY uv ∧ img.texelY uv < img.height ∧
    0 ≤ img.texelY uv * img.width + img.texelX uv ∧
    img.texelY uv * img.width + img.texelX uv < (img.data.length : Int) ∧
    img.data[(img.texelY uv * img.width + img.texelX uv).toNat]? = some (img.getValue uv) := by
  obtain ⟨x0, x1⟩ := wrap_bounds (truncInt (uv.x * (img.width : K) + 1 / 2)) img.width
    (by omega)
  obtain ⟨y0, y1⟩ := wrap_bounds (truncInt (uv.y * (img.height : K) + 1 / 2)) img.height
    (by omega)
  have hx0 : 0 ≤ img.texelX uv := x0
  have hx1 : img.texelX uv < img.width := x1
  have hy0 : 0 ≤ img.texelY uv := y0
  have hy1 : img.texelY uv < img.height := y1
  have hidx0 : 0 ≤ img.texelY uv * img.width + img.texelX uv := by
    have := mul_nonneg hy0 (by omega : (0 : Int) ≤ img.width)
    omega
  have hidx1 : img.texelY uv * img.width + img.texelX uv < (img.data.length : Int) := by
    rw [hlen]
    have h1 : (img.texelY uv + 1) * img.width ≤ img.height * img.width :=
      mul_le_mul_of_nonneg_right (by omega) (by omega)
    have h2 : (img.texelY uv + 1) * img.width = img.texelY uv * img.width + img.width := by ring
    have h3 : img.height * img.width = img.width * img.height := mul_comm _ _
    omega
  refine ⟨hx0, hx1, hy0, hy1, hidx0, hidx1, ?_⟩
  have hnat : (img.texelY uv * img.width + img.texelX uv).toNat < img.data.length := by
    omega
  rw [getValue_eq, getI, if_neg (by omega), List.getD_eq_getElem _ _ hnat,
    List.getElem?_eq_getElem hnat]

/-- C31 (witness): the 4 x 1 texture `stripeTexture` and the negative UV `(-1/4, 0)`. -/
theorem getValue_in_bounds_witness :
    0 ≤ stripeTexture.texelX ⟨-(1 / 4), 0⟩ ∧
    stripeTexture.texelX ⟨-(1 / 4), 0⟩ < stripeTexture.width ∧
    0 ≤ stripeTexture.texelY ⟨-(1 / 4), 0⟩ ∧
    stripeTexture.texelY ⟨-(1 / 4), 0⟩ < stripeTexture.height ∧
    0 ≤ stripeTexture.texelY ⟨-(1 / 4), 0⟩ * stripeTexture.width
      + stripeTexture.texelX ⟨-(1 / 4), 0⟩ ∧
    stripeTexture.texelY ⟨-(1 / 4), 0⟩ * stripeTexture.width
      + stripeTexture.texelX ⟨-(1 / 4), 0⟩ < (stripeTexture.data.length : Int) ∧
    stripeTexture.data[(stripeTexture.texelY ⟨-(1 / 4), 0⟩ * stripeTexture.width
      + stripeTexture.texelX ⟨-(1 / 4), 0⟩).toNat]?
        = some (stripeTexture.getValue ⟨-(1 / 4), 0⟩) :=
  getValue_in_bounds stripeTexture ⟨-(1 / 4), 0⟩ (by decide) (by decide) (by decide)

/-- For a non-negative scaled coordinate the cast `(int)` is the floor, and the wrapped
remainder of the source is the mathematical remainder. -/
theorem wrap_of_nonneg [FloorRing K] (z : K) (w : Int) (hw : 0 < w) (hz : 0 ≤ z) :
    Int.tmod (Int.tmod (truncInt z) w + w) w = ⌊z⌋ % w := by
  have ht : truncInt z = ⌊z⌋ := by
    unfold truncInt
    rw [if_pos hz]
  have hf : 0 ≤ ⌊z⌋ := Int.floor_nonneg.mpr hz
  have hm0 : 0 ≤ ⌊z⌋ % w := Int.emod_nonneg _ (by omega)
  rw [ht, Int.tmod_eq_emod hf (by omega), Int.tmod_eq_emod (by omega) (by omega),
    Int.add_emod_self, Int.emod_emod]

/-- On non-negative scaled coordinates the texel column is
`floor(u * width + 1/2) mod width`, and it does not change when a whole number `k` is
added to `u` (as long as the scaled coordinate stays non-negative). -/
theorem texelX_of_nonneg [FloorRing K] (img : UVImage K) (uv : Vec2 K) (k : Int)
    (hw : 1 ≤ img.width) (hz : 0 ≤ uv.x * (img.width : K) + 1 / 2)
    (hzk : 0 ≤ (uv.x + (k : K)) * (img.width : K) + 1 / 2) :
    img.texelX uv = ⌊uv.x * (img.width : K) + 1 / 2⌋ % img.width ∧
    img.texelX ⟨uv.x + (k : K), uv.y⟩ = img.texelX uv := by
  have h1 : img.texelX uv = ⌊uv.x * (img.width : K) + 1 / 2⌋ % img.width :=
    wrap_of_nonneg _ img.width (by omega) hz
  have h2 : img.texelX ⟨uv.x + (k : K), uv.y⟩
      = ⌊(uv.x + (k : K)) * (img.width : K) + 1 / 2⌋ % img.width :=
    wrap_of_nonneg _ img.width (by omega) hzk
  refine ⟨h1, ?_⟩
  rw [h2, h1]
  have e : (uv.x + (k : K)) * (img.width : K) + 1 / 2
      = (uv.x * (img.width : K) + 1 / 2) + ((k * img.width : Int) : K) := by
    push_cast
    ring
  rw [e, Int.floor_add_int, Int.add_mul_emod_self]

theorem floor_neg_half : ⌊(-(1 / 4) : ℚ) * ((4 : Int) : ℚ) + 1 / 2⌋ = -1 := by
  rw [Int.floor_eq_iff]
  norm_num

theorem truncInt_neg_half : truncInt ((-(1 / 4) : ℚ) * ((4 : Int) : ℚ) + 1 / 2) = 0 := by
  unfold truncInt
  rw [if_neg (by norm_num), Int.ceil_eq_iff]
  norm_num

theorem truncInt_seven_halves : truncInt (((-(1 / 4) : ℚ) + 1) * ((4 : Int) : ℚ) + 1 / 2) = 3 := by
  unfold truncInt
  rw [if_pos (by norm_num), Int.floor_eq_iff]
  norm_num

theorem truncInt_half : truncInt ((0 : ℚ) * ((1 : Int) : ℚ) + 1 / 2) = 0 := by
  unfold truncInt
  rw [if_pos (by norm_num), Int.floor_eq_iff]
  norm_num

/-- C32 (the code at the failing input).  On the 4 x 1 texture `stripeTexture` the UV
`(-1/4, 0)` has the scaled coordinate `-1`, whose round-half-up is `floor(-1/2) = -1`,
column `3` modulo 4; the cast `(int)(-0.5)` truncates toward zero, so `getValue` takes
column `0` and returns the first texel, while at the UV `(-1/4 + 1, 0)`, one period
further, it takes column `3` and returns the last texel. -/
theorem getValue_negative_uv_shifted :
    ⌊(-(1 / 4) : ℚ) * ((4 : Int) : ℚ) + 1 / 2⌋ % 4 = 3 ∧
    stripeTexture.texelX ⟨-(1 / 4), 0⟩ = 0 ∧
    stripeTexture.getValue ⟨-(1 / 4), 0⟩ = ⟨0, 0, 0⟩ ∧
    stripeTexture.texelX ⟨-(1 / 4) + 1, 0⟩ = 3 ∧
    stripeTexture.getValue ⟨-(1 / 4) + 1, 0⟩ = ⟨0, 0, 1⟩ ∧
    stripeTexture.getValue ⟨-(1 / 4) + 1, 0⟩ ≠ stripeTexture.getValue ⟨-(1 / 4), 0⟩ := by
  have hx : stripeTexture.texelX ⟨-(1 / 4), 0⟩ = 0 := by
    show Int.tmod (Int.tmod (truncInt ((-(1 / 4) : ℚ) * ((4 : Int) : ℚ) + 1 / 2)) 4 + 4) 4 = 0
    rw [truncInt_neg_half]
    decide
  have hx1 : stripeTexture.texelX ⟨-(1 / 4) + 1, 0⟩ = 3 := by
    show Int.tmod (Int.tmod (truncInt (((-(1 / 4) : ℚ) + 1) * ((4 : Int) : ℚ) + 1 / 2)) 4 + 4) 4
      = 3
    rw [truncInt_seven_halves]
    decide
  have hy : ∀ u : ℚ, stripeTexture.texelY ⟨u, 0⟩ = 0 := by
    intro u
    show Int.tmod (Int.tmod (truncInt ((0 : ℚ) * ((1 : Int) : ℚ) + 1 / 2)) 1 + 1) 1 = 0
    rw [truncInt_half]
    decide
  have hv : stripeTexture.getValue ⟨-(1 / 4), 0⟩ = ⟨0, 0, 0⟩ := by
    rw [getValue_eq, hx, hy]
    rfl
  have hv1 : stripeTexture.getValue ⟨-(1 / 4) + 1, 0⟩ = ⟨0, 0, 1⟩ := by
    rw [getValue_eq, hx1, hy]
    rfl
  refine ⟨by rw [floor_neg_half]; decide, hx, hv, hx1, hv1, ?_⟩
  rw [hv, hv1]
  intro h
  have := congrArg Vec3.z h
  norm_num at this

/-! ## The leaves partition the triangles -/

/-- The face indices of the triangles of a list of whole triangles are its index list. -/
theorem taggedTris_map_fst (v : List (Vec3 K)) (ind : List Int)
    (hlen : v.length = 3 * ind.length) : (taggedTris v ind).map Prod.fst = ind := by
  unfold taggedTris
  rw [hlen, triCount_three_mul, List.map_map]
  apply List.ext_getElem
  · simp
  · intro i h1 h2
    simp only [List.getElem_map, List.getElem_range, Function.comp]
    exact List.getD_eq_getElem _ _ h2

/-- In a tree whose leaves store whole triangles, the face indices of the leaves are
those of the triangles of the leaves. -/
theorem leafTris_map_fst (n : BVH K) (ha : n.aligned) :
    n.leafTris.map Prod.fst = n.leafIndices := by
  induction n with
  | leaf b vs is => exact taggedTris_map_fst vs is ha
  | inner b l r ihl ihr =>
    simp only [BVH.leafTris, BVH.leafIndices, List.map_append, ihl ha.1, ihr ha.2]

/-- The triangles gathered for all of `monoIndex` are a permutation of the triangles
of the list. -/
theorem taggedTris_monoIndex_perm (v : List (Vec3 K)) (ind : List Int) (axis : Fin 3) :
    List.Perm
      ((monoIndex v axis).map
        (fun e => (ind.getD (e.2 / 3) 0, vget v e.2, vget v (e.2 + 1), vget v (e.2 + 2))))
      (taggedTris v ind) := by
  have hp : List.Perm (monoIndex v axis)
      ((List.range (triCount v.length)).map (fun k => (triMidValue v axis (3 * k), 3 * k))) :=
    List.perm_insertionSort _ _
  have hmap := hp.map
    (fun e : K × Nat => (ind.getD (e.2 / 3) 0, vget v e.2, vget v (e.2 + 1), vget v (e.2 + 2)))
  refine hmap.trans (List.Perm.of_eq ?_)
  unfold taggedTris
  rw [List.map_map]
  apply List.map_congr_left
  intro k _
  simp only [Function.comp]
  rw [Nat.mul_div_cancel_left k (by norm_num : 0 < 3)]

/-- The leaves of the tree built from whole triangles hold a permutation of the
triangles of the input, each with its face index. -/
theorem buildWith_leafTris_perm (n : Nat) :
    ∀ (v : List (Vec3 K)) (ind : List Int), ind.length ≤ n → v.length = 3 * ind.length →
      List.Perm (buildWith v ind).leafTris (taggedTris v ind) := by
  induction n with
  | zero =>
    intro v ind hn hlen
    have h3 : ind.length ≤ 3 := by omega
    rw [buildWith, dif_pos h3]
    exact List.Perm.refl _
  | succ n ih =>
    intro v ind hn hlen
    by_cases h3 : ind.length ≤ 3
    · rw [buildWith, dif_pos h3]
      exact List.Perm.refl _
    · rw [buildWith, dif_neg h3]
      have hm : (monoIndex v (splitAxis (boundOf v).sizes)).length = ind.length := by
        rw [monoIndex_length, hlen, triCount_three_mul]
      have hall := taggedTris_monoIndex_perm v ind (splitAxis (boundOf v).sizes)
      generalize monoIndex v (splitAxis (boundOf v).sizes) = es at hm hall
      have hL := ih (gatherVerts v (es.take (es.length / 2)))
        (gatherInd ind (es.take (es.length / 2)))
        (by rw [gatherInd_length, List.length_take]; omega)
        (by rw [gatherVerts_length, gatherInd_length])
      have hR := ih (gatherVerts v (es.drop (es.length / 2)))
        (gatherInd ind (es.drop (es.length / 2)))
        (by rw [gatherInd_length, List.length_drop]; omega)
        (by rw [gatherVerts_length, gatherInd_length])
      rw [taggedTris_gather] at hL hR
      simp only [BVH.leafTris]
      refine (List.Perm.append hL hR).trans ?_
      rw [← List.map_append, List.take_append_drop]
      exact hall

omit [LinearOrderedField K] in
/-- A leaf of a tree whose leaves store whole triangles stores whole triangles. -/
theorem leaf_aligned (n : BVH K) (ha : n.aligned) (b : AlignedBox3 K) (vs : List (Vec3 K))
    (is : List Int) (hm : BVH.leaf b vs is ∈ n.nodes) : vs.length = 3 * is.length := by
  induction n with
  | leaf b0 vs0 is0 =>
    simp only [BVH.nodes, List.mem_singleton] at hm
    injection hm with _ h2 h3
    subst h2 h3
    exact ha
  | inner b0 l r ihl ihr =>
    simp only [BVH.nodes, List.mem_cons, List.mem_append] at hm
    rcases hm with h | h | h
    · cases h
    · exact ihl ha.1 h
    · exact ihr ha.2 h

/-- The triangles of a leaf of a tree are among the triangles of the leaves of the tree. -/
theorem leaf_tris_sub (n : BVH K) (b : AlignedBox3 K) (vs : List (Vec3 K)) (is : List Int)
    (hm : BVH.leaf b vs is ∈ n.nodes) (τ : Int × Vec3 K × Vec3 K × Vec3 K)
    (hτ : τ ∈ taggedTris vs is) : τ ∈ n.leafTris := by
  induction n with
  | leaf b0 vs0 is0 =>
    simp only [BVH.nodes, List.mem_singleton] at hm
    injection hm with _ h2 h3
    subst h2 h3
    exact hτ
  | inner b0 l r ihl ihr =>
    simp only [BVH.nodes, List.mem_cons, List.mem_append] at hm
    simp only [BVH.leafTris, List.mem_append]
    rcases hm with h | h | h
    · cases h
    · exact Or.inl (ihl h)
    · exact Or.inr (ihr h)

/-- C33. For a vertex list of `n` triangles (length `3n`), the leaves of the tree built
by `BVH::build` partition the triangles: the face-index lists of the leaves, put end to
end, are a permutation of `0, 1, ..., n-1`; every leaf stores 3 vertices per face
index; and for the `k`-th entry of a leaf, with face index `f`, the stored vertices
`verts[3k], verts[3k+1], verts[3k+2]` are the input vertices `v[3f], v[3f+1], v[3f+2]`
in this order. -/
theorem build_leaves_partition (v : List (Vec3 K)) (n : Nat) (hlen : v.length = 3 * n) :
    List.Perm (build v).leafIndices ((List.range n).map (fun (i : Nat) => (i : Int))) ∧
    ∀ (b : AlignedBox3 K) (vs : List (Vec3 K)) (is : List Int),
      BVH.leaf b vs is ∈ (build v).nodes →
      vs.length = 3 * is.length ∧
      ∀ k, k < is.length → ∃ f : Nat, f < n ∧ is.getD k 0 = (f : Int) ∧
        vget vs (3 * k) = vget v (3 * f) ∧ vget vs (3 * k + 1) = vget v (3 * f + 1) ∧
        vget vs (3 * k + 2) = vget v (3 * f + 2) := by
  have h3 : v.length % 3 = 0 := by omega
  have hn : triCount v.length = n := by rw [hlen, triCount_three_mul]
  obtain ⟨hal, hmem, -⟩ := build_inv v h3
  have hidx := build_index_length v h3
  constructor
  · rw [← leafTris_map_fst _ hal]
    have hp := (buildWith_leafTris_perm _ v _ (le_refl _) hidx).map Prod.fst
    rw [taggedTris_map_fst v _ hidx] at hp
    have hp2 : List.Perm ((build v).leafTris.map Prod.fst)
        ((List.range (triCount v.length)).map (fun (i : Nat) => (i : Int))) := hp
    rw [hn] at hp2
    exact hp2
  · intro b vs is hleaf
    have hvs := leaf_aligned _ hal b vs is hleaf
    refine ⟨hvs, ?_⟩
    intro k hk
    have hτ : (is.getD k 0, vget vs (3 * k), vget vs (3 * k + 1), vget vs (3 * k + 2))
        ∈ taggedTris vs is :=
      mem_taggedTris.mpr ⟨k, by rw [hvs, triCount_three_mul]; exact hk, rfl⟩
    obtain ⟨f, hf, hfeq⟩ := mem_taggedTris.mp ((hmem _).mp (leaf_tris_sub _ b vs is hleaf _ hτ))
    rw [getD_range_cast _ f hf] at hfeq
    simp only [Prod.mk.injEq] at hfeq
    obtain ⟨q0, q1, q2, q3⟩ := hfeq
    exact ⟨f, by omega, q0, q1, q2, q3⟩

/-- C33 (witness): the twelve vertices of `fourSameTriangles`, that is `n = 4`. -/
theorem build_leaves_partition_witness :
    List.Perm (build fourSameTriangles).leafIndices
      ((List.range 4).map (fun (i : Nat) => (i : Int))) ∧
    ∀ (b : AlignedBox3 ℚ) (vs : List (Vec3 ℚ)) (is : List Int),
      BVH.leaf b vs is ∈ (build fourSameTriangles).nodes →
      vs.length = 3 * is.length ∧
      ∀ k, k < is.length → ∃ f : Nat, f < 4 ∧ is.getD k 0 = (f : Int) ∧
        vget vs (3 * k) = vget fourSameTriangles (3 * f) ∧
        vget vs (3 * k + 1) = vget fourSameTriangles (3 * f + 1) ∧
        vget vs (3 * k + 2) = vget fourSameTriangles (3 * f + 2) :=
  build_leaves_partition fourSameTriangles 4 (by decide)

/-! ## Total internal reflection -/

/-- The local `sin1`, an exact square root of `max(1 - cos1^2, 0)`, is at most 1. -/
theorem refrSin1_le_one (L : Libm K) (normal incoming : Vec3 K)
    (hs0 : 0 ≤ refrSin1 L normal incoming)
    (hs1 : refrSin1 L normal incoming * refrSin1 L normal incoming
      = max (1 - refrCos1 normal incoming * refrCos1 normal incoming) 0) :
    refrSin1 L normal incoming ≤ 1 := by
  have hmax : max (1 - refrCos1 normal incoming * refrCos1 normal incoming) 0 ≤ 1 :=
    max_le (by nlinarith [mul_self_nonneg (refrCos1 normal incoming)]) (by norm_num)
  by_contra hgt
  have h1 : 1 < refrSin1 L normal incoming := not_le.mp hgt
  nlinarith

/-- C34. In the refraction branch of `Scene::raySurface`, for a material with
`Ni >= 1` (and `sin1` an exact square root): when the ray enters the surface
(`cos1 = normal . (-incoming) > 0`) the Snell sine `sin2 = sin1 / Ni` is at most 1, so
there is no total reflection and the refracted direction is returned; total
reflection (`sin2 > 1`, the mirror direction returned) occurs only when the ray exits
(`cos1 <= 0`). -/
theorem no_total_reflection_entering [FloorRing K] (L : Libm K) (mat : Material K)
    (normal incoming : Vec3 K) (uv : Vec2 K) (p x y : K) (s : Scatter K)
    (hNi : 1 ≤ mat.Ni) (hs0 : 0 ≤ refrSin1 L normal incoming)
    (hs1 : refrSin1 L normal incoming * refrSin1 L normal incoming
      = max (1 - refrCos1 normal incoming * refrCos1 normal incoming) 0)
    (hs : raySurface L mat normal incoming uv p x y = some s)
    (he : s.event = ScatterType.refraction) :
    (refrCos1 normal incoming > 0 →
      ¬ refrSin2 L mat normal incoming > 1 ∧
      s.outgoing = (Vec3.smul (1 / mat.Ni) incoming).add
        (Vec3.smul (1 / mat.Ni * refrCos1 normal incoming
          - L.sqrt (max (1 - refrSin2 L mat normal incoming * refrSin2 L mat normal incoming) 0))
          normal)) ∧
    (refrSin2 L mat normal incoming > 1 →
      refrCos1 normal incoming ≤ 0 ∧
      s.outgoing = incoming.sub (Vec3.smul (2 * normal.dot incoming) normal)) := by
  have hout := raySurface_refraction_outgoing L mat normal incoming uv p x y s hs he
  have hle := refrSin1_le_one L normal incoming hs0 hs1
  have hent : refrCos1 normal incoming > 0 → ¬ refrSin2 L mat normal incoming > 1 := by
    intro hpos
    unfold refrSin2
    rw [if_pos hpos]
    exact not_lt.mpr (le_trans (div_le_self hs0 hNi) hle)
  constructor
  · intro hpos
    refine ⟨hent hpos, ?_⟩
    rw [hout, if_neg (hent hpos), if_pos hpos]
  · intro hgt
    refine ⟨?_, by rw [hout, if_pos hgt]⟩
    by_contra hpos
    exact hent (not_le.mp hpos) hgt

/-- C34 (witness): a ray leaving `crownGlass` (index `3/2`) through the surface of normal
`(0, 0, 1)` along `(4/5, 0, 3/5)`: `cos1 = -3/5`, `sin1 = 4/5`, `sin2 = 6/5 > 1`, and the
branch returns the mirror direction `(4/5, 0, -3/5)`. -/
theorem no_total_reflection_entering_witness :
    (refrCos1 (⟨0, 0, 1⟩ : Vec3 ℚ) ⟨4 / 5, 0, 3 / 5⟩ > 0 →
      ¬ refrSin2 ratLibm crownGlass ⟨0, 0, 1⟩ ⟨4 / 5, 0, 3 / 5⟩ > 1 ∧
      (⟨4 / 5, 0, -(3 / 5)⟩ : Vec3 ℚ) =
        (Vec3.smul (1 / (crownGlass : Material ℚ).Ni) ⟨4 / 5, 0, 3 / 5⟩).add
          (Vec3.smul (1 / (crownGlass : Material ℚ).Ni
              * refrCos1 (⟨0, 0, 1⟩ : Vec3 ℚ) ⟨4 / 5, 0, 3 / 5⟩
            - ratLibm.sqrt (max (1 - refrSin2 ratLibm crownGlass ⟨0, 0, 1⟩ ⟨4 / 5, 0, 3 / 5⟩
              * refrSin2 ratLibm crownGlass ⟨0, 0, 1⟩ ⟨4 / 5, 0, 3 / 5⟩) 0))
            ⟨0, 0, 1⟩)) ∧
    (refrSin2 ratLibm crownGlass ⟨0, 0, 1⟩ ⟨4 / 5, 0, 3 / 5⟩ > 1 →
      refrCos1 (⟨0, 0, 1⟩ : Vec3 ℚ) ⟨4 / 5, 0, 3 / 5⟩ ≤ 0 ∧
      (⟨4 / 5, 0, -(3 / 5)⟩ : Vec3 ℚ) = (⟨4 / 5, 0, 3 / 5⟩ : Vec3 ℚ).sub
        (Vec3.smul (2 * (⟨0, 0, 1⟩ : Vec3 ℚ).dot ⟨4 / 5, 0, 3 / 5⟩) ⟨0, 0, 1⟩)) := by
  have hsin1 : refrSin1 ratLibm (⟨0, 0, 1⟩ : Vec3 ℚ) ⟨4 / 5, 0, 3 / 5⟩ = 4 / 5 := by
    norm_num [refrSin1, refrCos1, Vec3.dot, Vec3.neg, ratLibm_sqrt_16_25]
  have hcos : refrCos1 (⟨0, 0, 1⟩ : Vec3 ℚ) ⟨4 / 5, 0, 3 / 5⟩ = -(3 / 5) := by
    norm_num [refrCos1, Vec3.dot, Vec3.neg]
  have hray : raySurface ratLibm crownGlass ⟨0, 0, 1⟩ ⟨4 / 5, 0, 3 / 5⟩ ⟨0, 0⟩ 0 0 0
      = some ⟨ScatterType.refraction, ⟨4 / 5, 0, -(3 / 5)⟩, ⟨1, 1, 1⟩⟩ := by
    norm_num [raySurface, crownGlass, Vec3.mean, Vec3.dot, Vec3.neg, ILLUM_REFRACTION,
      Vec3.sdiv, Vec3.smul, Vec3.add, Vec3.sub, ratLibm_sqrt_16_25]
  exact no_total_reflection_entering ratLibm crownGlass ⟨0, 0, 1⟩ ⟨4 / 5, 0, 3 / 5⟩ ⟨0, 0⟩
    0 0 0 ⟨ScatterType.refraction, ⟨4 / 5, 0, -(3 / 5)⟩, ⟨1, 1, 1⟩⟩
    (by norm_num [crownGlass]) (by rw [hsin1]; norm_num)
    (by rw [hsin1, hcos]; norm_num) hray rfl

/-! ## The float operations without rounding error -/

theorem Vec3.subFl_of_exact {fl : K → K} {a b : Vec3 K} (h : Vec3.subExact fl a b) :
    a.subFl fl b = a.sub b := by
  obtain ⟨h1, h2, h3⟩ := h
  simp only [Vec3.subFl, Vec3.sub, h1, h2, h3]

theorem Vec3.smulFl_of_exact {fl : K → K} {s : K} {a : Vec3 K} (h : Vec3.smulExact fl s a) :
    Vec3.smulFl fl s a = Vec3.smul s a := by
  obtain ⟨h1, h2, h3⟩ := h
  simp only [Vec3.smulFl, Vec3.smul, h1, h2, h3]

theorem Vec3.sdivFl_of_exact {fl : K → K} {a : Vec3 K} {s : K} (h : Vec3.sdivExact fl a s) :
    a.sdivFl fl s = a.sdiv s := by
  obtain ⟨h1, h2, h3⟩ := h
  simp only [Vec3.sdivFl, Vec3.sdiv, h1, h2, h3]

theorem Vec3.dotFl_of_exact {fl : K → K} {a b : Vec3 K} (h : Vec3.dotExact fl a b) :
    a.dotFl fl b = a.dot b := by
  obtain ⟨h1, h2, h3, h4, _, h6⟩ := h
  simp only [Vec3.dotFl, Vec3.dot, h1, h2, h3, h4, h6]
  ring

theorem Vec3.crossFl_of_exact {fl : K → K} {a b : Vec3 K} (h : Vec3.crossExact fl a b) :
    a.crossFl fl b = a.cross b := by
  obtain ⟨⟨a1, a2, a3⟩, ⟨b1, b2, b3⟩, ⟨c1, c2, c3⟩⟩ := h
  simp only [Vec3.crossFl, Vec3.cross, a1, a2, a3, b1, b2, b3, c1, c2, c3]

/-- The float triangle test is the exact one when its operations have no rounding
error. -/
theorem triTestFl_of_exact (fl : K → K) (verts : List (Vec3 K)) (origin direction : Vec3 K)
    (i : Nat)
    (h : triExact fl (vget verts i) (vget verts (i + 1)) (vget verts (i + 2)) origin direction) :
    triTestFl fl verts origin direction i = triTest verts origin direction i := by
  obtain ⟨e1, e2, e3, e4, e5, e6, e7, e8, e9, e10, e11, e12, e13, e14⟩ := h
  simp only [triTestFl, triTest, Vec3.subFl_of_exact e1, Vec3.subFl_of_exact e2,
    Vec3.crossFl_of_exact e3, Vec3.dotFl_of_exact e4, e5, Vec3.subFl_of_exact e6,
    Vec3.dotFl_of_exact e7, e8, Vec3.crossFl_of_exact e9, Vec3.dotFl_of_exact e10, e11, e12,
    Vec3.dotFl_of_exact e13, e14]

theorem fdivFl_of_exact {fl : K → K} {x d : K} (h1 : fl x = x) (h2 : fl (x / d) = x / d) :
    FVal.fdivFl fl (fl x) d = FVal.fdiv x d := by
  simp only [FVal.fdivFl, FVal.fdiv, h1, h2]

theorem slabLoopFl_of_exact (fl : K → K) (b : AlignedBox3 K) (origin direction : Vec3 K)
    (h : slabExact fl b origin direction) (axes : List (Fin 3)) (t : FVal K × FVal K) :
    slabLoopFl fl b origin direction axes t = slabLoop b origin direction axes t := by
  induction axes generalizing t with
  | nil => rfl
  | cons i rest ih =>
    obtain ⟨h1, h2, h3, h4⟩ := h i
    have hs : slabStepFl fl (origin.get i) (direction.get i) (b.m_min.get i) (b.m_max.get i) t
        = slabStep (origin.get i) (direction.get i) (b.m_min.get i) (b.m_max.get i) t := by
      simp only [slabStepFl, slabStep, fdivFl_of_exact h1 h3, fdivFl_of_exact h2 h4]
    simp only [slabLoopFl, slabLoop, hs]
    cases slabStep (origin.get i) (direction.get i) (b.m_min.get i) (b.m_max.get i) t with
    | none => rfl
    | some t1 => exact ih t1

/-- The float box test is the exact one when its operations have no rounding error. -/
theorem checkIntersectionBoxFl_of_exact (fl : K → K) (b : AlignedBox3 K)
    (origin direction : Vec3 K) (h : slabExact fl b origin direction) :
    checkIntersectionBoxFl fl b origin direction = checkIntersectionBox b origin direction := by
  unfold checkIntersectionBoxFl checkIntersectionBox
  rw [slabLoopFl_of_exact fl b _ _ h]

theorem sphereDetFl_of_exact (fl : K → K) (L : Libm K) (sc : Scene K) (origin direction : Vec3 K)
    (i : Nat)
    (h : sphereExact fl L (vget sc.spherePosition i) (sc.sphereRadius.getD i 0) origin direction) :
    sphereDetFl fl sc origin direction i = sphereDet sc origin direction i := by
  obtain ⟨e1, e2, e3, e4, e5, e6, e7, _, _⟩ := h
  simp only [sphereDetFl, sphereDet, Vec3.subFl_of_exact e1, Vec3.dotFl_of_exact e2,
    Vec3.dotFl_of_exact e3, e4, e5, e6, e7]

/-- The float sphere test is the exact one when its operations have no rounding
error. -/
theorem sphereRootsFl_of_exact (fl : K → K) (L : Libm K) (sc : Scene K)
    (origin direction : Vec3 K) (i : Nat)
    (h : sphereExact fl L (vget sc.spherePosition i) (sc.sphereRadius.getD i 0) origin direction) :
    sphereRootsFl fl L sc origin direction i = sphereRoots L sc origin direction i := by
  have hd := sphereDetFl_of_exact fl L sc origin direction i h
  obtain ⟨e1, e2, _, _, _, _, _, e8, e9⟩ := h
  have hdef : sphereDet sc origin direction i
      = ((vget sc.spherePosition i).sub origin).dot direction
          * ((vget sc.spherePosition i).sub origin).dot direction
        - (((vget sc.spherePosition i).sub origin).dot ((vget sc.spherePosition i).sub origin)
          - sc.sphereRadius.getD i 0 * sc.sphereRadius.getD i 0) := rfl
  rw [sphereRoots_eq]
  simp only [sphereRootsFl, hd, Vec3.subFl_of_exact e1, Vec3.dotFl_of_exact e2]
  rw [hdef]
  simp only [e8, e9]

/-- The float normal of a sphere hit is the exact one when its operations have no
rounding error. -/
theorem sphereNormalFl_of_exact (fl : K → K) (L : Libm K) (sc : Scene K)
    (origin direction : Vec3 K) (i : Nat) (t : K)
    (h : sphereNormalExact fl L (vget sc.spherePosition i) origin direction t) :
    sphereNormalFl fl L sc origin direction i t
      = ((Vec3.smul t direction).sub ((vget sc.spherePosition i).sub origin)).normalized L := by
  obtain ⟨e1, e2, e3, e4, e5⟩ := h
  simp only [sphereNormalFl, Vec3.normalizedFl, Vec3.normalized, Vec3.subFl_of_exact e1,
    Vec3.smulFl_of_exact e2, Vec3.subFl_of_exact e3, Vec3.dotFl_of_exact e4,
    Vec3.sdivFl_of_exact e5]

/-- The triangle loop over a single triangle is one pass from the initial state. -/
theorem triLoopFl_single (fl : K → K) (verts : List (Vec3 K)) (origin direction : Vec3 K)
    (h : verts.length = 3) :
    triLoopFl fl verts origin direction = triStepFl fl verts origin direction ⟨FLT_MAX, 0, 0, -1⟩ 0 := by
  simp [triLoopFl, triCount, h, List.range_succ]

theorem triLoopFl_nil (fl : K → K) (origin direction : Vec3 K) :
    triLoopFl fl ([] : List (Vec3 K)) origin direction = ⟨FLT_MAX, 0, 0, -1⟩ := by
  simp [triLoopFl, triCount]

/-- The traversal loop with a stack appends, to what it has gathered, the descent of
the current node and then of the stacked nodes, the top of the stack first. -/
theorem collectLoopFl_eq (fl : K → K) (origin direction : Vec3 K) (n : Nat) :
    ∀ (cur : BVH K) (stack : List (BVH K)) (indices : List Int) (verts : List (Vec3 K)),
      cur.size + (stack.map BVH.size).sum ≤ n →
      BVH.collectLoopFl fl origin direction cur stack indices verts =
        (indices ++ (BVH.collectRecFl fl origin direction cur).1 ++
            (stack.map (fun m => (BVH.collectRecFl fl origin direction m).1)).flatten,
          verts ++ (BVH.collectRecFl fl origin direction cur).2 ++
            (stack.map (fun m => (BVH.collectRecFl fl origin direction m).2)).flatten) := by
  induction n with
  | zero =>
    intro cur stack indices verts h
    cases cur <;> simp only [BVH.size] at h <;> omega
  | succ n ih =>
    intro cur stack indices verts h
    cases cur with
    | leaf b vs is =>
      cases stack with
      | nil =>
        rw [BVH.collectLoopFl]
        simp only [BVH.checkIntersectionFl, BVH.box, BVH.collectRecFl]
        by_cases hc : checkIntersectionBoxFl fl b origin direction = true
        · simp [if_pos hc]
        · simp [if_neg hc]
      | cons top rest =>
        rw [BVH.collectLoopFl]
        simp only [BVH.checkIntersectionFl, BVH.box, BVH.collectRecFl]
        simp only [BVH.size, List.map_cons, List.sum_cons] at h
        have hsz : top.size + (rest.map BVH.size).sum ≤ n := by omega
        by_cases hc : ¬ checkIntersectionBoxFl fl b origin direction = true
        · simp only [if_neg hc]
          rw [ih top rest _ _ hsz]
          simp [List.append_assoc]
        · simp only [if_pos (not_not.mp hc)]
          rw [ih top rest _ _ hsz]
          simp [List.append_assoc]
    | inner b l r =>
      simp only [BVH.size] at h
      cases stack with
      | nil =>
        rw [BVH.collectLoopFl]
        simp only [BVH.checkIntersectionFl, BVH.box, BVH.collectRecFl]
        simp only [List.map_nil, List.sum_nil] at h
        have hsz : r.size + ([l].map BVH.size).sum ≤ n := by
          simp only [List.map_cons, List.sum_cons, List.map_nil, List.sum_nil]
          omega
        by_cases hc : ¬ checkIntersectionBoxFl fl b origin direction = true
        · simp [if_neg hc]
        · simp only [if_pos (not_not.mp hc)]
          rw [ih r [l] _ _ hsz]
          simp [List.append_assoc]
      | cons top rest =>
        rw [BVH.collectLoopFl]
        simp only [BVH.checkIntersectionFl, BVH.box, BVH.collectRecFl]
        simp only [List.map_cons, List.sum_cons] at h
        have hsz1 : top.size + (rest.map BVH.size).sum ≤ n := by omega
        have hsz2 : r.size + ((l :: top :: rest).map BVH.size).sum ≤ n := by
          simp only [List.map_cons, List.sum_cons]
          omega
        by_cases hc : ¬ checkIntersectionBoxFl fl b origin direction = true
        · simp only [if_neg hc]
          rw [ih top rest _ _ hsz1]
          simp [List.append_assoc]
        · simp only [if_pos (not_not.mp hc)]
          rw [ih r (l :: top :: rest) _ _ hsz2]
          simp [List.append_assoc]

theorem collectLoopFl_leaf_nil (fl : K → K) (origin direction : Vec3 K) (bx : AlignedBox3 K)
    (vs : List (Vec3 K)) (is : List Int) :
    BVH.collectLoopFl fl origin direction (BVH.leaf bx vs is) [] [] [] =
      if (BVH.leaf bx vs is).checkIntersectionFl fl origin direction then (is, vs) else ([], []) := by
  rw [BVH.collectLoopFl]
  split_ifs <;> simp

theorem triAttrFl_nextParam (fl : K → K) (L : Libm K) (sc : Scene K) (indices : List Int) (best : TriBest K)
    (h : Hit K) : (triAttrFl fl L sc indices best h).nextParam = h.nextParam := by
  unfold triAttrFl
  split_ifs <;> rfl

theorem triAttrFl_neg (fl : K → K) (L : Libm K) (sc : Scene K) (indices : List Int) (best : TriBest K)
    (h : Hit K) (hneg : best.index = -1) : triAttrFl fl L sc indices best h = h := by
  unfold triAttrFl
  rw [if_neg (by rw [hneg]; decide)]

theorem triAttrFl_matIndex (fl : K → K) (L : Libm K) (sc : Scene K) (indices : List Int) (best : TriBest K)
    (h : Hit K) (k : Nat) (hk : best.index = ((3 * k : Nat) : Int)) :
    (triAttrFl fl L sc indices best h).nextMatIndex
      = getI sc.faceMaterialIndex (getI indices (k : Int) 0) 0 := by
  unfold triAttrFl
  have h0 : best.index ≥ 0 := by rw [hk]; exact Int.natCast_nonneg _
  have hdiv : best.index / 3 = (k : Int) := by
    rw [hk]
    push_cast
    exact Int.mul_ediv_cancel_left _ (by norm_num)
  rw [if_pos h0, hdiv]

/-- The candidates of `Scene::rayTrace` are the result of the recursive descent. -/
theorem candidatesFl_eq (fl : K → K) (sc : Scene K) (origin direction : Vec3 K) :
    candidatesFl fl sc origin direction = BVH.collectRecFl fl origin direction sc.bvh := by
  unfold candidatesFl
  rw [collectLoopFl_eq fl origin direction _ sc.bvh [] [] [] (le_refl _)]
  simp

/-- What `Scene::rayTrace` computes on a scene holding one sphere: the sphere loop runs
once from the state without a triangle hit. -/
theorem rayTraceOutFl_oneSphere (fl : K → K) (L : Libm K) (c : Vec3 K) (r : K) (mat : Material K)
    (q : Quat K) (origin direction : Vec3 K) :
    rayTraceOutFl fl L (Scene.oneSphere c r mat q) origin direction =
      sphereStepFl fl L (Scene.oneSphere c r mat q) origin direction
        ⟨FLT_MAX, -1, ⟨0, 0, 0⟩, ⟨0, 0⟩⟩ 0 := by
  have hc : candidatesFl fl (Scene.oneSphere c r mat q) origin direction = ([], []) := by
    simp only [candidatesFl, Scene.oneSphere, Scene.buildBVH, Scene.loadSphere, Scene.empty,
      build_nil, collectLoopFl_leaf_nil fl]
    split_ifs <;> rfl
  simp only [rayTraceOutFl, hc, triLoopFl_nil fl, triAttrFl, sphereLoopFl]
  simp [Scene.oneSphere, Scene.buildBVH, Scene.loadSphere, Scene.empty, List.range_succ]

/-- The candidates on a one-triangle scene: the triangle, or nothing. -/
theorem candidatesFl_oneTriangle (fl : K → K) (p0 p1 p2 n0 n1 n2 : Vec3 K) (uv0 uv1 uv2 : Vec2 K)
    (mat : Material K) (origin direction : Vec3 K) :
    candidatesFl fl (Scene.oneTriangle p0 p1 p2 n0 n1 n2 uv0 uv1 uv2 mat) origin direction =
      if checkIntersectionBoxFl fl (boundOf [p0, p1, p2]) origin direction then
        ([0], [p0, p1, p2]) else ([], []) := by
  simp only [candidatesFl, Scene.oneTriangle, Scene.buildBVH, Scene.loadObject, Scene.empty,
    List.nil_append, build_three, collectLoopFl_leaf_nil fl, BVH.checkIntersectionFl, BVH.box]

/-- On a one-triangle scene the outputs are those of the attribute block. -/
theorem rayTraceOutFl_oneTriangle (fl : K → K) (L : Libm K) (p0 p1 p2 n0 n1 n2 : Vec3 K) (uv0 uv1 uv2 : Vec2 K)
    (mat : Material K) (origin direction : Vec3 K) :
    rayTraceOutFl fl L (Scene.oneTriangle p0 p1 p2 n0 n1 n2 uv0 uv1 uv2 mat) origin direction =
      triAttrFl fl L (Scene.oneTriangle p0 p1 p2 n0 n1 n2 uv0 uv1 uv2 mat)
        (candidatesFl fl (Scene.oneTriangle p0 p1 p2 n0 n1 n2 uv0 uv1 uv2 mat) origin direction).1
        (triLoopFl fl (candidatesFl fl (Scene.oneTriangle p0 p1 p2 n0 n1 n2 uv0 uv1 uv2 mat)
          origin direction).2 origin direction)
        ⟨(triLoopFl fl (candidatesFl fl (Scene.oneTriangle p0 p1 p2 n0 n1 n2 uv0 uv1 uv2 mat)
          origin direction).2 origin direction).nextParam, -1, ⟨0, 0, 0⟩, ⟨0, 0⟩⟩ := by
  have hs : (Scene.oneTriangle p0 p1 p2 n0 n1 n2 uv0 uv1 uv2 mat).sphereRadius = [] := rfl
  simp only [rayTraceOutFl, sphereLoopFl, hs, List.length_nil, List.range_zero, List.foldl_nil]

theorem sphereAcceptFl_pos (fl : K → K) (L : Libm K) (sc : Scene K) (origin direction : Vec3 K) (i : Nat)
    (t : K) (h : Hit K) (hacc : t > hitEps ∧ t < h.nextParam) :
    (sphereAcceptFl fl L sc origin direction i t h).nextParam = t ∧
    (sphereAcceptFl fl L sc origin direction i t h).nextMatIndex = sc.sphereMaterialIndex.getD i 0 := by
  simp only [sphereAcceptFl, if_pos hacc, and_self]

theorem sphereAcceptFl_neg (fl : K → K) (L : Libm K) (sc : Scene K) (origin direction : Vec3 K) (i : Nat)
    (t : K) (h : Hit K) (hrej : ¬ (t > hitEps ∧ t < h.nextParam)) :
    sphereAcceptFl fl L sc origin direction i t h = h := by
  simp only [sphereAcceptFl, if_neg hrej]

/-! ## Properties of the rounding to binary32 -/

theorem roundHalfEven_nonneg [FloorRing K] (x : K) (hx : 0 ≤ x) : 0 ≤ roundHalfEven x := by
  have h0 : (0 : Int) ≤ ⌊x⌋ := Int.floor_nonneg.mpr hx
  unfold roundHalfEven
  split_ifs <;> omega

theorem round24_nonneg [FloorRing K] (x : K) (hx : 0 ≤ x) : 0 ≤ round24 x := by
  unfold round24
  have h := roundHalfEven_nonneg (x * 2 ^ 23) (mul_nonneg hx (by positivity))
  have h1 : (0 : K) ≤ (roundHalfEven (x * 2 ^ 23) : K) := by exact_mod_cast h
  exact div_nonneg h1 (by positivity)

theorem roundUp_nonneg [FloorRing K] (n : Nat) : ∀ x : K, 0 ≤ x → 0 ≤ roundUp n x := by
  induction n with
  | zero => intro x hx; exact round24_nonneg x hx
  | succ n ih =>
    intro x hx
    unfold roundUp
    split_ifs
    · exact mul_nonneg (by norm_num) (ih _ (div_nonneg hx (by norm_num)))
    · exact round24_nonneg x hx

theorem roundDown_nonneg [FloorRing K] (n : Nat) : ∀ x : K, 0 ≤ x → 0 ≤ roundDown n x := by
  induction n with
  | zero => intro x hx; exact round24_nonneg x hx
  | succ n ih =>
    intro x hx
    unfold roundDown
    split_ifs
    · exact div_nonneg (ih _ (mul_nonneg (by norm_num) hx)) (by norm_num)
    · exact round24_nonneg x hx

/-- Rounding to binary32 keeps a value that is not negative so. -/
theorem fl32_nonneg [FloorRing K] (x : K) (hx : 0 ≤ x) : 0 ≤ fl32 x := by
  unfold fl32
  split_ifs with h0 h1 h2
  · exact roundUp_nonneg 127 x hx
  · exact roundDown_nonneg 126 x hx
  · exact absurd hx (not_le.mpr h2)
  · exact absurd hx (not_le.mpr h2)
  · exact le_refl _

theorem roundHalfEven_ratCast [FloorRing K] (q : ℚ) :
    roundHalfEven (q : K) = roundHalfEven q := by
  have hf : ⌊(q : K)⌋ = ⌊q⌋ := Rat.floor_cast q
  have hd : (q : K) - ((⌊q⌋ : Int) : K) = ((q - ((⌊q⌋ : Int) : ℚ) : ℚ) : K) := by push_cast; rfl
  have hh : ((1 : K) / 2) = (((1 : ℚ) / 2 : ℚ) : K) := by push_cast; rfl
  unfold roundHalfEven
  rw [hf, hd, hh]
  simp only [Rat.cast_lt]

theorem round24_ratCast [FloorRing K] (q : ℚ) : round24 (q : K) = ((round24 q : ℚ) : K) := by
  have hm : (q : K) * 2 ^ 23 = ((q * 2 ^ 23 : ℚ) : K) := by push_cast; rfl
  unfold round24
  rw [hm, roundHalfEven_ratCast]
  push_cast
  rfl

theorem roundUp_ratCast [FloorRing K] (n : Nat) :
    ∀ q : ℚ, roundUp n (q : K) = ((roundUp n q : ℚ) : K) := by
  induction n with
  | zero => intro q; exact round24_ratCast q
  | succ n ih =>
    intro q
    have h2 : ((2 : K) ≤ (q : K)) ↔ (2 : ℚ) ≤ q := by exact_mod_cast Iff.rfl
    have hd : (q : K) / 2 = ((q / 2 : ℚ) : K) := by push_cast; rfl
    unfold roundUp
    by_cases h : (2 : ℚ) ≤ q
    · rw [if_pos (h2.mpr h), if_pos h, hd, ih]
      push_cast
      rfl
    · rw [if_neg (fun hh => h (h2.mp hh)), if_neg h, round24_ratCast]

theorem roundDown_ratCast [FloorRing K] (n : Nat) :
    ∀ q : ℚ, roundDown n (q : K) = ((roundDown n q : ℚ) : K) := by
  induction n with
  | zero => intro q; exact round24_ratCast q
  | succ n ih =>
    intro q
    have h2 : ((q : K) < 1) ↔ q < 1 := by exact_mod_cast Iff.rfl
    have hd : 2 * (q : K) = ((2 * q : ℚ) : K) := by push_cast; rfl
    unfold roundDown
    by_cases h : q < 1
    · rw [if_pos (h2.mpr h), if_pos h, hd, ih]
      push_cast
      rfl
    · rw [if_neg (fun hh => h (h2.mp hh)), if_neg h, round24_ratCast]

/-- Rounding to binary32 commutes with the embedding of the rationals. -/
theorem fl32_ratCast [FloorRing K] (q : ℚ) : fl32 (q : K) = ((fl32 q : ℚ) : K) := by
  have h0 : ((0 : K) < (q : K)) ↔ (0 : ℚ) < q := by exact_mod_cast Iff.rfl
  have hneg : ((q : K) < 0) ↔ q < 0 := by exact_mod_cast Iff.rfl
  have h1 : ((1 : K) ≤ (q : K)) ↔ (1 : ℚ) ≤ q := by exact_mod_cast Iff.rfl
  have h1n : ((1 : K) ≤ -(q : K)) ↔ (1 : ℚ) ≤ -q := by exact_mod_cast Iff.rfl
  have hn : -(q : K) = ((-q : ℚ) : K) := by push_cast; rfl
  unfold fl32
  by_cases c0 : (0 : ℚ) < q
  · rw [if_pos (h0.mpr c0), if_pos c0]
    by_cases c1 : (1 : ℚ) ≤ q
    · rw [if_pos (h1.mpr c1), if_pos c1, roundUp_ratCast]
    · rw [if_neg (fun hh => c1 (h1.mp hh)), if_neg c1, roundDown_ratCast]
  · rw [if_neg (fun hh => c0 (h0.mp hh)), if_neg c0]
    by_cases cn : q < 0
    · rw [if_pos (hneg.mpr cn), if_pos cn]
      by_cases c1 : (1 : ℚ) ≤ -q
      · rw [if_pos (h1n.mpr c1), if_pos c1, hn, roundUp_ratCast]
        push_cast
        rfl
      · rw [if_neg (fun hh => c1 (h1n.mp hh)), if_neg c1, hn, roundDown_ratCast]
        push_cast
        rfl
    · rw [if_neg (fun hh => cn (hneg.mp hh)), if_neg cn]
      push_cast
      rfl

/-! ## The box test in float -/

theorem fdivFl_of_ne (fl : K → K) {x d : K} (hd : d ≠ 0) :
    FVal.fdivFl fl x d = FVal.fin (fl (x / d)) := by
  simp [FVal.fdivFl, hd]

/-- One axis of the float box test, when the component is not zero and the guard does
not fire: the running interval is cut by the two float quotients of the axis. -/
theorem slabStepFl_fin (fl : K → K) (bx : AlignedBox3 K) (origin direction : Vec3 K)
    (i : Fin 3) (a b : K) (hd : direction.get i ≠ 0)
    (hpar : |direction.get i| < FLT_EPSILON →
      bx.m_min.get i ≤ origin.get i ∧ origin.get i ≤ bx.m_max.get i) :
    slabStepFl fl (origin.get i) (direction.get i) (bx.m_min.get i) (bx.m_max.get i)
        (FVal.fin a, FVal.fin b)
      = some (FVal.fin (max a (slabEnter fl bx origin direction i)),
          FVal.fin (min b (slabExit fl bx origin direction i))) := by
  have hg : ¬ (|direction.get i| < FLT_EPSILON ∧
      (bx.m_min.get i > origin.get i ∨ bx.m_max.get i < origin.get i)) := by
    rintro ⟨h1, h2⟩
    obtain ⟨h3, h4⟩ := hpar h1
    rcases h2 with h2 | h2
    · exact absurd h3 (not_le.mpr h2)
    · exact absurd h4 (not_le.mpr h2)
  unfold slabStepFl slabEnter slabExit
  rw [if_neg hg]
  by_cases hpos : direction.get i > 0
  · rw [if_pos hpos, if_pos hpos, if_pos hpos, fdivFl_of_ne fl hd, fdivFl_of_ne fl hd, fmax_fin,
      fmin_fin]
  · rw [if_neg hpos, if_neg hpos, if_neg hpos, fdivFl_of_ne fl hd, fdivFl_of_ne fl hd, fmax_fin,
      fmin_fin]

/-- The axis loop of the float box test: the final interval holds the parameters of
the initial interval that lie, on every axis, between the two float quotients. -/
theorem slabLoopFl_fin (fl : K → K) (bx : AlignedBox3 K) (origin direction : Vec3 K)
    (hd : ∀ i : Fin 3, direction.get i ≠ 0)
    (hpar : ∀ i : Fin 3, |direction.get i| < FLT_EPSILON →
      bx.m_min.get i ≤ origin.get i ∧ origin.get i ≤ bx.m_max.get i)
    (axes : List (Fin 3)) :
    ∀ a b : K, ∃ a1 b1, slabLoopFl fl bx origin direction axes (FVal.fin a, FVal.fin b)
        = some (FVal.fin a1, FVal.fin b1) ∧
      ∀ t, (a1 ≤ t ∧ t ≤ b1) ↔ (a ≤ t ∧ t ≤ b ∧ ∀ i ∈ axes,
        slabEnter fl bx origin direction i ≤ t ∧ t ≤ slabExit fl bx origin direction i) := by
  induction axes with
  | nil =>
    intro a b
    refine ⟨a, b, rfl, ?_⟩
    intro t
    simp
  | cons i rest ih =>
    intro a b
    have hs := slabStepFl_fin fl bx origin direction i a b (hd i) (hpar i)
    obtain ⟨a2, b2, hl, h2⟩ := ih (max a (slabEnter fl bx origin direction i))
      (min b (slabExit fl bx origin direction i))
    refine ⟨a2, b2, by simp only [slabLoopFl, hs, hl], ?_⟩
    intro t
    rw [h2 t, max_le_iff, le_min_iff]
    constructor
    · rintro ⟨⟨p1, p2⟩, ⟨q1, q2⟩, r⟩
      refine ⟨p1, q1, ?_⟩
      intro j hj
      rcases List.mem_cons.mp hj with rfl | hj1
      · exact ⟨p2, q2⟩
      · exact r j hj1
    · rintro ⟨p, q, r⟩
      exact ⟨⟨p, (r i (List.mem_cons_self _ _)).1⟩, ⟨q, (r i (List.mem_cons_self _ _)).2⟩,
        fun j hj => r j (List.mem_cons_of_mem _ hj)⟩

/-- The float box test, when no direction component is zero and the guard does not
fire, is true iff some parameter in `[FLT_MIN, FLT_MAX]` lies on every axis between
the two float quotients of the axis. -/
theorem checkIntersectionBoxFl_iff (fl : K → K) (bx : AlignedBox3 K) (origin direction : Vec3 K)
    (hd : ∀ i : Fin 3, direction.get i ≠ 0)
    (hpar : ∀ i : Fin 3, |direction.get i| < FLT_EPSILON →
      bx.m_min.get i ≤ origin.get i ∧ origin.get i ≤ bx.m_max.get i) :
    checkIntersectionBoxFl fl bx origin direction = true ↔
      ∃ t, FLT_MIN ≤ t ∧ t ≤ FLT_MAX ∧ ∀ i : Fin 3,
        slabEnter fl bx origin direction i ≤ t ∧ t ≤ slabExit fl bx origin direction i := by
  obtain ⟨a1, b1, hs, h⟩ :=
    slabLoopFl_fin fl bx origin direction hd hpar [0, 1, 2] FLT_MIN FLT_MAX
  have hall : ∀ t : K, (∀ i ∈ ([0, 1, 2] : List (Fin 3)),
      slabEnter fl bx origin direction i ≤ t ∧ t ≤ slabExit fl bx origin direction i) ↔
      ∀ i : Fin 3, slabEnter fl bx origin direction i ≤ t ∧
        t ≤ slabExit fl bx origin direction i := by
    intro t
    constructor
    · intro hh i
      exact hh i (by fin_cases i <;> simp)
    · intro hh i _
      exact hh i
  simp only [checkIntersectionBoxFl, hs, FVal.le, decide_eq_true_eq]
  constructor
  · intro hle
    obtain ⟨x1, x2, x3⟩ := (h a1).mp ⟨le_refl _, hle⟩
    exact ⟨a1, x1, x2, (hall a1).mp x3⟩
  · rintro ⟨t, x1, x2, x3⟩
    obtain ⟨y1, y2⟩ := (h t).mpr ⟨x1, x2, (hall t).mpr x3⟩
    exact le_trans y1 y2

/-- C18 (amended). For a ray whose direction components all have absolute value at
least `FLT_EPSILON`: the float `checkIntersection` returns true iff some parameter `t`
with `FLT_MIN <= t <= FLT_MAX` lies, on every axis, between the two quotients
`(pMin - o) / d` and `(pMax - o) / d` as the code computes them, each difference and
each quotient rounded to float; and when these differences and quotients have no
rounding error, that is iff some such `t` puts `origin + t * direction` in the closed
box. -/
theorem checkIntersection_iff_exists (fl : K → K) (n : BVH K) (origin direction : Vec3 K)
    (heps : ∀ i : Fin 3, FLT_EPSILON ≤ |direction.get i|) :
    (n.checkIntersectionFl fl origin direction = true ↔
      ∃ t, FLT_MIN ≤ t ∧ t ≤ FLT_MAX ∧ ∀ i : Fin 3,
        slabEnter fl n.box origin direction i ≤ t ∧
        t ≤ slabExit fl n.box origin direction i) ∧
    (slabExact fl n.box origin direction →
      (n.checkIntersectionFl fl origin direction = true ↔
        ∃ t, FLT_MIN ≤ t ∧ t ≤ FLT_MAX ∧
          n.box.contains (origin.add (Vec3.smul t direction)))) := by
  refine ⟨?_, ?_⟩
  · exact checkIntersectionBoxFl_iff fl n.box origin direction
      (fun i => abs_ge_eps_ne_zero (heps i))
      (fun i hi => absurd hi (not_lt.mpr (heps i)))
  · intro hex
    unfold checkIntersectionFl
    rw [checkIntersectionBoxFl_of_exact fl n.box origin direction hex]
    exact checkIntersection_iff_point n origin direction heps

/-- C18 (witness): the cube `[0,2]^3` and the ray from `(-1, -3, -3)` along `(2, 4, 4)`
in binary32; every difference and quotient of the test is a float. -/
theorem checkIntersection_iff_exists_witness :
    ((BVH.leaf cubeBox [] []).checkIntersectionFl fl32 ⟨-1, -3, -3⟩ ⟨2, 4, 4⟩ = true ↔
      ∃ t : ℚ, FLT_MIN ≤ t ∧ t ≤ FLT_MAX ∧ ∀ i : Fin 3,
        slabEnter fl32 (BVH.leaf cubeBox [] []).box ⟨-1, -3, -3⟩ ⟨2, 4, 4⟩ i ≤ t ∧
        t ≤ slabExit fl32 (BVH.leaf cubeBox [] []).box ⟨-1, -3, -3⟩ ⟨2, 4, 4⟩ i) ∧
    ((BVH.leaf cubeBox [] []).checkIntersectionFl fl32 ⟨-1, -3, -3⟩ ⟨2, 4, 4⟩ = true ↔
      ∃ t : ℚ, FLT_MIN ≤ t ∧ t ≤ FLT_MAX ∧
        (BVH.leaf cubeBox [] []).box.contains
          ((⟨-1, -3, -3⟩ : Vec3 ℚ).add (Vec3.smul t ⟨2, 4, 4⟩))) :=
  ⟨(checkIntersection_iff_exists fl32 (BVH.leaf cubeBox [] []) ⟨-1, -3, -3⟩ ⟨2, 4, 4⟩
      (by decide!)).1,
    (checkIntersection_iff_exists fl32 (BVH.leaf cubeBox [] []) ⟨-1, -3, -3⟩ ⟨2, 4, 4⟩
      (by decide!)).2 (by unfold slabExact; decide!)⟩

/-- C18 (counterexample): the triangle box `[-1, 0] x [-1, 1] x [0, 0]` and the ray from
`(2^-24, 0, 2 - 2^-23)` along `(-(1/2 + 2^-24), 2^-20, -1)` in binary32.  Every
direction component is at least `FLT_EPSILON` in absolute value and the ray point at
`t = 2 - 2^-23` lies in the closed box, yet `checkIntersection` returns false: the
quotient of the last axis rounds to `2 - 2^-23`, that of the first to `2 - 2^-22`. -/
theorem checkIntersection_iff_exists_counterexample :
    ¬ slantBox.isEmpty ∧
    (∀ i : Fin 3, (FLT_EPSILON : ℚ) ≤ |(⟨-(1 / 2 + 1 / 2 ^ 24), 1 / 2 ^ 20, -1⟩ : Vec3 ℚ).get i|) ∧
    ((FLT_MIN : ℚ) ≤ 2 - 1 / 2 ^ 23 ∧ (2 : ℚ) - 1 / 2 ^ 23 ≤ FLT_MAX ∧
      slantBox.contains ((⟨1 / 2 ^ 24, 0, 2 - 1 / 2 ^ 23⟩ : Vec3 ℚ).add
        (Vec3.smul (2 - 1 / 2 ^ 23) ⟨-(1 / 2 + 1 / 2 ^ 24), 1 / 2 ^ 20, -1⟩))) ∧
    slabEnter fl32 slantBox ⟨1 / 2 ^ 24, 0, 2 - 1 / 2 ^ 23⟩
      ⟨-(1 / 2 + 1 / 2 ^ 24), 1 / 2 ^ 20, -1⟩ 2 = 2 - 1 / 2 ^ 23 ∧
    slabExit fl32 slantBox ⟨1 / 2 ^ 24, 0, 2 - 1 / 2 ^ 23⟩
      ⟨-(1 / 2 + 1 / 2 ^ 24), 1 / 2 ^ 20, -1⟩ 0 = 2 - 1 / 2 ^ 22 ∧
    (BVH.leaf slantBox [] []).checkIntersectionFl fl32 ⟨1 / 2 ^ 24, 0, 2 - 1 / 2 ^ 23⟩
      ⟨-(1 / 2 + 1 / 2 ^ 24), 1 / 2 ^ 20, -1⟩ = false := by
  refine ⟨by unfold AlignedBox3.isEmpty; decide!, by decide!,
    ⟨by decide!, by decide!, by unfold AlignedBox3.contains; decide!⟩, by decide!, by decide!,
    by decide!⟩

/-- With the exact quotients, the parameter `1/k` of the centre of a non-empty box lies
between the entry and the exit of every axis, for the direction `k * (center - origin)`
with `k > 0` and no zero component. -/
theorem slab_center_between (fl : K → K) (bx : AlignedBox3 K) (origin : Vec3 K) (k : K)
    (hne : ¬ bx.isEmpty) (hk : 0 < k)
    (hd : ∀ i : Fin 3, (Vec3.smul k (bx.center.sub origin)).get i ≠ 0)
    (hex : slabExact fl bx origin (Vec3.smul k (bx.center.sub origin))) (i : Fin 3) :
    slabEnter fl bx origin (Vec3.smul k (bx.center.sub origin)) i ≤ 1 / k ∧
    1 / k ≤ slabExit fl bx origin (Vec3.smul k (bx.center.sub origin)) i := by
  obtain ⟨h1, h2, h3, h4⟩ := hex i
  have hmm := not_isEmpty_get hne i
  have hd0 := hd i
  have hk0 : k ≠ 0 := ne_of_gt hk
  have hdir : (Vec3.smul k (bx.center.sub origin)).get i
      = k * ((bx.m_min.get i + bx.m_max.get i) / 2 - origin.get i) := by
    rw [smul_get, sub_get, center_get]
  unfold slabEnter slabExit
  rw [h1, h2, h3, h4]
  generalize (Vec3.smul k (bx.center.sub origin)).get i = d at hd0 hdir ⊢
  have hc : d / k = (bx.m_min.get i + bx.m_max.get i) / 2 - origin.get i := by
    rw [hdir]; field_simp; ring
  by_cases hpos : d > 0
  · rw [if_pos hpos, if_pos hpos, div_le_iff₀ hpos, le_div_iff₀ hpos, one_div, inv_mul_eq_div, hc]
    constructor <;> linarith
  · have hneg : d < 0 := lt_of_le_of_ne (not_lt.mp hpos) hd0
    rw [if_neg hpos, if_neg hpos, div_le_iff_of_neg hneg, le_div_iff_of_neg hneg, one_div,
      inv_mul_eq_div, hc]
    constructor <;> linarith

/-- C7 (amended). Aimed at the centre of a non-empty box with a direction
`k * (center - origin)`, `k > 0`, so that the centre is reached at `1/k` in
`[FLT_MIN, FLT_MAX]`, with no zero direction component and the origin in the slab of
every axis whose component is below `FLT_EPSILON` in absolute value: the float
`checkIntersection` returns true when on every axis `1/k` lies between the two
quotients the test computes in float, and that is so when the differences and the
quotients of the test have no rounding error. -/
theorem checkIntersection_center (fl : K → K) (n : BVH K) (origin : Vec3 K) (k : K)
    (hne : ¬ n.box.isEmpty) (hk : 0 < k) (hk1 : FLT_MIN ≤ 1 / k) (hk2 : 1 / k ≤ FLT_MAX)
    (hd : ∀ i : Fin 3, (Vec3.smul k (n.box.center.sub origin)).get i ≠ 0)
    (hpar : ∀ i : Fin 3, |(Vec3.smul k (n.box.center.sub origin)).get i| < FLT_EPSILON →
      n.box.m_min.get i ≤ origin.get i ∧ origin.get i ≤ n.box.m_max.get i) :
    ((∀ i : Fin 3,
        slabEnter fl n.box origin (Vec3.smul k (n.box.center.sub origin)) i ≤ 1 / k ∧
        1 / k ≤ slabExit fl n.box origin (Vec3.smul k (n.box.center.sub origin)) i) →
      n.checkIntersectionFl fl origin (Vec3.smul k (n.box.center.sub origin)) = true) ∧
    (slabExact fl n.box origin (Vec3.smul k (n.box.center.sub origin)) →
      n.checkIntersectionFl fl origin (Vec3.smul k (n.box.center.sub origin)) = true) := by
  have hmain : (∀ i : Fin 3,
        slabEnter fl n.box origin (Vec3.smul k (n.box.center.sub origin)) i ≤ 1 / k ∧
        1 / k ≤ slabExit fl n.box origin (Vec3.smul k (n.box.center.sub origin)) i) →
      n.checkIntersectionFl fl origin (Vec3.smul k (n.box.center.sub origin)) = true := by
    intro hbetween
    exact (checkIntersectionBoxFl_iff fl n.box origin _ hd hpar).mpr ⟨1 / k, hk1, hk2, hbetween⟩
  exact ⟨hmain, fun hex => hmain (slab_center_between fl n.box origin k hne hk hd hex)⟩

/-- C7 (witness): from `(-1, -3, -3)` toward the centre `(1, 1, 1)` of the cube
`[0,2]^3` in binary32; every difference and quotient of the test is a float. -/
theorem checkIntersection_center_witness :
    (BVH.leaf cubeBox [] []).checkIntersectionFl fl32 ⟨-1, -3, -3⟩
      (Vec3.smul 1 ((BVH.leaf cubeBox [] []).box.center.sub ⟨-1, -3, -3⟩)) = true :=
  (checkIntersection_center fl32 (BVH.leaf cubeBox [] []) ⟨-1, -3, -3⟩ 1
    (by unfold AlignedBox3.isEmpty; decide!) (by norm_num) (by decide!) (by decide!)
    (by decide!) (by decide!)).2 (by unfold slabExact; decide!)

/-- C7 (counterexample), in binary32.  The box `[0,0] x [0,2] x [0,2]` is not empty and
the origin `(-2^-24, 0, 0)` is not its centre `(0, 1, 1)`, yet `checkIntersection` with
the direction `center - origin = (2^-24, 1, 1)` returns false: the first component is
below `FLT_EPSILON` and the origin is outside the slab of that axis.  And the box of
the single point `(2, 3, 6)` is not empty and the origin `(0, 0, 0)` is not its centre,
yet `checkIntersection` with the normalised direction, every component of which is
above `FLT_EPSILON`, returns false: the three float quotients differ. -/
theorem checkIntersection_center_counterexample :
    (¬ flatBox.isEmpty ∧ (⟨-(1 / 2 ^ 24), 0, 0⟩ : Vec3 ℚ) ≠ flatBox.center ∧
      (BVH.leaf flatBox [] []).checkIntersectionFl fl32 ⟨-(1 / 2 ^ 24), 0, 0⟩
        (flatBox.center.sub ⟨-(1 / 2 ^ 24), 0, 0⟩) = false) ∧
    (¬ pointBox.isEmpty ∧ (⟨0, 0, 0⟩ : Vec3 ℚ) ≠ pointBox.center ∧
      (pointBox.center.sub ⟨0, 0, 0⟩).normalizedFl fl32 ratLibm
        = ⟨9586981 / 2 ^ 25, 14380471 / 2 ^ 25, 14380471 / 2 ^ 24⟩ ∧
      (∀ i : Fin 3, (FLT_EPSILON : ℚ)
        ≤ |((pointBox.center.sub ⟨0, 0, 0⟩).normalizedFl fl32 ratLibm).get i|) ∧
      (BVH.leaf pointBox [] []).checkIntersectionFl fl32 ⟨0, 0, 0⟩
        ((pointBox.center.sub ⟨0, 0, 0⟩).normalizedFl fl32 ratLibm) = false) := by
  refine ⟨⟨by unfold AlignedBox3.isEmpty; decide!, by decide!, by decide!⟩,
    ⟨by unfold AlignedBox3.isEmpty; decide!, by decide!, by decide!, by decide!, by decide!⟩⟩

/-! ## The triangle test in float -/

/-- The guards that a successful float triangle test has passed, on the values it
has computed. -/
theorem triTestFl_some (fl : K → K) {verts : List (Vec3 K)} {origin direction : Vec3 K} {i : Nat}
    {t u v : K} (h : triTestFl fl verts origin direction i = some (t, u, v)) :
    0 ≤ u ∧ u ≤ 1 ∧ 0 ≤ v ∧ fl (u + v) ≤ 1 := by
  simp only [triTestFl] at h
  split_ifs at h with h1 h2 h3
  simp only [Option.some.injEq, Prod.mk.injEq] at h
  obtain ⟨_, hu, hv⟩ := h
  push_neg at h2 h3
  subst hu hv
  exact ⟨h2.1, h2.2, h3.1, h3.2⟩

/-- C4 (amended). When the float triangle test accepts a hit `(t, u, v)` for the
triangle starting at vertex `i` (the guards pass and `t` is above `1e-5` and below the
best distance so far), the loop state becomes that hit, with `0 <= u <= 1`, `v >= 0`,
the float sum `u + v` at most `1`, and `t > 0`; and when the float operations of the
test have no rounding error, the ray point at `t` is the triangle point
`p0 + u (p1 - p0) + v (p2 - p0)` with `u + v <= 1`, a point of the closed triangle. -/
theorem triangle_accept_sound (fl : K → K) (verts : List (Vec3 K)) (origin direction : Vec3 K)
    (i : Nat) (s : TriBest K) (t u v : K)
    (h : triTestFl fl verts origin direction i = some (t, u, v))
    (hacc : t < s.nextParam ∧ t > hitEps) :
    triStepFl fl verts origin direction s i = ⟨t, u, v, (i : Int)⟩ ∧
    0 ≤ u ∧ u ≤ 1 ∧ 0 ≤ v ∧ fl (u + v) ≤ 1 ∧ 0 < t ∧
    (triExact fl (vget verts i) (vget verts (i + 1)) (vget verts (i + 2)) origin direction →
      origin.add (Vec3.smul t direction) =
        ((vget verts i).add (Vec3.smul u ((vget verts (i + 1)).sub (vget verts i)))).add
          (Vec3.smul v ((vget verts (i + 2)).sub (vget verts i))) ∧
      u + v ≤ 1) := by
  obtain ⟨hu0, hu1, hv0, huv⟩ := triTestFl_some fl h
  refine ⟨?_, hu0, hu1, hv0, huv, lt_trans hitEps_pos hacc.2, ?_⟩
  · simp only [triStepFl, h, if_pos hacc]
  · intro hex
    rw [triTestFl_of_exact fl verts origin direction i hex] at h
    obtain ⟨_, _, _, _, _, _, _, hsum⟩ := triTest_some h
    exact ⟨triTest_point h, hsum⟩

/-- C4 (witness): the triangle `(0,0,0)`, `(4,0,0)`, `(0,4,0)` and the ray from `(1, 1, 2)`
along `(0, 0, -1)` in binary32, which meets it at `t = 2` with `u = v = 1/4`; no
operation of the test rounds. -/
theorem triangle_accept_sound_witness :
    triStepFl fl32 flatTriangle ⟨1, 1, 2⟩ ⟨0, 0, -1⟩ ⟨FLT_MAX, 0, 0, -1⟩ 0
      = ⟨2, 1 / 4, 1 / 4, 0⟩ ∧
    (0 : ℚ) ≤ 1 / 4 ∧ (1 : ℚ) / 4 ≤ 1 ∧ (0 : ℚ) ≤ 1 / 4 ∧ fl32 ((1 : ℚ) / 4 + 1 / 4) ≤ 1 ∧
    (0 : ℚ) < 2 ∧
    (⟨1, 1, 2⟩ : Vec3 ℚ).add (Vec3.smul 2 ⟨0, 0, -1⟩) =
      ((vget flatTriangle 0).add
        (Vec3.smul (1 / 4) ((vget flatTriangle (0 + 1)).sub (vget flatTriangle 0)))).add
        (Vec3.smul (1 / 4) ((vget flatTriangle (0 + 2)).sub (vget flatTriangle 0))) ∧
    (1 : ℚ) / 4 + 1 / 4 ≤ 1 :=
  have h := triangle_accept_sound fl32 flatTriangle ⟨1, 1, 2⟩ ⟨0, 0, -1⟩ 0 ⟨FLT_MAX, 0, 0, -1⟩
    2 (1 / 4) (1 / 4) (by decide!) (by decide!)
  ⟨h.1, h.2.1, h.2.2.1, h.2.2.2.1, h.2.2.2.2.1, h.2.2.2.2.2.1,
    (h.2.2.2.2.2.2 (by
      unfold triExact Vec3.subExact Vec3.dotExact Vec3.crossExact
      decide!)).1,
    (h.2.2.2.2.2.2 (by
      unfold triExact Vec3.subExact Vec3.dotExact Vec3.crossExact
      decide!)).2⟩

/-- C4 (counterexample): the triangle `(0,0,0)`, `(1,0,0)`, `(0,1,0)` and the ray from
`(-1, 1/4, 1 + 2^-23)` along `(1 - 2^-23, 2^-10, -1)` in binary32.  The ray crosses
the plane of the triangle at `x = -2^-46 < 0` and has no point in the closed triangle,
but the product `(1 + 2^-23)(1 - 2^-23)` rounds to `1`, so the test computes `u = 0`
and accepts `(t, u, v) = (1 + 2^-23, 0, 257/1024)`; the ray point at `t` is not the
triangle point of `(u, v)`, and `rayTrace` on the scene holding only that triangle
reports the hit. -/
theorem triangle_accept_sound_counterexample :
    triTestFl fl32 unitTriangle ⟨-1, 1 / 4, 1 + 1 / 2 ^ 23⟩ ⟨1 - 1 / 2 ^ 23, 1 / 2 ^ 10, -1⟩ 0
      = some (1 + 1 / 2 ^ 23, 0, 257 / 1024) ∧
    (triStepFl fl32 unitTriangle ⟨-1, 1 / 4, 1 + 1 / 2 ^ 23⟩ ⟨1 - 1 / 2 ^ 23, 1 / 2 ^ 10, -1⟩
      ⟨FLT_MAX, 0, 0, -1⟩ 0).index = 0 ∧
    (⟨-1, 1 / 4, 1 + 1 / 2 ^ 23⟩ : Vec3 ℚ).add
        (Vec3.smul (1 + 1 / 2 ^ 23) ⟨1 - 1 / 2 ^ 23, 1 / 2 ^ 10, -1⟩) ≠
      ((vget unitTriangle 0).add
        (Vec3.smul 0 ((vget unitTriangle 1).sub (vget unitTriangle 0)))).add
        (Vec3.smul (257 / 1024) ((vget unitTriangle 2).sub (vget unitTriangle 0))) ∧
    (∀ s w1 w2 : ℚ, 0 ≤ w1 → 0 ≤ w2 → w1 + w2 ≤ 1 →
      (⟨-1, 1 / 4, 1 + 1 / 2 ^ 23⟩ : Vec3 ℚ).add
          (Vec3.smul s ⟨1 - 1 / 2 ^ 23, 1 / 2 ^ 10, -1⟩) ≠
        ((vget unitTriangle 0).add
          (Vec3.smul w1 ((vget unitTriangle 1).sub (vget unitTriangle 0)))).add
          (Vec3.smul w2 ((vget unitTriangle 2).sub (vget unitTriangle 0)))) ∧
    rayTraceFl fl32 ratLibm unitScene ⟨-1, 1 / 4, 1 + 1 / 2 ^ 23⟩
      ⟨1 - 1 / 2 ^ 23, 1 / 2 ^ 10, -1⟩ = true ∧
    (rayTraceOutFl fl32 ratLibm unitScene ⟨-1, 1 / 4, 1 + 1 / 2 ^ 23⟩
      ⟨1 - 1 / 2 ^ 23, 1 / 2 ^ 10, -1⟩).nextParam = 1 + 1 / 2 ^ 23 := by
  refine ⟨by decide!, by decide!, by decide!, ?_, by decide!, by decide!⟩
  intro s w1 w2 hw1 _ _ heq
  rw [Vec3.ext_iff3] at heq
  simp only [Vec3.add, Vec3.smul, Vec3.sub, unitTriangle, vget, List.getD_cons_zero,
    List.getD_cons_succ] at heq
  obtain ⟨hx, _, hz⟩ := heq
  have hs : s = 1 + 1 / 2 ^ 23 := by linarith
  rw [hs] at hx
  norm_num at hx
  linarith

/-- On a one-triangle scene, a triangle that the float triangle test accepts with a
parameter in `(1e-5, FLT_MAX)` and whose box the float box test accepts is the hit
that `rayTrace` reports. -/
theorem oneTriangle_hitFl (fl : K → K) (L : Libm K) (p0 p1 p2 n0 n1 n2 : Vec3 K)
    (uv0 uv1 uv2 : Vec2 K) (mat : Material K) (origin direction : Vec3 K) (t u v : K)
    (htest : triTestFl fl [p0, p1, p2] origin direction 0 = some (t, u, v))
    (ht1 : hitEps < t) (ht2 : t < FLT_MAX)
    (hbox : checkIntersectionBoxFl fl (boundOf [p0, p1, p2]) origin direction = true) :
    rayTraceFl fl L (Scene.oneTriangle p0 p1 p2 n0 n1 n2 uv0 uv1 uv2 mat) origin direction
      = true ∧
    (rayTraceOutFl fl L (Scene.oneTriangle p0 p1 p2 n0 n1 n2 uv0 uv1 uv2 mat)
      origin direction).nextParam = t := by
  have hloop : triLoopFl fl [p0, p1, p2] origin direction = ⟨t, u, v, 0⟩ := by
    rw [triLoopFl_single fl [p0, p1, p2] _ _ rfl]
    simp only [triStepFl, htest, if_pos (And.intro ht2 ht1)]
    rfl
  have hout : rayTraceOutFl fl L (Scene.oneTriangle p0 p1 p2 n0 n1 n2 uv0 uv1 uv2 mat)
      origin direction = triAttrFl fl L (Scene.oneTriangle p0 p1 p2 n0 n1 n2 uv0 uv1 uv2 mat)
        [0] ⟨t, u, v, 0⟩ ⟨t, -1, ⟨0, 0, 0⟩, ⟨0, 0⟩⟩ := by
    rw [rayTraceOutFl_oneTriangle, candidatesFl_oneTriangle, if_pos hbox]
    simp only [hloop]
  have hmat : (triAttrFl fl L (Scene.oneTriangle p0 p1 p2 n0 n1 n2 uv0 uv1 uv2 mat)
      [0] ⟨t, u, v, 0⟩ ⟨t, -1, ⟨0, 0, 0⟩, ⟨0, 0⟩⟩).nextMatIndex = 0 := by
    rw [triAttrFl_matIndex fl L _ [0] ⟨t, u, v, 0⟩ _ 0 rfl]
    simp [getI, Scene.oneTriangle, Scene.buildBVH, Scene.loadObject, Scene.empty]
  refine ⟨?_, ?_⟩
  · rw [rayTraceFl, hout, hmat]
    decide
  · rw [hout, triAttrFl_nextParam]

/-- C3 (amended). On a scene holding only the triangle `(p0, p1, p2)`: when the float
triangle test accepts the ray with a parameter `t` in `(1e-5, FLT_MAX)` and the float
box test accepts the triangle's box, `rayTrace` reports a hit whose distance
`nextParam` is `t`.  Both hold, with `t` the parameter of the point, for a ray through
a point `q = w0 p0 + w1 p1 + w2 p2` with weights `>= 0` summing to 1,
`origin + t * direction = q`, a determinant of at least `FLT_EPSILON` in absolute
value, `1e-5 < t < FLT_MAX`, no zero direction component and the origin within the
triangle's extent on every axis whose component is below `FLT_EPSILON`, when the float
operations of the two tests have no rounding error. -/
theorem triangle_interior_hit (fl : K → K) (L : Libm K) (p0 p1 p2 n0 n1 n2 : Vec3 K)
    (uv0 uv1 uv2 : Vec2 K) (mat : Material K) (origin direction : Vec3 K) :
    (∀ t u v : K, triTestFl fl [p0, p1, p2] origin direction 0 = some (t, u, v) →
      hitEps < t → t < FLT_MAX →
      checkIntersectionBoxFl fl (boundOf [p0, p1, p2]) origin direction = true →
      rayTraceFl fl L (Scene.oneTriangle p0 p1 p2 n0 n1 n2 uv0 uv1 uv2 mat) origin direction
        = true ∧
      (rayTraceOutFl fl L (Scene.oneTriangle p0 p1 p2 n0 n1 n2 uv0 uv1 uv2 mat)
        origin direction).nextParam = t) ∧
    (∀ w0 w1 w2 t : K, 0 ≤ w0 → 0 ≤ w1 → 0 ≤ w2 → w0 + w1 + w2 = 1 →
      origin.add (Vec3.smul t direction)
        = ((Vec3.smul w0 p0).add (Vec3.smul w1 p1)).add (Vec3.smul w2 p2) →
      FLT_EPSILON ≤ |(p1.sub p0).dot (direction.cross (p2.sub p0))| →
      hitEps < t → t < FLT_MAX →
      (∀ j : Fin 3, direction.get j ≠ 0) →
      (∀ j : Fin 3, |direction.get j| < FLT_EPSILON →
        min (min (p0.get j) (p1.get j)) (p2.get j) ≤ origin.get j ∧
        origin.get j ≤ max (max (p0.get j) (p1.get j)) (p2.get j)) →
      triExact fl p0 p1 p2 origin direction →
      slabExact fl (boundOf [p0, p1, p2]) origin direction →
      rayTraceFl fl L (Scene.oneTriangle p0 p1 p2 n0 n1 n2 uv0 uv1 uv2 mat) origin direction
        = true ∧
      (rayTraceOutFl fl L (Scene.oneTriangle p0 p1 p2 n0 n1 n2 uv0 uv1 uv2 mat)
        origin direction).nextParam = t) := by
  refine ⟨?_, ?_⟩
  · intro t u v htest ht1 ht2 hbox
    exact oneTriangle_hitFl fl L p0 p1 p2 n0 n1 n2 uv0 uv1 uv2 mat origin direction t u v
      htest ht1 ht2 hbox
  · intro w0 w1 w2 t hw0 hw1 hw2 hsum hq hdet ht1 ht2 hd hpar hexT hexB
    have htest := triTest_of_point p0 p1 p2 origin direction w0 w1 w2 t hw0 hw1 hw2 hsum hq hdet
    have hbox : checkIntersectionBox (boundOf [p0, p1, p2]) origin direction = true :=
      checkIntersectionBox_of_triTest _ [p0, p1, p2] origin direction 0 t w1 w2 htest ht1 ht2 hd
        (fun j hj => boundOf_three_slab p0 p1 p2 j _ (hpar j hj))
        (boundOf_contains _ _ (by simp [vget])) (boundOf_contains _ _ (by simp [vget]))
        (boundOf_contains _ _ (by simp [vget]))
    refine oneTriangle_hitFl fl L p0 p1 p2 n0 n1 n2 uv0 uv1 uv2 mat origin direction t w1 w2
      ?_ ht1 ht2 ?_
    · rw [triTestFl_of_exact fl [p0, p1, p2] origin direction 0 hexT]
      exact htest
    · rw [checkIntersectionBoxFl_of_exact fl _ origin direction hexB]
      exact hbox

/-- C3 (witness): the triangle `(0,0,0)`, `(4,0,0)`, `(0,4,0)`, its point `(1, 1, 0)` with
weights `(1/2, 1/4, 1/4)`, and the ray from `(1/2, 1/2, 2)` along `(1/4, 1/4, -1)` in
binary32, which reaches it at `t = 2`; no operation of the two tests rounds. -/
theorem triangle_interior_hit_witness :
    rayTraceFl fl32 ratLibm flatScene ⟨1 / 2, 1 / 2, 2⟩ ⟨1 / 4, 1 / 4, -1⟩ = true ∧
    (rayTraceOutFl fl32 ratLibm flatScene ⟨1 / 2, 1 / 2, 2⟩ ⟨1 / 4, 1 / 4, -1⟩).nextParam = 2 :=
  (triangle_interior_hit fl32 ratLibm ⟨0, 0, 0⟩ ⟨4, 0, 0⟩ ⟨0, 4, 0⟩ ⟨0, 0, 1⟩ ⟨0, 0, 1⟩ ⟨0, 0, 1⟩
    ⟨0, 0⟩ ⟨1, 0⟩ ⟨0, 1⟩ defaultMaterial ⟨1 / 2, 1 / 2, 2⟩ ⟨1 / 4, 1 / 4, -1⟩).2
    (1 / 2) (1 / 4) (1 / 4) 2
    (by norm_num) (by norm_num) (by norm_num) (by norm_num)
    (by norm_num [Vec3.add, Vec3.smul])
    (by norm_num [Vec3.sub, Vec3.cross, Vec3.dot, FLT_EPSILON, le_abs])
    (by norm_num [hitEps]) (by norm_num [FLT_MAX])
    (by intro j; fin_cases j <;> norm_num [Vec3.get])
    (by intro j; fin_cases j <;> norm_num [Vec3.get, FLT_EPSILON, abs_lt])
    (by
      unfold triExact Vec3.subExact Vec3.dotExact Vec3.crossExact
      decide!)
    (by unfold slabExact; decide!)

/-- C3 (counterexample), in binary32.  The triangle `(0,0,0)`, `(4,0,0)`, `(0,4,0)`, its
point `(1, 1, 0)` with weights `(1/2, 1/4, 1/4)` and the ray from
`(1 - 2^-22, 1 - 2^-22, 2^-20)` along `(1/4, 1/4, -1)`, not parallel to the plane (the
determinant is `16`), which reaches the point at `t = 2^-20 > 0`: the parameter is not
above `1e-5`, so `rayTrace` reports no hit.  And the triangle `(0,0,0)`, `(-1,-1,0)`,
`(-1,1,0)`, its point with the weights `2^-47`, `1/2 - 2^-20 - 2^-48 + 2^-44` and
`1/2 + 2^-20 - 2^-48 - 2^-44`, reached at `t = 2 - 2^-23` by the ray from
`(2^-24, 0, 2 - 2^-23)` along `(-(1/2 + 2^-24), 2^-20, -1)`, with determinant `-2` and
every direction component above `FLT_EPSILON`: the float box test rejects the
triangle's box, so `rayTrace` reports no hit. -/
theorem triangle_interior_hit_counterexample :
    ((0 : ℚ) ≤ 1 / 2 ∧ (0 : ℚ) ≤ 1 / 4 ∧ (1 : ℚ) / 2 + 1 / 4 + 1 / 4 = 1 ∧
      (⟨1 - 1 / 2 ^ 22, 1 - 1 / 2 ^ 22, 1 / 2 ^ 20⟩ : Vec3 ℚ).add
          (Vec3.smul (1 / 2 ^ 20) ⟨1 / 4, 1 / 4, -1⟩)
        = ((Vec3.smul (1 / 2) ⟨0, 0, 0⟩).add (Vec3.smul (1 / 4) ⟨4, 0, 0⟩)).add
            (Vec3.smul (1 / 4) ⟨0, 4, 0⟩) ∧
      (0 : ℚ) < 1 / 2 ^ 20 ∧
      ((⟨4, 0, 0⟩ : Vec3 ℚ).sub ⟨0, 0, 0⟩).dot
          ((⟨1 / 4, 1 / 4, -1⟩ : Vec3 ℚ).cross ((⟨0, 4, 0⟩ : Vec3 ℚ).sub ⟨0, 0, 0⟩)) = 16 ∧
      rayTraceFl fl32 ratLibm flatScene
        ⟨1 - 1 / 2 ^ 22, 1 - 1 / 2 ^ 22, 1 / 2 ^ 20⟩ ⟨1 / 4, 1 / 4, -1⟩ = false) ∧
    ((0 : ℚ) ≤ 1 / 2 ^ 47 ∧ (0 : ℚ) ≤ 1 / 2 - 1 / 2 ^ 20 - 1 / 2 ^ 48 + 1 / 2 ^ 44 ∧
      (0 : ℚ) ≤ 1 / 2 + 1 / 2 ^ 20 - 1 / 2 ^ 48 - 1 / 2 ^ 44 ∧
      (1 : ℚ) / 2 ^ 47 + (1 / 2 - 1 / 2 ^ 20 - 1 / 2 ^ 48 + 1 / 2 ^ 44)
        + (1 / 2 + 1 / 2 ^ 20 - 1 / 2 ^ 48 - 1 / 2 ^ 44) = 1 ∧
      (⟨1 / 2 ^ 24, 0, 2 - 1 / 2 ^ 23⟩ : Vec3 ℚ).add
          (Vec3.smul (2 - 1 / 2 ^ 23) ⟨-(1 / 2 + 1 / 2 ^ 24), 1 / 2 ^ 20, -1⟩)
        = ((Vec3.smul (1 / 2 ^ 47) ⟨0, 0, 0⟩).add
            (Vec3.smul (1 / 2 - 1 / 2 ^ 20 - 1 / 2 ^ 48 + 1 / 2 ^ 44) ⟨-1, -1, 0⟩)).add
            (Vec3.smul (1 / 2 + 1 / 2 ^ 20 - 1 / 2 ^ 48 - 1 / 2 ^ 44) ⟨-1, 1, 0⟩) ∧
      ((⟨-1, -1, 0⟩ : Vec3 ℚ).sub ⟨0, 0, 0⟩).dot
          ((⟨-(1 / 2 + 1 / 2 ^ 24), 1 / 2 ^ 20, -1⟩ : Vec3 ℚ).cross
            ((⟨-1, 1, 0⟩ : Vec3 ℚ).sub ⟨0, 0, 0⟩)) = -2 ∧
      (hitEps : ℚ) < 2 - 1 / 2 ^ 23 ∧ (2 : ℚ) - 1 / 2 ^ 23 < FLT_MAX ∧
      (∀ j : Fin 3, (FLT_EPSILON : ℚ)
        ≤ |(⟨-(1 / 2 + 1 / 2 ^ 24), 1 / 2 ^ 20, -1⟩ : Vec3 ℚ).get j|) ∧
      checkIntersectionBoxFl fl32 (boundOf slantTriangle) ⟨1 / 2 ^ 24, 0, 2 - 1 / 2 ^ 23⟩
        ⟨-(1 / 2 + 1 / 2 ^ 24), 1 / 2 ^ 20, -1⟩ = false ∧
      rayTraceFl fl32 ratLibm slantScene ⟨1 / 2 ^ 24, 0, 2 - 1 / 2 ^ 23⟩
        ⟨-(1 / 2 + 1 / 2 ^ 24), 1 / 2 ^ 20, -1⟩ = false) := by
  refine ⟨⟨by decide!, by decide!, by decide!, by decide!, by decide!, by decide!, by decide!⟩,
    ⟨by decide!, by decide!, by decide!, by decide!, by decide!, by decide!, by decide!,
      by decide!, by decide!, by decide!, by decide!⟩⟩

/-! ## The BVH-accelerated nearest triangle against the brute-force pass, in float -/

theorem oneSphere_position (c : Vec3 K) (r : K) (mat : Material K) (q : Quat K) :
    vget (Scene.oneSphere c r mat q).spherePosition 0 = c := by
  simp [Scene.oneSphere, Scene.buildBVH, Scene.loadSphere, Scene.empty, vget]

theorem oneSphere_radius (c : Vec3 K) (r : K) (mat : Material K) (q : Quat K) :
    (Scene.oneSphere c r mat q).sphereRadius.getD 0 0 = r := by
  simp [Scene.oneSphere, Scene.buildBVH, Scene.loadSphere, Scene.empty]

theorem oneSphere_matIndex (c : Vec3 K) (r : K) (mat : Material K) (q : Quat K) :
    (Scene.oneSphere c r mat q).sphereMaterialIndex.getD 0 0 = 0 := by
  simp [Scene.oneSphere, Scene.buildBVH, Scene.loadSphere, Scene.empty]

/-- In exact arithmetic, the discriminant is negative for a ray of unit direction whose
line passes the centre at a perpendicular distance `p > r`. -/
theorem sphereDet_miss (sc : Scene K) (i : Nat) (origin direction : Vec3 K) (c : Vec3 K)
    (r p : K) (hc : vget sc.spherePosition i = c) (hrad : sc.sphereRadius.getD i 0 = r)
    (hr : 0 < r) (hunit : direction.dot direction = 1)
    (hp : p * p = (c.sub origin).dot (c.sub origin)
      - ((c.sub origin).dot direction) ^ 2 / direction.dot direction)
    (hpr : r < p) :
    sphereDet sc origin direction i < 0 := by
  simp only [sphereDet, hc, hrad]
  rw [hunit, div_one] at hp
  have h1 : r * r < p * p := by nlinarith
  nlinarith

/-- A negative float discriminant: the sphere pass leaves the hit state as it is. -/
theorem sphereStepFl_miss (fl : K → K) (L : Libm K) (sc : Scene K) (origin direction : Vec3 K)
    (i : Nat) (hdet : sphereDetFl fl sc origin direction i < 0) :
    sphereRootsFl fl L sc origin direction i = none ∧
    ∀ h : Hit K, sphereStepFl fl L sc origin direction h i = h := by
  have hroots : sphereRootsFl fl L sc origin direction i = none := by
    simp only [sphereRootsFl, if_pos hdet]
  refine ⟨hroots, ?_⟩
  intro h
  simp only [sphereStepFl, hroots]

theorem rayTraceFl_oneSphere_miss (fl : K → K) (L : Libm K) (c : Vec3 K) (r : K)
    (mat : Material K) (q : Quat K) (origin direction : Vec3 K)
    (hdet : sphereDetFl fl (Scene.oneSphere c r mat q) origin direction 0 < 0) :
    rayTraceFl fl L (Scene.oneSphere c r mat q) origin direction = false := by
  have h := (sphereStepFl_miss fl L (Scene.oneSphere c r mat q) origin direction 0 hdet).2
  simp [rayTraceFl, rayTraceOutFl_oneSphere, h]

/-- The hit reported on a one-sphere scene when the float test yields the roots
`t1 ≤ t2` and the near root is accepted. -/
theorem oneSphere_hitFl (fl : K → K) (L : Libm K) (c : Vec3 K) (r : K) (mat : Material K)
    (q : Quat K) (origin direction : Vec3 K) (t1 t2 : K)
    (hroots : sphereRootsFl fl L (Scene.oneSphere c r mat q) origin direction 0 = some (t1, t2))
    (hle : t1 ≤ t2) (h1 : hitEps < t1) (h2 : t1 < FLT_MAX) :
    rayTraceFl fl L (Scene.oneSphere c r mat q) origin direction = true ∧
    (rayTraceOutFl fl L (Scene.oneSphere c r mat q) origin direction).nextParam = t1 := by
  have hmat := oneSphere_matIndex c r mat q
  have hfirst := sphereAcceptFl_pos fl L (Scene.oneSphere c r mat q) origin direction 0 t1
    ⟨FLT_MAX, -1, ⟨0, 0, 0⟩, ⟨0, 0⟩⟩ ⟨h1, h2⟩
  have hsecond := sphereAcceptFl_neg fl L (Scene.oneSphere c r mat q) origin direction 0 t2
    (sphereAcceptFl fl L (Scene.oneSphere c r mat q) origin direction 0 t1
      ⟨FLT_MAX, -1, ⟨0, 0, 0⟩, ⟨0, 0⟩⟩)
    (by rw [hfirst.1]; rintro ⟨_, h4⟩; exact absurd h4 (not_lt.mpr hle))
  simp only [rayTraceFl, rayTraceOutFl_oneSphere, sphereStepFl, hroots, hsecond, hfirst.1,
    hfirst.2, hmat]
  simp

theorem sphereAcceptFl_normal (fl : K → K) (L : Libm K) (sc : Scene K)
    (origin direction : Vec3 K) (i : Nat) (t : K) (h : Hit K)
    (hacc : t > hitEps ∧ t < h.nextParam) :
    (sphereAcceptFl fl L sc origin direction i t h).nextNormal
      = sphereNormalFl fl L sc origin direction i t := by
  simp only [sphereAcceptFl, if_pos hacc]

theorem sphereAccept_normal (L : Libm K) (sc : Scene K) (origin direction : Vec3 K) (i : Nat)
    (t : K) (h : Hit K) (hacc : t > hitEps ∧ t < h.nextParam) :
    (sphereAccept L sc origin direction i t h).nextNormal
      = ((Vec3.smul t direction).sub ((vget sc.spherePosition i).sub origin)).normalized L := by
  simp only [sphereAccept, if_pos hacc]

/-- C6 (amended). For a sphere of centre `c` and radius `r` and any ray, in float: when
the computed discriminant `det` is negative the sphere test has no root and a pass of
the sphere loop leaves the hit state unchanged, and on a scene holding only that
sphere `rayTrace` returns false.  When `r > 0`, the direction is of unit length, the
perpendicular distance `p` from `c` to the line is greater than `r` and no operation of
the sphere test has a rounding error, the computed discriminant is negative: the test
accepts no hit and `rayTrace` returns false on the one-sphere scene. -/
theorem sphere_miss (fl : K → K) (L : Libm K) (sc : Scene K) (i : Nat)
    (origin direction : Vec3 K) (c : Vec3 K) (r p : K) (mat : Material K) (q : Quat K)
    (hc : vget sc.spherePosition i = c) (hrad : sc.sphereRadius.getD i 0 = r) :
    (sphereDetFl fl sc origin direction i < 0 →
      sphereRootsFl fl L sc origin direction i = none ∧
      ∀ h : Hit K, sphereStepFl fl L sc origin direction h i = h) ∧
    (sphereDetFl fl (Scene.oneSphere c r mat q) origin direction 0 < 0 →
      rayTraceFl fl L (Scene.oneSphere c r mat q) origin direction = false) ∧
    (0 < r → direction.dot direction = 1 →
      p * p = (c.sub origin).dot (c.sub origin)
        - ((c.sub origin).dot direction) ^ 2 / direction.dot direction →
      r < p → sphereExact fl L c r origin direction →
      sphereRootsFl fl L sc origin direction i = none ∧
      (∀ h : Hit K, sphereStepFl fl L sc origin direction h i = h) ∧
      rayTraceFl fl L (Scene.oneSphere c r mat q) origin direction = false) := by
  refine ⟨sphereStepFl_miss fl L sc origin direction i,
    rayTraceFl_oneSphere_miss fl L c r mat q origin direction, ?_⟩
  intro hr hunit hp hpr hex
  have hd : sphereDetFl fl sc origin direction i < 0 := by
    rw [sphereDetFl_of_exact fl L sc origin direction i (by rw [hc, hrad]; exact hex)]
    exact sphereDet_miss sc i origin direction c r p hc hrad hr hunit hp hpr
  have hd1 : sphereDetFl fl (Scene.oneSphere c r mat q) origin direction 0 < 0 := by
    rw [sphereDetFl_of_exact fl L (Scene.oneSphere c r mat q) origin direction 0
      (by rw [oneSphere_position, oneSphere_radius]; exact hex)]
    exact sphereDet_miss _ 0 origin direction c r p (oneSphere_position c r mat q)
      (oneSphere_radius c r mat q) hr hunit hp hpr
  exact ⟨(sphereStepFl_miss fl L sc origin direction i hd).1,
    (sphereStepFl_miss fl L sc origin direction i hd).2,
    rayTraceFl_oneSphere_miss fl L c r mat q origin direction hd1⟩

/-- C6 (witness): the unit sphere at the origin and the ray from `(-5, 2, 0)` along
`(1, 0, 0)`, at perpendicular distance `2`, in binary32: no operation of the sphere test
rounds, the discriminant is `-3`, and `rayTrace` returns false. -/
theorem sphere_miss_witness :
    sphereDetFl fl32 (Scene.oneSphere ⟨0, 0, 0⟩ 1 defaultMaterial quatId)
      ⟨-5, 2, 0⟩ ⟨1, 0, 0⟩ 0 = (-3 : ℚ) ∧
    sphereExact fl32 ratLibm ⟨0, 0, 0⟩ 1 ⟨-5, 2, 0⟩ ⟨1, 0, 0⟩ ∧
    sphereRootsFl fl32 ratLibm (Scene.oneSphere ⟨0, 0, 0⟩ 1 defaultMaterial quatId)
      ⟨-5, 2, 0⟩ ⟨1, 0, 0⟩ 0 = none ∧
    (∀ h : Hit ℚ, sphereStepFl fl32 ratLibm
      (Scene.oneSphere ⟨0, 0, 0⟩ 1 defaultMaterial quatId) ⟨-5, 2, 0⟩ ⟨1, 0, 0⟩ h 0 = h) ∧
    rayTraceFl fl32 ratLibm (Scene.oneSphere ⟨0, 0, 0⟩ 1 defaultMaterial quatId)
      ⟨-5, 2, 0⟩ ⟨1, 0, 0⟩ = false :=
  ⟨by decide!, by unfold sphereExact Vec3.subExact Vec3.dotExact; decide!,
    (sphere_miss fl32 ratLibm (Scene.oneSphere ⟨0, 0, 0⟩ 1 defaultMaterial quatId) 0
      ⟨-5, 2, 0⟩ ⟨1, 0, 0⟩ ⟨0, 0, 0⟩ 1 2 defaultMaterial quatId
      (oneSphere_position _ _ _ _) (oneSphere_radius _ _ _ _)).2.2
      (by norm_num) (by norm_num [Vec3.dot]) (by norm_num [Vec3.dot, Vec3.sub]) (by norm_num)
      (by unfold sphereExact Vec3.subExact Vec3.dotExact; decide!)⟩

/-- C6 (counterexample), in binary32.  The unit sphere at `(4096, 3/2, 0)` and the ray
from the origin along the unit direction `(1, 0, 0)`, whose line passes the centre at
the perpendicular distance `3/2 > 1`: the exact discriminant is `-5/4`, but
`delta . delta = 4096^2 + 9/4` and then `c` round to `2^24`, the float discriminant is
`0`, the test yields the root `4096` twice and `rayTrace` returns true with a hit at
`4096`. -/
theorem sphere_miss_counterexample :
    (0 : ℚ) < 1 ∧ (⟨1, 0, 0⟩ : Vec3 ℚ).dot ⟨1, 0, 0⟩ = 1 ∧
    ((3 : ℚ) / 2) * (3 / 2)
      = ((⟨4096, 3 / 2, 0⟩ : Vec3 ℚ).sub ⟨0, 0, 0⟩).dot ((⟨4096, 3 / 2, 0⟩ : Vec3 ℚ).sub ⟨0, 0, 0⟩)
        - (((⟨4096, 3 / 2, 0⟩ : Vec3 ℚ).sub ⟨0, 0, 0⟩).dot ⟨1, 0, 0⟩) ^ 2
          / (⟨1, 0, 0⟩ : Vec3 ℚ).dot ⟨1, 0, 0⟩ ∧
    (1 : ℚ) < 3 / 2 ∧
    sphereDet (Scene.oneSphere (⟨4096, 3 / 2, 0⟩ : Vec3 ℚ) 1 defaultMaterial quatId)
      ⟨0, 0, 0⟩ ⟨1, 0, 0⟩ 0 = -5 / 4 ∧
    sphereDetFl fl32 (Scene.oneSphere (⟨4096, 3 / 2, 0⟩ : Vec3 ℚ) 1 defaultMaterial quatId)
      ⟨0, 0, 0⟩ ⟨1, 0, 0⟩ 0 = 0 ∧
    sphereRootsFl fl32 ratLibm
      (Scene.oneSphere (⟨4096, 3 / 2, 0⟩ : Vec3 ℚ) 1 defaultMaterial quatId)
      ⟨0, 0, 0⟩ ⟨1, 0, 0⟩ 0 = some (4096, 4096) ∧
    rayTraceFl fl32 ratLibm
      (Scene.oneSphere (⟨4096, 3 / 2, 0⟩ : Vec3 ℚ) 1 defaultMaterial quatId)
      ⟨0, 0, 0⟩ ⟨1, 0, 0⟩ = true ∧
    (rayTraceOutFl fl32 ratLibm
      (Scene.oneSphere (⟨4096, 3 / 2, 0⟩ : Vec3 ℚ) 1 defaultMaterial quatId)
      ⟨0, 0, 0⟩ ⟨1, 0, 0⟩).nextParam = 4096 := by
  decide!

/-- C5 (amended). For a sphere of centre `c` and radius `r`, on a scene holding only
that sphere, in float: when the sphere test yields the roots `t1 ≤ t2` for a ray and
`1e-5 < t1 < FLT_MAX`, `rayTrace` reports a hit at distance `t1`.  When `r > 0`, the
origin `o` is at distance `n > r` from `c`, the direction is `(c - o) / n`, `sqrt` is
exact at `r^2` and no operation of the sphere test has a rounding error, the two
computed roots are `n - r` and `n + r`, both positive and symmetric about `n`; and when
`1e-5 < n - r < FLT_MAX`, `rayTrace` reports a hit at distance `n - r`. -/
theorem sphere_through_center (fl : K → K) (L : Libm K) (c o direction : Vec3 K) (r n : K)
    (mat : Material K) (q : Quat K) :
    (∀ t1 t2 : K,
      sphereRootsFl fl L (Scene.oneSphere c r mat q) o direction 0 = some (t1, t2) →
      t1 ≤ t2 → hitEps < t1 → t1 < FLT_MAX →
      rayTraceFl fl L (Scene.oneSphere c r mat q) o direction = true ∧
      (rayTraceOutFl fl L (Scene.oneSphere c r mat q) o direction).nextParam = t1) ∧
    (0 < r → n * n = (c.sub o).dot (c.sub o) → r < n → L.sqrt (r * r) = r →
      sphereExact fl L c r o ((c.sub o).sdiv n) →
      sphereRootsFl fl L (Scene.oneSphere c r mat q) o ((c.sub o).sdiv n) 0
        = some (n - r, n + r) ∧
      0 < n - r ∧ 0 < n + r ∧ ((n - r) + (n + r)) / 2 = n ∧
      (hitEps < n - r → n - r < FLT_MAX →
        rayTraceFl fl L (Scene.oneSphere c r mat q) o ((c.sub o).sdiv n) = true ∧
        (rayTraceOutFl fl L (Scene.oneSphere c r mat q) o ((c.sub o).sdiv n)).nextParam
          = n - r)) := by
  refine ⟨?_, ?_⟩
  · intro t1 t2 hroots hle h1 h2
    exact oneSphere_hitFl fl L c r mat q o direction t1 t2 hroots hle h1 h2
  · intro hr hn hout hsqrt hex
    have hn0 : 0 < n := lt_trans hr hout
    have hroots : sphereRootsFl fl L (Scene.oneSphere c r mat q) o ((c.sub o).sdiv n) 0
        = some (n - r, n + r) := by
      rw [sphereRootsFl_of_exact fl L (Scene.oneSphere c r mat q) o ((c.sub o).sdiv n) 0
        (by rw [oneSphere_position, oneSphere_radius]; exact hex)]
      exact sphereRoots_center L _ 0 c o r n (oneSphere_position c r mat q)
        (oneSphere_radius c r mat q) hn0 hn hsqrt
    refine ⟨hroots, by linarith, by linarith, by ring, ?_⟩
    intro h1 h2
    exact oneSphere_hitFl fl L c r mat q o ((c.sub o).sdiv n) (n - r) (n + r) hroots
      (by linarith) h1 h2

/-- C5 (witness): the unit sphere at the origin seen from `(-5, 0, 0)` along
`(1, 0, 0)`, in binary32: no operation of the sphere test rounds, the roots are `4` and
`6`, and `rayTrace` reports a hit at distance `4`. -/
theorem sphere_through_center_witness :
    sphereExact fl32 ratLibm ⟨0, 0, 0⟩ 1 ⟨-5, 0, 0⟩ (((⟨0, 0, 0⟩ : Vec3 ℚ).sub ⟨-5, 0, 0⟩).sdiv 5) ∧
    sphereRootsFl fl32 ratLibm (Scene.oneSphere ⟨0, 0, 0⟩ 1 defaultMaterial quatId) ⟨-5, 0, 0⟩
        (((⟨0, 0, 0⟩ : Vec3 ℚ).sub ⟨-5, 0, 0⟩).sdiv 5) 0 = some (5 - 1, 5 + 1) ∧
    rayTraceFl fl32 ratLibm (Scene.oneSphere ⟨0, 0, 0⟩ 1 defaultMaterial quatId) ⟨-5, 0, 0⟩
        (((⟨0, 0, 0⟩ : Vec3 ℚ).sub ⟨-5, 0, 0⟩).sdiv 5) = true ∧
    (rayTraceOutFl fl32 ratLibm (Scene.oneSphere ⟨0, 0, 0⟩ 1 defaultMaterial quatId) ⟨-5, 0, 0⟩
        (((⟨0, 0, 0⟩ : Vec3 ℚ).sub ⟨-5, 0, 0⟩).sdiv 5)).nextParam = 5 - 1 :=
  have h := (sphere_through_center fl32 ratLibm ⟨0, 0, 0⟩ ⟨-5, 0, 0⟩ ⟨1, 0, 0⟩ 1 5
    defaultMaterial quatId).2 (by norm_num) (by norm_num [Vec3.dot, Vec3.sub]) (by norm_num)
    (ratLibm_sqrt_sq 1 (by norm_num))
    (by unfold sphereExact Vec3.subExact Vec3.dotExact; decide!)
  ⟨by unfold sphereExact Vec3.subExact Vec3.dotExact; decide!, h.1,
    h.2.2.2.2 (by norm_num [hitEps]) (by norm_num [FLT_MAX])⟩

/-- C5 (counterexample), in binary32.  The unit sphere at the origin seen from
`(-(1 + 2^-20), 0, 0)`, strictly outside it, with the unit direction `(1, 0, 0)` toward
the centre: the near root `2^-20` is not above `1e-5`, so `rayTrace` reports the far
root `2 + 2^-20`, not the distance `|c - o| - r = 2^-20`.  And the unit sphere at
`(8192, 0, 0)` seen from the origin along `(1, 0, 0)`, with `1e-5 < |c - o| - r = 8191`:
`delta . delta - 1` rounds to `2^26`, the float discriminant is `0`, both computed roots
are `8192` and `rayTrace` reports a hit at `8192`, not at `8191`. -/
theorem sphere_through_center_counterexample :
    ((1 : ℚ) < 1 + 1 / 2 ^ 20 ∧
      (((⟨0, 0, 0⟩ : Vec3 ℚ).sub ⟨-(1 + 1 / 2 ^ 20), 0, 0⟩).sdiv (1 + 1 / 2 ^ 20)) = ⟨1, 0, 0⟩ ∧
      sphereRootsFl fl32 ratLibm (Scene.oneSphere ⟨0, 0, 0⟩ 1 defaultMaterial quatId)
        ⟨-(1 + 1 / 2 ^ 20), 0, 0⟩ ⟨1, 0, 0⟩ 0 = some (1 / 2 ^ 20, 2 + 1 / 2 ^ 20) ∧
      ¬ ((hitEps : ℚ) < 1 / 2 ^ 20) ∧
      rayTraceFl fl32 ratLibm (Scene.oneSphere ⟨0, 0, 0⟩ 1 defaultMaterial quatId)
        ⟨-(1 + 1 / 2 ^ 20), 0, 0⟩ ⟨1, 0, 0⟩ = true ∧
      (rayTraceOutFl fl32 ratLibm (Scene.oneSphere ⟨0, 0, 0⟩ 1 defaultMaterial quatId)
        ⟨-(1 + 1 / 2 ^ 20), 0, 0⟩ ⟨1, 0, 0⟩).nextParam = 2 + 1 / 2 ^ 20) ∧
    ((1 : ℚ) < 8192 ∧
      (8192 : ℚ) * 8192
        = ((⟨8192, 0, 0⟩ : Vec3 ℚ).sub ⟨0, 0, 0⟩).dot ((⟨8192, 0, 0⟩ : Vec3 ℚ).sub ⟨0, 0, 0⟩) ∧
      (((⟨8192, 0, 0⟩ : Vec3 ℚ).sub ⟨0, 0, 0⟩).sdiv 8192) = ⟨1, 0, 0⟩ ∧
      (hitEps : ℚ) < 8192 - 1 ∧ (8192 : ℚ) - 1 < FLT_MAX ∧
      sphereRootsFl fl32 ratLibm (Scene.oneSphere ⟨8192, 0, 0⟩ 1 defaultMaterial quatId)
        ⟨0, 0, 0⟩ ⟨1, 0, 0⟩ 0 = some (8192, 8192) ∧
      rayTraceFl fl32 ratLibm (Scene.oneSphere ⟨8192, 0, 0⟩ 1 defaultMaterial quatId)
        ⟨0, 0, 0⟩ ⟨1, 0, 0⟩ = true ∧
      (rayTraceOutFl fl32 ratLibm (Scene.oneSphere ⟨8192, 0, 0⟩ 1 defaultMaterial quatId)
        ⟨0, 0, 0⟩ ⟨1, 0, 0⟩).nextParam = 8192) := by
  decide!

/-- C25 (amended). For a sphere of centre `c` and radius `r` and any ray, in float: when
the sphere test accepts a computed root `t`, the hit is recorded at `t` and the normal
returned is the float value of `(t * direction - delta).normalized()`.  When `r > 0`, the
direction is of unit length, `sqrt` is exact at the discriminant and at `r^2`, and no
operation of the sphere test and of the normal has a rounding error, the hit point
`origin + t * direction` is at distance `r` from `c`, and the normal returned is
`(origin + t * direction - c) / r`, of unit length. -/
theorem sphere_hit_normal (fl : K → K) (L : Libm K) (sc : Scene K) (origin direction : Vec3 K)
    (i : Nat) (t1 t2 t : K) (h : Hit K)
    (hroots : sphereRootsFl fl L sc origin direction i = some (t1, t2))
    (ht : t = t1 ∨ t = t2) (hacc : t > hitEps ∧ t < h.nextParam) :
    (sphereAcceptFl fl L sc origin direction i t h).nextParam = t ∧
    (sphereAcceptFl fl L sc origin direction i t h).nextNormal
      = sphereNormalFl fl L sc origin direction i t ∧
    (0 < sc.sphereRadius.getD i 0 → direction.dot direction = 1 →
      L.sqrt (sphereDet sc origin direction i) * L.sqrt (sphereDet sc origin direction i)
        = sphereDet sc origin direction i →
      L.sqrt (sc.sphereRadius.getD i 0 * sc.sphereRadius.getD i 0) = sc.sphereRadius.getD i 0 →
      sphereExact fl L (vget sc.spherePosition i) (sc.sphereRadius.getD i 0) origin direction →
      sphereNormalExact fl L (vget sc.spherePosition i) origin direction t →
      ((origin.add (Vec3.smul t direction)).sub (vget sc.spherePosition i)).dot
          ((origin.add (Vec3.smul t direction)).sub (vget sc.spherePosition i))
        = sc.sphereRadius.getD i 0 * sc.sphereRadius.getD i 0 ∧
      (sphereAcceptFl fl L sc origin direction i t h).nextNormal
        = ((origin.add (Vec3.smul t direction)).sub (vget sc.spherePosition i)).sdiv
            (sc.sphereRadius.getD i 0) ∧
      (sphereAcceptFl fl L sc origin direction i t h).nextNormal.dot
        (sphereAcceptFl fl L sc origin direction i t h).nextNormal = 1) := by
  have hN := sphereAcceptFl_normal fl L sc origin direction i t h hacc
  refine ⟨(sphereAcceptFl_pos fl L sc origin direction i t h hacc).1, hN, ?_⟩
  intro hr hunit hdet hsq hex hexN
  have hroots1 : sphereRoots L sc origin direction i = some (t1, t2) := by
    rw [← sphereRootsFl_of_exact fl L sc origin direction i hex]
    exact hroots
  have hrad := sphereAccept_radial L sc origin direction i t1 t2 t h hr hunit hdet hsq
    hroots1 ht hacc
  have hN1 : (sphereAcceptFl fl L sc origin direction i t h).nextNormal
      = (sphereAccept L sc origin direction i t h).nextNormal := by
    rw [hN, sphereNormalFl_of_exact fl L sc origin direction i t hexN,
      sphereAccept_normal L sc origin direction i t h hacc]
  rw [hN1]
  exact hrad.2

/-- C25 (witness): the unit sphere at the origin seen from `(-5, 0, 0)` along
`(1, 0, 0)`, in binary32; the near root `4` is accepted from the initial state of the
loop, no operation rounds, the hit point `(-1, 0, 0)` is on the sphere and the normal is
`(-1, 0, 0)`. -/
theorem sphere_hit_normal_witness :
    (sphereAcceptFl fl32 ratLibm (Scene.oneSphere ⟨0, 0, 0⟩ 1 defaultMaterial quatId)
        ⟨-5, 0, 0⟩ ⟨1, 0, 0⟩ 0 4 ⟨FLT_MAX, -1, ⟨0, 0, 0⟩, ⟨0, 0⟩⟩).nextParam = 4 ∧
    (sphereAcceptFl fl32 ratLibm (Scene.oneSphere ⟨0, 0, 0⟩ 1 defaultMaterial quatId)
        ⟨-5, 0, 0⟩ ⟨1, 0, 0⟩ 0 4 ⟨FLT_MAX, -1, ⟨0, 0, 0⟩, ⟨0, 0⟩⟩).nextNormal
      = sphereNormalFl fl32 ratLibm (Scene.oneSphere ⟨0, 0, 0⟩ 1 defaultMaterial quatId)
        ⟨-5, 0, 0⟩ ⟨1, 0, 0⟩ 0 4 ∧
    (((⟨-5, 0, 0⟩ : Vec3 ℚ).add (Vec3.smul 4 ⟨1, 0, 0⟩)).sub
        (vget (Scene.oneSphere (⟨0, 0, 0⟩ : Vec3 ℚ) 1 defaultMaterial quatId).spherePosition
          0)).dot
      (((⟨-5, 0, 0⟩ : Vec3 ℚ).add (Vec3.smul 4 ⟨1, 0, 0⟩)).sub
        (vget (Scene.oneSphere (⟨0, 0, 0⟩ : Vec3 ℚ) 1 defaultMaterial quatId).spherePosition
          0))
      = (Scene.oneSphere (⟨0, 0, 0⟩ : Vec3 ℚ) 1 defaultMaterial quatId).sphereRadius.getD 0 0
        * (Scene.oneSphere (⟨0, 0, 0⟩ : Vec3 ℚ) 1 defaultMaterial quatId).sphereRadius.getD
          0 0 ∧
    (sphereAcceptFl fl32 ratLibm (Scene.oneSphere ⟨0, 0, 0⟩ 1 defaultMaterial quatId)
        ⟨-5, 0, 0⟩ ⟨1, 0, 0⟩ 0 4 ⟨FLT_MAX, -1, ⟨0, 0, 0⟩, ⟨0, 0⟩⟩).nextNormal
      = (((⟨-5, 0, 0⟩ : Vec3 ℚ).add (Vec3.smul 4 ⟨1, 0, 0⟩)).sub
          (vget (Scene.oneSphere (⟨0, 0, 0⟩ : Vec3 ℚ) 1 defaultMaterial quatId).spherePosition
            0)).sdiv
          ((Scene.oneSphere (⟨0, 0, 0⟩ : Vec3 ℚ) 1 defaultMaterial quatId).sphereRadius.getD
            0 0) ∧
    (sphereAcceptFl fl32 ratLibm (Scene.oneSphere ⟨0, 0, 0⟩ 1 defaultMaterial quatId)
        ⟨-5, 0, 0⟩ ⟨1, 0, 0⟩ 0 4 ⟨FLT_MAX, -1, ⟨0, 0, 0⟩, ⟨0, 0⟩⟩).nextNormal.dot
      (sphereAcceptFl fl32 ratLibm (Scene.oneSphere ⟨0, 0, 0⟩ 1 defaultMaterial quatId)
        ⟨-5, 0, 0⟩ ⟨1, 0, 0⟩ 0 4 ⟨FLT_MAX, -1, ⟨0, 0, 0⟩, ⟨0, 0⟩⟩).nextNormal = 1 :=
  have h := sphere_hit_normal fl32 ratLibm (Scene.oneSphere ⟨0, 0, 0⟩ 1 defaultMaterial quatId)
    ⟨-5, 0, 0⟩ ⟨1, 0, 0⟩ 0 4 6 4 ⟨FLT_MAX, -1, ⟨0, 0, 0⟩, ⟨0, 0⟩⟩
    (by decide!) (Or.inl rfl) (by norm_num [hitEps, FLT_MAX])
  ⟨h.1, h.2.1, h.2.2 (by decide!) (by decide!) (by decide!) (by decide!)
    (by unfold sphereExact Vec3.subExact Vec3.dotExact; decide!)
    (by unfold sphereNormalExact Vec3.subExact Vec3.smulExact Vec3.dotExact Vec3.sdivExact
        decide!)⟩

/-- C25 (counterexample), in binary32.  The unit sphere at `(5000, 0, 0)` seen from the
origin along the unit direction `(1, 0, 0)`: `delta . delta - 1` rounds to `25000000`,
the float discriminant is `0`, the root `5000` is accepted from the initial state of the
loop, the hit point `origin + 5000 * direction` is the centre itself, at distance `0`
and not `1` from it, and the normal returned is the zero vector, not a unit vector. -/
theorem sphere_hit_normal_counterexample :
    (0 : ℚ) < (Scene.oneSphere (⟨5000, 0, 0⟩ : Vec3 ℚ) 1 defaultMaterial quatId).sphereRadius.getD
      0 0 ∧
    (⟨1, 0, 0⟩ : Vec3 ℚ).dot ⟨1, 0, 0⟩ = 1 ∧
    sphereRootsFl fl32 ratLibm (Scene.oneSphere ⟨5000, 0, 0⟩ 1 defaultMaterial quatId)
      ⟨0, 0, 0⟩ ⟨1, 0, 0⟩ 0 = some (5000, 5000) ∧
    ((5000 : ℚ) > hitEps ∧ (5000 : ℚ) < (⟨FLT_MAX, -1, ⟨0, 0, 0⟩, ⟨0, 0⟩⟩ : Hit ℚ).nextParam) ∧
    (sphereAcceptFl fl32 ratLibm (Scene.oneSphere ⟨5000, 0, 0⟩ 1 defaultMaterial quatId)
        ⟨0, 0, 0⟩ ⟨1, 0, 0⟩ 0 5000 ⟨FLT_MAX, -1, ⟨0, 0, 0⟩, ⟨0, 0⟩⟩).nextParam = 5000 ∧
    (((⟨0, 0, 0⟩ : Vec3 ℚ).add (Vec3.smul 5000 ⟨1, 0, 0⟩)).sub ⟨5000, 0, 0⟩).dot
      (((⟨0, 0, 0⟩ : Vec3 ℚ).add (Vec3.smul 5000 ⟨1, 0, 0⟩)).sub ⟨5000, 0, 0⟩) = 0 ∧
    (sphereAcceptFl fl32 ratLibm (Scene.oneSphere ⟨5000, 0, 0⟩ 1 defaultMaterial quatId)
        ⟨0, 0, 0⟩ ⟨1, 0, 0⟩ 0 5000 ⟨FLT_MAX, -1, ⟨0, 0, 0⟩, ⟨0, 0⟩⟩).nextNormal = ⟨0, 0, 0⟩ ∧
    (rayTraceOutFl fl32 ratLibm (Scene.oneSphere ⟨5000, 0, 0⟩ 1 defaultMaterial quatId)
      ⟨0, 0, 0⟩ ⟨1, 0, 0⟩).nextNormal = ⟨0, 0, 0⟩ := by
  decide!

/-! ## Tone mapping -/

/-- The local `value` of the tone-mapping loop is not negative for an accumulator that
is not negative, when rounding keeps the sign. -/
theorem toneValueFl_nonneg (fl : K → K) (hfl : ∀ x : K, 0 ≤ x → 0 ≤ fl x) (n : Int) (a : K)
    (hn : 1 ≤ n) (ha : 0 ≤ a) : 0 ≤ toneValueFl fl n a := by
  have hn0 : (0 : K) ≤ (n : K) := by exact_mod_cast (le_trans zero_le_one hn)
  exact hfl _ (div_nonneg ha (hfl _ hn0))

/-- The byte pushed for a `value` in `[0, 1]` whose power `value^(5/11)`, times `255`,
lies in `[k, k + 1)`. -/
theorem toneByte_eq (L : Libm ℝ) (v : ℝ) (k : Nat) (hv : 0 ≤ v) (hv1 : v ≤ 1)
    (hpow : L.pow v (1 / (11 / 5)) = v ^ ((1 : ℝ) / (11 / 5)))
    (h1 : ((k : ℝ) / 255) ^ 11 ≤ v ^ 5) (h2 : v ^ 5 < (((k : ℝ) + 1) / 255) ^ 11) :
    toneByte L v = (k : Int) ∧ ⌊255 * v ^ ((1 : ℝ) / (11 / 5))⌋ = (k : Int) := by
  have hy0 : 0 ≤ v ^ ((1 : ℝ) / (11 / 5)) := Real.rpow_nonneg hv _
  have hy : (v ^ ((1 : ℝ) / (11 / 5))) ^ 11 = v ^ 5 := by
    rw [← Real.rpow_natCast, ← Real.rpow_mul hv]
    have : (1 : ℝ) / (11 / 5) * ((11 : Nat) : ℝ) = ((5 : Nat) : ℝ) := by norm_num
    rw [this, Real.rpow_natCast]
  have hk0 : (0 : ℝ) ≤ (k : ℝ) / 255 := by positivity
  have hlo : (k : ℝ) / 255 ≤ v ^ ((1 : ℝ) / (11 / 5)) := by
    by_contra hc
    have := pow_lt_pow_left₀ (not_le.mp hc) hy0 (by norm_num : (11 : Nat) ≠ 0)
    rw [hy] at this
    exact absurd h1 (not_le.mpr this)
  have hhi : v ^ ((1 : ℝ) / (11 / 5)) < ((k : ℝ) + 1) / 255 := by
    by_contra hc
    have := pow_le_pow_left₀ (by positivity : (0 : ℝ) ≤ ((k : ℝ) + 1) / 255) (not_lt.mp hc) 11
    rw [hy] at this
    exact absurd h2 (not_lt.mpr this)
  have hfloor : ⌊255 * v ^ ((1 : ℝ) / (11 / 5))⌋ = (k : Int) := by
    rw [Int.floor_eq_iff]
    push_cast
    constructor
    · linarith
    · linarith
  refine ⟨?_, hfloor⟩
  simp only [toneByte, if_neg (not_lt.mpr hv1), hpow, truncInt]
  rw [if_pos (mul_nonneg hy0 (by norm_num)), mul_comm]
  exact hfloor

/-- C12 (amended). For an accumulated value `a >= 0` and a sample count `n >= 1`, with
`v` the float quotient of `a` by `n` that the code stores in `value` (the count converted
to `float`, the quotient rounded), and `pow` the real power at `v`: the channel value
written is `255` when `v > 1` and `floor(255 * v^(1/2.2))` otherwise; it lies in
`[0, 255]`; and it does not decrease when `v` grows.  When the conversion and the
quotient do not round, `v = a / n`. -/
theorem toneMap_spec (fl : ℝ → ℝ) (L : Libm ℝ) (a a2 : ℝ) (n n2 : Int)
    (hfl : ∀ x : ℝ, 0 ≤ x → 0 ≤ fl x)
    (ha : 0 ≤ a) (hn : 1 ≤ n) (ha2 : 0 ≤ a2) (hn2 : 1 ≤ n2)
    (hpow : L.pow (toneValueFl fl n a) (1 / (11 / 5))
      = (toneValueFl fl n a) ^ ((1 : ℝ) / (11 / 5)))
    (hpow2 : L.pow (toneValueFl fl n2 a2) (1 / (11 / 5))
      = (toneValueFl fl n2 a2) ^ ((1 : ℝ) / (11 / 5))) :
    (toneValueFl fl n a > 1 → toneMapFl fl L n a = 255) ∧
    (¬ toneValueFl fl n a > 1 →
      toneMapFl fl L n a = ⌊255 * (toneValueFl fl n a) ^ ((1 : ℝ) / (11 / 5))⌋) ∧
    0 ≤ toneMapFl fl L n a ∧ toneMapFl fl L n a ≤ 255 ∧
    (toneValueFl fl n a ≤ toneValueFl fl n2 a2 → toneMapFl fl L n a ≤ toneMapFl fl L n2 a2) ∧
    (fl (n : ℝ) = (n : ℝ) → fl (a / (n : ℝ)) = a / (n : ℝ) →
      toneValueFl fl n a = a / (n : ℝ)) := by
  have hbound : ∀ (v : ℝ), 0 ≤ v →
      L.pow v (1 / (11 / 5)) = v ^ ((1 : ℝ) / (11 / 5)) →
      (v > 1 → toneByte L v = 255) ∧
      (¬ v > 1 → toneByte L v = ⌊255 * v ^ ((1 : ℝ) / (11 / 5))⌋ ∧
        0 ≤ v ^ ((1 : ℝ) / (11 / 5)) ∧ v ^ ((1 : ℝ) / (11 / 5)) ≤ 1) := by
    intro v hv0 hp
    refine ⟨?_, ?_⟩
    · intro h
      simp only [toneByte, if_pos h]
    · intro h
      have h1 : v ≤ 1 := not_lt.mp h
      have hp0 : 0 ≤ v ^ ((1 : ℝ) / (11 / 5)) := Real.rpow_nonneg hv0 _
      have hp1 : v ^ ((1 : ℝ) / (11 / 5)) ≤ 1 := Real.rpow_le_one hv0 h1 (by norm_num)
      refine ⟨?_, hp0, hp1⟩
      simp only [toneByte, if_neg h, hp, truncInt]
      rw [if_pos (mul_nonneg hp0 (by norm_num)), mul_comm]
  have hv0 := toneValueFl_nonneg fl hfl n a hn ha
  have hv2 := toneValueFl_nonneg fl hfl n2 a2 hn2 ha2
  obtain ⟨hA, hB⟩ := hbound _ hv0 hpow
  obtain ⟨hA2, hB2⟩ := hbound _ hv2 hpow2
  have hrange : 0 ≤ toneMapFl fl L n a ∧ toneMapFl fl L n a ≤ 255 := by
    unfold toneMapFl
    by_cases h : toneValueFl fl n a > 1
    · rw [hA h]; exact ⟨by norm_num, le_refl _⟩
    · obtain ⟨e, p0, p1⟩ := hB h
      rw [e]
      refine ⟨Int.floor_nonneg.mpr (mul_nonneg (by norm_num) p0), ?_⟩
      have : ⌊255 * (toneValueFl fl n a) ^ ((1 : ℝ) / (11 / 5))⌋ ≤ ⌊(255 : ℝ)⌋ :=
        Int.floor_mono (by nlinarith)
      have h255 : ⌊(255 : ℝ)⌋ = 255 := by
        simp
      rw [h255] at this
      exact this
  refine ⟨hA, fun h => (hB h).1, hrange.1, hrange.2, ?_, ?_⟩
  · intro hle
    by_cases h2 : toneValueFl fl n2 a2 > 1
    · show toneMapFl fl L n a ≤ toneByte L (toneValueFl fl n2 a2)
      rw [hA2 h2]; exact hrange.2
    · have h1 : ¬ toneValueFl fl n a > 1 := fun h => h2 (lt_of_lt_of_le h hle)
      show toneByte L (toneValueFl fl n a) ≤ toneByte L (toneValueFl fl n2 a2)
      rw [(hB h1).1, (hB2 h2).1]
      apply Int.floor_mono
      have hmono : (toneValueFl fl n a) ^ ((1 : ℝ) / (11 / 5))
          ≤ (toneValueFl fl n2 a2) ^ ((1 : ℝ) / (11 / 5)) :=
        Real.rpow_le_rpow hv0 hle (by norm_num)
      linarith
  · intro e1 e2
    simp only [toneValueFl, e1, e2]

/-- C12 (witness): the accumulators `3/2` and `3` with three samples in binary32, of
values `v = 1/2` and `v = 1`, and the real power function. -/
theorem toneMap_spec_witness :
    (toneValueFl fl32 3 ((3 : ℝ) / 2) > 1 →
      toneMapFl fl32 (⟨Real.sqrt, Real.sin, Real.cos, Real.tan, fun _ _ => 0, Real.arccos,
        fun x y => x ^ y, Real.pi⟩ : Libm ℝ) 3 ((3 : ℝ) / 2) = 255) ∧
    (¬ toneValueFl fl32 3 ((3 : ℝ) / 2) > 1 →
      toneMapFl fl32 (⟨Real.sqrt, Real.sin, Real.cos, Real.tan, fun _ _ => 0, Real.arccos,
        fun x y => x ^ y, Real.pi⟩ : Libm ℝ) 3 ((3 : ℝ) / 2)
        = ⌊255 * (toneValueFl fl32 3 ((3 : ℝ) / 2)) ^ ((1 : ℝ) / (11 / 5))⌋) ∧
    0 ≤ toneMapFl fl32 (⟨Real.sqrt, Real.sin, Real.cos, Real.tan, fun _ _ => 0, Real.arccos,
        fun x y => x ^ y, Real.pi⟩ : Libm ℝ) 3 ((3 : ℝ) / 2) ∧
    toneMapFl fl32 (⟨Real.sqrt, Real.sin, Real.cos, Real.tan, fun _ _ => 0, Real.arccos,
        fun x y => x ^ y, Real.pi⟩ : Libm ℝ) 3 ((3 : ℝ) / 2) ≤ 255 ∧
    (toneValueFl fl32 3 ((3 : ℝ) / 2) ≤ toneValueFl fl32 3 (3 : ℝ) →
      toneMapFl fl32 (⟨Real.sqrt, Real.sin, Real.cos, Real.tan, fun _ _ => 0, Real.arccos,
        fun x y => x ^ y, Real.pi⟩ : Libm ℝ) 3 ((3 : ℝ) / 2)
      ≤ toneMapFl fl32 (⟨Real.sqrt, Real.sin, Real.cos, Real.tan, fun _ _ => 0, Real.arccos,
        fun x y => x ^ y, Real.pi⟩ : Libm ℝ) 3 (3 : ℝ)) ∧
    (fl32 (((3 : Int) : ℝ)) = ((3 : Int) : ℝ) →
      fl32 ((3 : ℝ) / 2 / ((3 : Int) : ℝ)) = (3 : ℝ) / 2 / ((3 : Int) : ℝ) →
      toneValueFl fl32 3 ((3 : ℝ) / 2) = (3 : ℝ) / 2 / ((3 : Int) : ℝ)) :=
  toneMap_spec fl32 (⟨Real.sqrt, Real.sin, Real.cos, Real.tan, fun _ _ => 0, Real.arccos,
      fun x y => x ^ y, Real.pi⟩ : Libm ℝ) (3 / 2) 3 3 3 fl32_nonneg (by norm_num) (by norm_num)
    (by norm_num) (by norm_num) rfl rfl

/-- The float quotient of the tone-mapping loop commutes with the embedding of the
rationals. -/
theorem toneValueFl_ratCast (n : Int) (q : ℚ) :
    toneValueFl fl32 n ((q : ℚ) : ℝ) = ((toneValueFl fl32 n q : ℚ) : ℝ) := by
  have hn : ((n : Int) : ℝ) = (((n : Int) : ℚ) : ℝ) := by push_cast; rfl
  unfold toneValueFl
  rw [hn, fl32_ratCast, ← Rat.cast_div, fl32_ratCast]

/-- C12 (counterexample), in binary32.  The accumulator `a = 11048789 / 2^35`
(`0.00032156208f`) and `n = 3` samples: the float quotient stored in `value` is
`14731719 / 2^37`, just above `(4/255)^2.2`, so the byte written is `4`, where `a / n`
itself lies below `(4/255)^2.2` and `floor(255 * (a / n)^(1/2.2))` is `3`. -/
theorem toneMap_spec_counterexample :
    (0 : ℝ) ≤ 11048789 / 2 ^ 35 ∧ ¬ ((11048789 : ℝ) / 2 ^ 35 / 3 > 1) ∧
    toneValueFl fl32 3 ((11048789 : ℝ) / 2 ^ 35) = 14731719 / 2 ^ 37 ∧
    toneMapFl fl32 (⟨Real.sqrt, Real.sin, Real.cos, Real.tan, fun _ _ => 0, Real.arccos,
      fun x y => x ^ y, Real.pi⟩ : Libm ℝ) 3 ((11048789 : ℝ) / 2 ^ 35) = 4 ∧
    ⌊255 * ((11048789 : ℝ) / 2 ^ 35 / 3) ^ ((1 : ℝ) / (11 / 5))⌋ = 3 := by
  have hq : toneValueFl fl32 3 ((11048789 : ℚ) / 2 ^ 35) = 14731719 / 2 ^ 37 := by decide!
  have hv : toneValueFl fl32 3 ((11048789 : ℝ) / 2 ^ 35) = 14731719 / 2 ^ 37 := by
    have h := toneValueFl_ratCast 3 ((11048789 : ℚ) / 2 ^ 35)
    rw [hq] at h
    push_cast at h
    exact h
  have h4 := toneByte_eq (⟨Real.sqrt, Real.sin, Real.cos, Real.tan, fun _ _ => 0, Real.arccos,
    fun x y => x ^ y, Real.pi⟩ : Libm ℝ) ((14731719 : ℝ) / 2 ^ 37) 4 (by norm_num)
    (by norm_num) rfl (by norm_num) (by norm_num)
  have h3 := toneByte_eq (⟨Real.sqrt, Real.sin, Real.cos, Real.tan, fun _ _ => 0, Real.arccos,
    fun x y => x ^ y, Real.pi⟩ : Libm ℝ) ((11048789 : ℝ) / 2 ^ 35 / 3) 3 (by norm_num)
    (by norm_num) rfl (by norm_num) (by norm_num)
  refine ⟨by norm_num, by norm_num, hv, ?_, ?_⟩
  · unfold toneMapFl
    rw [hv]
    exact_mod_cast h4.1
  · exact_mod_cast h3.2

/-! ## Rendering a scene without geometry, the film in float -/

theorem pathLoopFl_no_geometry [FloorRing K] (fl : K → K) (L : Libm K) (sc : Scene K)
    (rnd : Nat → K) (imgIndex fuel : Nat) (position direction weight : Vec3 K) (film : List K)
    (ctr : Nat) (hb : sc.bvh = build []) (hs : sc.sphereRadius = []) :
    pathLoopFl fl L sc rnd imgIndex (fuel + 1) position direction weight film ctr
      = (addPixelFl fl film imgIndex sc.backgroundLight weight, ctr) := by
  simp only [pathLoopFl, rayTrace_no_geometry L sc position direction hb hs, if_true]

theorem sampleOnceFl_no_geometry [FloorRing K] (fl : K → K) (L : Libm K) (sc : Scene K)
    (cam : Camera K) (rnd : Nat → K) (i j : Int) (st : RenderState K)
    (hb : sc.bvh = build []) (hs : sc.sphereRadius = []) :
    sampleOnceFl fl L sc cam rnd i j st
      = ⟨addPixelFl fl st.film st.imgIndex sc.backgroundLight ⟨1, 1, 1⟩, st.ctr + 4,
          st.imgIndex⟩ := by
  simp only [sampleOnceFl, maxCollision, pathLoopFl_no_geometry fl L sc rnd _ 11 _ _ _ _ _ hb hs]

theorem getD_addAtFl (fl : K → K) (film : List K) (idx : Nat) (x : K) (j : Nat) :
    (addAtFl fl film idx x).getD j 0 =
      if j = idx ∧ idx < film.length then fl (film.getD idx 0 + x) else film.getD j 0 := by
  unfold addAtFl
  rw [List.getD_eq_getElem?_getD, List.getD_eq_getElem?_getD, List.getElem?_set]
  by_cases h1 : idx = j
  · subst h1
    by_cases h2 : idx < film.length
    · simp [h2]
    · simp [h2, List.getElem?_eq_none (not_lt.mp h2)]
  · have h3 : ¬ j = idx := fun h => h1 h.symm
    simp [h1, h3]

theorem length_addAtFl (fl : K → K) (film : List K) (idx : Nat) (x : K) :
    (addAtFl fl film idx x).length = film.length := by
  simp [addAtFl]

theorem length_addPixelFl (fl : K → K) (film : List K) (q : Nat) (v w : Vec3 K) :
    (addPixelFl fl film q v w).length = film.length := by
  simp [addPixelFl, length_addAtFl]

/-- The entries of the film buffer after one pixel update in float. -/
theorem getD_addPixelFl (fl : K → K) (film : List K) (q : Nat) (v w : Vec3 K)
    (hq : q + 2 < film.length) (j : Nat) :
    (addPixelFl fl film q v w).getD j 0 =
      if j = q then fl (film.getD q 0 + fl (v.x * w.x))
      else if j = q + 1 then fl (film.getD (q + 1) 0 + fl (v.y * w.y))
      else if j = q + 2 then fl (film.getD (q + 2) 0 + fl (v.z * w.z))
      else film.getD j 0 := by
  unfold addPixelFl
  rw [getD_addAtFl, length_addAtFl, length_addAtFl]
  by_cases h2 : j = q + 2
  · subst h2
    rw [if_pos ⟨rfl, hq⟩, getD_addAtFl, length_addAtFl, if_neg (by omega), getD_addAtFl,
      if_neg (by omega), if_neg (by omega), if_neg (by omega), if_pos rfl]
  · rw [if_neg (fun h => h2 h.1), getD_addAtFl, length_addAtFl]
    by_cases h1 : j = q + 1
    · subst h1
      rw [if_pos ⟨rfl, by omega⟩, getD_addAtFl, if_neg (by omega), if_neg (by omega),
        if_pos rfl]
    · rw [if_neg (fun h => h1 h.1), getD_addAtFl]
      by_cases h0 : j = q
      · subst h0
        rw [if_pos ⟨rfl, by omega⟩, if_pos rfl]
      · rw [if_neg (fun h => h0 h.1), if_neg h0, if_neg h1, if_neg h2]

/-- The state after `k` samples of one pixel whose three entries start at zero, in a
scene without geometry. -/
theorem samplesFl_no_geometry [FloorRing K] (fl : K → K) (L : Libm K) (sc : Scene K)
    (cam : Camera K) (rnd : Nat → K) (i j : Int) (st : RenderState K)
    (hb : sc.bvh = build []) (hs : sc.sphereRadius = [])
    (hq : st.imgIndex + 2 < st.film.length)
    (hz : ∀ idx, st.imgIndex ≤ idx → st.film.getD idx 0 = 0) (k : Nat) :
    ((List.range k).foldl (fun s _ => sampleOnceFl fl L sc cam rnd i j s) st).imgIndex
      = st.imgIndex ∧
    ((List.range k).foldl (fun s _ => sampleOnceFl fl L sc cam rnd i j s) st).film.length
      = st.film.length ∧
    ∀ idx,
      ((List.range k).foldl (fun s _ => sampleOnceFl fl L sc cam rnd i j s) st).film.getD idx 0 =
      if idx = st.imgIndex then filmSum fl sc.backgroundLight.x k
      else if idx = st.imgIndex + 1 then filmSum fl sc.backgroundLight.y k
      else if idx = st.imgIndex + 2 then filmSum fl sc.backgroundLight.z k
      else st.film.getD idx 0 := by
  induction k with
  | zero =>
    refine ⟨rfl, rfl, ?_⟩
    intro idx
    simp only [List.range_zero, List.foldl_nil, filmSum]
    split_ifs with c0 c1 c2
    · exact hz idx (by omega)
    · exact hz idx (by omega)
    · exact hz idx (by omega)
    · rfl
  | succ k ih =>
    rw [List.range_succ, List.foldl_append]
    simp only [List.foldl_cons, List.foldl_nil]
    generalize (List.range k).foldl (fun s _ => sampleOnceFl fl L sc cam rnd i j s) st = s
      at ih ⊢
    obtain ⟨h1, h2, h3⟩ := ih
    rw [sampleOnceFl_no_geometry fl L sc cam rnd i j s hb hs]
    refine ⟨h1, by simp only [length_addPixelFl, h2], ?_⟩
    intro idx
    simp only []
    rw [getD_addPixelFl fl _ _ _ _ (by rw [h1, h2]; exact hq), h1]
    by_cases c0 : idx = st.imgIndex
    · rw [if_pos c0, if_pos c0, h3 st.imgIndex, if_pos rfl]
      rfl
    · rw [if_neg c0, if_neg c0]
      by_cases c1 : idx = st.imgIndex + 1
      · rw [if_pos c1, if_pos c1, h3 (st.imgIndex + 1), if_neg (by omega), if_pos rfl]
        rfl
      · rw [if_neg c1, if_neg c1]
        by_cases c2 : idx = st.imgIndex + 2
        · rw [if_pos c2, if_pos c2, h3 (st.imgIndex + 2), if_neg (by omega), if_neg (by omega),
            if_pos rfl]
          rfl
        · rw [if_neg c2, if_neg c2, h3 idx, if_neg c0, if_neg c1, if_neg c2]

/-- One pixel of a scene without geometry: the next three entries of the film buffer
receive the float running sum of `sampleRate` additions of the background radiance. -/
theorem samplePixelFl_no_geometry [FloorRing K] (fl : K → K) (L : Libm K) (sc : Scene K)
    (cam : Camera K) (rnd : Nat → K) (i j : Int) (st : RenderState K) (p : Nat)
    (hb : sc.bvh = build []) (hs : sc.sphereRadius = [])
    (hidx : st.imgIndex = 3 * p) (hq : 3 * p + 2 < st.film.length)
    (hdone : filmDone fl cam.sampleRate.toNat sc.backgroundLight p st.film) :
    (samplePixelFl fl L sc cam rnd i j st).imgIndex = 3 * (p + 1) ∧
    (samplePixelFl fl L sc cam rnd i j st).film.length = st.film.length ∧
    filmDone fl cam.sampleRate.toNat sc.backgroundLight (p + 1)
      (samplePixelFl fl L sc cam rnd i j st).film := by
  obtain ⟨d1, d2⟩ := hdone
  obtain ⟨h1, h2, h3⟩ := samplesFl_no_geometry fl L sc cam rnd i j st hb hs
    (by rw [hidx]; exact hq) (by intro idx hi; exact d2 idx (by omega)) cam.sampleRate.toNat
  simp only [samplePixelFl]
  refine ⟨by rw [h1, hidx]; ring, h2, ?_, ?_⟩
  · intro q hq1
    rw [h3, h3, h3, hidx]
    rcases Nat.lt_succ_iff_lt_or_eq.mp hq1 with hlt | rfl
    · obtain ⟨e0, e1, e2⟩ := d1 q hlt
      split_ifs <;> first | exact ⟨e0, e1, e2⟩ | omega
    · rw [if_pos rfl, if_neg (by omega), if_pos rfl, if_neg (by omega), if_neg (by omega),
        if_pos rfl]
      exact ⟨rfl, rfl, rfl⟩
  · intro idx hidx2
    rw [h3, hidx, if_neg (by omega), if_neg (by omega), if_neg (by omega)]
    exact d2 idx (by omega)

/-- One row of a scene without geometry. -/
theorem sampleRowFl_no_geometry [FloorRing K] (fl : K → K) (L : Libm K) (sc : Scene K)
    (cam : Camera K) (rnd : Nat → K) (i : Nat) (st : RenderState K) (rows : Nat)
    (hb : sc.bvh = build []) (hs : sc.sphereRadius = []) (hi : i < rows)
    (hidx : st.imgIndex = 3 * (i * cam.width.toNat))
    (hlen : st.film.length = 3 * (rows * cam.width.toNat))
    (hdone : filmDone fl cam.sampleRate.toNat sc.backgroundLight (i * cam.width.toNat)
      st.film) :
    (sampleRowFl fl L sc cam rnd (i : Int) st).imgIndex = 3 * ((i + 1) * cam.width.toNat) ∧
    (sampleRowFl fl L sc cam rnd (i : Int) st).film.length = 3 * (rows * cam.width.toNat) ∧
    filmDone fl cam.sampleRate.toNat sc.backgroundLight ((i + 1) * cam.width.toNat)
      (sampleRowFl fl L sc cam rnd (i : Int) st).film := by
  have hmain := foldl_range_inv
    (fun s (j : Nat) => samplePixelFl fl L sc cam rnd (i : Int) (j : Int) s)
    (fun j s => s.imgIndex = 3 * (i * cam.width.toNat + j) ∧
      s.film.length = 3 * (rows * cam.width.toNat) ∧
      filmDone fl cam.sampleRate.toNat sc.backgroundLight (i * cam.width.toNat + j) s.film)
    cam.width.toNat st ⟨hidx, hlen, hdone⟩
    (by
      intro j s hj ⟨a, b, c⟩
      have hbound : 3 * (i * cam.width.toNat + j) + 2 < s.film.length := by
        rw [b]
        have h1 : i * cam.width.toNat + j < rows * cam.width.toNat := by
          calc i * cam.width.toNat + j < i * cam.width.toNat + cam.width.toNat := by omega
            _ = (i + 1) * cam.width.toNat := by ring
            _ ≤ rows * cam.width.toNat := Nat.mul_le_mul_right _ hi
        omega
      obtain ⟨x, y, z⟩ := samplePixelFl_no_geometry fl L sc cam rnd (i : Int) (j : Int) s
        (i * cam.width.toNat + j) hb hs a hbound c
      exact ⟨x, by rw [y, b], z⟩)
  have he : i * cam.width.toNat + cam.width.toNat = (i + 1) * cam.width.toNat := by ring
  beta_reduce at hmain
  rw [he] at hmain
  exact hmain

/-- The film buffer of a scene without geometry after all rows. -/
theorem sampleImageFilmFl_no_geometry [FloorRing K] (fl : K → K) (L : Libm K) (sc : Scene K)
    (cam : Camera K) (rnd : Nat → K) (hb : sc.bvh = build []) (hs : sc.sphereRadius = [])
    (hw : 0 ≤ cam.width) (hh : 0 ≤ cam.height) :
    (sampleImageFilmFl fl L sc cam rnd).length = 3 * (cam.height.toNat * cam.width.toNat) ∧
    filmDone fl cam.sampleRate.toNat sc.backgroundLight
      (cam.height.toNat * cam.width.toNat) (sampleImageFilmFl fl L sc cam rnd) := by
  have hN : (cam.width * cam.height * 3).toNat = 3 * (cam.height.toNat * cam.width.toNat) := by
    obtain ⟨w, hw1⟩ := Int.eq_ofNat_of_zero_le hw
    obtain ⟨h, hh1⟩ := Int.eq_ofNat_of_zero_le hh
    rw [hw1, hh1]
    have : ((w : Int) * (h : Int) * 3) = ((w * h * 3 : Nat) : Int) := by push_cast; ring
    rw [this, Int.toNat_natCast, Int.toNat_natCast, Int.toNat_natCast]
    ring
  have hmain := foldl_range_inv
    (fun s (i : Nat) => sampleRowFl fl L sc cam rnd (i : Int) s)
    (fun i s => s.imgIndex = 3 * (i * cam.width.toNat) ∧
      s.film.length = 3 * (cam.height.toNat * cam.width.toNat) ∧
      filmDone fl cam.sampleRate.toNat sc.backgroundLight (i * cam.width.toNat) s.film)
    cam.height.toNat ⟨List.replicate (cam.width * cam.height * 3).toNat 0, 0, 0⟩
    (by
      refine ⟨by simp, by simp [hN], ?_, ?_⟩
      · intro q hq
        omega
      · intro idx _
        simp only [List.getD_eq_getElem?_getD, List.getElem?_replicate]
        split_ifs <;> rfl)
    (by
      intro i s hi ⟨a, b, c⟩
      exact sampleRowFl_no_geometry fl L sc cam rnd i s cam.height.toNat hb hs hi a b c)
  beta_reduce at hmain
  exact ⟨hmain.2.1, hmain.2.2⟩

/-- The running sum of `n` additions of `x` is `n * x` when no addition rounds. -/
theorem filmSum_of_exact (fl : K → K) (x : K) (n : Nat) (h : sumExact fl x n) :
    filmSum fl x n = (n : K) * x := by
  induction n with
  | zero => simp [filmSum]
  | succ n ih =>
    have h1 : fl (x * 1) = x := by
      have := h 1 (by omega)
      simpa using this
    have hn := h (n + 1) (le_refl _)
    rw [filmSum, ih (fun k hk => h k (by omega)), h1]
    have e : (n : K) * x + x = ((n + 1 : Nat) : K) * x := by push_cast; ring
    rw [e]
    exact hn

/-- The tone-mapped running sum is the tone-mapped radiance when neither the sum nor
the conversion of the sample count rounds. -/
theorem toneMapFl_of_exact [FloorRing K] (fl : K → K) (L : Libm K) (s : Int) (hs : 1 ≤ s)
    (x : K) (hn : fl (s : K) = (s : K)) (h : sumExact fl x s.toNat) :
    toneMapFl fl L s ((s : K) * x) = toneByte L x := by
  have hs0 : (s : K) ≠ 0 := by
    have : (0 : K) < (s : K) := by exact_mod_cast (lt_of_lt_of_le zero_lt_one hs)
    exact ne_of_gt this
  have h1 : (s : K) * x / (s : K) = x := by field_simp
  have hx : fl x = x := by
    have := h 1 (by omega)
    simpa using this
  simp only [toneMapFl, toneValueFl, hn, h1, hx]

/-- The film and the image of a scene without geometry at the pixel `(i, j)`. -/
theorem sampleImageFl_no_geometry [FloorRing K] (fl : K → K) (L : Libm K) (sc : Scene K)
    (cam : Camera K) (rnd : Nat → K) (hv : sc.faceVertices = [])
    (hb : sc.bvh = build sc.faceVertices) (hs : sc.sphereRadius = []) (i j : Nat)
    (hi : (i : Int) < cam.height) (hj : (j : Int) < cam.width) :
    ((sampleImageFilmFl fl L sc cam rnd).getD (3 * (i * cam.width.toNat + j)) 0
        = filmSum fl sc.backgroundLight.x cam.sampleRate.toNat ∧
      (sampleImageFilmFl fl L sc cam rnd).getD (3 * (i * cam.width.toNat + j) + 1) 0
        = filmSum fl sc.backgroundLight.y cam.sampleRate.toNat ∧
      (sampleImageFilmFl fl L sc cam rnd).getD (3 * (i * cam.width.toNat + j) + 2) 0
        = filmSum fl sc.backgroundLight.z cam.sampleRate.toNat) ∧
    ((sampleImageFl fl L sc cam rnd).getD (3 * (i * cam.width.toNat + j)) 0
        = toneMapFl fl L cam.sampleRate (filmSum fl sc.backgroundLight.x cam.sampleRate.toNat) ∧
      (sampleImageFl fl L sc cam rnd).getD (3 * (i * cam.width.toNat + j) + 1) 0
        = toneMapFl fl L cam.sampleRate (filmSum fl sc.backgroundLight.y cam.sampleRate.toNat) ∧
      (sampleImageFl fl L sc cam rnd).getD (3 * (i * cam.width.toNat + j) + 2) 0
        = toneMapFl fl L cam.sampleRate
            (filmSum fl sc.backgroundLight.z cam.sampleRate.toNat)) := by
  rw [hv] at hb
  have hw : 0 ≤ cam.width := by omega
  have hh : 0 ≤ cam.height := by omega
  obtain ⟨hlen, hdone, _⟩ := sampleImageFilmFl_no_geometry fl L sc cam rnd hb hs hw hh
  have hi1 : i < cam.height.toNat := by omega
  have hj1 : j < cam.width.toNat := by omega
  have hp : i * cam.width.toNat + j < cam.height.toNat * cam.width.toNat := by
    calc i * cam.width.toNat + j < i * cam.width.toNat + cam.width.toNat := by omega
      _ = (i + 1) * cam.width.toNat := by ring
      _ ≤ cam.height.toNat * cam.width.toNat := Nat.mul_le_mul_right _ hi1
  obtain ⟨e0, e1, e2⟩ := hdone _ hp
  have hmap : ∀ idx, idx < (sampleImageFilmFl fl L sc cam rnd).length →
      (sampleImageFl fl L sc cam rnd).getD idx 0
        = toneMapFl fl L cam.sampleRate ((sampleImageFilmFl fl L sc cam rnd).getD idx 0) := by
    intro idx hidx
    unfold sampleImageFl
    rw [List.getD_eq_getElem _ _ (by simpa using hidx), List.getD_eq_getElem _ _ hidx]
    simp
  refine ⟨⟨e0, e1, e2⟩, ?_, ?_, ?_⟩
  · rw [hmap _ (by omega), e0]
  · rw [hmap _ (by omega), e1]
  · rw [hmap _ (by omega), e2]

/-- C13 (amended). For a scene with no triangles and no spheres (its BVH built) and a
camera with `sampleRate >= 1`, whatever the random draws, in float: for every pixel
`(i, j)` of the image each of the three film accumulators is the float running sum of
`sampleRate` additions of the background radiance channel (the weight stays
`(1, 1, 1)`), and the three values written to the output are the tone-mapped values of
these sums.  When `sampleRate` and the multiples `k * b` of each background channel `b`
for `k <= sampleRate` are floats, so that no addition rounds, the three accumulators
equal `sampleRate` times the background radiance and the three values written are the
tone-mapped background. -/
theorem empty_scene_film [FloorRing K] (fl : K → K) (L : Libm K) (sc : Scene K)
    (cam : Camera K) (rnd : Nat → K) (hv : sc.faceVertices = [])
    (hb : sc.bvh = build sc.faceVertices) (hs : sc.sphereRadius = [])
    (hS : 1 ≤ cam.sampleRate) (i j : Nat)
    (hi : (i : Int) < cam.height) (hj : (j : Int) < cam.width) :
    ((sampleImageFilmFl fl L sc cam rnd).getD (3 * (i * cam.width.toNat + j)) 0
        = filmSum fl sc.backgroundLight.x cam.sampleRate.toNat ∧
      (sampleImageFilmFl fl L sc cam rnd).getD (3 * (i * cam.width.toNat + j) + 1) 0
        = filmSum fl sc.backgroundLight.y cam.sampleRate.toNat ∧
      (sampleImageFilmFl fl L sc cam rnd).getD (3 * (i * cam.width.toNat + j) + 2) 0
        = filmSum fl sc.backgroundLight.z cam.sampleRate.toNat) ∧
    ((sampleImageFl fl L sc cam rnd).getD (3 * (i * cam.width.toNat + j)) 0
        = toneMapFl fl L cam.sampleRate (filmSum fl sc.backgroundLight.x cam.sampleRate.toNat) ∧
      (sampleImageFl fl L sc cam rnd).getD (3 * (i * cam.width.toNat + j) + 1) 0
        = toneMapFl fl L cam.sampleRate (filmSum fl sc.backgroundLight.y cam.sampleRate.toNat) ∧
      (sampleImageFl fl L sc cam rnd).getD (3 * (i * cam.width.toNat + j) + 2) 0
        = toneMapFl fl L cam.sampleRate
            (filmSum fl sc.backgroundLight.z cam.sampleRate.toNat)) ∧
    (fl (cam.sampleRate : K) = (cam.sampleRate : K) →
      sumExact fl sc.backgroundLight.x cam.sampleRate.toNat →
      sumExact fl sc.backgroundLight.y cam.sampleRate.toNat →
      sumExact fl sc.backgroundLight.z cam.sampleRate.toNat →
      (sampleImageFilmFl fl L sc cam rnd).getD (3 * (i * cam.width.toNat + j)) 0
        = (cam.sampleRate : K) * sc.backgroundLight.x ∧
      (sampleImageFilmFl fl L sc cam rnd).getD (3 * (i * cam.width.toNat + j) + 1) 0
        = (cam.sampleRate : K) * sc.backgroundLight.y ∧
      (sampleImageFilmFl fl L sc cam rnd).getD (3 * (i * cam.width.toNat + j) + 2) 0
        = (cam.sampleRate : K) * sc.backgroundLight.z ∧
      (sampleImageFl fl L sc cam rnd).getD (3 * (i * cam.width.toNat + j)) 0
        = toneByte L sc.backgroundLight.x ∧
      (sampleImageFl fl L sc cam rnd).getD (3 * (i * cam.width.toNat + j) + 1) 0
        = toneByte L sc.backgroundLight.y ∧
      (sampleImageFl fl L sc cam rnd).getD (3 * (i * cam.width.toNat + j) + 2) 0
        = toneByte L sc.backgroundLight.z) := by
  obtain ⟨⟨e0, e1, e2⟩, o0, o1, o2⟩ :=
    sampleImageFl_no_geometry fl L sc cam rnd hv hb hs i j hi hj
  refine ⟨⟨e0, e1, e2⟩, ⟨o0, o1, o2⟩, ?_⟩
  intro hn hx hy hz
  have hcast : ((cam.sampleRate.toNat : Nat) : K) = (cam.sampleRate : K) := by
    have h0 : ((cam.sampleRate.toNat : Nat) : Int) = cam.sampleRate :=
      Int.toNat_of_nonneg (by omega)
    rw [← Int.cast_natCast, h0]
  have sx := filmSum_of_exact fl _ _ hx
  have sy := filmSum_of_exact fl _ _ hy
  have sz := filmSum_of_exact fl _ _ hz
  rw [hcast] at sx sy sz
  refine ⟨by rw [e0, sx], by rw [e1, sy], by rw [e2, sz], ?_, ?_, ?_⟩
  · rw [o0, sx, toneMapFl_of_exact fl L _ hS _ hn hx]
  · rw [o1, sy, toneMapFl_of_exact fl L _ hS _ hn hy]
  · rw [o2, sz, toneMapFl_of_exact fl L _ hS _ hn hz]

/-- C13 (witness): the empty scene with background `(1/2, 1/4, 1/8)`, a camera of
2 x 1 pixels with 3 samples, and the pixel `(0, 1)`, in binary32: no addition rounds,
the accumulators are `3/2`, `3/4`, `3/8` and the values written are the tone-mapped
background. -/
theorem empty_scene_film_witness :
    (fl32 ((tinyCamera.sampleRate : Int) : ℚ) = ((tinyCamera.sampleRate : Int) : ℚ) ∧
      sumExact fl32 halfVoid.backgroundLight.x tinyCamera.sampleRate.toNat ∧
      sumExact fl32 halfVoid.backgroundLight.y tinyCamera.sampleRate.toNat ∧
      sumExact fl32 halfVoid.backgroundLight.z tinyCamera.sampleRate.toNat) ∧
    (sampleImageFilmFl fl32 ratLibm halfVoid tinyCamera (fun _ => 0)).getD
        (3 * (0 * tinyCamera.width.toNat + 1)) 0
      = (tinyCamera.sampleRate : ℚ) * halfVoid.backgroundLight.x ∧
    (sampleImageFilmFl fl32 ratLibm halfVoid tinyCamera (fun _ => 0)).getD
        (3 * (0 * tinyCamera.width.toNat + 1) + 1) 0
      = (tinyCamera.sampleRate : ℚ) * halfVoid.backgroundLight.y ∧
    (sampleImageFilmFl fl32 ratLibm halfVoid tinyCamera (fun _ => 0)).getD
        (3 * (0 * tinyCamera.width.toNat + 1) + 2) 0
      = (tinyCamera.sampleRate : ℚ) * halfVoid.backgroundLight.z ∧
    (sampleImageFl fl32 ratLibm halfVoid tinyCamera (fun _ => 0)).getD
        (3 * (0 * tinyCamera.width.toNat + 1)) 0
      = toneByte ratLibm halfVoid.backgroundLight.x ∧
    (sampleImageFl fl32 ratLibm halfVoid tinyCamera (fun _ => 0)).getD
        (3 * (0 * tinyCamera.width.toNat + 1) + 1) 0
      = toneByte ratLibm halfVoid.backgroundLight.y ∧
    (sampleImageFl fl32 ratLibm halfVoid tinyCamera (fun _ => 0)).getD
        (3 * (0 * tinyCamera.width.toNat + 1) + 2) 0
      = toneByte ratLibm halfVoid.backgroundLight.z :=
  ⟨⟨by decide!, by unfold sumExact; decide!, by unfold sumExact; decide!,
      by unfold sumExact; decide!⟩,
    (empty_scene_film fl32 ratLibm halfVoid tinyCamera (fun _ => 0) rfl
      (by simp [halfVoid, voidScene, Scene.empty, build_nil]) rfl (by decide) 0 1 (by decide)
      (by decide)).2.2 (by decide!) (by unfold sumExact; decide!) (by unfold sumExact; decide!)
      (by unfold sumExact; decide!)⟩

theorem filmSum_ratCast (q : ℚ) (n : Nat) :
    filmSum fl32 ((q : ℚ) : ℝ) n = ((filmSum fl32 q n : ℚ) : ℝ) := by
  induction n with
  | zero => simp [filmSum]
  | succ n ih =>
    have h1 : ((q : ℚ) : ℝ) * 1 = (((q * 1 : ℚ)) : ℝ) := by push_cast; rfl
    rw [filmSum, filmSum, ih, h1, fl32_ratCast, ← Rat.cast_add, fl32_ratCast]

/-- C13 (counterexample), in binary32, with a camera of 2 x 1 pixels and 3 samples.
The empty scene with the background `0.4f = 13421773 / 2^25` in its three channels:
the third addition rounds, and the accumulator of the first channel of pixel `(0, 1)`
is `5033165 / 2^22`, not `3 * 0.4f = 40265319 / 2^25`.  And the empty scene with the
background `6412353 / 2^38` (about `2.3328e-5`, just below `(2/255)^2.2`), with the real
power function: the accumulator is `4809265 / 2^36`, the float quotient by `3` is
`12824707 / 2^39`, one unit in the last place above the background, and the byte
written is `2`, where the tone-mapped background is `1`. -/
theorem empty_scene_film_counterexample :
    ((sampleImageFilmFl fl32 ratLibm paleVoid tinyCamera (fun _ => 0)).getD
          (3 * (0 * tinyCamera.width.toNat + 1)) 0 = 5033165 / 2 ^ 22 ∧
      (tinyCamera.sampleRate : ℚ) * paleVoid.backgroundLight.x = 40265319 / 2 ^ 25) ∧
    ((sampleImageFl fl32 (⟨Real.sqrt, Real.sin, Real.cos, Real.tan, fun _ _ => 0, Real.arccos,
          fun x y => x ^ y, Real.pi⟩ : Libm ℝ)
        (voidScene ⟨((6412353 / 2 ^ 38 : ℚ) : ℝ), ((6412353 / 2 ^ 38 : ℚ) : ℝ),
          ((6412353 / 2 ^ 38 : ℚ) : ℝ)⟩)
        (⟨2, 1, 3, 50, 10, 1, 9999, ⟨1, 0, 0, 0⟩, ⟨10, 0, 0⟩⟩ : Camera ℝ)
        (fun _ => 0)).getD (3 * (0 * 2 + 1)) 0 = 2 ∧
      toneByte (⟨Real.sqrt, Real.sin, Real.cos, Real.tan, fun _ _ => 0, Real.arccos,
          fun x y => x ^ y, Real.pi⟩ : Libm ℝ) ((6412353 / 2 ^ 38 : ℚ) : ℝ) = 1) := by
  refine ⟨⟨by decide!, by decide!⟩, ?_, ?_⟩
  · have h := (sampleImageFl_no_geometry fl32
      (⟨Real.sqrt, Real.sin, Real.cos, Real.tan, fun _ _ => 0, Real.arccos,
          fun x y => x ^ y, Real.pi⟩ : Libm ℝ)
      (voidScene ⟨((6412353 / 2 ^ 38 : ℚ) : ℝ), ((6412353 / 2 ^ 38 : ℚ) : ℝ),
          ((6412353 / 2 ^ 38 : ℚ) : ℝ)⟩)
      (⟨2, 1, 3, 50, 10, 1, 9999, ⟨1, 0, 0, 0⟩, ⟨10, 0, 0⟩⟩ : Camera ℝ)
      (fun _ => 0) rfl (by simp [voidScene, Scene.empty, build_nil]) rfl 0 1 (by decide)
      (by decide)).2.1
    have hsum : filmSum fl32 ((6412353 : ℚ) / 2 ^ 38) 3 = 4809265 / 2 ^ 36 := by decide!
    have hval : toneValueFl fl32 3 ((4809265 : ℚ) / 2 ^ 36) = 12824707 / 2 ^ 39 := by decide!
    have hb := toneByte_eq (⟨Real.sqrt, Real.sin, Real.cos, Real.tan, fun _ _ => 0,
      Real.arccos, fun x y => x ^ y, Real.pi⟩ : Libm ℝ) (((12824707 / 2 ^ 39 : ℚ)) : ℝ) 2
      (by positivity) (by norm_num) rfl (by norm_num) (by norm_num)
    refine Eq.trans h ?_
    show toneMapFl fl32 _ 3 (filmSum fl32 ((6412353 / 2 ^ 38 : ℚ) : ℝ) 3) = 2
    rw [filmSum_ratCast, hsum]
    unfold toneMapFl
    rw [toneValueFl_ratCast, hval]
    exact_mod_cast hb.1
  · have hb := toneByte_eq (⟨Real.sqrt, Real.sin, Real.cos, Real.tan, fun _ _ => 0,
      Real.arccos, fun x y => x ^ y, Real.pi⟩ : Libm ℝ) (((6412353 / 2 ^ 38 : ℚ)) : ℝ) 1
      (by positivity) (by norm_num) rfl (by norm_num) (by norm_num)
    exact_mod_cast hb.1

end Field

end Surface
